import Mathlib

/-! RepRapFirmware: the SBC link (`src/Linux/DataTransfer.cpp`) and the HTTP front end
(`src/Networking/HttpResponder.cpp`).

A shallow embedding of the two protocol cores and the properties proved about them.

Conventions of the embedding

* `size_t` / `uint32_t` arithmetic is arithmetic on `Nat` reduced modulo `2 ^ 32` where the source
  can wrap; `uint16_t` fields are reduced modulo `2 ^ 16`.
* Buffers are lists of bytes (`Nat`), pointers into a buffer are offsets.
* Constants, enumerations and structure layouts that the two source files take from headers
  (`DataTransfer.h`, `Linux/MessageFormats.h`, `HttpResponder.h`, `OutputMemory.h`, ...) are either
  parameters (`DataTransfer.Params`, `HttpResponder.Limits`) or definitions marked
  "Modelled from the spec".
-/

/-! ## Part 1. Definitions: SBC link -/

namespace DataTransfer

/-- The request codes of `enum class FirmwareRequest` used by the writers. -/
inductive FirmwareRequest
  | ReportState
  | ObjectModel
  | CodeReply
  | ExecuteMacro
  | AbortFile
  | StackEvent
  | PrintPaused
  | HeightMap
  | Locked
  deriving DecidableEq, Repr

/-- The constants that `DataTransfer.cpp` takes from `DataTransfer.h`, `Linux/MessageFormats.h`
and the board configuration.  They are parameters of the model. -/
structure Params where
  LinuxFormatCode : Nat
  InvalidFormatCode : Nat
  LinuxProtocolVersion : Nat
  LinuxTransferBufferSize : Nat
  SpiTransferTimeout : Nat
  SpiConnectionTimeout : Nat
  /-- `TransferResponse::Success` -/
  Success : Int
  /-- `TransferResponse::BadFormat` -/
  BadFormat : Int
  /-- `TransferResponse::BadProtocolVersion` -/
  BadProtocolVersion : Int
  /-- `TransferResponse::BadDataLength` -/
  BadDataLength : Int
  /-- Bit `PushFlag` of `MessageType` -/
  PushFlag : Nat
  /-- Numeric value of a `FirmwareRequest` -/
  requestCode : FirmwareRequest → Nat

/-- The states of `enum class SpiState`. -/
inductive SpiState
  | Initializing
  | ExchangingHeader
  | ExchangingHeaderResponse
  | ExchangingData
  | ExchangingDataResponse
  | ProcessingData
  deriving DecidableEq, Repr

/-- Fields of `struct TransferHeader` that the source reads or writes. -/
structure TransferHeader where
  formatCode : Nat
  numPackets : Nat
  protocolVersion : Nat
  sequenceNumber : Nat
  dataLength : Nat
  checksumData : Nat
  checksumHeader : Nat
  deriving DecidableEq, Repr

/-- What `setup_spi` armed: the object exchanged and the two DMA byte counts. -/
inductive SpiTransfer
  | header
  | response
  | data (bytesToRead bytesToWrite : Nat)
  deriving DecidableEq, Repr

/-- Decoded `struct PacketHeader`. -/
structure PacketHeader where
  request : Nat
  id : Nat
  length : Nat
  resendPacketId : Nat
  deriving DecidableEq, Repr

/-- Modelled from the spec: one buffer of an `OutputBuffer` chain (`OutputMemory.h` is not part of
the sources at hand; the spec calls it "an abstract pooled byte-buffer list").  `data` are the
bytes stored in the buffer and `bytesRead` how many of them were already taken. -/
structure OutputBuffer where
  data : List Nat
  bytesRead : Nat
  deriving DecidableEq, Repr

/-- Members of `class DataTransfer`, the flag `dataReceived` set by the SPI interrupt, and the
abstract state of the SPI hardware (`spi`, `transferReady`). -/
structure State where
  state : SpiState
  lastTransferTime : Nat
  sequenceNumber : Nat
  lastSequenceNumber : Nat
  rxResponse : Int
  txResponse : Int
  rxPointer : Nat
  txPointer : Nat
  packetId : Nat
  rxHeader : TransferHeader
  txHeader : TransferHeader
  rxBuffer : List Nat
  txBuffer : List Nat
  dataReceived : Bool
  spi : Option SpiTransfer
  transferReady : Bool

/-- Wrap-around of `size_t` and `uint32_t` on the 32-bit target. -/
def wrap32 (n : Nat) : Nat := n % 4294967296

/-- Wrap-around of `uint16_t`. -/
def wrap16 (n : Nat) : Nat := n % 65536

/-- Little-endian image of a `uint16_t`. -/
def le16 (v : Nat) : List Nat := [v % 256, v / 256 % 256]

/-- Little-endian image of a `uint32_t`. -/
def le32 (v : Nat) : List Nat := [v % 256, v / 256 % 256, v / 65536 % 256, v / 16777216 % 256]

/-- Value of a little-endian byte string. -/
def leValue : List Nat → Nat
  | [] => 0
  | b :: bs => b + 256 * leValue bs

/-- The `n` bytes of `buf` starting at offset `p`. -/
def memRead (buf : List Nat) (p n : Nat) : List Nat := (buf.drop p).take n

/-- The effect of `memcpy(buf + p, bs, bs.length)` (and of field stores).  A store beyond the end
of the array shows as a list longer than the array. -/
def memWrite (buf : List Nat) (p : Nat) (bs : List Nat) : List Nat :=
  (buf ++ List.replicate (p - buf.length) 0).take p ++ bs ++ buf.drop (p + bs.length)

/-- Modelled from the spec: `sizeof(PacketHeader)`; the structure is declared in
`Linux/MessageFormats.h` with the four unsigned 16-bit fields `request`, `id`, `length`,
`resendPacketId` (spec section 3.1; the source stores `uint16_t` values in them). -/
def sizeofPacketHeader : Nat := 8

/-- Modelled from the spec: `sizeof(LockUnlockHeader)`, fields `channel` (byte), `paddingA` (byte),
`paddingB` (16 bit). -/
def sizeofLockUnlockHeader : Nat := 4

/-- Modelled from the spec: `sizeof(CodeReplyHeader)`, fields `messageType` (32 bit), `length`
(16 bit), `padding` (16 bit). -/
def sizeofCodeReplyHeader : Nat := 8

/-- Modelled from the spec: `sizeof(ObjectModelHeader)`, fields `length` (16 bit), `module` (byte),
`padding` (byte). -/
def sizeofObjectModelHeader : Nat := 4

/-- Byte image of a `PacketHeader`. -/
def encodePacketHeader (h : PacketHeader) : List Nat :=
  le16 h.request ++ le16 h.id ++ le16 h.length ++ le16 h.resendPacketId

/-- The `PacketHeader` seen through `reinterpret_cast<const PacketHeader*>(buf + p)`. -/
def decodePacketHeader (buf : List Nat) (p : Nat) : PacketHeader :=
  { request := leValue (memRead buf p 2),
    id := leValue (memRead buf (p + 2) 2),
    length := leValue (memRead buf (p + 4) 2),
    resendPacketId := leValue (memRead buf (p + 6) 2) }

/-- Modelled from the spec: `AddPadding`, declared in `DataTransfer.h`; "the padding function is
`(n + 3) & ~3`", computed in `size_t`. -/
def AddPadding (n : Nat) : Nat := wrap32 (n + 3) &&& 4294967292

/-- Modelled from the spec: `CanWritePacket`, declared in `DataTransfer.h`; "true iff
`AddPadding(txPointer) + sizeof(PacketHeader) + dataLength ≤ TransferBufferSize`". -/
def CanWritePacket (P : Params) (s : State) (dataLength : Nat) : Bool :=
  decide (AddPadding s.txPointer + sizeofPacketHeader + dataLength ≤ P.LinuxTransferBufferSize)

/-- Modelled from the spec: `IsConnected`, declared in `DataTransfer.h`; `IsReady` clears
`rxHeader.sequenceNumber` "to signal peer gone", so connected means that it is non-zero. -/
def IsConnected (s : State) : Bool := decide (s.rxHeader.sequenceNumber ≠ 0)

/-- State after `DataTransfer::DataTransfer()`; the members the constructor leaves unset are taken
from `u`. -/
def construct (P : Params) (u : State) : State :=
  { u with
    state := .Initializing, lastTransferTime := 0, sequenceNumber := 1, lastSequenceNumber := 1,
    rxResponse := P.Success, txResponse := P.Success, rxPointer := 0, txPointer := 0,
    packetId := 1,
    rxHeader := { u.rxHeader with sequenceNumber := 0 },
    txHeader := { u.txHeader with
      formatCode := P.LinuxFormatCode, protocolVersion := P.LinuxProtocolVersion,
      numPackets := 0 } }

/-- Hardware side of `setup_spi`: arm the DMA transfer and raise the transfer-ready pin. -/
def setup_spi (s : State) (t : SpiTransfer) : State :=
  { s with spi := some t, transferReady := true }

/-- Hardware side of `disable_spi`. -/
def disable_spi (s : State) : State :=
  { s with spi := none, transferReady := false }

/-- `DataTransfer::ReadPacket`. -/
def ReadPacket (s : State) : Option PacketHeader × State :=
  if s.rxPointer ≥ s.rxHeader.dataLength then (none, s)
  else
    (some (decodePacketHeader s.rxBuffer s.rxPointer),
      { s with rxPointer := wrap32 (s.rxPointer + sizeofPacketHeader) })

/-- `DataTransfer::ReadData`: the returned pointer is the offset of the data. -/
def ReadData (s : State) (dataLength : Nat) : Nat × State :=
  (s.rxPointer, { s with rxPointer := wrap32 (s.rxPointer + AddPadding dataLength) })

/-- `DataTransfer::ReadDataHeader<T>` for a `T` of `size` bytes: the offset of the header. -/
def ReadDataHeader (s : State) (size : Nat) : Nat × State :=
  (s.rxPointer, { s with rxPointer := wrap32 (s.rxPointer + size) })

/-- `DataTransfer::ReadLockUnlockRequest`: the channel stored in the header. -/
def ReadLockUnlockRequest (s : State) : Nat × State :=
  let r := ReadDataHeader s sizeofLockUnlockHeader
  (leValue (memRead r.2.rxBuffer r.1 1), r.2)

/-- `DataTransfer::ExchangeHeader`. -/
def ExchangeHeader (P : Params) (s : State) : State :=
  let s1 := { s with
    rxHeader := { s.rxHeader with
      formatCode := P.InvalidFormatCode, numPackets := 0, protocolVersion := 0,
      dataLength := 0, checksumData := 0, checksumHeader := 0 } }
  let s2 := { s1 with
    txHeader := { s1.txHeader with
      sequenceNumber := s1.sequenceNumber, dataLength := s1.txPointer,
      checksumData := 0, checksumHeader := 0 },
    sequenceNumber := wrap32 (s1.sequenceNumber + 1) }
  { setup_spi s2 .header with state := .ExchangingHeader }

/-- `DataTransfer::ExchangeResponse`. -/
def ExchangeResponse (s : State) (response : Int) : State :=
  let s1 := setup_spi { s with txResponse := response } .response
  { s1 with
    state := if s1.state = .ExchangingHeader then .ExchangingHeaderResponse
             else .ExchangingDataResponse }

/-- `DataTransfer::ExchangeData`. -/
def ExchangeData (s : State) : State :=
  { setup_spi s (.data s.rxHeader.dataLength s.txHeader.dataLength) with
    state := .ExchangingData }

/-- `DataTransfer::IsReady`; `now` is the value of `millis()` during the call. -/
def IsReady (P : Params) (now : Nat) (s : State) : Bool × State :=
  if s.dataReceived then
    let s := { s with dataReceived := false, lastTransferTime := now }
    match s.state with
    | .ExchangingHeader =>
      if s.rxHeader.formatCode ≠ P.LinuxFormatCode then
        (false, ExchangeResponse s P.BadFormat)
      else if s.rxHeader.protocolVersion ≠ P.LinuxProtocolVersion then
        (false, ExchangeResponse s P.BadProtocolVersion)
      else if s.rxHeader.dataLength > P.LinuxTransferBufferSize then
        (false, ExchangeResponse s P.BadDataLength)
      else
        (false, ExchangeResponse s P.Success)
    | .ExchangingHeaderResponse =>
      if s.rxResponse = P.Success ∧ s.txResponse = P.Success ∧
          s.rxHeader.dataLength ≠ 0 ∧ s.txHeader.dataLength ≠ 0 then
        (false, ExchangeData s)
      else
        (false, ExchangeHeader P s)
    | .ExchangingData =>
      (false, ExchangeResponse s P.Success)
    | .ExchangingDataResponse =>
      if s.rxResponse = P.Success then
        (true, { s with
          rxPointer := 0, txPointer := 0,
          txHeader := { s.txHeader with numPackets := 0 },
          packetId := 1, state := .ProcessingData })
      else
        (false, { ExchangeData s with state := .ExchangingData })
    | _ =>
      (false, { s with state := .ExchangingHeader })
  else if s.state = .Initializing ∧ now > P.SpiTransferTimeout then
    (false, ExchangeHeader P s)
  else if s.state ≠ .ExchangingHeader ∧
      wrap32 (now + 4294967296 - s.lastTransferTime) > P.SpiTransferTimeout then
    (false, ExchangeHeader P (disable_spi s))
  else if IsConnected s ∧
      wrap32 (now + 4294967296 - s.lastTransferTime) > P.SpiConnectionTimeout then
    (false, { s with rxHeader := { s.rxHeader with sequenceNumber := 0 } })
  else
    (false, s)

/-- `DataTransfer::StartNextTransfer`. -/
def StartNextTransfer (P : Params) (s : State) : State :=
  let s1 := ExchangeHeader P s
  { s1 with lastSequenceNumber := s1.rxHeader.sequenceNumber }

/-- `DataTransfer::WritePacketHeader`: the returned pointer is the offset of the header in
`txBuffer`. -/
def WritePacketHeader (P : Params) (s : State) (request : FirmwareRequest) (dataLength : Nat)
    (resendPacketId : Nat) : Nat × State :=
  let p := AddPadding s.txPointer
  let h : PacketHeader :=
    { request := wrap16 (P.requestCode request), id := wrap16 s.packetId,
      length := wrap16 dataLength, resendPacketId := wrap16 resendPacketId }
  (p, { s with
    txBuffer := memWrite s.txBuffer p (encodePacketHeader h),
    packetId := wrap16 (s.packetId + 1),
    txPointer := wrap32 (p + sizeofPacketHeader) })

/-- `DataTransfer::WriteData`. -/
def WriteData (s : State) (data : List Nat) : State :=
  { s with
    txBuffer := memWrite s.txBuffer s.txPointer data,
    txPointer := wrap32 (s.txPointer + data.length) }

/-- `DataTransfer::WriteDataHeader<T>` for a `T` of `size` bytes: reserves the header and returns
its offset; the caller stores the fields. -/
def WriteDataHeader (s : State) (size : Nat) : Nat × State :=
  (s.txPointer, { s with txPointer := wrap32 (s.txPointer + size) })

/-- A store into a field of a header that lies at offset `p` of `txBuffer`. -/
def storeField (s : State) (p : Nat) (bytes : List Nat) : State :=
  { s with txBuffer := memWrite s.txBuffer p bytes }

/-- Modelled from the spec: `OutputBuffer::BytesLeft`. -/
def OutputBuffer.BytesLeft (b : OutputBuffer) : Nat := b.data.length - b.bytesRead

/-- Modelled from the spec: `OutputBuffer::UnreadData`, the bytes not yet taken. -/
def OutputBuffer.UnreadData (b : OutputBuffer) : List Nat := b.data.drop b.bytesRead

/-- Modelled from the spec: `OutputBuffer::Taken`. -/
def OutputBuffer.Taken (b : OutputBuffer) (n : Nat) : OutputBuffer :=
  { b with bytesRead := b.bytesRead + n }

/-- Modelled from the spec: `OutputBuffer::Length` of a chain (`[]` is the null pointer): the
sum of the data lengths of its buffers. -/
def chainLength (chain : List OutputBuffer) : Nat := (chain.map fun b => b.data.length).sum

/-- The reply text still held by a chain: the unread bytes of its buffers in order. -/
def chainUnread (chain : List OutputBuffer) : List Nat :=
  (chain.map OutputBuffer.UnreadData).flatten

/-- `DataTransfer::WriteLocked`. -/
def WriteLocked (P : Params) (s : State) (channel : Nat) : Bool × State :=
  if ¬ CanWritePacket P s sizeofLockUnlockHeader then (false, s)
  else
    let s1 := (WritePacketHeader P s .Locked sizeofLockUnlockHeader 0).2
    let r := WriteDataHeader s1 sizeofLockUnlockHeader
    let s2 := storeField r.2 r.1 [channel % 256]
    let s3 := storeField s2 (r.1 + 1) [0]
    let s4 := storeField s3 (r.1 + 2) (le16 0)
    (true, s4)

/-- The loop `while (data != nullptr)` of `WriteObjectModel`. -/
def writeChain (s : State) : List OutputBuffer → State
  | [] => s
  | b :: rest => writeChain (WriteData s (b.UnreadData.take b.BytesLeft)) rest

/-- `DataTransfer::WriteObjectModel` (the chain is not null). -/
def WriteObjectModel (P : Params) (s : State) (module : Nat) (data : List OutputBuffer) :
    Bool × State :=
  if ¬ CanWritePacket P s (chainLength data) then (false, s)
  else
    let s1 := (WritePacketHeader P s .ObjectModel
      (wrap32 (sizeofObjectModelHeader + chainLength data)) 0).2
    let r := WriteDataHeader s1 sizeofObjectModelHeader
    let s2 := storeField r.2 r.1 (le16 (wrap16 (chainLength data)))
    let s3 := storeField s2 (r.1 + 2) [module % 256]
    let s4 := storeField s3 (r.1 + 3) [0]
    (true, writeChain s4 data)

/-- Result of the copy loop of `WriteCodeReply`: the state, what is left of `response`, and
`bytesWritten`. -/
structure CopyResult where
  st : State
  response : List OutputBuffer
  bytesWritten : Nat

/-- The `do ... while (txPointer < LinuxTransferBufferSize && response != nullptr)` loop of
`WriteCodeReply`, entered with a non-null `response`; `fuel` bounds the number of iterations and
`none` means that it ran out. -/
def copyLoop (P : Params) : Nat → State → List OutputBuffer → Nat → Option CopyResult
  | 0, _, _, _ => none
  | _, s, [], bytesWritten => some ⟨s, [], bytesWritten⟩
  | fuel + 1, s, b :: rest, bytesWritten =>
    let bytesToCopy :=
      min (wrap32 (P.LinuxTransferBufferSize + 4294967296 - s.txPointer)) b.BytesLeft
    let s1 := WriteData s (b.UnreadData.take bytesToCopy)
    let bytesWritten1 := wrap32 (bytesWritten + bytesToCopy)
    let b1 := b.Taken bytesToCopy
    let response1 := if b1.BytesLeft = 0 then rest else b1 :: rest
    if s1.txPointer < P.LinuxTransferBufferSize ∧ response1 ≠ [] then
      copyLoop P fuel s1 response1 bytesWritten1
    else
      some ⟨s1, response1, bytesWritten1⟩

/-- `DataTransfer::WriteCodeReply` for a non-null `response`; the second component is `response`
after the call.  `none` only if the copy loop ran out of `fuel`. -/
def WriteCodeReply (P : Params) (fuel : Nat) (s : State) (type : Nat)
    (response : List OutputBuffer) : Option (Bool × State × List OutputBuffer) :=
  if ¬ CanWritePacket P s (sizeofCodeReplyHeader + min 24 (chainLength response)) then
    some (false, s, response)
  else
    let h := WritePacketHeader P s .CodeReply 0 0
    let r := WriteDataHeader h.2 sizeofCodeReplyHeader
    let s1 := storeField r.2 r.1 (le32 (wrap32 type))
    let s2 := storeField s1 (r.1 + 6) (le16 0)
    match copyLoop P fuel s2 response 0 with
    | none => none
    | some c =>
      let s3 :=
        if c.response ≠ [] then
          storeField c.st r.1 (le32 (wrap32 (leValue (memRead c.st.txBuffer r.1 4) ||| P.PushFlag)))
        else c.st
      let s4 := storeField s3 (r.1 + 4) (le16 (wrap16 c.bytesWritten))
      let s5 := storeField s4 (h.1 + 4) (le16 (wrap16 (sizeofCodeReplyHeader + c.bytesWritten)))
      some (true, s5, c.response)

end DataTransfer

namespace DataTransfer

/-- One payload call that follows `WritePacketHeader`: `WriteDataHeader<T>()` for a `T` of the
given size, or `WriteData(data, data.length)`. -/
inductive PayloadCall
  | dataHeader (size : Nat)
  | data (bytes : List Nat)

/-- Number of bytes a payload call writes. -/
def PayloadCall.size : PayloadCall → Nat
  | .dataHeader size => size
  | .data bytes => bytes.length

/-- State after one payload call. -/
def PayloadCall.run (s : State) : PayloadCall → State
  | .dataHeader size => (WriteDataHeader s size).2
  | .data bytes => WriteData s bytes

/-- State after a sequence of payload calls. -/
def runPayload (s : State) (calls : List PayloadCall) : State :=
  calls.foldl PayloadCall.run s

/-- Total number of bytes a sequence of payload calls writes. -/
def payloadSize (calls : List PayloadCall) : Nat := (calls.map PayloadCall.size).sum

end DataTransfer

namespace DataTransfer

/-- `WriteLocked` called for each channel of a list in turn; the flag tells whether every call
returned true. -/
def writeLockedList (P : Params) (s : State) : List Nat → Bool × State
  | [] => (true, s)
  | c :: cs =>
    let r := WriteLocked P s c
    if r.1 then writeLockedList P r.2 cs else (false, r.2)

/-- The payload exchange seen from the receiving side: the first `txPointer` bytes of the transmit
buffer arrive in the receive buffer, `rxHeader.dataLength` is `txPointer`, `rxPointer` is 0. -/
def receiveOwn (s : State) : State :=
  { s with
    rxBuffer := memWrite s.rxBuffer 0 (s.txBuffer.take s.txPointer),
    rxHeader := { s.rxHeader with dataLength := s.txPointer },
    rxPointer := 0 }

/-- `ReadPacket` followed, if a packet is there, by `ReadLockUnlockRequest`. -/
def readLocked (s : State) : Option (PacketHeader × Nat) × State :=
  match ReadPacket s with
  | (none, s1) => (none, s1)
  | (some h, s1) =>
    let r := ReadLockUnlockRequest s1
    (some (h, r.1), r.2)

/-- `readLocked` performed `k` times. -/
def readLockedList : Nat → State → List (Option (PacketHeader × Nat)) × State
  | 0, s => ([], s)
  | k + 1, s =>
    let r := readLocked s
    let rest := readLockedList k r.2
    (r.1 :: rest.1, rest.2)

end DataTransfer

namespace DataTransfer

/-! ### Auxiliary definitions used in the statements about the SBC link -/

/-- Parameters used to instantiate the general theorems: the response codes of the spec
(`Success` = 0, `BadFormat` = -1, the other rejects negative), a 2048 byte transfer buffer. -/
def sampleParams : Params :=
  { LinuxFormatCode := 95, InvalidFormatCode := 201, LinuxProtocolVersion := 1,
    LinuxTransferBufferSize := 2048, SpiTransferTimeout := 500, SpiConnectionTimeout := 4000,
    Success := 0, BadFormat := -1, BadProtocolVersion := -2, BadDataLength := -3,
    PushFlag := 65536,
    requestCode := fun r =>
      match r with
      | .ReportState => 0 | .ObjectModel => 1 | .CodeReply => 2 | .ExecuteMacro => 3
      | .AbortFile => 4 | .StackEvent => 5 | .PrintPaused => 6 | .HeightMap => 7
      | .Locked => 8 }

/-- A state with every member zero and empty buffers of the size given by `P`. -/
def blankState (P : Params) : State :=
  { state := .Initializing, lastTransferTime := 0, sequenceNumber := 0, lastSequenceNumber := 0,
    rxResponse := 0, txResponse := 0, rxPointer := 0, txPointer := 0, packetId := 0,
    rxHeader := ⟨0, 0, 0, 0, 0, 0, 0⟩, txHeader := ⟨0, 0, 0, 0, 0, 0, 0⟩,
    rxBuffer := List.replicate P.LinuxTransferBufferSize 0,
    txBuffer := List.replicate P.LinuxTransferBufferSize 0,
    dataReceived := false, spi := none, transferReady := false }

/-- The response code chosen for a received transfer header. -/
def headerVerdict (P : Params) (h : TransferHeader) : Int :=
  if h.formatCode ≠ P.LinuxFormatCode then P.BadFormat
  else if h.protocolVersion ≠ P.LinuxProtocolVersion then P.BadProtocolVersion
  else if h.dataLength > P.LinuxTransferBufferSize then P.BadDataLength
  else P.Success

/-- Bytes that `WriteLocked` stores for packet number `id` and channel `c`. -/
def lockedImage (P : Params) (id c : Nat) : List Nat :=
  encodePacketHeader
      { request := wrap16 (P.requestCode .Locked), id := wrap16 id,
        length := wrap16 sizeofLockUnlockHeader, resendPacketId := wrap16 0 } ++
    ([c % 256] ++ ([0] ++ le16 0))

/-- Bytes of consecutive `Locked` packets numbered from `id`. -/
def lockedImages (P : Params) : Nat → List Nat → List Nat
  | _, [] => []
  | id, c :: cs => lockedImage P id c ++ lockedImages P (id + 1) cs

/-- What the reader should deliver for consecutive `Locked` packets numbered from `id`. -/
def lockedExpected (P : Params) : Nat → List Nat → List (Option (PacketHeader × Nat))
  | _, [] => []
  | id, c :: cs =>
    some (⟨wrap16 (P.requestCode .Locked), wrap16 id, sizeofLockUnlockHeader, 0⟩, c % 256) ::
      lockedExpected P (id + 1) cs

end DataTransfer

namespace DataTransfer

/-- Field `messageType` of the `CodeReplyHeader` at offset `r` of `buf`. -/
def codeReplyMessageType (buf : List Nat) (r : Nat) : Nat := leValue (memRead buf r 4)

/-- Field `length` of the `CodeReplyHeader` at offset `r` of `buf`. -/
def codeReplyLength (buf : List Nat) (r : Nat) : Nat := leValue (memRead buf (r + 4) 2)

/-- The transmit buffer after the stores of `WriteCodeReply`, in program order: packet header
`enc` at `h`, `messageType` and `padding` of the reply header at `h + 8`, the reply bytes `D`,
the `PushFlag` update if `more`, the two length fields. -/
def codeReplyStores (P : Params) (B0 : List Nat) (h : Nat) (enc : List Nat) (type : Nat)
    (D : List Nat) (more : Bool) (n : Nat) : List Nat :=
  let B1 := memWrite B0 h enc
  let B2 := memWrite (memWrite B1 (h + 8) (le32 (wrap32 type))) (h + 8 + 6) (le16 0)
  let B3 := memWrite B2 (h + 8 + 8) D
  let B4 :=
    if more then memWrite B3 (h + 8) (le32 (wrap32 (leValue (memRead B3 (h + 8) 4) ||| P.PushFlag)))
    else B3
  let B5 := memWrite B4 (h + 8 + 4) (le16 (wrap16 n))
  memWrite B5 (h + 4) (le16 (wrap16 (sizeofCodeReplyHeader + n)))

end DataTransfer

namespace DataTransfer

/-! ### Sequences of operations on the transfer object -/

/-- One operation on a `DataTransfer` object: a call of one of its methods, or the end of an
SPI exchange (`transferDone`): the DMA controller has stored what the peer sent in the receive
objects and `LINUX_SPI_HANDLER` has set `dataReceived` and disabled the SPI. -/
inductive Op
  | isReady (now : Nat)
  | startNextTransfer
  | transferDone (rxHeader : TransferHeader) (rxResponse : Int) (rxBuffer : List Nat)
  | writePacketHeader (request : FirmwareRequest) (dataLength resendPacketId : Nat)
  | writeData (data : List Nat)
  | writeDataHeader (size : Nat)
  | store (p : Nat) (bytes : List Nat)
  | readPacket
  | readData (dataLength : Nat)
  | readDataHeader (size : Nat)

/-- State after an operation. -/
def Op.run (P : Params) (s : State) : Op → State
  | .isReady now => (IsReady P now s).2
  | .startNextTransfer => StartNextTransfer P s
  | .transferDone rxHeader rxResponse rxBuffer =>
    disable_spi { s with
      rxHeader := rxHeader, rxResponse := rxResponse, rxBuffer := rxBuffer,
      dataReceived := true }
  | .writePacketHeader request dataLength resendPacketId =>
    (WritePacketHeader P s request dataLength resendPacketId).2
  | .writeData data => WriteData s data
  | .writeDataHeader size => (WriteDataHeader s size).2
  | .store p bytes => storeField s p bytes
  | .readPacket => (ReadPacket s).2
  | .readData dataLength => (ReadData s dataLength).2
  | .readDataHeader size => (ReadDataHeader s size).2

/-- State after a sequence of operations. -/
def runOps (P : Params) (s : State) (ops : List Op) : State := ops.foldl (Op.run P) s

/-- Number of `WritePacketHeader` calls in a sequence of operations. -/
def countPacketHeaders : List Op → Nat
  | [] => 0
  | .writePacketHeader _ _ _ :: ops => countPacketHeaders ops + 1
  | _ :: ops => countPacketHeaders ops

/-- The ids that the `WritePacketHeader` calls of `ops` stored in their packet headers since the
last call of `IsReady` that returned true (since the start, if there was none); `acc` are the ids
stored before `ops`.  Each id is read from the header right after the call. -/
def idsWritten (P : Params) : State → List Op → List Nat → List Nat
  | _, [], acc => acc
  | s, .writePacketHeader request dataLength resendPacketId :: ops, acc =>
    let h := WritePacketHeader P s request dataLength resendPacketId
    idsWritten P h.2 ops (acc ++ [(decodePacketHeader h.2.txBuffer h.1).id])
  | s, .isReady now :: ops, acc =>
    idsWritten P (IsReady P now s).2 ops (if (IsReady P now s).1 then [] else acc)
  | s, op :: ops, acc => idsWritten P (op.run P s) ops acc

/-- The sequence numbers of the transfer headers that `ExchangeHeader` set up for transmission
during `ops`, in order.  `ExchangeHeader` is the only code that assigns `sequenceNumber` and
`txHeader.sequenceNumber`, and it is called at most once per operation, so the operations that
called it are those that changed `sequenceNumber`. -/
def sequenceNumbersSent (P : Params) : State → List Op → List Nat
  | _, [] => []
  | s, op :: ops =>
    (if (op.run P s).sequenceNumber ≠ s.sequenceNumber then [(op.run P s).txHeader.sequenceNumber]
     else []) ++ sequenceNumbersSent P (op.run P s) ops

/-- A call that follows `ReadPacket`: `ReadData(dataLength)` or `ReadDataHeader<T>()` for a `T`
of the given size (the typed helpers `ReadGetObjectModel`, `ReadPrintStoppedInfo`,
`ReadMacroCompleteInfo`, `ReadLockUnlockRequest` are such calls). -/
inductive ReadCall
  | data (dataLength : Nat)
  | dataHeader (size : Nat)

/-- State after a read call. -/
def ReadCall.run (s : State) : ReadCall → State
  | .data dataLength => (ReadData s dataLength).2
  | .dataHeader size => (ReadDataHeader s size).2

/-- Number of bytes by which a read call advances `rxPointer`. -/
def ReadCall.advance : ReadCall → Nat
  | .data dataLength => AddPadding dataLength
  | .dataHeader size => size

/-- State after a sequence of read calls. -/
def runReads (s : State) (calls : List ReadCall) : State := calls.foldl ReadCall.run s

/-- The values of `rxPointer` after each of a sequence of read calls. -/
def readTrace : State → List ReadCall → List Nat
  | _, [] => []
  | s, c :: cs => (c.run s).rxPointer :: readTrace (c.run s) cs

/-- A reading session: for each entry `ReadPacket` is called and, if it returned a packet, the
read calls of the entry follow; the session ends when `ReadPacket` returns none.  The result are
the values of `rxPointer` after each call. -/
def sessionTrace : State → List (List ReadCall) → List Nat
  | _, [] => []
  | s, calls :: rest =>
    match (ReadPacket s).1 with
    | none => [(ReadPacket s).2.rxPointer]
    | some _ =>
      (ReadPacket s).2.rxPointer ::
        (readTrace (ReadPacket s).2 calls ++
          sessionTrace (runReads (ReadPacket s).2 calls) rest)

/-- Along the session the payload holds whole packets (the packet header and its body, padded to
a multiple of 4, end at or before `rxHeader.dataLength`) and the read calls that follow a
`ReadPacket` advance by the padded length that the packet declares. -/
def wholePackets : State → List (List ReadCall) → Bool
  | _, [] => true
  | s, calls :: rest =>
    match (ReadPacket s).1 with
    | none => true
    | some h =>
      decide (s.rxPointer + sizeofPacketHeader + AddPadding h.length ≤ s.rxHeader.dataLength) &&
        decide ((calls.map ReadCall.advance).sum = AddPadding h.length) &&
        wholePackets (runReads (ReadPacket s).2 calls) rest

/-- A received payload of two packets: a `LockMovementAndWaitForStandstill`-like packet with a
4-byte body and a packet with a 5-byte body padded to 8 bytes; 28 bytes in all. -/
def twoPackets : State :=
  { blankState sampleParams with
    rxHeader := ⟨95, 2, 1, 1, 28, 0, 0⟩,
    rxBuffer := [7, 0, 1, 0, 4, 0, 0, 0, 2, 0, 0, 0,
                 1, 0, 2, 0, 5, 0, 0, 0, 71, 50, 56, 32, 88, 0, 0, 0] }

/-- Operations of two transfers: a packet is written and exchanged in a complete transfer
(header, response, data, response; the peer sends 12 bytes of data as well), and two more
packets are written after `IsReady` has returned true. -/
def sampleOps : List Op :=
  [.writePacketHeader .Locked 4 0, .writeDataHeader 4, .store 8 [2],
   .startNextTransfer,
   .transferDone ⟨95, 1, 1, 1, 12, 0, 0⟩ 0 (List.replicate 2048 0), .isReady 10,
   .transferDone ⟨95, 1, 1, 1, 12, 0, 0⟩ 0 (List.replicate 2048 0), .isReady 11,
   .transferDone ⟨95, 1, 1, 1, 12, 0, 0⟩ 0 (List.replicate 2048 0), .isReady 12,
   .transferDone ⟨95, 1, 1, 1, 12, 0, 0⟩ 0 (List.replicate 2048 0), .isReady 13,
   .writePacketHeader .Locked 4 0, .writeDataHeader 4, .store 8 [3],
   .writePacketHeader .Locked 4 0, .writeDataHeader 4, .store 20 [4]]

/-- A received transfer whose header declares 4 bytes of data. -/
def shortPayload : State :=
  { blankState sampleParams with rxHeader := ⟨95, 1, 1, 1, 4, 0, 0⟩ }

end DataTransfer
namespace DataTransfer

/-! ### The typed writers and readers -/

/-- The typed payload headers that `DataTransfer.cpp` takes from `Linux/MessageFormats.h`,
which is not among the sources: their sizes, the byte image that the stores to all the fields
of a header leave in it, the values of `StackEventFlags`, and the three length fields of a
`PrintStartedHeader` read at an offset of a buffer.  They are parameters of the model. -/
structure Formats where
  sizeofReportStateHeader : Nat
  sizeofExecuteMacroHeader : Nat
  sizeofAbortFileHeader : Nat
  sizeofStackEventHeader : Nat
  sizeofPrintPausedHeader : Nat
  sizeofHeightMapHeader : Nat
  sizeofPrintStartedHeader : Nat
  /-- A `ReportStateHeader` with the given `busyChannels`. -/
  reportState : Nat → List Nat
  /-- An `ExecuteMacroHeader` with the given `channel`, `reportMissing` and `length`. -/
  executeMacro : Nat → Bool → Nat → List Nat
  /-- An `AbortFileHeader` with the given `channel`. -/
  abortFile : Nat → List Nat
  /-- A `StackEventHeader` with the given `channel`, `depth`, `flags` and `feedrate`. -/
  stackEvent : Nat → Nat → Nat → Nat → List Nat
  /-- A `PrintPausedHeader` with the given `filePosition` and `pauseReason`. -/
  printPaused : Nat → Nat → List Nat
  /-- A `HeightMapHeader` with the given grid values and `numPoints`. -/
  heightMap : List Nat → Nat → List Nat
  /-- `StackEventFlags::none` -/
  flagsNone : Nat
  /-- `StackEventFlags::axesRelative` -/
  flagAxesRelative : Nat
  /-- `StackEventFlags::drivesRelative` -/
  flagDrivesRelative : Nat
  /-- `StackEventFlags::usingInches` -/
  flagUsingInches : Nat
  /-- The field `numFilaments` of the `PrintStartedHeader` at an offset of a buffer. -/
  numFilaments : List Nat → Nat → Nat
  /-- The field `filenameLength` of the `PrintStartedHeader` at an offset of a buffer. -/
  filenameLength : List Nat → Nat → Nat
  /-- The field `generatedByLength` of the `PrintStartedHeader` at an offset of a buffer. -/
  generatedByLength : List Nat → Nat → Nat

/-- `DataTransfer::WriteState`. -/
def WriteState (P : Params) (F : Formats) (s : State) (busyChannels : Nat) : Bool × State :=
  if ¬ CanWritePacket P s F.sizeofReportStateHeader then (false, s)
  else
    let s1 := (WritePacketHeader P s .ReportState F.sizeofReportStateHeader 0).2
    let r := WriteDataHeader s1 F.sizeofReportStateHeader
    (true, storeField r.2 r.1 (F.reportState busyChannels))

/-- `DataTransfer::WriteMacroRequest`; `filename` is the text of the C string. -/
def WriteMacroRequest (P : Params) (F : Formats) (s : State) (channel : Nat)
    (filename : List Nat) (reportMissing : Bool) : Bool × State :=
  let filenameLength := filename.length
  if ¬ CanWritePacket P s (wrap32 (F.sizeofExecuteMacroHeader + filenameLength)) then (false, s)
  else
    let s1 := (WritePacketHeader P s .ExecuteMacro
      (wrap32 (F.sizeofExecuteMacroHeader + filenameLength)) 0).2
    let r := WriteDataHeader s1 F.sizeofExecuteMacroHeader
    let s2 := storeField r.2 r.1 (F.executeMacro channel reportMissing filenameLength)
    (true, WriteData s2 filename)

/-- `DataTransfer::WriteAbortFileRequest`. -/
def WriteAbortFileRequest (P : Params) (F : Formats) (s : State) (channel : Nat) :
    Bool × State :=
  if ¬ CanWritePacket P s F.sizeofAbortFileHeader then (false, s)
  else
    let s1 := (WritePacketHeader P s .AbortFile F.sizeofAbortFileHeader 0).2
    let r := WriteDataHeader s1 F.sizeofAbortFileHeader
    (true, storeField r.2 r.1 (F.abortFile channel))

/-- The members of `GCodeMachineState` that `WriteStackEvent` reads. -/
structure GCodeMachineState where
  axesRelative : Bool
  drivesRelative : Bool
  usingInches : Bool
  feedRate : Nat

/-- `DataTransfer::WriteStackEvent`; `previous` are the machine states reached from `state`
through the member `previous`. -/
def WriteStackEvent (P : Params) (F : Formats) (s : State) (channel : Nat)
    (state : GCodeMachineState) (previous : List GCodeMachineState) : Bool × State :=
  if ¬ CanWritePacket P s F.sizeofStackEventHeader then (false, s)
  else
    let stackDepth := (1 + previous.length) % 256
    let s1 := (WritePacketHeader P s .StackEvent F.sizeofStackEventHeader 0).2
    let r := WriteDataHeader s1 F.sizeofStackEventHeader
    let f0 := F.flagsNone
    let f1 := if state.axesRelative then f0 ||| F.flagAxesRelative else f0
    let f2 := if state.drivesRelative then f1 ||| F.flagDrivesRelative else f1
    let f3 := if state.usingInches then f2 ||| F.flagUsingInches else f2
    (true, storeField r.2 r.1 (F.stackEvent channel stackDepth f3 state.feedRate))

/-- `DataTransfer::WritePrintPaused`. -/
def WritePrintPaused (P : Params) (F : Formats) (s : State) (position reason : Nat) :
    Bool × State :=
  if ¬ CanWritePacket P s F.sizeofPrintPausedHeader then (false, s)
  else
    let s1 := (WritePacketHeader P s .PrintPaused F.sizeofPrintPausedHeader 0).2
    let r := WriteDataHeader s1 F.sizeofPrintPausedHeader
    (true, storeField r.2 r.1 (F.printPaused position reason))

/-- `DataTransfer::WriteHeightMap`; `grid` are the values of the grid definition, `numPoints`
the number of height map points (0 if no height map is in use) and `points` the bytes that
`SaveHeightMapToArray` stores, four for each point.  The second component is the offset
`zPoints` in `txBuffer`, if points are stored. -/
def WriteHeightMap (P : Params) (F : Formats) (s : State) (grid : List Nat) (numPoints : Nat)
    (points : List Nat) : Bool × Option Nat × State :=
  let bytesToWrite := wrap32 (F.sizeofHeightMapHeader + wrap32 (numPoints * 4))
  if ¬ CanWritePacket P s bytesToWrite then (false, none, s)
  else
    let s1 := (WritePacketHeader P s .HeightMap bytesToWrite 0).2
    let r := WriteDataHeader s1 F.sizeofHeightMapHeader
    let s2 := storeField r.2 r.1 (F.heightMap grid numPoints)
    if numPoints ≠ 0 then
      let zPoints := wrap32 (s2.txPointer + F.sizeofHeightMapHeader)
      (true, some zPoints, storeField s2 zPoints points)
    else (true, none, s2)

/-- What `ReadPrintStartedInfo` hands to its caller, as far as the tail fields of the packet
go: the bytes copied to `info.filamentNeeded`, to `filename` and to `info.generatedBy`, with
the offsets in `rxBuffer` they were taken from. -/
structure PrintStartedInfo where
  numFilaments : Nat
  filamentsAt : Nat
  filamentNeeded : List Nat
  filenameAt : Nat
  filename : List Nat
  generatedByAt : Nat
  generatedBy : List Nat
  deriving DecidableEq, Repr

/-- `DataTransfer::ReadPrintStartedInfo`.  The copies of the fixed fields of the header into
`info` are outside the model. -/
def ReadPrintStartedInfo (F : Formats) (s : State) (packetLength : Nat) :
    PrintStartedInfo × State :=
  let r := ReadDataHeader s F.sizeofPrintStartedHeader
  let header := r.1
  let numFilaments := F.numFilaments s.rxBuffer header
  let d := ReadData r.2 (wrap32 (packetLength + 4294967296 - F.sizeofPrintStartedHeader))
  let data0 := d.1
  let filamentsSize := wrap32 (numFilaments * 4)
  let data1 := wrap32 (data0 + filamentsSize)
  let data2 := wrap32 (data1 + F.filenameLength s.rxBuffer header)
  ({ numFilaments := numFilaments,
     filamentsAt := data0,
     filamentNeeded := memRead s.rxBuffer data0 filamentsSize,
     filenameAt := data1,
     filename := memRead s.rxBuffer data1 (F.filenameLength s.rxBuffer header),
     generatedByAt := data2,
     generatedBy := memRead s.rxBuffer data2 (F.generatedByLength s.rxBuffer header) },
   { d.2 with
     rxPointer :=
       wrap32 (d.2.rxPointer +
         wrap32 (packetLength + 4294967296 - F.sizeofPrintStartedHeader)) })

/-- The offsets and lengths of the copies `WriteData(response->UnreadData(), bytesToCopy)`
made by the loop of `WriteCodeReply`, in the order of the calls; the arguments are those of
`copyLoop`. -/
def copyTrace (P : Params) : Nat → State → List OutputBuffer → List (Nat × Nat)
  | 0, _, _ => []
  | _, _, [] => []
  | fuel + 1, s, b :: rest =>
    let bytesToCopy :=
      min (wrap32 (P.LinuxTransferBufferSize + 4294967296 - s.txPointer)) b.BytesLeft
    let s1 := WriteData s (b.UnreadData.take bytesToCopy)
    let b1 := b.Taken bytesToCopy
    let response1 := if b1.BytesLeft = 0 then rest else b1 :: rest
    (s.txPointer, bytesToCopy) ::
      (if s1.txPointer < P.LinuxTransferBufferSize ∧ response1 ≠ [] then
        copyTrace P fuel s1 response1
      else [])

/-- The state in which `WriteCodeReply` enters its copy loop, when the `CanWritePacket` test
has succeeded. -/
def beforeCopy (P : Params) (s : State) (type : Nat) : State :=
  let h := WritePacketHeader P s .CodeReply 0 0
  let r := WriteDataHeader h.2 sizeofCodeReplyHeader
  storeField (storeField r.2 r.1 (le32 (wrap32 type))) (r.1 + 6) (le16 0)

/-- Layouts used to instantiate the general theorems: headers of 4, 4, 4, 8, 8, 32 and 40
bytes, filled with zero bytes behind their first field; the three length fields of a
`PrintStartedHeader` are its first two 16-bit fields and the 32-bit field that follows. -/
def sampleFormats : Formats :=
  { sizeofReportStateHeader := 4, sizeofExecuteMacroHeader := 4, sizeofAbortFileHeader := 4,
    sizeofStackEventHeader := 8, sizeofPrintPausedHeader := 8, sizeofHeightMapHeader := 32,
    sizeofPrintStartedHeader := 40,
    reportState := fun b => le32 b,
    executeMacro := fun c r l => [c % 256, if r then 1 else 0, l % 256, 0],
    abortFile := fun c => [c % 256, 0, 0, 0],
    stackEvent := fun c d f r => [c % 256, d % 256] ++ le16 f ++ le32 r,
    printPaused := fun p r => le32 p ++ [r % 256, 0, 0, 0],
    heightMap := fun g n => (g.take 28 ++ List.replicate (28 - g.length) 0) ++ le32 n,
    flagsNone := 0, flagAxesRelative := 1, flagDrivesRelative := 2, flagUsingInches := 4,
    numFilaments := fun buf p => leValue (memRead buf (p + 4) 4),
    filenameLength := fun buf p => leValue (memRead buf p 2),
    generatedByLength := fun buf p => leValue (memRead buf (p + 2) 2) }

/-- A received payload of 68 bytes with two packets: a print-started packet of declared
length 48 (a header of 40 bytes that announces a file name of 3 bytes, a `generatedBy` of 2
bytes and no filament; then `a.g`, `xy` and three bytes of padding) and a packet with a body of
4 bytes whose header has the id 7. -/
def printStartedPayload : State :=
  { blankState sampleParams with
    rxBuffer :=
      encodePacketHeader ⟨9, 1, 48, 0⟩ ++
        (le16 3 ++ le16 2 ++ le32 0 ++ List.replicate 32 0) ++
        [97, 46, 103, 120, 121, 0, 0, 0] ++
        encodePacketHeader ⟨10, 7, 4, 0⟩ ++ [1, 0, 0, 0] ++ List.replicate 1980 0,
    rxHeader := { (blankState sampleParams).rxHeader with dataLength := 68 } }

end DataTransfer
namespace DataTransfer

/-- A writer result `r` for a packet with a body of `L` bytes, started in state `s`, is all or
nothing: false is returned exactly when `CanWritePacket(L)` is false, and then the state is
`s`; otherwise true is returned, the packet header at offset `AddPadding(txPointer)` holds the
length `L`, and `txPointer` is that offset plus `sizeof(PacketHeader) + L`. -/
def allOrNothing (P : Params) (s : State) (L : Nat) (r : Bool × State) : Prop :=
  (r.1 = false ↔ CanWritePacket P s L = false) ∧
  (CanWritePacket P s L = false → r.2 = s) ∧
  (CanWritePacket P s L = true →
    r.1 = true ∧
    (decodePacketHeader r.2.txBuffer (AddPadding s.txPointer)).length = L ∧
    r.2.txPointer = AddPadding s.txPointer + sizeofPacketHeader + L)

end DataTransfer

/-! ## Part 2. Definitions: HTTP request parser -/

namespace HttpResponder

/-- The array sizes that `HttpResponder.cpp` takes from `HttpResponder.h`: the size of
`clientMessage` and the limits `MaxCommandWords`, `MaxQualKeys`, `MaxHeaders`.  They are
parameters of the model. -/
structure Limits where
  clientMessageSize : Nat
  MaxCommandWords : Nat
  MaxQualKeys : Nat
  MaxHeaders : Nat

/-- The states of `enum class HttpParseState`, in the order that the arithmetic on the escape
states in `CharFromClient` relies on (`Esc1 + 1 = Esc2`, `Esc2 - 2 =` the state left by `%`). -/
inductive HttpParseState
  | doingCommandWord
  | doingFilename
  | doingFilenameEsc1
  | doingFilenameEsc2
  | doingQualifierKey
  | doingQualifierValue
  | doingQualifierValueEsc1
  | doingQualifierValueEsc2
  | doingHeaderKey
  | expectingHeaderValue
  | doingHeaderValue
  | doingHeaderContinuation
  deriving DecidableEq, Repr

/-- Integer value of a parse state, `(int)parseState`. -/
def HttpParseState.index : HttpParseState → Nat
  | .doingCommandWord => 0
  | .doingFilename => 1
  | .doingFilenameEsc1 => 2
  | .doingFilenameEsc2 => 3
  | .doingQualifierKey => 4
  | .doingQualifierValue => 5
  | .doingQualifierValueEsc1 => 6
  | .doingQualifierValueEsc2 => 7
  | .doingHeaderKey => 8
  | .expectingHeaderValue => 9
  | .doingHeaderValue => 10
  | .doingHeaderContinuation => 11

/-- The parse state with a given integer value, `(HttpParseState)n`. -/
def HttpParseState.atIndex : Nat → HttpParseState
  | 0 => .doingCommandWord
  | 1 => .doingFilename
  | 2 => .doingFilenameEsc1
  | 3 => .doingFilenameEsc2
  | 4 => .doingQualifierKey
  | 5 => .doingQualifierValue
  | 6 => .doingQualifierValueEsc1
  | 7 => .doingQualifierValueEsc2
  | 8 => .doingHeaderKey
  | 9 => .expectingHeaderValue
  | 10 => .doingHeaderValue
  | _ => .doingHeaderContinuation

/-- A `KeyValueIndices` entry: the two pointers as offsets into `clientMessage`. -/
structure KeyValueIndices where
  key : Nat
  value : Nat
  deriving DecidableEq, Repr

/-- An array store made by the parser: the array and the index stored to. -/
inductive Store
  | clientMessage (i : Nat)
  | commandWords (i : Nat)
  | qualifiers (i : Nat)
  | headers (i : Nat)
  deriving DecidableEq, Repr

/-- The parse variables of `HttpResponder`.  `stores` is not a member of the class: it records
every array store since `Accept`, most recent first. -/
structure Parser where
  clientMessage : List Nat
  clientPointer : Nat
  parseState : HttpParseState
  numCommandWords : Nat
  numQualKeys : Nat
  numHeaderKeys : Nat
  commandWords : Nat → Nat
  qualifiers : Nat → KeyValueIndices
  headers : Nat → KeyValueIndices
  decodeChar : Nat
  stores : List Store

/-- What a call of `CharFromClient` that returns true has done with the message. -/
inductive Reply
  | ProcessMessage
  | RejectMessage (response : String)
  deriving DecidableEq, Repr

/-- The text `overflowResponse`. -/
def overflowResponse : String := "overflow"

/-- The text `badEscapeResponse`. -/
def badEscapeResponse : String := "bad escape"

/-- The statement `clientMessage[clientPointer++] = v`. -/
def Parser.put (s : Parser) (v : Nat) : Parser :=
  { s with
    clientMessage := s.clientMessage.set s.clientPointer v,
    stores := .clientMessage s.clientPointer :: s.stores,
    clientPointer := s.clientPointer + 1 }

/-- The statement `clientMessage[clientPointer] = v`. -/
def Parser.poke (s : Parser) (v : Nat) : Parser :=
  { s with
    clientMessage := s.clientMessage.set s.clientPointer v,
    stores := .clientMessage s.clientPointer :: s.stores }

/-- The statement `commandWords[i] = clientMessage + clientPointer`. -/
def Parser.setCommandWord (s : Parser) (i : Nat) : Parser :=
  { s with
    commandWords := fun j => if j = i then s.clientPointer else s.commandWords j,
    stores := .commandWords i :: s.stores }

/-- The statement `qualifiers[i].key = clientMessage + clientPointer`. -/
def Parser.setQualKey (s : Parser) (i : Nat) : Parser :=
  { s with
    qualifiers := fun j =>
      if j = i then { s.qualifiers j with key := s.clientPointer } else s.qualifiers j,
    stores := .qualifiers i :: s.stores }

/-- The statement `qualifiers[i].value = clientMessage + clientPointer`. -/
def Parser.setQualValue (s : Parser) (i : Nat) : Parser :=
  { s with
    qualifiers := fun j =>
      if j = i then { s.qualifiers j with value := s.clientPointer } else s.qualifiers j,
    stores := .qualifiers i :: s.stores }

/-- The statement `headers[i].key = clientMessage + clientPointer`. -/
def Parser.setHeaderKey (s : Parser) (i : Nat) : Parser :=
  { s with
    headers := fun j =>
      if j = i then { s.headers j with key := s.clientPointer } else s.headers j,
    stores := .headers i :: s.stores }

/-- The statement `headers[i].value = clientMessage + clientPointer`. -/
def Parser.setHeaderValue (s : Parser) (i : Nat) : Parser :=
  { s with
    headers := fun j =>
      if j = i then { s.headers j with value := s.clientPointer } else s.headers j,
    stores := .headers i :: s.stores }

/-- The parse variables after `HttpResponder::Accept` has taken a connection; `s` holds what
the members contained before. -/
def Accept (s : Parser) : Parser :=
  { s with
    clientPointer := 0,
    parseState := .doingCommandWord,
    numCommandWords := 0,
    numQualKeys := 0,
    numHeaderKeys := 0,
    commandWords := fun j => if j = 0 then 0 else s.commandWords j,
    stores := [.commandWords 0] }

/-- Case `doingHeaderValue` of `CharFromClient` (also entered from `expectingHeaderValue`). -/
def headerValueChar (s : Parser) (c : Nat) : Parser × Option Reply :=
  if c = 10 then ({ s with parseState := .doingHeaderContinuation }, none)
  else if c ≠ 13 then (s.put c, none)
  else (s, none)

/-- The `switch (parseState)` of `CharFromClient`.  The second component is `some` when the
source executes `return true` inside the switch, after the call recorded there; it is `none`
when the source leaves the switch by `break`. -/
def parseSwitch (L : Limits) (s : Parser) (c : Nat) : Parser × Option Reply :=
  match s.parseState with
  | .doingCommandWord =>
    if c = 10 then
      let s1 := s.put 0
      let s2 := { s1 with numCommandWords := s1.numCommandWords + 1, numHeaderKeys := 0 }
      ({ s2.setHeaderKey 0 with parseState := .doingHeaderKey }, none)
    else if c = 13 then (s, none)
    else if c = 32 ∨ c = 9 then
      let s1 := s.put 0
      let s2 := { s1 with numCommandWords := s1.numCommandWords + 1 }
      if s2.numCommandWords < L.MaxCommandWords then
        let s3 := s2.setCommandWord s2.numCommandWords
        if s3.numCommandWords = 1 then ({ s3 with parseState := .doingFilename }, none)
        else (s3, none)
      else (s2, some (.RejectMessage "too many command words"))
    else (s.put c, none)
  | .doingFilename =>
    if c = 10 then
      let s1 := s.put 0
      let s2 := { s1 with
        numCommandWords := s1.numCommandWords + 1, numQualKeys := 0, numHeaderKeys := 0 }
      ({ s2.setHeaderKey 0 with parseState := .doingHeaderKey }, none)
    else if c = 63 then
      let s1 := s.put 0
      let s2 := { s1 with numCommandWords := s1.numCommandWords + 1, numQualKeys := 0 }
      ({ s2.setQualKey 0 with parseState := .doingQualifierKey }, none)
    else if c = 37 then ({ s with parseState := .doingFilenameEsc1 }, none)
    else if c = 13 then (s, none)
    else if c = 32 ∨ c = 9 then
      let s1 := s.put 0
      let s2 := { s1 with numCommandWords := s1.numCommandWords + 1 }
      if s2.numCommandWords < L.MaxCommandWords then
        ({ s2.setCommandWord s2.numCommandWords with parseState := .doingCommandWord }, none)
      else (s2, some (.RejectMessage "too many command words"))
    else (s.put c, none)
  | .doingQualifierKey =>
    if c = 61 then
      let s1 := s.put 0
      let s2 := s1.setQualValue s1.numQualKeys
      ({ s2 with numQualKeys := s2.numQualKeys + 1, parseState := .doingQualifierValue }, none)
    else if c = 10 ∨ c = 32 ∨ c = 9 ∨ c = 13 then
      if s.numQualKeys = 0 ∧ (s.qualifiers 0).key = s.clientPointer then
        ({ s.setCommandWord s.numCommandWords with parseState := .doingCommandWord }, none)
      else (s, some (.RejectMessage "bad qualifier key"))
    else if c = 37 ∨ c = 38 then (s, some (.RejectMessage "bad qualifier key"))
    else (s.put c, none)
  | .doingQualifierValue =>
    if c = 10 then
      let s1 := (s.put 0).setQualKey s.numQualKeys
      let s2 := { s1 with numHeaderKeys := 0 }
      ({ s2.setHeaderKey 0 with parseState := .doingHeaderKey }, none)
    else if c = 32 ∨ c = 9 then
      let s1 := (s.put 0).setQualKey s.numQualKeys
      ({ s1.setCommandWord s1.numCommandWords with parseState := .doingCommandWord }, none)
    else if c = 13 then (s, none)
    else if c = 37 then ({ s with parseState := .doingQualifierValueEsc1 }, none)
    else if c = 38 then
      let s1 := (s.put 0).setQualKey s.numQualKeys
      if s1.numQualKeys < L.MaxQualKeys then
        ({ s1 with parseState := .doingQualifierKey }, none)
      else (s1, some (.RejectMessage "too many keys in qualifier"))
    else if c = 43 then (s.put 32, none)
    else (s.put c, none)
  | .doingFilenameEsc1 | .doingQualifierValueEsc1 =>
    if 48 ≤ c ∧ c ≤ 57 then
      ({ s with
        decodeChar := ((c - 48) <<< 4) % 256,
        parseState := HttpParseState.atIndex (s.parseState.index + 1) }, none)
    else if 65 ≤ c ∧ c ≤ 70 then
      ({ s with
        decodeChar := ((c - (65 - 10)) <<< 4) % 256,
        parseState := HttpParseState.atIndex (s.parseState.index + 1) }, none)
    else (s, some (.RejectMessage badEscapeResponse))
  | .doingFilenameEsc2 | .doingQualifierValueEsc2 =>
    if 48 ≤ c ∧ c ≤ 57 then
      ({ s.put ((s.decodeChar ||| (c - 48)) % 256) with
        parseState := HttpParseState.atIndex (s.parseState.index - 2) }, none)
    else if 65 ≤ c ∧ c ≤ 70 then
      ({ s.put ((s.decodeChar ||| (c - (65 - 10))) % 256) with
        parseState := HttpParseState.atIndex (s.parseState.index - 2) }, none)
    else (s, some (.RejectMessage badEscapeResponse))
  | .doingHeaderKey =>
    if c = 10 then
      if s.clientPointer = (s.headers s.numHeaderKeys).key then (s, some .ProcessMessage)
      else (s, some (.RejectMessage "unexpected newline"))
    else if c = 13 then (s, none)
    else if c = 58 then
      if s.numHeaderKeys = L.MaxHeaders - 1 then
        (s, some (.RejectMessage "too many header key-value pairs"))
      else
        let s1 := s.put 0
        let s2 := s1.setHeaderValue s1.numHeaderKeys
        ({ s2 with
          numHeaderKeys := s2.numHeaderKeys + 1, parseState := .expectingHeaderValue }, none)
    else (s.put c, none)
  | .expectingHeaderValue =>
    if c = 32 ∨ c = 9 then (s, none)
    else headerValueChar { s with parseState := .doingHeaderValue } c
  | .doingHeaderValue => headerValueChar s c
  | .doingHeaderContinuation =>
    if c = 32 ∨ c = 9 then ({ s.put c with parseState := .doingHeaderValue }, none)
    else if c = 10 then (s.poke 0, some .ProcessMessage)
    else if c = 13 then (s, none)
    else if s.clientPointer + 3 ≤ L.clientMessageSize then
      let s1 := (s.put 0).setHeaderKey s.numHeaderKeys
      ({ s1.put c with parseState := .doingHeaderKey }, none)
    else (s, some (.RejectMessage overflowResponse))

/-- `HttpResponder::CharFromClient` for the byte `c`: the parse variables after the call, and
`none` if it returns false, `some` of the call it made (`ProcessMessage` or `RejectMessage`) if
it returns true. -/
def CharFromClient (L : Limits) (s : Parser) (c : Nat) : Parser × Option Reply :=
  match parseSwitch L s c with
  | (s1, some r) => (s1, some r)
  | (s1, none) =>
    if s1.clientPointer = L.clientMessageSize then (s1, some (.RejectMessage overflowResponse))
    else (s1, none)

/-- The loop of `HttpResponder::Spin` in state `reading`: bytes are passed to `CharFromClient`
one at a time until a call returns true. -/
def feed (L : Limits) : Parser → List Nat → Parser × Option Reply
  | s, [] => (s, none)
  | s, c :: cs =>
    match CharFromClient L s c with
    | (s1, none) => feed L s1 cs
    | (s1, some r) => (s1, some r)

/-- The zero-terminated string that starts at offset `p` of `buf`. -/
def cstring (buf : List Nat) (p : Nat) : List Nat := (buf.drop p).takeWhile (fun b => b ≠ 0)

/-- The bytes of a text. -/
def bytes (t : String) : List Nat := t.toList.map Char.toNat

/-- Limits used to instantiate the general theorems (1463 byte message buffer). -/
def sampleLimits : Limits :=
  { clientMessageSize := 1463, MaxCommandWords := 4, MaxQualKeys := 5, MaxHeaders := 30 }

/-- Parse variables with every member zero and a message buffer of the size given by `L`. -/
def blankParser (L : Limits) : Parser :=
  { clientMessage := List.replicate L.clientMessageSize 0, clientPointer := 0,
    parseState := .doingCommandWord, numCommandWords := 0, numQualKeys := 0, numHeaderKeys := 0,
    commandWords := fun _ => 0, qualifiers := fun _ => ⟨0, 0⟩, headers := fun _ => ⟨0, 0⟩,
    decodeChar := 0, stores := [] }

/-- A request line of four words whose last separator is byte number 1463: `a b c ddd...d `
with 1456 times `d`. -/
def fillInput : List Nat := bytes "a b c " ++ List.replicate 1456 100 ++ [32]

/-- A byte that is neither the terminator 0 nor one of the separator and escape characters of
the parser: tab, line feed, carriage return, space, `%`, `&`, `+`, `:`, `=`, `?`. -/
def plain (c : Nat) : Prop :=
  c ≠ 0 ∧ c ≠ 9 ∧ c ≠ 10 ∧ c ≠ 13 ∧ c ≠ 32 ∧ c ≠ 37 ∧ c ≠ 38 ∧ c ≠ 43 ∧ c ≠ 58 ∧ c ≠ 61 ∧
    c ≠ 63

/-- A token: a byte string of plain bytes. -/
def token (w : List Nat) : Prop := ∀ c ∈ w, plain c

/-- The query string `k1=v1&...&kn=vn`. -/
def renderQuery : List (List Nat × List Nat) → List Nat
  | [] => []
  | [q] => q.1 ++ [61] ++ q.2
  | q :: rest => q.1 ++ [61] ++ q.2 ++ [38] ++ renderQuery rest

/-- The header lines `h: w\r\n`. -/
def renderHeaders : List (List Nat × List Nat) → List Nat
  | [] => []
  | h :: rest => h.1 ++ [58, 32] ++ h.2 ++ [13, 10] ++ renderHeaders rest

/-- The request `method path?query version\r\n headers \r\n`. -/
def renderRequest (method path version : List Nat) (qs hs : List (List Nat × List Nat)) :
    List Nat :=
  method ++ [32] ++ path ++ [63] ++ renderQuery qs ++ [32] ++ version ++ [13, 10] ++
    renderHeaders hs ++ [13, 10]

/-- The states in which the parser stores a plain byte and stays in the state. -/
def HttpParseState.storing : HttpParseState → Bool
  | .doingCommandWord | .doingFilename | .doingQualifierKey | .doingQualifierValue
  | .doingHeaderKey | .doingHeaderValue => true
  | _ => false

/-- The zero-terminated token `w` lies at offset `p` of `buf`. -/
def tokenAt (buf : List Nat) (p : Nat) (w : List Nat) : Prop :=
  (buf.drop p).take (w.length + 1) = w ++ [0]

/-- The state `t` was reached from `s` by storing bytes at and behind `s.clientPointer` only. -/
def extends_ (s t : Parser) : Prop :=
  t.clientMessage.length = s.clientMessage.length ∧ s.clientPointer ≤ t.clientPointer ∧
    t.clientMessage.take s.clientPointer = s.clientMessage.take s.clientPointer

instance plainDecidable (c : Nat) : Decidable (plain c) := by
  unfold plain; infer_instance

instance tokenDecidable (w : List Nat) : Decidable (token w) := by
  unfold token; infer_instance

end HttpResponder

namespace HttpResponder

/-! ### Escapes in the request target -/

/-- A hexadecimal digit as the parser accepts it: `0`-`9` or `A`-`F`. -/
def hexDigit (c : Nat) : Prop := (48 ≤ c ∧ c ≤ 57) ∨ (65 ≤ c ∧ c ≤ 70)

instance hexDigitDecidable (c : Nat) : Decidable (hexDigit c) := by
  unfold hexDigit; infer_instance

/-- Value of a hexadecimal digit. -/
def hexValue (c : Nat) : Nat := if c ≤ 57 then c - 48 else c - 55

/-- An item of a raw (still escaped) text: a character that stands for itself, a `+`, or an
escape `%XY`. -/
inductive RawItem
  | char (c : Nat)
  | plus
  | escape (x y : Nat)

/-- The bytes of an item as they arrive from the client. -/
def RawItem.raw : RawItem → List Nat
  | .char c => [c]
  | .plus => [43]
  | .escape x y => [37, x, y]

/-- The bytes of a raw text. -/
def rawText : List RawItem → List Nat
  | [] => []
  | i :: rest => i.raw ++ rawText rest

/-- Reference URL decoding of one item, as the specification words it: `+` becomes a space and
`%XY` becomes the single byte `16*hex(X) + hex(Y)`. -/
def RawItem.decoded : RawItem → Nat
  | .char c => c
  | .plus => 32
  | .escape x y => 16 * hexValue x + hexValue y

/-- Reference URL decoding of a raw query value. -/
def urlDecode (items : List RawItem) : List Nat := items.map RawItem.decoded

/-- Reference decoding of one item of a file name: escapes are decoded and `+` is kept. -/
def RawItem.decodedInPath : RawItem → Nat
  | .char c => c
  | .plus => 43
  | .escape x y => 16 * hexValue x + hexValue y

/-- Reference decoding of a raw file name. -/
def pathDecode (items : List RawItem) : List Nat := items.map RawItem.decodedInPath

/-- The items a raw query value is built from: characters other than tab, line feed, carriage
return, space, `%`, `&` and `+`; `+`; escapes of two hexadecimal digits. -/
def RawItem.inValue : RawItem → Prop
  | .char c => c ≠ 9 ∧ c ≠ 10 ∧ c ≠ 13 ∧ c ≠ 32 ∧ c ≠ 37 ∧ c ≠ 38 ∧ c ≠ 43
  | .plus => True
  | .escape x y => hexDigit x ∧ hexDigit y

/-- The items a raw file name is built from: characters other than tab, line feed, carriage
return, space, `%`, `+` and `?`; `+`; escapes of two hexadecimal digits. -/
def RawItem.inPath : RawItem → Prop
  | .char c => c ≠ 9 ∧ c ≠ 10 ∧ c ≠ 13 ∧ c ≠ 32 ∧ c ≠ 37 ∧ c ≠ 43 ∧ c ≠ 63
  | .plus => True
  | .escape x y => hexDigit x ∧ hexDigit y

instance inValueDecidable (i : RawItem) : Decidable i.inValue := by
  cases i <;> unfold RawItem.inValue <;> infer_instance

instance inPathDecidable (i : RawItem) : Decidable i.inPath := by
  cases i <;> unfold RawItem.inPath <;> infer_instance

/-- The raw value `foo%2Fbar.g`. -/
def sampleValue : List RawItem :=
  [.char 102, .char 111, .char 111, .escape 50 70, .char 98, .char 97, .char 114, .char 46,
   .char 103]

/-- The parse variables after the bytes `GET /rr_delete?name=` on a fresh connection. -/
def atSampleValue : Parser :=
  (feed sampleLimits (Accept (blankParser sampleLimits)) (bytes "GET /rr_delete?name=")).1

/-- The parse variables after the bytes `GET /a` on a fresh connection. -/
def atSamplePath : Parser :=
  (feed sampleLimits (Accept (blankParser sampleLimits)) (bytes "GET /a")).1

/-- Six query pairs `a=1`, ..., `f=6`. -/
def samplePairs : List (List Nat × List Nat) :=
  [([97], [49]), ([98], [50]), ([99], [51]), ([100], [52]), ([101], [53]), ([102], [54])]

end HttpResponder

namespace HttpResponder

/-! ### Recorded tokens -/

/-- The string that starts at offset `p` of `buf` ends below `ptr`: there is a 0 byte at an
offset from `p` on and below `ptr`. -/
def closedAt (buf : List Nat) (ptr p : Nat) : Prop := ∃ q, p ≤ q ∧ q < ptr ∧ buf[q]? = some 0

/-- The states in which a command word is being stored. -/
def HttpParseState.inWord : HttpParseState → Bool
  | .doingCommandWord | .doingFilename | .doingFilenameEsc1 | .doingFilenameEsc2 => true
  | _ => false

/-- The states in which a query value is being stored. -/
def HttpParseState.inValue : HttpParseState → Bool
  | .doingQualifierValue | .doingQualifierValueEsc1 | .doingQualifierValueEsc2 => true
  | _ => false

/-- The states in which a header value is being stored. -/
def HttpParseState.inHeaderValue : HttpParseState → Bool
  | .expectingHeaderValue | .doingHeaderValue | .doingHeaderContinuation => true
  | _ => false

/-- Command words: the words counted so far are closed, and in a word state the word being
stored starts at or below `clientPointer`. -/
def wordsInv (s : Parser) : Prop :=
  (∀ i, i < s.numCommandWords →
    closedAt s.clientMessage s.clientPointer (s.commandWords i)) ∧
  (s.parseState.inWord = true → s.commandWords s.numCommandWords ≤ s.clientPointer)

/-- Query pairs: the keys counted so far are closed; so are their values, except that in a
value state the last value is still being stored and starts at or below `clientPointer`; in
state `doingQualifierKey` the key being stored starts at or below `clientPointer`. -/
def qualsInv (s : Parser) : Prop :=
  (∀ i, i < s.numQualKeys →
    closedAt s.clientMessage s.clientPointer (s.qualifiers i).key) ∧
  (∀ i, i + 1 < s.numQualKeys →
    closedAt s.clientMessage s.clientPointer (s.qualifiers i).value) ∧
  (s.parseState.inValue = false → ∀ i, i < s.numQualKeys →
    closedAt s.clientMessage s.clientPointer (s.qualifiers i).value) ∧
  (s.parseState.inValue = true →
    1 ≤ s.numQualKeys ∧ (s.qualifiers (s.numQualKeys - 1)).value ≤ s.clientPointer) ∧
  (s.parseState = .doingQualifierKey → (s.qualifiers s.numQualKeys).key ≤ s.clientPointer)

/-- Headers: the keys counted so far are closed; so are their values, except that in a header
value state the last value is still being stored and starts at or below `clientPointer`; in
state `doingHeaderKey` the key being stored starts at or below `clientPointer`. -/
def headersInv (s : Parser) : Prop :=
  (∀ i, i < s.numHeaderKeys →
    closedAt s.clientMessage s.clientPointer (s.headers i).key) ∧
  (∀ i, i + 1 < s.numHeaderKeys →
    closedAt s.clientMessage s.clientPointer (s.headers i).value) ∧
  (s.parseState.inHeaderValue = false → ∀ i, i < s.numHeaderKeys →
    closedAt s.clientMessage s.clientPointer (s.headers i).value) ∧
  (s.parseState.inHeaderValue = true →
    1 ≤ s.numHeaderKeys ∧ (s.headers (s.numHeaderKeys - 1)).value ≤ s.clientPointer) ∧
  (s.parseState = .doingHeaderKey → (s.headers s.numHeaderKeys).key ≤ s.clientPointer)

/-- A recorded token pointer `p` is good: it is an offset inside `clientMessage` and a 0 byte
follows at an offset from `p` on and below the capacity of the buffer. -/
def tokenInside (L : Limits) (t : Parser) (p : Nat) : Prop :=
  p < L.clientMessageSize ∧
    ∃ q, p ≤ q ∧ q < L.clientMessageSize ∧ t.clientMessage[q]? = some 0

/-- The invariant of the parser between calls of `CharFromClient`. -/
def tokensInv (L : Limits) (s : Parser) : Prop :=
  s.clientMessage.length = L.clientMessageSize ∧ s.clientPointer < L.clientMessageSize ∧
    wordsInv s ∧ qualsInv s ∧ headersInv s

/-- The parse variables after the request `GET /rr_status?type=2 HTTP/1.1` with the header
`Host: x` on a fresh connection. -/
def afterSampleRequest : Parser :=
  (feed sampleLimits (Accept (blankParser sampleLimits))
    (bytes "GET /rr_status?type=2 HTTP/1.1\r\nHost: x\r\n\r\n")).1

end HttpResponder
namespace HttpResponder

/-! ### Sessions and the shared G-code reply -/

/-- Constants of the web server that `HttpResponder.cpp` takes from headers which are not among
the sources.  They are parameters of the model. -/
structure WebParams where
  MaxHttpSessions : Nat
  HttpSessionTimeout : Nat
  MaxExpectedWebDirFilenameLength : Nat
  INDEX_PAGE_FILE : List Nat
  OLD_INDEX_PAGE_FILE : List Nat
  FOUR04_PAGE_FILE : List Nat
  /-- The default value of the parameter `code` of `RejectMessage`, given in its declaration. -/
  defaultRejectCode : Nat

/-- Modelled from the spec: `struct HttpSession`, declared in `HttpResponder.h`;
"HttpSession `{ip, lastQueryTime, isPostUploading, postPort}`". -/
structure HttpSession where
  ip : Nat
  lastQueryTime : Nat
  isPostUploading : Bool
  postPort : Nat
  deriving DecidableEq, Repr

/-- Modelled from the spec: an entry of `OutputStack` (declared in `OutputMemory.h`), a chain of
output buffers with its text, its "refcount-like references integer" and the time it was
pushed. -/
structure StackItem where
  data : List Nat
  references : Nat
  time : Nat
  deriving DecidableEq, Repr

/-- Modelled from the spec: `OutputStack`, the "shared FIFO of pooled output buffers holding
G-code replies". -/
abbrev OutputStack := List StackItem

/-- Modelled from the spec: `OutputStack::IsEmpty`. -/
def OutputStack.IsEmpty (k : OutputStack) : Bool := k.isEmpty

/-- Modelled from the spec: `OutputStack::Pop` removes one item. -/
def OutputStack.Pop (k : OutputStack) : OutputStack := k.tail

/-- Modelled from the spec: `OutputStack::IncreaseReferences` adds `n` references to every
item. -/
def OutputStack.IncreaseReferences (k : OutputStack) (n : Nat) : OutputStack :=
  k.map (fun b => { b with references := b.references + n })

/-- Modelled from the spec: `OutputStack::DataLength`, the length of the text held. -/
def OutputStack.DataLength (k : OutputStack) : Nat := (k.map (fun b => b.data.length)).sum

/-- The static data of `HttpResponder`: the array `sessions` (of `MaxHttpSessions` entries),
`numSessions`, `clientsServed`, `seq` and `gcodeReply`.  `accessed` is not a member: it records
the indices used to access `sessions`, most recent first. -/
structure Statics where
  sessions : List HttpSession
  numSessions : Nat
  clientsServed : Nat
  seq : Nat
  gcodeReply : OutputStack
  accessed : List Nat

/-- The entry `sessions[i]`. -/
def Statics.session (w : Statics) (i : Nat) : HttpSession := w.sessions.getD i ⟨0, 0, false, 0⟩

/-- A read of `sessions[i]`. -/
def Statics.touch (w : Statics) (i : Nat) : Statics := { w with accessed := i :: w.accessed }

/-- The statement `sessions[i] = v` (or stores to fields of `sessions[i]` that make it `v`). -/
def Statics.setSession (w : Statics) (i : Nat) (v : HttpSession) : Statics :=
  { w with sessions := w.sessions.set i v, accessed := i :: w.accessed }

/-- The sessions in use: the first `numSessions` entries of the array. -/
def Statics.live (w : Statics) : List HttpSession := w.sessions.take w.numSessions

/-- The loop of `HttpResponder::CheckAuthenticated` from index `i` on, with `d` entries to go. -/
def checkAuthenticatedFrom (ip now : Nat) : Nat → Nat → Statics → Bool × Statics
  | 0, _, w => (false, w)
  | d + 1, i, w =>
    if (w.session i).ip = ip then
      (true, (w.touch i).setSession i { w.session i with lastQueryTime := now })
    else checkAuthenticatedFrom ip now d (i + 1) (w.touch i)

/-- `HttpResponder::CheckAuthenticated`; `ip` is the remote address of the socket and `now` the
value of `millis()`. -/
def CheckAuthenticated (ip now : Nat) (w : Statics) : Bool × Statics :=
  checkAuthenticatedFrom ip now w.numSessions 0 w

/-- `HttpResponder::Authenticate`. -/
def Authenticate (P : WebParams) (ip now : Nat) (w : Statics) : Bool × Statics :=
  match CheckAuthenticated ip now w with
  | (true, w1) => (true, w1)
  | (false, w1) =>
    if w1.numSessions < P.MaxHttpSessions then
      (true,
        { w1.setSession w1.numSessions
            { w1.session w1.numSessions with
              ip := ip, lastQueryTime := now, isPostUploading := false } with
          numSessions := w1.numSessions + 1 })
    else (false, w1)

/-- The loop of `HttpResponder::RemoveSession`: `sessions[k] = sessions[k + 1]` for `d`
consecutive values of `k`. -/
def shiftDown : Nat → Nat → Statics → Statics
  | 0, _, w => w
  | d + 1, k, w => shiftDown d (k + 1) ((w.touch (k + 1)).setSession k (w.session (k + 1)))

/-- `HttpResponder::RemoveSession`. -/
def RemoveSession (w : Statics) (sessionToRemove : Nat) : Statics :=
  if sessionToRemove < w.numSessions then
    shiftDown (w.numSessions - 1 - sessionToRemove) sessionToRemove
      { w with numSessions := w.numSessions - 1 }
  else w

/-- The loop of `HttpResponder::RemoveAuthentication`, with the indices below `i` to go. -/
def removeAuthenticationFrom (ip : Nat) : Nat → Statics → Bool × Statics
  | 0, w => (false, w)
  | i + 1, w =>
    if (w.session i).ip = ip then
      if (w.session i).isPostUploading then (false, w.touch i)
      else (true, RemoveSession (w.touch i) i)
    else removeAuthenticationFrom ip i (w.touch i)

/-- `HttpResponder::RemoveAuthentication`. -/
def RemoveAuthentication (ip : Nat) (w : Statics) : Bool × Statics :=
  removeAuthenticationFrom ip w.numSessions w

/-- The idle test of `CheckSessions`: `now - lastQueryTime > HttpSessionTimeout` in unsigned
32-bit arithmetic. -/
def timedOut (P : WebParams) (now : Nat) (h : HttpSession) : Bool :=
  decide (DataTransfer.wrap32 (now + 4294967296 - h.lastQueryTime) > P.HttpSessionTimeout)

/-- The first loop of `HttpResponder::CheckSessions`, with the indices below `i` to go; the
second component counts `clientsTimedOut`. -/
def checkSessionsFrom (P : WebParams) (now : Nat) : Nat → Statics → Nat → Statics × Nat
  | 0, w, n => (w, n)
  | i + 1, w, n =>
    if timedOut P now (w.session i) then
      checkSessionsFrom P now i (RemoveSession (w.touch i) i) (n + 1)
    else checkSessionsFrom P now i (w.touch i) n

/-- The loop `while (!gcodeReply.IsEmpty()) { Pop; ReleaseAll }` of `CheckSessions`: each
turn pops one item. -/
def popAll : OutputStack → OutputStack
  | [] => []
  | _ :: rest => popAll rest

/-- `HttpResponder::CheckSessions`; `now` is the value of `millis()` and `applyTimeout` the
effect of `OutputStack::ApplyTimeout(HttpSessionTimeout)`, which is not among the sources. -/
def CheckSessions (P : WebParams) (applyTimeout : OutputStack → OutputStack) (now : Nat)
    (w : Statics) : Statics :=
  let r := checkSessionsFrom P now w.numSessions w 0
  let w1 := r.1
  let clientsTimedOut := r.2
  if clientsTimedOut ≠ 0 then
    let w2 := { w1 with clientsServed := DataTransfer.wrap32 (w1.clientsServed + clientsTimedOut) }
    let w3 :=
      if w2.numSessions = 0 ∨ w2.clientsServed ≥ w2.numSessions then
        { w2 with gcodeReply := popAll w2.gcodeReply }
      else w2
    { w3 with clientsServed := 0 }
  else if ¬ w1.gcodeReply.IsEmpty then { w1 with gcodeReply := applyTimeout w1.gcodeReply }
  else w1

/-- `HttpResponder::Disable`. -/
def Disable (w : Statics) : Statics :=
  { w with clientsServed := 0, numSessions := 0, gcodeReply := [] }

/-- A call of one of the functions that use the session table. -/
inductive SessionOp
  | authenticate (ip now : Nat)
  | checkAuthenticated (ip now : Nat)
  | removeAuthentication (ip : Nat)
  | removeSession (k : Nat)
  | checkSessions (now : Nat)
  | disable

/-- The static data after a call. -/
def SessionOp.run (P : WebParams) (applyTimeout : OutputStack → OutputStack) (w : Statics) :
    SessionOp → Statics
  | .authenticate ip now => (Authenticate P ip now w).2
  | .checkAuthenticated ip now => (CheckAuthenticated ip now w).2
  | .removeAuthentication ip => (RemoveAuthentication ip w).2
  | .removeSession k => RemoveSession w k
  | .checkSessions now => CheckSessions P applyTimeout now w
  | .disable => Disable w

/-- The static data after a sequence of calls. -/
def runSessionOps (P : WebParams) (applyTimeout : OutputStack → OutputStack) (w : Statics)
    (ops : List SessionOp) : Statics :=
  ops.foldl (SessionOp.run P applyTimeout) w

/-- The static data at start-up: `numSessions = 0`, `clientsServed = 0`, `seq = 0`, an empty
reply stack; `slots` is the content of the array `sessions`. -/
def Statics.initial (slots : List HttpSession) : Statics :=
  { sessions := slots, numSessions := 0, clientsServed := 0, seq := 0, gcodeReply := [],
    accessed := [] }

/-- The bound of the session table. -/
def sessionsBounded (P : WebParams) (w : Statics) : Prop :=
  w.numSessions ≤ P.MaxHttpSessions ∧ ∀ j ∈ w.accessed, j < P.MaxHttpSessions

/-- Constants used to instantiate the general theorems: 4 sessions, a session timeout of
8000 ms, web file names of at most 100 characters. -/
def sampleWeb : WebParams :=
  { MaxHttpSessions := 4, HttpSessionTimeout := 8000, MaxExpectedWebDirFilenameLength := 100,
    INDEX_PAGE_FILE := bytes "index.html", OLD_INDEX_PAGE_FILE := bytes "reprap.htm",
    FOUR04_PAGE_FILE := bytes "html404.htm", defaultRejectCode := 500 }

/-- A table of three sessions, of the addresses 10, 11 and 12, last seen at 1000, 5000 and
2000 ms; the third is uploading.  The reply stack holds one reply. -/
def sampleStatics : Statics :=
  { sessions := [⟨10, 1000, false, 0⟩, ⟨11, 5000, false, 0⟩, ⟨12, 2000, true, 80⟩,
      ⟨0, 0, false, 0⟩],
    numSessions := 3, clientsServed := 0, seq := 1,
    gcodeReply := [⟨bytes "ok", 0, 900⟩], accessed := [] }

end HttpResponder
namespace HttpResponder

/-! ### Strings, the environment and replies -/

/-- ASCII lower case of a byte, as `tolower` in the C locale. -/
def toLower (c : Nat) : Nat := if 65 ≤ c ∧ c ≤ 90 then c + 32 else c

/-- Modelled from the spec: `StringEqualsIgnoreCase` of the string library (not among the
sources): equality of two zero-terminated strings "ignoring case". -/
def StringEqualsIgnoreCase (a b : List Nat) : Bool := decide (a.map toLower = b.map toLower)

/-- Modelled from the spec: `StringStartsWith` of the string library: `s` "starts with" the
given text, case-sensitively. -/
def StringStartsWith (s start : List Nat) : Bool := decide (s.take start.length = start)

/-- Modelled from the spec: `StringEndsWithIgnoreCase` of the string library: `s` ends in the
given text, ignoring case. -/
def StringEndsWithIgnoreCase (s ending : List Nat) : Bool :=
  decide (ending.length ≤ s.length ∧
    (s.drop (s.length - ending.length)).map toLower = ending.map toLower)

/-- What lies outside `HttpResponder.cpp` and is consulted by the functions modelled here:
the socket, the clock, the password check, the output buffer pool, and the SD card. -/
structure Env where
  /-- Result of `GetRemoteIP()`. -/
  remoteIP : Nat
  /-- Result of `skt->GetRemotePort()`. -/
  remotePort : Nat
  /-- Result of `millis()`. -/
  now : Nat
  /-- Result of `reprap.NoPasswordSet()`. -/
  noPasswordSet : Bool
  /-- Result of `reprap.CheckPassword(pw)`. -/
  checkPassword : List Nat → Bool
  /-- Whether `reprap.GetNetwork().GetCorsSite()` is non-null. -/
  corsSite : Bool
  /-- Whether `outBuf != nullptr || OutputBuffer::Allocate(outBuf)` holds. -/
  haveOutBuf : Bool
  /-- Whether `OutputBuffer::Allocate(jsonResponse)` succeeds. -/
  allocateJson : Bool
  /-- Whether the JSON response produced is null or had an overflow. -/
  jsonLost : Bool
  /-- Result of `outBuf->HadOverflow()` after the reply was composed. -/
  outOverflow : Bool
  /-- Whether `OpenFile(GetWebDir(), name, read)` finds the file. -/
  webFile : List Nat → Bool
  /-- Whether `OpenFile(FS_PREFIX, name, read)` finds the file. -/
  sdFile : List Nat → Bool
  /-- Result of `fileToSend->Length()`. -/
  fileLength : List Nat → Nat
  /-- The member `uploadError`. -/
  uploadError : Bool
  /-- Result of `StrToU32`. -/
  strToU32 : List Nat → Nat
  /-- Result of `StartUpload(FS_PREFIX, filename, mode, postFileLength)`. -/
  startUpload : List Nat → Bool
  /-- Result of `jsonResponse->Length()`. -/
  jsonLength : Nat

/-- A line, or block of lines, that the responder writes to `outBuf` ahead of the body. -/
inductive HeaderLine
  | status (code : Nat) (text : String)
  | noCache
  | allow
  | allowHeaders
  | cors
  | contentType (t : String)
  | contentEncodingGzip
  | contentLength (n : Nat)
  | connectionClose
  | connectionKeepAlive
  deriving DecidableEq, Repr

/-- A command handler of the JSON API that works outside `HttpResponder.cpp`, with the
qualifier values passed to it. -/
inductive Handler
  | status (type : Option (List Nat))
  | gcode (command : Option (List Nat))
  | delete (name : List Nat)
  | filelist (dir : List Nat) (first : Option (List Nat))
  | files (dir first flagDirs : Option (List Nat))
  | move (oldName newName : List Nat) (deleteExisting : Bool)
  | mkdir (dir : List Nat)
  | thumbnail (name : List Nat) (offset : Nat)
  | model (key flags : Option (List Nat))
  | config
  deriving DecidableEq, Repr

/-- The JSON text that `GetJsonResponse` produced: `{"err":n}`, the login reply
`{"err":0,"sessionTimeout":...,"boardType":...,"apiLevel":...}`, or the text made by a
handler. -/
inductive JsonBody
  | err (n : Nat)
  | login
  | handler (h : Handler)
  deriving DecidableEq, Repr

/-- The body of a reply. -/
inductive Body
  | empty
  | errorPage (response : String)
  | stack (k : OutputStack)
  | json (b : JsonBody)
  | file (name : List Nat)
  deriving DecidableEq, Repr

/-- What a request led to: a reply was committed, the responder went on to
`gettingFileInfo` or to an upload, it released `outBuf` without a change of state, or it became
free without a reply. -/
inductive Outcome
  | sent (head : List HeaderLine) (body : Body)
  | gettingFileInfo (name : Option (List Nat))
  | uploading (filename : List Nat) (postFileLength : Nat) (postFileGotCrc : Bool)
  | stalled
  | free
  deriving DecidableEq, Repr

/-- `HttpResponder::AddCorsHeader`. -/
def AddCorsHeader (E : Env) : List HeaderLine := if E.corsSite then [.cors] else []

/-- `HttpResponder::RejectMessage`; `haveOutBuf` tells whether
`outBuf != nullptr || OutputBuffer::Allocate(outBuf)` holds. -/
def RejectMessage (E : Env) (haveOutBuf : Bool) (response : String) (code : Nat) : Outcome :=
  if haveOutBuf then
    .sent ([.status code response, .connectionClose] ++ AddCorsHeader E) (.errorPage response)
  else .free

/-- The reply `serviceUnavailableResponse`. -/
def serviceUnavailable : Outcome := .sent [.status 503 "Service Unavailable"] .empty

/-- `HttpResponder::SendGCodeReply`. -/
def SendGCodeReply (E : Env) (w : Statics) : Outcome × Statics :=
  let r : Statics × Bool :=
    if ¬ w.gcodeReply.IsEmpty then
      let w1 := { w with clientsServed := DataTransfer.wrap32 (w.clientsServed + 1) }
      if w1.clientsServed < w1.numSessions then
        ({ w1 with gcodeReply := w1.gcodeReply.IncreaseReferences 1 }, false)
      else (w1, true)
    else (w, false)
  let w2 := r.1
  let clearReply := r.2
  (.sent ([.status 200 "OK", .noCache, .contentType "text/plain",
      .contentLength w2.gcodeReply.DataLength] ++ AddCorsHeader E ++ [.connectionClose])
    (.stack w2.gcodeReply),
   if clearReply then { w2 with gcodeReply := [] } else w2)

/-- `HttpResponder::HandleGCodeReply(OutputBuffer *reply)` for a non-null `reply`; `now` is the
time that `OutputStack::Push` records and `pushed` tells whether the stack had room. -/
def HandleGCodeReply (pushed : Bool) (now : Nat) (reply : List Nat) (w : Statics) : Statics :=
  if w.numSessions > 0 then
    { w with
      gcodeReply := if pushed then w.gcodeReply ++ [⟨reply, 0, now⟩] else w.gcodeReply,
      clientsServed := 0,
      seq := DataTransfer.wrap16 (w.seq + 1) }
  else w

/-- `HttpResponder::HandleGCodeReply(const char *reply)`; `allocated` and `pushed` tell whether
`OutputBuffer::Allocate` and `OutputStack::Push` succeed.  Modelled from the spec: a buffer
`IsReferenced` when its references are not 0. -/
def HandleGCodeReplyText (allocated pushed : Bool) (now : Nat) (reply : List Nat)
    (w : Statics) : Statics :=
  if w.numSessions > 0 then
    match w.gcodeReply.getLast? with
    | some b =>
      if b.references ≠ 0 then
        if allocated ∧ pushed then
          { w with
            gcodeReply := w.gcodeReply ++ [⟨reply, 0, now⟩], clientsServed := 0,
            seq := DataTransfer.wrap16 (w.seq + 1) }
        else w
      else
        { w with
          gcodeReply := w.gcodeReply.dropLast ++ [{ b with data := b.data ++ reply }],
          clientsServed := 0, seq := DataTransfer.wrap16 (w.seq + 1) }
    | none =>
      if allocated ∧ pushed then
        { w with
          gcodeReply := w.gcodeReply ++ [⟨reply, 0, now⟩], clientsServed := 0,
          seq := DataTransfer.wrap16 (w.seq + 1) }
      else w
  else w

/-- The static data after `k` calls of `SendGCodeReply`. -/
def sendReplies (E : Env) : Nat → Statics → Statics
  | 0, w => w
  | k + 1, w => sendReplies E k (SendGCodeReply E w).2

/-- An environment for the remote address `ip`: a password is set and only `secret` passes the
check, output buffers are available, and the web directory holds `index.html.gz`, `index.html`
and `app.js`. -/
def sampleEnv (ip : Nat) : Env :=
  { remoteIP := ip, remotePort := 50000, now := 9000, noPasswordSet := false,
    checkPassword := fun pw => decide (pw = bytes "secret"), corsSite := false,
    haveOutBuf := true, allocateJson := true, jsonLost := false, outOverflow := false,
    webFile := fun n => decide (n = bytes "index.html.gz" ∨ n = bytes "index.html" ∨
      n = bytes "app.js"),
    sdFile := fun _ => false, fileLength := fun _ => 1234, uploadError := false,
    strToU32 := fun _ => 0, startUpload := fun _ => true, jsonLength := 20 }

end HttpResponder
namespace HttpResponder

/-! ### The JSON API, the file service and the dispatch of requests -/

/-- The text `KO_START`. -/
def KO_START : List Nat := bytes "rr_"

/-- The constant `KoFirst`. -/
def KoFirst : Nat := 3

/-- The string `commandWords[i]`. -/
def Parser.word (s : Parser) (i : Nat) : List Nat := cstring s.clientMessage (s.commandWords i)

/-- The loop of `HttpResponder::GetKeyValue` from index `i` on, with `d` entries to go. -/
def getKeyValueFrom (s : Parser) (key : List Nat) : Nat → Nat → Option (List Nat)
  | 0, _ => none
  | d + 1, i =>
    if StringEqualsIgnoreCase (cstring s.clientMessage (s.qualifiers i).key) key then
      some (cstring s.clientMessage (s.qualifiers i).value)
    else getKeyValueFrom s key d (i + 1)

/-- `HttpResponder::GetKeyValue`; `none` stands for `nullptr`. -/
def GetKeyValue (s : Parser) (key : String) : Option (List Nat) :=
  getKeyValueFrom s (bytes key) s.numQualKeys 0

/-- The loop over `headers` in `ProcessRequest` that looks for a header, from index `i` on with
`d` entries to go. -/
def getHeaderFrom (s : Parser) (key : List Nat) : Nat → Nat → Option (List Nat)
  | 0, _ => none
  | d + 1, i =>
    if StringEqualsIgnoreCase (cstring s.clientMessage (s.headers i).key) key then
      some (cstring s.clientMessage (s.headers i).value)
    else getHeaderFrom s key d (i + 1)

/-- The error code that a JSON text reports in its member `err`, if it is one of the texts made
in `HttpResponder.cpp`. -/
def JsonBody.code : JsonBody → Option Nat
  | .err n => some n
  | .login => some 0
  | .handler _ => none

/-- How a call of `GetJsonResponse` ended: it returned true with a response, or it returned
false after `RejectMessage`, or it returned false with the state `gettingFileInfo`. -/
inductive JsonResult
  | response (b : JsonBody)
  | rejected (o : Outcome)
  | fileInfo (name : Option (List Nat))
  deriving DecidableEq, Repr

/-- `HttpResponder::GetJsonResponse`, built with `HAS_MASS_STORAGE` and `SUPPORT_OBJECT_MODEL`.
`outBuf` is non-null when it runs.  The update of the clock from the qualifier `time` after a
login is outside the model. -/
def GetJsonResponse (P : WebParams) (E : Env) (s : Parser) (request : List Nat) (w : Statics) :
    JsonResult × Statics :=
  match (if StringEqualsIgnoreCase request (bytes "connect") then GetKeyValue s "password"
      else none) with
  | some parameter =>
    match CheckAuthenticated E.remoteIP E.now w with
    | (true, w1) => (.response .login, w1)
    | (false, w1) =>
      if ¬ E.checkPassword parameter then (.response (.err 1), w1)
      else
        match Authenticate P E.remoteIP E.now w1 with
        | (false, w2) => (.response (.err 2), w2)
        | (true, w2) => (.response .login, w2)
  | none =>
    match CheckAuthenticated E.remoteIP E.now w with
    | (false, w1) => (.rejected (RejectMessage E true "Not authorized" 401), w1)
    | (true, w1) =>
      if StringEqualsIgnoreCase request (bytes "disconnect") then
        match RemoveAuthentication E.remoteIP w1 with
        | (r, w2) => (.response (.err (if r then 0 else 1)), w2)
      else if StringEqualsIgnoreCase request (bytes "status") then
        (.response (.handler (.status (GetKeyValue s "type"))), w1)
      else if StringEqualsIgnoreCase request (bytes "gcode") then
        (.response (.handler (.gcode (GetKeyValue s "gcode"))), w1)
      else if StringEqualsIgnoreCase request (bytes "upload") then
        (.response (.err (if E.uploadError then 1 else 0)), w1)
      else if StringEqualsIgnoreCase request (bytes "delete") ∧ (GetKeyValue s "name").isSome then
        (.response (.handler (.delete ((GetKeyValue s "name").getD []))), w1)
      else if StringEqualsIgnoreCase request (bytes "filelist") ∧ (GetKeyValue s "dir").isSome then
        (.response (.handler (.filelist ((GetKeyValue s "dir").getD []) (GetKeyValue s "first"))),
          w1)
      else if StringEqualsIgnoreCase request (bytes "files") then
        (.response (.handler (.files (GetKeyValue s "dir") (GetKeyValue s "first")
          (GetKeyValue s "flagDirs"))), w1)
      else if StringEqualsIgnoreCase request (bytes "move") then
        match GetKeyValue s "old", GetKeyValue s "new" with
        | some oldVal, some newVal =>
          (.response (.handler (.move oldVal newVal
            (match GetKeyValue s "deleteexisting" with
              | some v => StringEqualsIgnoreCase v (bytes "yes")
              | none => false))), w1)
        | _, _ => (.response (.err 1), w1)
      else if StringEqualsIgnoreCase request (bytes "mkdir") then
        match GetKeyValue s "dir" with
        | some dirVal => (.response (.handler (.mkdir dirVal)), w1)
        | none => (.response (.err 1), w1)
      else if StringEqualsIgnoreCase request (bytes "thumbnail") then
        match GetKeyValue s "name", GetKeyValue s "offset" with
        | some nameVal, some offsetVal =>
          if E.strToU32 offsetVal ≠ 0 then
            (.response (.handler (.thumbnail nameVal (E.strToU32 offsetVal))), w1)
          else (.response (.err 1), w1)
        | _, _ => (.response (.err 1), w1)
      else if StringEqualsIgnoreCase request (bytes "fileinfo") then
        (.fileInfo (GetKeyValue s "name"), w1)
      else if StringEqualsIgnoreCase request (bytes "model") then
        (.response (.handler (.model (GetKeyValue s "key") (GetKeyValue s "flags"))), w1)
      else if StringEqualsIgnoreCase request (bytes "config") then
        (.response (.handler .config), w1)
      else (.rejected (RejectMessage E true "Unknown request" 500), w1)

/-- The content type that `SendFile` announces for a file name. -/
def contentTypeOf (name : List Nat) : String :=
  if StringEndsWithIgnoreCase name (bytes ".png") then "image/png"
  else if StringEndsWithIgnoreCase name (bytes ".ico") then "image/x-icon"
  else if StringEndsWithIgnoreCase name (bytes ".js") then "application/javascript"
  else if StringEndsWithIgnoreCase name (bytes ".css") then "text/css"
  else if StringEndsWithIgnoreCase name (bytes ".htm") ∨
      StringEndsWithIgnoreCase name (bytes ".html") then "text/html"
  else if StringEndsWithIgnoreCase name (bytes ".zip") then "application/zip"
  else if StringEndsWithIgnoreCase name (bytes ".g") ∨
      StringEndsWithIgnoreCase name (bytes ".gc") ∨
      StringEndsWithIgnoreCase name (bytes ".gcode") then "text/plain"
  else "application/octet-stream"

/-- The last part of `SendFile`, from `fileBeingSent = fileToSend` on: the reply for the file
opened under the name `opened`. -/
def fileReply (E : Env) (nameOfFileToSend opened : List Nat) (zip isWebFile : Bool) : Outcome :=
  .sent ([.status 200 "OK"] ++ (if ¬ isWebFile then [.noCache] ++ AddCorsHeader E else []) ++
      [.contentType (contentTypeOf nameOfFileToSend)] ++
      (if zip then [.contentEncodingGzip] else []) ++
      [.contentLength (E.fileLength opened), .connectionClose])
    (.file opened)

/-- The loop `for (;;)` of `SendFile`, run for at most `fuel` turns: the final
`nameOfFileToSend`, the name under which `fileToSend` was opened (`none` for `nullptr`), and
`zip`.  The result is `none` if the loop has not ended after `fuel` turns. -/
def findWebFile (P : WebParams) (E : Env) :
    Nat → List Nat → Option (List Nat × Option (List Nat) × Bool)
  | 0, _ => none
  | fuel + 1, name =>
    if ¬ StringEndsWithIgnoreCase name (bytes ".gz") ∧ E.webFile (name ++ bytes ".gz") then
      some (name, some (name ++ bytes ".gz"), true)
    else if E.webFile name then some (name, some name, false)
    else if StringEqualsIgnoreCase name P.INDEX_PAGE_FILE then
      findWebFile P E fuel P.OLD_INDEX_PAGE_FILE
    else if 46 ∉ name then findWebFile P E fuel P.INDEX_PAGE_FILE
    else some (name, none, false)

/-- The name that `SendFile` looks for, given the name passed for a web file: one leading `/`
is removed and the empty name stands for the index page. -/
def webName (P : WebParams) (nameOfFileToSend : List Nat) : List Nat :=
  let n := if nameOfFileToSend.head? = some 47 then nameOfFileToSend.drop 1 else nameOfFileToSend
  if n = [] then P.INDEX_PAGE_FILE else n

/-- `HttpResponder::SendFile` with `isWebFile` true, built with `HAS_MASS_STORAGE`; `outBuf` is
non-null when it runs.  The result is `none` if the loop needs more than `fuel` turns. -/
def SendWebFile (P : WebParams) (E : Env) (fuel : Nat) (nameOfFileToSend : List Nat) :
    Option Outcome :=
  let name := webName P nameOfFileToSend
  let found :=
    if name.length ≤ P.MaxExpectedWebDirFilenameLength then findWebFile P E fuel name
    else some (name, none, false)
  found.map fun r =>
    let r4 : List Nat × Option (List Nat) :=
      if r.2.1 = none ∧ (StringEndsWithIgnoreCase r.1 (bytes ".html") ∨
          StringEndsWithIgnoreCase r.1 (bytes ".htm")) then
        (P.FOUR04_PAGE_FILE,
          if E.webFile P.FOUR04_PAGE_FILE then some P.FOUR04_PAGE_FILE else none)
      else (r.1, r.2.1)
    match r4.2 with
    | none =>
      RejectMessage E true
        "page not found<br>Check that the SD card is mounted and has the correct files in its /www folder"
        404
    | some opened => fileReply E r4.1 opened r.2.2 true

/-- `HttpResponder::SendFile` with `isWebFile` false. -/
def SendSdFile (E : Env) (nameOfFileToSend : List Nat) : Outcome :=
  if E.sdFile nameOfFileToSend then fileReply E nameOfFileToSend nameOfFileToSend false false
  else RejectMessage E true "file not found" 404

/-- `HttpResponder::SendFile`. -/
def SendFile (P : WebParams) (E : Env) (fuel : Nat) (nameOfFileToSend : List Nat)
    (isWebFile : Bool) : Option Outcome :=
  if isWebFile then SendWebFile P E fuel nameOfFileToSend else some (SendSdFile E nameOfFileToSend)

/-- `HttpResponder::SendJsonResponse`; `outBuf` is non-null on entry.  `GetJsonResponse` leaves
`mayKeepOpen` false, so the reply is sent with `Connection: close`. -/
def SendJsonResponse (P : WebParams) (E : Env) (s : Parser) (command : List Nat)
    (w : Statics) : Outcome × Statics :=
  let r0 := CheckAuthenticated E.remoteIP E.now w
  let w1 := if ¬ r0.1 ∧ E.noPasswordSet then (Authenticate P E.remoteIP E.now r0.2).2 else r0.2
  let r1 := CheckAuthenticated E.remoteIP E.now w1
  let w2 := r1.2
  if r1.1 ∧ StringEqualsIgnoreCase command (bytes "reply") then SendGCodeReply E w2
  else
    match (if r1.1 ∧ StringEqualsIgnoreCase command (bytes "download") then GetKeyValue s "name"
        else none) with
    | some filename => (SendSdFile E filename, w2)
    | none =>
      if E.allocateJson then
        match GetJsonResponse P E s command w2 with
        | (.rejected o, w3) => (o, w3)
        | (.fileInfo name, w3) => (.gettingFileInfo name, w3)
        | (.response b, w3) =>
          if E.jsonLost then (serviceUnavailable, w3)
          else if E.outOverflow then (serviceUnavailable, w3)
          else
            (.sent ([.status 200 "OK", .noCache, .contentType "application/json",
                .contentLength E.jsonLength] ++ AddCorsHeader E ++ [.connectionClose]) (.json b),
              w3)
      else (serviceUnavailable, w2)

/-- The loop of `ProcessRequest` that marks the session of the remote address as uploading,
from index `i` on with `d` entries to go. -/
def markUploadingFrom (E : Env) : Nat → Nat → Statics → Statics
  | 0, _, w => w
  | d + 1, i, w =>
    if (w.session i).ip = E.remoteIP then
      (w.touch i).setSession i
        { w.session i with postPort := E.remotePort, isPostUploading := true }
    else markUploadingFrom E d (i + 1) (w.touch i)

/-- `HttpResponder::ProcessRequest`, built with `HAS_MASS_STORAGE`.  The result is `none` if
the file service needs more than `fuel` turns of its loop. -/
def ProcessRequest (P : WebParams) (E : Env) (fuel : Nat) (s : Parser) (w : Statics) :
    Option (Outcome × Statics) :=
  if s.numCommandWords < 2 then
    some (RejectMessage E E.haveOutBuf "too few command words" P.defaultRejectCode, w)
  else if E.haveOutBuf then
    if StringEqualsIgnoreCase (s.word 0) (bytes "GET") then
      if StringStartsWith (s.word 1) KO_START then
        some (SendJsonResponse P E s ((s.word 1).drop KoFirst) w)
      else if (s.word 1).head? = some 47 ∧ StringStartsWith ((s.word 1).drop 1) KO_START then
        some (SendJsonResponse P E s ((s.word 1).drop (1 + KoFirst)) w)
      else (SendFile P E fuel (s.word 1) true).map fun o => (o, w)
    else if StringEqualsIgnoreCase (s.word 0) (bytes "OPTIONS") then
      if E.outOverflow then some (.stalled, w)
      else
        some (.sent ([.status 204 "No Content", .allow, .noCache, .contentLength 0] ++
          (if E.corsSite then [.allowHeaders] ++ AddCorsHeader E else [])) .empty, w)
    else
      match CheckAuthenticated E.remoteIP E.now w with
      | (true, w1) =>
        if StringEqualsIgnoreCase (s.word 0) (bytes "POST") then
          match (if StringEqualsIgnoreCase (s.word 1) (KO_START ++ bytes "upload") ∨
              ((s.word 1).head? = some 47 ∧
                StringEqualsIgnoreCase ((s.word 1).drop 1) (KO_START ++ bytes "upload"))
              then GetKeyValue s "name" else none) with
          | some filename =>
            match getHeaderFrom s (bytes "Content-Length") s.numHeaderKeys 0 with
            | none =>
              some (RejectMessage E true "invalid POST upload request" P.defaultRejectCode, w1)
            | some len =>
              if ¬ E.startUpload filename then
                some (RejectMessage E true "could not create file" P.defaultRejectCode, w1)
              else
                some (.uploading filename (E.strToU32 len) (GetKeyValue s "crc32").isSome,
                  markUploadingFrom E w1.numSessions 0 w1)
          | none =>
            some (RejectMessage E true "only rr_upload is supported for POST requests"
              P.defaultRejectCode, w1)
        else
          some (RejectMessage E true "Unknown message type or not authenticated"
            P.defaultRejectCode, w1)
      | (false, w1) =>
        some (RejectMessage E true "Unknown message type or not authenticated"
          P.defaultRejectCode, w1)
  else some (.free, w)

/-- No session in use has the address `ip`. -/
def noSession (ip : Nat) (w : Statics) : Prop :=
  ∀ j, j < w.numSessions → (w.session j).ip ≠ ip

/-- The static data `v` differ from `w` at most in the record of the indices accessed. -/
def sameTable (w v : Statics) : Prop :=
  v.sessions = w.sessions ∧ v.numSessions = w.numSessions ∧ v.clientsServed = w.clientsServed ∧
    v.seq = w.seq ∧ v.gcodeReply = w.gcodeReply

/-- The parse variables after the request `GET /rr_connect?password=secret HTTP/1.1` on a fresh
connection. -/
def afterConnectRequest : Parser :=
  (feed sampleLimits (Accept (blankParser sampleLimits))
    (bytes "GET /rr_connect?password=secret HTTP/1.1\r\n\r\n")).1

/-- The parse variables after the request `GET /index.html HTTP/1.1` on a fresh connection. -/
def afterIndexRequest : Parser :=
  (feed sampleLimits (Accept (blankParser sampleLimits))
    (bytes "GET /index.html HTTP/1.1\r\n\r\n")).1

/-- A table in which every one of the four sessions of `sampleWeb` is in use, by the addresses
1, 2, 3 and 4. -/
def fullStatics : Statics :=
  runSessionOps sampleWeb id (Statics.initial (List.replicate 4 ⟨0, 0, false, 0⟩))
    [.authenticate 1 100, .authenticate 2 200, .authenticate 3 300, .authenticate 4 400]

/-- An environment in which the web directory holds only a file named `.gz`. -/
def onlyDotGz : Env :=
  { sampleEnv 10 with webFile := fun n => decide (n = bytes ".gz") }

end HttpResponder
namespace HttpResponder

/-- The invariant of the session table: `numSessions` is at most `MaxHttpSessions`, the array
`sessions` has room for `MaxHttpSessions` entries, and the sessions in use have pairwise
distinct addresses. -/
def distinctTable (P : WebParams) (w : Statics) : Prop :=
  w.numSessions ≤ P.MaxHttpSessions ∧ P.MaxHttpSessions ≤ w.sessions.length ∧
    (w.live.map (fun x => x.ip)).Nodup

end HttpResponder

namespace HttpResponder

/-- The parse variables after the request `GET /rr_connect?password=guess HTTP/1.1` on a fresh
connection. -/
def afterWrongPassword : Parser :=
  (feed sampleLimits (Accept (blankParser sampleLimits))
    (bytes "GET /rr_connect?password=guess HTTP/1.1\r\n\r\n")).1

end HttpResponder

namespace HttpResponder

/-- An environment in which the web directory holds only the page `html404.htm`. -/
def with404Page : Env :=
  { sampleEnv 5 with webFile := fun n => decide (n = bytes "html404.htm") }

/-- A target of 107 characters: `/`, 101 times `a`, and `.html`. -/
def longTarget : List Nat := [47] ++ List.replicate 101 97 ++ bytes ".html"

end HttpResponder

namespace HttpResponder

/-- The parse variables after the bytes `GET /x?` on a fresh connection: the parser is at the
start of the first query key. -/
def afterQuestionMark : Parser :=
  (feed sampleLimits (Accept (blankParser sampleLimits)) (bytes "GET /x?")).1

/-- The parse variables after the bytes `GET /x?a=b&` on a fresh connection: the parser is at
the start of the second query key. -/
def afterAmpersand : Parser :=
  (feed sampleLimits (Accept (blankParser sampleLimits)) (bytes "GET /x?a=b&")).1

end HttpResponder

namespace HttpResponder

/-- Limits with room for one header line only (`MaxHeaders = 2`) and a message buffer of 64
bytes. -/
def smallLimits : Limits :=
  { clientMessageSize := 64, MaxCommandWords := 4, MaxQualKeys := 5, MaxHeaders := 2 }

end HttpResponder
namespace HttpResponder

/-! ### Uploads -/

/-- The members of the responder that describe an upload: `postFileLength`, `uploadedBytes`,
`fileLastModified`, `postFileGotCrc`, `postFileExpectedCrc`, `timer` and `uploadError`. -/
structure Upload where
  postFileLength : Nat
  uploadedBytes : Nat
  fileLastModified : Nat
  postFileGotCrc : Bool
  postFileExpectedCrc : Nat
  timer : Nat
  uploadError : Bool
  deriving DecidableEq, Repr

/-- The upload members after `ProcessRequest` has started an upload of `length` bytes:
`expectedCrc` and `lastModified` are the values it computed from the qualifiers `crc32` and
`time`, and `uploadedBytes = 0`. -/
def Upload.started (prior : Upload) (length : Nat) (gotCrc : Bool)
    (expectedCrc lastModified : Nat) : Upload :=
  { prior with
    postFileLength := length, postFileGotCrc := gotCrc,
    postFileExpectedCrc := if gotCrc then expectedCrc else prior.postFileExpectedCrc,
    fileLastModified := lastModified, uploadedBytes := 0 }

/-- What the socket and the file system give to one call of `DoUpload`. -/
structure SocketRead where
  /-- The buffer returned by `skt->ReadBuffer(buffer, len)`, `none` if it returns false. -/
  chunk : Option (List Nat)
  /-- Result of `skt->CanRead()`. -/
  canRead : Bool
  /-- Value of `dummyUpload || fileBeingUploaded.Write(buffer, len)`. -/
  writeOk : Bool
  /-- Value of `uploadError` after `FinishUpload`. -/
  finishError : Bool

/-- What a call of `DoUpload` did: nothing but reading, or `CancelUpload` and the reply after a
write error, or `ConnectionLost`, or `FinishUpload` with its four arguments and the reply. -/
inductive UploadEvent
  | continuing
  | cancelled (reply : Outcome)
  | connectionLost
  | finished (length lastModified : Nat) (gotCrc : Bool) (expectedCrc : Nat) (reply : Outcome)
  deriving DecidableEq, Repr

/-- The loop of `DoUpload` (and of `CancelUpload`) that resets the upload state of the client,
from index `i` on with `d` entries to go. -/
def clearUploadingFrom (E : Env) : Nat → Nat → Statics → Statics
  | 0, _, w => w
  | d + 1, i, w =>
    if (w.session i).ip = E.remoteIP ∧ (w.session i).isPostUploading then
      (w.touch i).setSession i
        { w.session i with isPostUploading := false, lastQueryTime := E.now }
    else clearUploadingFrom E d (i + 1) (w.touch i)

/-- The last part of `DoUpload`, "See if the upload has finished". -/
def finishIfComplete (P : WebParams) (E : Env) (s : Parser) (k : SocketRead) (u : Upload)
    (w : Statics) : UploadEvent × Upload × Statics :=
  if u.uploadedBytes ≥ u.postFileLength then
    let w1 := clearUploadingFrom E w.numSessions 0 w
    let r := SendJsonResponse P { E with uploadError := k.finishError } s (bytes "upload") w1
    (.finished u.postFileLength u.fileLastModified u.postFileGotCrc u.postFileExpectedCrc r.1,
      { u with uploadError := k.finishError }, r.2)
  else (.continuing, u, w)

/-- `HttpResponder::DoUpload`; `s` are the parse variables of the request that started the
upload. -/
def DoUpload (P : WebParams) (E : Env) (s : Parser) (k : SocketRead) (u : Upload)
    (w : Statics) : UploadEvent × Upload × Statics :=
  match k.chunk with
  | some buffer =>
    let w1 := (CheckAuthenticated E.remoteIP E.now w).2
    let u1 :=
      { u with
        timer := E.now, uploadedBytes := DataTransfer.wrap32 (u.uploadedBytes + buffer.length) }
    if ¬ k.writeOk then
      let w2 := clearUploadingFrom E w1.numSessions 0 w1
      let r := SendJsonResponse P { E with uploadError := true } s (bytes "upload") w2
      (.cancelled r.1, { u1 with uploadError := true }, r.2)
    else finishIfComplete P E s k u1 w1
  | none =>
    if ¬ k.canRead ∨
        DataTransfer.wrap32 (E.now + 4294967296 - u.timer) ≥ P.HttpSessionTimeout then
      (.connectionLost, u, w)
    else finishIfComplete P E s k u w

/-- The calls of `DoUpload` made for a sequence of socket reads, up to and including the first
that does more than reading: the result of each call. -/
def runUpload (P : WebParams) (E : Env) (s : Parser) :
    Upload → Statics → List SocketRead → List (UploadEvent × Upload × Statics)
  | _, _, [] => []
  | u, w, k :: ks =>
    match DoUpload P E s k u w with
    | (.continuing, u1, w1) => (.continuing, u1, w1) :: runUpload P E s u1 w1 ks
    | r => [r]

/-- The number of bytes that a sequence of socket reads delivers. -/
def bytesRead (ks : List SocketRead) : Nat :=
  (ks.map fun k => (k.chunk.getD []).length).sum

/-- A socket read that delivers the bytes `c`, which are written without error. -/
def goodRead (c : List Nat) : SocketRead :=
  { chunk := some c, canRead := true, writeOk := true, finishError := false }

/-- Upload members with every field zero. -/
def blankUpload : Upload :=
  { postFileLength := 0, uploadedBytes := 0, fileLastModified := 0, postFileGotCrc := false,
    postFileExpectedCrc := 0, timer := 0, uploadError := false }

/-- The static data `v` are the static data `w` after calls made for the client with address
`ip` at the time `now`: the session of that address, among the first `numSessions`, has
`lastQueryTime = now` and, if `cleared`, `isPostUploading = false`; every other entry of
`sessions`, and `numSessions`, `clientsServed`, `seq` and the reply stack, are those of `w`. -/
def tableAfter (ip now : Nat) (cleared : Bool) (w v : Statics) : Prop :=
  v.numSessions = w.numSessions ∧ v.sessions.length = w.sessions.length ∧
    v.clientsServed = w.clientsServed ∧ v.seq = w.seq ∧ v.gcodeReply = w.gcodeReply ∧
    ∀ j, v.session j =
      if j < w.numSessions ∧ (w.session j).ip = ip then
        { w.session j with
          lastQueryTime := now,
          isPostUploading := if cleared then false else (w.session j).isPostUploading }
      else w.session j

/-- The array `sessions` of `w` once an upload of the client with address `ip` has been
finished at the time `now`: the session of that address has `isPostUploading = false` and
`lastQueryTime = now`, the other entries are those of `w`. -/
def finishedSessions (ip now : Nat) (w : Statics) : List HttpSession :=
  (List.range w.sessions.length).map fun j =>
    if j < w.numSessions ∧ (w.session j).ip = ip then
      { w.session j with lastQueryTime := now, isPostUploading := false }
    else w.session j

end HttpResponder

/-! ## Part 3. Theorems: SBC link -/

namespace DataTransfer

/-! ### Padding -/

theorem and_mask_eq (m : Nat) (h : m < 4294967296) : m &&& 4294967292 = 4 * (m / 4) := by
  apply Nat.eq_of_testBit_eq
  intro i
  have e1 : (4294967292 : Nat) = 2 ^ 2 * (2 ^ 30 - 1) := by norm_num
  have e2 : 4 * (m / 4) = 2 ^ 2 * (m >>> 2) := by
    rw [Nat.shiftRight_eq_div_pow]; norm_num
  rw [Nat.testBit_and, e1, e2, Nat.testBit_mul_pow_two, Nat.testBit_mul_pow_two,
    Nat.testBit_two_pow_sub_one, Nat.testBit_shiftRight]
  by_cases h2 : 2 ≤ i
  · by_cases h3 : i - 2 < 30
    · have : 2 + (i - 2) = i := by omega
      simp [h2, h3, this]
    · have hb : m.testBit i = false := by
        apply Nat.testBit_lt_two_pow
        calc m < 2 ^ 32 := by simpa using h
          _ ≤ 2 ^ i := Nat.pow_le_pow_right (by norm_num) (by omega)
      simp [h2, h3, hb]
  · simp [h2]

/-- Arithmetic form of `AddPadding`: round `n + 3` (reduced to 32 bits) down to a multiple of 4. -/
theorem AddPadding_eq (n : Nat) : AddPadding n = 4 * ((n + 3) % 4294967296 / 4) := by
  unfold AddPadding wrap32
  exact and_mask_eq _ (Nat.mod_lt _ (by norm_num))

theorem AddPadding_of_lt (n : Nat) (h : n + 3 < 4294967296) :
    AddPadding n = 4 * ((n + 3) / 4) := by
  rw [AddPadding_eq, Nat.mod_eq_of_lt h]

/-- C10: when `n + 3` does not overflow `size_t`, `AddPadding n` is a multiple of 4, is at
least `n`, is the least such multiple, and is one of `n`, `n+1`, `n+2`, `n+3`. -/
theorem AddPadding_least_multiple (n : Nat) (h : n + 3 < 4294967296) :
    AddPadding n % 4 = 0 ∧ n ≤ AddPadding n ∧
      (∀ m, m % 4 = 0 → n ≤ m → AddPadding n ≤ m) ∧
      (AddPadding n = n ∨ AddPadding n = n + 1 ∨ AddPadding n = n + 2 ∨ AddPadding n = n + 3) := by
  rw [AddPadding_of_lt n h]
  refine ⟨by omega, by omega, ?_, by omega⟩
  intro m hm hn
  omega

theorem AddPadding_least_multiple_witness :
    5 + 3 < 4294967296 ∧ AddPadding 5 = 8 ∧ AddPadding 5 % 4 = 0 := by
  have h := AddPadding_least_multiple 5 (by decide)
  refine ⟨by decide, ?_, h.1⟩
  rcases h with ⟨h4, hle, hmin, _⟩
  have h8 := hmin 8 (by decide) (by decide)
  omega

end DataTransfer

namespace DataTransfer

/-! ### The transfer state machine -/

/-- C3: with a completed exchange pending in state `ExchangingHeader`, `IsReady` arms the
exchange of the response code `BadFormat` / `BadProtocolVersion` / `BadDataLength` / `Success`
(chosen in this order of tests), moves to `ExchangingHeaderResponse` and returns false. -/
theorem IsReady_ExchangingHeader (P : Params) (now : Nat) (s : State)
    (hd : s.dataReceived = true) (hs : s.state = .ExchangingHeader) :
    (IsReady P now s).1 = false ∧
    (IsReady P now s).2.state = .ExchangingHeaderResponse ∧
    (IsReady P now s).2.spi = some .response ∧
    (IsReady P now s).2.txResponse = headerVerdict P s.rxHeader ∧
    (s.rxHeader.formatCode ≠ P.LinuxFormatCode →
      (IsReady P now s).2.txResponse = P.BadFormat) ∧
    (s.rxHeader.formatCode = P.LinuxFormatCode →
      s.rxHeader.protocolVersion ≠ P.LinuxProtocolVersion →
      (IsReady P now s).2.txResponse = P.BadProtocolVersion) ∧
    (s.rxHeader.formatCode = P.LinuxFormatCode →
      s.rxHeader.protocolVersion = P.LinuxProtocolVersion →
      s.rxHeader.dataLength > P.LinuxTransferBufferSize →
      (IsReady P now s).2.txResponse = P.BadDataLength) ∧
    (s.rxHeader.formatCode = P.LinuxFormatCode →
      s.rxHeader.protocolVersion = P.LinuxProtocolVersion →
      s.rxHeader.dataLength ≤ P.LinuxTransferBufferSize →
      (IsReady P now s).2.txResponse = P.Success) := by
  have key : (IsReady P now s).1 = false ∧
      (IsReady P now s).2.state = .ExchangingHeaderResponse ∧
      (IsReady P now s).2.spi = some .response ∧
      (IsReady P now s).2.txResponse = headerVerdict P s.rxHeader := by
    unfold IsReady headerVerdict
    simp only [hd, hs, if_true]
    split_ifs <;> simp [ExchangeResponse, setup_spi, hs]
  refine ⟨key.1, key.2.1, key.2.2.1, key.2.2.2, ?_, ?_, ?_, ?_⟩
  · intro h1; rw [key.2.2.2]; simp [headerVerdict, h1]
  · intro h1 h2; rw [key.2.2.2]; simp [headerVerdict, h1, h2]
  · intro h1 h2 h3; rw [key.2.2.2]; simp [headerVerdict, h1, h2, h3]
  · intro h1 h2 h3; rw [key.2.2.2]; simp [headerVerdict, h1, h2, Nat.not_lt.mpr h3]

theorem IsReady_ExchangingHeader_witness :
    (IsReady sampleParams 7
        { blankState sampleParams with
          state := .ExchangingHeader, dataReceived := true,
          rxHeader := ⟨255, 0, 1, 42, 0, 0, 0⟩ }).2.txResponse = -1 :=
  (IsReady_ExchangingHeader sampleParams 7
    { blankState sampleParams with
      state := .ExchangingHeader, dataReceived := true,
      rxHeader := ⟨255, 0, 1, 42, 0, 0, 0⟩ } rfl rfl).2.2.2.2.1 (by decide)

/-- C4: with a completed exchange pending in state `ExchangingHeaderResponse`, the next state is
`ExchangingData` exactly when both responses are `Success` and both data lengths are non-zero;
otherwise `ExchangeHeader` starts a new header exchange (state `ExchangingHeader`).  So after
we sent `BadFormat` (a code different from `Success`) the state is `ExchangingHeader` whatever
the peer answered, and likewise when both data lengths are zero. -/
theorem IsReady_ExchangingHeaderResponse (P : Params) (now : Nat) (s : State)
    (hd : s.dataReceived = true) (hs : s.state = .ExchangingHeaderResponse) :
    (IsReady P now s).1 = false ∧
    ((IsReady P now s).2.state = .ExchangingData ↔
      (s.rxResponse = P.Success ∧ s.txResponse = P.Success ∧
        s.rxHeader.dataLength ≠ 0 ∧ s.txHeader.dataLength ≠ 0)) ∧
    (¬ (s.rxResponse = P.Success ∧ s.txResponse = P.Success ∧
        s.rxHeader.dataLength ≠ 0 ∧ s.txHeader.dataLength ≠ 0) →
      (IsReady P now s).2 =
          ExchangeHeader P { s with dataReceived := false, lastTransferTime := now } ∧
        (IsReady P now s).2.state = .ExchangingHeader ∧
        (IsReady P now s).2.spi = some .header) ∧
    (P.BadFormat ≠ P.Success → s.txResponse = P.BadFormat →
      (IsReady P now s).2.state = .ExchangingHeader) ∧
    (s.rxHeader.dataLength = 0 → s.txHeader.dataLength = 0 →
      (IsReady P now s).2.state = .ExchangingHeader ∧
      (IsReady P now s).2.sequenceNumber = wrap32 (s.sequenceNumber + 1)) := by
  by_cases hc : s.rxResponse = P.Success ∧ s.txResponse = P.Success ∧
      s.rxHeader.dataLength ≠ 0 ∧ s.txHeader.dataLength ≠ 0
  · have e : IsReady P now s =
        (false, ExchangeData { s with dataReceived := false, lastTransferTime := now }) := by
      unfold IsReady
      simp only [hd, hs, if_true]
      rw [if_pos hc]
    rw [e]
    refine ⟨rfl, ?_, ?_, ?_, ?_⟩
    · simp [ExchangeData, setup_spi, hc]
    · intro h; exact absurd hc h
    · intro hbf htx; exact absurd (htx ▸ hc.2.1) hbf
    · intro h0 _; exact absurd h0 hc.2.2.1
  · have e : IsReady P now s =
        (false, ExchangeHeader P { s with dataReceived := false, lastTransferTime := now }) := by
      unfold IsReady
      simp only [hd, hs, if_true]
      rw [if_neg hc]
    rw [e]
    refine ⟨rfl, ?_, ?_, ?_, ?_⟩
    · simp [ExchangeHeader, setup_spi, hc]
    · intro _; simp [ExchangeHeader, setup_spi]
    · intro _ _; simp [ExchangeHeader, setup_spi]
    · intro _ _; simp [ExchangeHeader, setup_spi]

theorem IsReady_ExchangingHeaderResponse_witness :
    (IsReady sampleParams 7
        { blankState sampleParams with
          state := .ExchangingHeaderResponse, dataReceived := true,
          rxResponse := 0, txResponse := -1 }).2.state = .ExchangingHeader :=
  (IsReady_ExchangingHeaderResponse sampleParams 7
    { blankState sampleParams with
      state := .ExchangingHeaderResponse, dataReceived := true,
      rxResponse := 0, txResponse := -1 } rfl rfl).2.2.2.1 (by decide) rfl

/-- C5: `IsReady` returns true exactly when a completed exchange is pending in state
`ExchangingDataResponse` and the received response is `Success`; then the state is
`ProcessingData`, both pointers and `txHeader.numPackets` are 0 and `packetId` is 1.  With
another received response the data exchange is armed again with the same headers and the state
is `ExchangingData`. -/
theorem IsReady_true_iff (P : Params) (now : Nat) (s : State) :
    ((IsReady P now s).1 = true ↔
      (s.dataReceived = true ∧ s.state = .ExchangingDataResponse ∧ s.rxResponse = P.Success)) ∧
    ((IsReady P now s).1 = true →
      (IsReady P now s).2.state = .ProcessingData ∧ (IsReady P now s).2.rxPointer = 0 ∧
      (IsReady P now s).2.txPointer = 0 ∧ (IsReady P now s).2.txHeader.numPackets = 0 ∧
      (IsReady P now s).2.packetId = 1) ∧
    (s.dataReceived = true → s.state = .ExchangingDataResponse → s.rxResponse ≠ P.Success →
      (IsReady P now s).1 = false ∧
      (IsReady P now s).2.state = .ExchangingData ∧
      (IsReady P now s).2.rxHeader = s.rxHeader ∧ (IsReady P now s).2.txHeader = s.txHeader ∧
      (IsReady P now s).2.spi = some (.data s.rxHeader.dataLength s.txHeader.dataLength)) := by
  have hT : (s.dataReceived = true ∧ s.state = .ExchangingDataResponse ∧
        s.rxResponse = P.Success) →
      IsReady P now s = (true,
        { s with dataReceived := false, lastTransferTime := now, rxPointer := 0, txPointer := 0,
                 txHeader := { s.txHeader with numPackets := 0 }, packetId := 1,
                 state := .ProcessingData }) := by
    rintro ⟨hd, hs, hr⟩
    unfold IsReady
    simp only [hd, hs, if_true]
    rw [if_pos hr]
  have hF : ¬ (s.dataReceived = true ∧ s.state = .ExchangingDataResponse ∧
        s.rxResponse = P.Success) → (IsReady P now s).1 = false := by
    intro hn
    unfold IsReady
    by_cases hd : s.dataReceived = true
    · simp only [hd, if_true]
      cases hs : s.state <;> simp only [hs] <;> (try split_ifs) <;> (try rfl)
      exact absurd ⟨hd, hs, by assumption⟩ hn
    · have hd0 : s.dataReceived = false := by simpa using hd
      simp only [hd0, Bool.false_eq_true, if_false]
      split_ifs <;> rfl
  refine ⟨⟨?_, fun h => by rw [hT h]⟩, ?_, ?_⟩
  · intro h
    by_contra hn
    rw [hF hn] at h
    exact Bool.false_ne_true h
  · intro h
    have hc : s.dataReceived = true ∧ s.state = .ExchangingDataResponse ∧
        s.rxResponse = P.Success := by
      by_contra hn
      rw [hF hn] at h
      exact Bool.false_ne_true h
    rw [hT hc]
    exact ⟨rfl, rfl, rfl, rfl, rfl⟩
  · intro hd hs hr
    unfold IsReady
    simp only [hd, hs, if_true]
    rw [if_neg hr]
    simp [ExchangeData, setup_spi]

theorem IsReady_true_iff_witness :
    (IsReady sampleParams 7
        { blankState sampleParams with
          state := .ExchangingDataResponse, dataReceived := true, rxResponse := 0,
          txPointer := 24, rxPointer := 12, packetId := 3 }).2.packetId = 1 :=
  ((IsReady_true_iff sampleParams 7
    { blankState sampleParams with
      state := .ExchangingDataResponse, dataReceived := true, rxResponse := 0,
      txPointer := 24, rxPointer := 12, packetId := 3 }).2.1
    (((IsReady_true_iff sampleParams 7 _).1).2 ⟨rfl, rfl, rfl⟩)).2.2.2.2

end DataTransfer

namespace DataTransfer

/-! ### The packet writer -/

theorem runPayload_txPointer (calls : List PayloadCall) (s : State)
    (h : s.txPointer + payloadSize calls < 4294967296) :
    (runPayload s calls).txPointer = s.txPointer + payloadSize calls := by
  induction calls generalizing s with
  | nil => simp [runPayload, payloadSize]
  | cons c cs ih =>
    have hsz : payloadSize (c :: cs) = c.size + payloadSize cs := by
      simp [payloadSize]
    rw [hsz] at h ⊢
    have h1 : (PayloadCall.run s c).txPointer = s.txPointer + c.size := by
      cases c <;>
        simp only [PayloadCall.run, WriteDataHeader, WriteData, PayloadCall.size, wrap32] <;>
        apply Nat.mod_eq_of_lt <;> simp only [PayloadCall.size] at h <;> omega
    have := ih (PayloadCall.run s c) (by rw [h1]; omega)
    simp only [runPayload, List.foldl_cons] at this ⊢
    rw [this, h1]; omega

theorem WritePacketHeader_txPointer (P : Params) (s : State) (request : FirmwareRequest)
    (L resend : Nat) (h : AddPadding s.txPointer + sizeofPacketHeader < 4294967296) :
    (WritePacketHeader P s request L resend).2.txPointer =
      AddPadding s.txPointer + sizeofPacketHeader := by
  simp only [WritePacketHeader, wrap32]
  exact Nat.mod_eq_of_lt h

/-- C6: if `CanWritePacket(L)` holds, then after `WritePacketHeader(request, L)` followed by
`WriteDataHeader` / `WriteData` calls writing at most `L` bytes in total, `txPointer` is
`AddPadding(old txPointer) + sizeof(PacketHeader) +` the bytes written, hence at most
`LinuxTransferBufferSize`. -/
theorem txPointer_after_packet (P : Params) (s : State) (request : FirmwareRequest)
    (L resend : Nat) (calls : List PayloadCall)
    (hP : P.LinuxTransferBufferSize < 4294967296)
    (_htx : s.txPointer ≤ P.LinuxTransferBufferSize)
    (hcan : CanWritePacket P s L = true)
    (hL : payloadSize calls ≤ L) :
    (runPayload (WritePacketHeader P s request L resend).2 calls).txPointer =
        AddPadding s.txPointer + sizeofPacketHeader + payloadSize calls ∧
      (runPayload (WritePacketHeader P s request L resend).2 calls).txPointer ≤
        P.LinuxTransferBufferSize := by
  simp only [CanWritePacket, decide_eq_true_eq] at hcan
  have h1 := WritePacketHeader_txPointer P s request L resend (by omega)
  have h2 := runPayload_txPointer calls (WritePacketHeader P s request L resend).2
    (by rw [h1]; omega)
  rw [h2, h1]
  exact ⟨rfl, by omega⟩

theorem txPointer_after_packet_witness :
    (runPayload (WritePacketHeader sampleParams
        { blankState sampleParams with txPointer := 5 } .ReportState 6 0).2
        [.dataHeader 4, .data [1, 2]]).txPointer = 22 := by
  have h := (txPointer_after_packet sampleParams { blankState sampleParams with txPointer := 5 }
    .ReportState 6 0 [.dataHeader 4, .data [1, 2]] (by decide) (by decide) (by decide)
    (by decide)).1
  rw [h]
  decide

end DataTransfer

namespace DataTransfer

/-! ### `WriteObjectModel` -/

theorem chainUnread_length_of_fresh (chain : List OutputBuffer)
    (h : ∀ b ∈ chain, b.bytesRead = 0) : (chainUnread chain).length = chainLength chain := by
  induction chain with
  | nil => simp [chainUnread, chainLength]
  | cons b rest ih =>
    have hb := h b (List.mem_cons_self _ _)
    have := ih (fun c hc => h c (List.mem_cons_of_mem _ hc))
    simp only [chainUnread, chainLength, List.map_cons, List.flatten_cons, List.length_append,
      List.sum_cons] at this ⊢
    rw [this]
    simp [OutputBuffer.UnreadData, hb]

theorem writeChain_txPointer (chain : List OutputBuffer) (s : State)
    (h : s.txPointer + (chainUnread chain).length < 4294967296) :
    (writeChain s chain).txPointer = s.txPointer + (chainUnread chain).length := by
  induction chain generalizing s with
  | nil => simp [writeChain, chainUnread]
  | cons b rest ih =>
    have hlen : (chainUnread (b :: rest)).length =
        b.UnreadData.length + (chainUnread rest).length := by
      simp [chainUnread]
    have htake : (b.UnreadData.take b.BytesLeft).length = b.UnreadData.length := by
      simp [OutputBuffer.UnreadData, OutputBuffer.BytesLeft]
    rw [hlen] at h ⊢
    have h1 : (WriteData s (b.UnreadData.take b.BytesLeft)).txPointer =
        s.txPointer + b.UnreadData.length := by
      simp only [WriteData, wrap32, htake]
      exact Nat.mod_eq_of_lt (by omega)
    simp only [writeChain]
    rw [ih _ (by rw [h1]; omega), h1]
    omega

/-- Whenever the data fits without the `ObjectModelHeader` but not with it, `WriteObjectModel`
reports success and leaves `txPointer` beyond the transfer buffer. -/
theorem WriteObjectModel_txPointer (P : Params) (s : State) (module : Nat)
    (data : List OutputBuffer)
    (hP : P.LinuxTransferBufferSize + sizeofObjectModelHeader < 4294967296)
    (hfresh : ∀ b ∈ data, b.bytesRead = 0)
    (hfit : AddPadding s.txPointer + sizeofPacketHeader + chainLength data ≤
      P.LinuxTransferBufferSize) :
    (WriteObjectModel P s module data).1 = true ∧
      (WriteObjectModel P s module data).2.txPointer =
        AddPadding s.txPointer + sizeofPacketHeader + sizeofObjectModelHeader +
          chainLength data := by
  have hcan : CanWritePacket P s (chainLength data) = true := by
    simp only [CanWritePacket, decide_eq_true_eq]; exact hfit
  have hlen := chainUnread_length_of_fresh data hfresh
  simp only [sizeofObjectModelHeader, sizeofPacketHeader] at hP hfit ⊢
  have h1 : ∀ L, (WritePacketHeader P s .ObjectModel L 0).2.txPointer =
      AddPadding s.txPointer + 8 := fun L =>
    WritePacketHeader_txPointer P s .ObjectModel L 0
      (by simp only [sizeofPacketHeader]; omega)
  unfold WriteObjectModel
  simp only [hcan, not_true_eq_false, if_false, true_and]
  rw [writeChain_txPointer]
  · simp only [storeField, WriteDataHeader, wrap32, h1, sizeofObjectModelHeader, hlen]
    rw [Nat.mod_eq_of_lt (by omega)]
  · simp only [storeField, WriteDataHeader, wrap32, h1, sizeofObjectModelHeader, hlen]
    rw [Nat.mod_eq_of_lt (by omega)]
    omega

/-- C7 (evaluation at the failing input): with a 2048 byte transfer buffer, an empty transmit
buffer and a chain of 8 buffers with 255 bytes of object model data each (2040 bytes), the
packet needs 8 + 4 + 2040 = 2052 bytes, yet `WriteObjectModel` returns true and `txPointer` ends
at 2052, beyond the buffer. -/
theorem WriteObjectModel_overrun :
    AddPadding (blankState sampleParams).txPointer + sizeofPacketHeader +
        sizeofObjectModelHeader + chainLength (List.replicate 8 ⟨List.replicate 255 0, 0⟩) >
      sampleParams.LinuxTransferBufferSize ∧
    (WriteObjectModel sampleParams (blankState sampleParams) 1
        (List.replicate 8 ⟨List.replicate 255 0, 0⟩)).1 = true ∧
    (WriteObjectModel sampleParams (blankState sampleParams) 1
        (List.replicate 8 ⟨List.replicate 255 0, 0⟩)).2.txPointer = 2052 ∧
    ¬ (WriteObjectModel sampleParams (blankState sampleParams) 1
        (List.replicate 8 ⟨List.replicate 255 0, 0⟩)).2.txPointer ≤
      sampleParams.LinuxTransferBufferSize := by
  have hl : chainLength (List.replicate 8 ⟨List.replicate 255 0, 0⟩) = 2040 := by
    simp only [chainLength, List.map_replicate, List.length_replicate, List.sum_replicate,
      smul_eq_mul]
  have hp : AddPadding (blankState sampleParams).txPointer = 0 := by decide
  have hs : sampleParams.LinuxTransferBufferSize = 2048 := rfl
  have h := WriteObjectModel_txPointer sampleParams (blankState sampleParams) 1
    (List.replicate 8 ⟨List.replicate 255 0, 0⟩) (by decide)
    (by intro b hb; rw [List.eq_of_mem_replicate hb])
    (by rw [hl, hp, hs]; decide)
  rw [hl, hp] at h
  refine ⟨by rw [hl, hp, hs]; decide, h.1, ?_, ?_⟩
  · rw [h.2]; rfl
  · rw [h.2, hs]; decide

end DataTransfer

namespace DataTransfer

/-! ### Byte buffers -/

theorem memWrite_eq (buf : List Nat) (p : Nat) (bs : List Nat) (h : p ≤ buf.length) :
    memWrite buf p bs = buf.take p ++ bs ++ buf.drop (p + bs.length) := by
  unfold memWrite
  have : p - buf.length = 0 := by omega
  rw [this]; simp

theorem memWrite_length (buf : List Nat) (p : Nat) (bs : List Nat)
    (h : p + bs.length ≤ buf.length) : (memWrite buf p bs).length = buf.length := by
  rw [memWrite_eq buf p bs (by omega)]
  simp only [List.length_append, List.length_take, List.length_drop]
  omega

theorem memWrite_take (buf : List Nat) (p : Nat) (bs : List Nat) (h : p ≤ buf.length)
    (q : Nat) (hq : q ≤ p) : (memWrite buf p bs).take q = buf.take q := by
  rw [memWrite_eq buf p bs h, List.append_assoc, List.take_append_of_le_length
    (by rw [List.length_take]; omega), List.take_take]
  congr 1; omega

theorem memWrite_take_end (buf : List Nat) (p : Nat) (bs : List Nat) (h : p ≤ buf.length) :
    (memWrite buf p bs).take (p + bs.length) = buf.take p ++ bs := by
  rw [memWrite_eq buf p bs h]
  have hl : (buf.take p ++ bs).length = p + bs.length := by
    rw [List.length_append, List.length_take]; omega
  rw [List.take_left' hl]

theorem memWrite_drop (buf : List Nat) (p : Nat) (bs : List Nat)
    (h : p + bs.length ≤ buf.length) (q : Nat) (hq : p + bs.length ≤ q) :
    (memWrite buf p bs).drop q = buf.drop q := by
  rw [memWrite_eq buf p bs (by omega)]
  have hl : (buf.take p ++ bs).length = p + bs.length := by
    rw [List.length_append, List.length_take]; omega
  have hq2 : q = (buf.take p ++ bs).length + (q - (p + bs.length)) := by omega
  rw [hq2, List.drop_append, List.drop_drop, hl]

theorem memRead_of_take_eq (a b : List Nat) (t q n : Nat) (h : a.take t = b.take t)
    (hq : q + n ≤ t) : memRead a q n = memRead b q n := by
  unfold memRead
  have e : ∀ l : List Nat, (l.drop q).take n = ((l.take t).drop q).take n := by
    intro l
    rw [List.drop_take, List.take_take]
    congr 1; omega
  rw [e a, e b, h]

theorem memRead_memWrite_same (buf : List Nat) (p : Nat) (bs : List Nat) :
    memRead (memWrite buf p bs) p bs.length = bs := by
  unfold memRead memWrite
  have hl : ((buf ++ List.replicate (p - buf.length) 0).take p).length = p := by
    rw [List.length_take, List.length_append, List.length_replicate]; omega
  rw [List.append_assoc, List.drop_left' hl, List.take_left' rfl]

theorem memRead_memWrite_below (buf : List Nat) (p : Nat) (bs : List Nat) (q n : Nat)
    (h : p ≤ buf.length) (hq : q + n ≤ p) :
    memRead (memWrite buf p bs) q n = memRead buf q n :=
  memRead_of_take_eq _ _ p q n (by rw [memWrite_take buf p bs h p le_rfl]) hq

theorem memRead_memWrite_above (buf : List Nat) (p : Nat) (bs : List Nat) (q n : Nat)
    (h : p + bs.length ≤ buf.length) (hq : p + bs.length ≤ q) :
    memRead (memWrite buf p bs) q n = memRead buf q n := by
  unfold memRead
  rw [memWrite_drop buf p bs h q hq]

theorem memWrite_adjacent (buf : List Nat) (p : Nat) (a b : List Nat)
    (h : p + a.length ≤ buf.length) :
    memWrite (memWrite buf p a) (p + a.length) b = memWrite buf p (a ++ b) := by
  have h1 : p + a.length ≤ (memWrite buf p a).length := by
    rw [memWrite_length buf p a h]; exact h
  rw [memWrite_eq _ _ b h1, memWrite_take_end buf p a (by omega), memWrite_eq buf p (a ++ b)
    (by omega)]
  unfold memWrite
  have : p - buf.length = 0 := by omega
  rw [this]
  simp only [List.replicate_zero, List.append_nil, List.length_append, List.append_assoc]
  congr 2
  congr 1
  have hl : (buf.take p ++ a).length = p + a.length := by
    rw [List.length_append, List.length_take]; omega
  have hq2 : p + a.length + b.length = (buf.take p ++ a).length + b.length := by omega
  rw [hq2, ← List.append_assoc, List.drop_append, List.drop_drop]
  congr 1; omega

theorem leValue_le16 (v : Nat) : leValue (le16 v) = v % 65536 := by
  simp only [le16, leValue]; omega

theorem leValue_le32 (v : Nat) : leValue (le32 v) = v % 4294967296 := by
  simp only [le32, leValue]; omega

end DataTransfer

namespace DataTransfer

/-! ### Round trip of the `Locked` packet -/

theorem lockedImage_length (P : Params) (id c : Nat) : (lockedImage P id c).length = 12 := rfl

theorem lockedImages_length (P : Params) (id : Nat) (cs : List Nat) :
    (lockedImages P id cs).length = 12 * cs.length := by
  induction cs generalizing id with
  | nil => rfl
  | cons c cs ih =>
    simp only [lockedImages, List.length_append, lockedImage_length, ih, List.length_cons]
    omega

theorem AddPadding_aligned (t : Nat) (h4 : t % 4 = 0) (h : t + 3 < 4294967296) :
    AddPadding t = t := by
  rw [AddPadding_of_lt t h]; omega

theorem WriteLocked_spec (P : Params) (s : State) (c : Nat)
    (hP : P.LinuxTransferBufferSize < 4294967296)
    (h4 : s.txPointer % 4 = 0) (hfit : s.txPointer + 12 ≤ P.LinuxTransferBufferSize)
    (hlen : s.txBuffer.length = P.LinuxTransferBufferSize) :
    (WriteLocked P s c).1 = true ∧
    (WriteLocked P s c).2.txPointer = s.txPointer + 12 ∧
    (WriteLocked P s c).2.packetId = wrap16 (s.packetId + 1) ∧
    (WriteLocked P s c).2.txBuffer =
      memWrite s.txBuffer s.txPointer (lockedImage P s.packetId c) := by
  have hpad := AddPadding_aligned s.txPointer h4 (by omega)
  have hcan : CanWritePacket P s sizeofLockUnlockHeader = true := by
    simp only [CanWritePacket, decide_eq_true_eq, hpad, sizeofPacketHeader,
      sizeofLockUnlockHeader]
    omega
  unfold WriteLocked
  simp only [hcan, not_true_eq_false, if_false, true_and]
  simp only [storeField, WriteDataHeader, WritePacketHeader, hpad, wrap32, sizeofPacketHeader,
    sizeofLockUnlockHeader]
  have e1 : (s.txPointer + 8) % 4294967296 = s.txPointer + 8 := Nat.mod_eq_of_lt (by omega)
  have e2 : (s.txPointer + 8 + 4) % 4294967296 = s.txPointer + 12 := Nat.mod_eq_of_lt (by omega)
  rw [e1, e2]
  refine ⟨rfl, trivial, ?_⟩
  have a1 := memWrite_adjacent s.txBuffer s.txPointer
    (encodePacketHeader
      { request := wrap16 (P.requestCode .Locked), id := wrap16 s.packetId,
        length := wrap16 4, resendPacketId := wrap16 0 }) [c % 256]
    (by simp only [encodePacketHeader, le16, List.length_append, List.length_cons,
          List.length_nil]; omega)
  have l1 : (encodePacketHeader
      { request := wrap16 (P.requestCode .Locked), id := wrap16 s.packetId,
        length := wrap16 4, resendPacketId := wrap16 0 }).length = 8 := rfl
  rw [l1] at a1
  rw [a1]
  have a2 := memWrite_adjacent s.txBuffer s.txPointer
    (encodePacketHeader
      { request := wrap16 (P.requestCode .Locked), id := wrap16 s.packetId,
        length := wrap16 4, resendPacketId := wrap16 0 } ++ [c % 256]) [0]
    (by simp only [encodePacketHeader, le16, List.length_append, List.length_cons,
          List.length_nil]; omega)
  have l2 : (encodePacketHeader
      { request := wrap16 (P.requestCode .Locked), id := wrap16 s.packetId,
        length := wrap16 4, resendPacketId := wrap16 0 } ++ [c % 256]).length = 9 := rfl
  rw [l2] at a2
  rw [show s.txPointer + 8 + 1 = s.txPointer + 9 by omega, a2]
  have a3 := memWrite_adjacent s.txBuffer s.txPointer
    (encodePacketHeader
      { request := wrap16 (P.requestCode .Locked), id := wrap16 s.packetId,
        length := wrap16 4, resendPacketId := wrap16 0 } ++ [c % 256] ++ [0]) (le16 0)
    (by simp only [encodePacketHeader, le16, List.length_append, List.length_cons,
          List.length_nil]; omega)
  have l3 : (encodePacketHeader
      { request := wrap16 (P.requestCode .Locked), id := wrap16 s.packetId,
        length := wrap16 4, resendPacketId := wrap16 0 } ++ [c % 256] ++ [0]).length = 10 := rfl
  rw [l3] at a3
  rw [show s.txPointer + 8 + 2 = s.txPointer + 10 by omega, a3]
  simp only [lockedImage, sizeofLockUnlockHeader, List.append_assoc]

theorem WriteLocked_full (P : Params) (s : State) (c : Nat)
    (h : (WriteLocked P s c).1 = true) :
    AddPadding s.txPointer + 12 ≤ P.LinuxTransferBufferSize := by
  unfold WriteLocked at h
  by_cases hcan : CanWritePacket P s sizeofLockUnlockHeader = true
  · simp only [CanWritePacket, decide_eq_true_eq, sizeofPacketHeader,
      sizeofLockUnlockHeader] at hcan
    omega
  · simp [hcan] at h

theorem writeLockedList_spec (P : Params) (hP : P.LinuxTransferBufferSize < 4294967296)
    (cs : List Nat) : ∀ (s : State) (id : Nat),
    s.txPointer % 4 = 0 → s.txPointer ≤ P.LinuxTransferBufferSize →
    s.txBuffer.length = P.LinuxTransferBufferSize → s.packetId = wrap16 id →
    (writeLockedList P s cs).1 = true →
    (writeLockedList P s cs).2.txPointer = s.txPointer + 12 * cs.length ∧
    (writeLockedList P s cs).2.txPointer ≤ P.LinuxTransferBufferSize ∧
    (writeLockedList P s cs).2.txBuffer.take (writeLockedList P s cs).2.txPointer =
      s.txBuffer.take s.txPointer ++ lockedImages P id cs := by
  induction cs with
  | nil =>
    intro s id _ hle _ _ _
    simp [writeLockedList, lockedImages, hle]
  | cons c cs ih =>
    intro s id h4 hle hlen hid hok
    have hpad := AddPadding_aligned s.txPointer h4 (by omega)
    have h1 : (WriteLocked P s c).1 = true := by
      by_contra hn
      simp only [writeLockedList, hn] at hok
      exact Bool.false_ne_true hok
    have hfit := WriteLocked_full P s c h1
    rw [hpad] at hfit
    obtain ⟨_, htx, hpid, hbuf⟩ := WriteLocked_spec P s c hP h4 hfit hlen
    have hlen1 : (WriteLocked P s c).2.txBuffer.length = P.LinuxTransferBufferSize := by
      rw [hbuf, memWrite_length _ _ _ (by rw [lockedImage_length]; omega), hlen]
    have hid1 : (WriteLocked P s c).2.packetId = wrap16 (id + 1) := by
      rw [hpid, hid]; simp only [wrap16]; omega
    have e : writeLockedList P s (c :: cs) = writeLockedList P (WriteLocked P s c).2 cs := by
      simp only [writeLockedList, h1, if_true]
    rw [e] at hok ⊢
    obtain ⟨r1, r2, r3⟩ := ih (WriteLocked P s c).2 (id + 1) (by rw [htx]; omega)
      (by rw [htx]; omega) hlen1 hid1 hok
    refine ⟨by rw [r1, htx, List.length_cons]; omega, r2, ?_⟩
    rw [r3, htx, hbuf]
    have := memWrite_take_end s.txBuffer s.txPointer (lockedImage P s.packetId c) (by omega)
    rw [lockedImage_length] at this
    rw [this, lockedImages, List.append_assoc]
    simp only [lockedImage, hid, wrap16, Nat.mod_mod]

theorem readLocked_spec (P : Params) (s : State) (id c : Nat) (rest : List Nat)
    (hbuf : s.rxBuffer.drop s.rxPointer = lockedImage P id c ++ rest)
    (hlt : s.rxPointer < s.rxHeader.dataLength) (h32 : s.rxPointer + 12 < 4294967296) :
    readLocked s =
      (some (⟨wrap16 (P.requestCode .Locked), wrap16 id, sizeofLockUnlockHeader, 0⟩, c % 256),
        { s with rxPointer := s.rxPointer + 12 }) := by
  have rd : ∀ k n, memRead s.rxBuffer (s.rxPointer + k) n =
      ((lockedImage P id c ++ rest).drop k).take n := by
    intro k n
    unfold memRead
    rw [← List.drop_drop, hbuf]
  have e1 : (s.rxPointer + 8) % 4294967296 = s.rxPointer + 8 := Nat.mod_eq_of_lt (by omega)
  have e2 : (s.rxPointer + 8 + 4) % 4294967296 = s.rxPointer + 12 := Nat.mod_eq_of_lt (by omega)
  have r0 := rd 0 2
  rw [Nat.add_zero] at r0
  unfold readLocked ReadPacket
  rw [if_neg (by omega)]
  simp only [ReadLockUnlockRequest, ReadDataHeader, decodePacketHeader, wrap32,
    sizeofPacketHeader, sizeofLockUnlockHeader, e1, e2, r0, rd]
  simp only [lockedImage, encodePacketHeader, le16, List.append_assoc, List.cons_append,
    List.nil_append, List.drop_succ_cons, List.drop_zero, List.take_succ_cons, List.take_zero,
    leValue, wrap16, sizeofLockUnlockHeader]
  have k1 : ∀ v, v % 65536 % 256 + 256 * (v % 65536 / 256 % 256 + 256 * 0) = v % 65536 := by
    intro v; omega
  simp only [k1]
  simp only [Nat.mul_zero, Nat.add_zero, Nat.reduceMod]

theorem readLockedList_spec (P : Params) (cs : List Nat) : ∀ (s : State) (id : Nat)
    (rest : List Nat),
    s.rxBuffer.drop s.rxPointer = lockedImages P id cs ++ rest →
    s.rxHeader.dataLength = s.rxPointer + 12 * cs.length →
    s.rxHeader.dataLength < 4294967296 →
    (readLockedList cs.length s).1 = lockedExpected P id cs ∧
    (readLockedList cs.length s).2 = { s with rxPointer := s.rxHeader.dataLength } := by
  induction cs with
  | nil =>
    intro s id rest _ hd _
    simp only [List.length_nil, Nat.mul_zero, Nat.add_zero] at hd
    simp [readLockedList, lockedExpected, hd]
  | cons c cs ih =>
    intro s id rest hbuf hd h32
    simp only [List.length_cons] at hd
    rw [lockedImages, List.append_assoc] at hbuf
    have h1 := readLocked_spec P s id c _ hbuf (by omega) (by omega)
    have hbuf1 : s.rxBuffer.drop (s.rxPointer + 12) = lockedImages P (id + 1) cs ++ rest := by
      rw [← List.drop_drop, hbuf, ← lockedImage_length P id c, List.drop_left]
    obtain ⟨r1, r2⟩ := ih { s with rxPointer := s.rxPointer + 12 } (id + 1) rest hbuf1
      (by simp only []; omega) h32
    simp only [List.length_cons, readLockedList, h1, lockedExpected]
    exact ⟨by rw [r1], by rw [r2]⟩

theorem lockedExpected_eq (P : Params) (hreq : P.requestCode .Locked < 65536) (cs : List Nat) :
    ∀ id, id + cs.length ≤ 65536 → (∀ c ∈ cs, c < 256) →
    lockedExpected P id cs =
      (cs.enumFrom id).map fun ic =>
        some (⟨P.requestCode .Locked, ic.1, sizeofLockUnlockHeader, 0⟩, ic.2) := by
  induction cs with
  | nil => intro _ _ _; rfl
  | cons c cs ih =>
    intro id hid hc
    simp only [List.length_cons] at hid
    have hc0 := hc c (List.mem_cons_self _ _)
    simp only [lockedExpected, List.enumFrom_cons, List.map_cons, wrap16]
    rw [ih (id + 1) (by omega) (fun x hx => hc x (List.mem_cons_of_mem _ hx)),
      Nat.mod_eq_of_lt hreq, Nat.mod_eq_of_lt (show id < 65536 by omega),
      Nat.mod_eq_of_lt hc0]

/-- C9: round trip of `Locked` packets.  If `WriteLocked` succeeds for each of the channels
`cs` on an empty transmit buffer (`txPointer` 0, `packetId` 1) and the written bytes are received
back, then `cs.length` times `ReadPacket` + `ReadLockUnlockRequest` deliver packet headers with
request `Locked`, length `sizeof(LockUnlockHeader)`, ids 1, 2, ... and the channels of `cs` in
order, and one more `ReadPacket` returns none. -/
theorem locked_round_trip (P : Params) (s : State) (cs : List Nat)
    (hP : P.LinuxTransferBufferSize < 65536)
    (hreq : P.requestCode .Locked < 65536)
    (hlen : s.txBuffer.length = P.LinuxTransferBufferSize)
    (htx : s.txPointer = 0) (hid : s.packetId = 1)
    (hc : ∀ c ∈ cs, c < 256)
    (hok : (writeLockedList P s cs).1 = true) :
    (readLockedList cs.length (receiveOwn (writeLockedList P s cs).2)).1 =
      ((cs.enumFrom 1).map fun ic =>
        some (⟨P.requestCode .Locked, ic.1, sizeofLockUnlockHeader, 0⟩, ic.2)) ∧
    (ReadPacket (readLockedList cs.length (receiveOwn (writeLockedList P s cs).2)).2).1 =
      none := by
  obtain ⟨w1, w2, w3⟩ := writeLockedList_spec P (by omega) cs s 1 (by rw [htx]) (by omega) hlen
    (by rw [hid]; rfl) hok
  rw [htx] at w1 w3
  simp only [Nat.zero_add, List.take_zero, List.nil_append] at w1 w3
  have hbuf : (receiveOwn (writeLockedList P s cs).2).rxBuffer.drop
      (receiveOwn (writeLockedList P s cs).2).rxPointer =
      lockedImages P 1 cs ++ (writeLockedList P s cs).2.rxBuffer.drop (12 * cs.length) := by
    simp only [receiveOwn, List.drop_zero, w3, memWrite, Nat.zero_sub, List.replicate_zero,
      List.append_nil, List.take_zero, List.nil_append, Nat.zero_add, lockedImages_length]
  obtain ⟨r1, r2⟩ := readLockedList_spec P cs (receiveOwn (writeLockedList P s cs).2) 1 _ hbuf
    (by simp only [receiveOwn, w1]; omega) (by simp only [receiveOwn]; omega)
  refine ⟨?_, ?_⟩
  · rw [r1]
    exact lockedExpected_eq P hreq cs 1 (by omega) hc
  · rw [r2]
    simp [ReadPacket]

theorem locked_round_trip_witness :
    (readLockedList 2 (receiveOwn (writeLockedList sampleParams
        { blankState sampleParams with packetId := 1 } [3, 5]).2)).1 =
      [some (⟨8, 1, 4, 0⟩, 3), some (⟨8, 2, 4, 0⟩, 5)] :=
  (locked_round_trip sampleParams { blankState sampleParams with packetId := 1 } [3, 5]
    (by decide) (by decide) (List.length_replicate _ _) rfl rfl (by decide) (by
      have hl : ({ blankState sampleParams with packetId := 1 } : State).txBuffer.length =
          sampleParams.LinuxTransferBufferSize := List.length_replicate _ _
      have h := WriteLocked_spec sampleParams { blankState sampleParams with packetId := 1 } 3
        (by decide) (by decide) (by decide) hl
      have h2 := WriteLocked_spec sampleParams
        (WriteLocked sampleParams { blankState sampleParams with packetId := 1 } 3).2 5
        (by decide) (by rw [h.2.1]; decide) (by rw [h.2.1]; decide)
        (by rw [h.2.2.2, memWrite_length _ _ _ (by rw [hl, lockedImage_length]; decide), hl])
      simp only [writeLockedList, h.1, h2.1, if_true])).1

end DataTransfer

namespace DataTransfer

/-! ### `WriteCodeReply` -/

theorem UnreadData_length (b : OutputBuffer) : b.UnreadData.length = b.BytesLeft := by
  simp [OutputBuffer.UnreadData, OutputBuffer.BytesLeft]

theorem chainUnread_cons (b : OutputBuffer) (rest : List OutputBuffer) :
    chainUnread (b :: rest) = b.UnreadData ++ chainUnread rest := by
  simp [chainUnread]

theorem Taken_UnreadData (b : OutputBuffer) (n : Nat) :
    (b.Taken n).UnreadData = b.UnreadData.drop n := by
  simp only [OutputBuffer.Taken, OutputBuffer.UnreadData, List.drop_drop]

theorem Taken_BytesLeft (b : OutputBuffer) (n : Nat) :
    (b.Taken n).BytesLeft = b.BytesLeft - n := by
  simp only [OutputBuffer.Taken, OutputBuffer.BytesLeft]; omega

/-- What the copy loop of `WriteCodeReply` does when it starts inside the transfer buffer: it
returns (with fuel for one iteration per buffer), having appended a prefix of the unread reply
bytes at `txPointer` and left exactly the rest in the chain. -/
theorem copyLoop_spec (P : Params) (hP : P.LinuxTransferBufferSize < 4294967296)
    (chain : List OutputBuffer) : ∀ (fuel : Nat) (s : State) (bw : Nat),
    chain.length ≤ fuel → chain ≠ [] →
    s.txPointer ≤ P.LinuxTransferBufferSize → s.txBuffer.length = P.LinuxTransferBufferSize →
    bw + (P.LinuxTransferBufferSize - s.txPointer) < 4294967296 →
    ∃ c n, copyLoop P fuel s chain bw = some c ∧
      n ≤ (chainUnread chain).length ∧
      c.bytesWritten = bw + n ∧
      c.st.txPointer = s.txPointer + n ∧
      c.st.txPointer ≤ P.LinuxTransferBufferSize ∧
      c.st.txBuffer = memWrite s.txBuffer s.txPointer ((chainUnread chain).take n) ∧
      chainUnread c.response = (chainUnread chain).drop n ∧
      ((∀ b ∈ chain, b.BytesLeft ≠ 0) → ∀ b ∈ c.response, b.BytesLeft ≠ 0) := by
  induction chain with
  | nil => intro _ _ _ _ h; exact absurd rfl h
  | cons b rest ih =>
    intro fuel s bw hfuel _ htx hlen hbw
    obtain ⟨f, rfl⟩ : ∃ f, fuel = f + 1 := ⟨fuel - 1, by simp only [List.length_cons] at hfuel; omega⟩
    simp only [List.length_cons, Nat.add_le_add_iff_right] at hfuel
    have hspace : wrap32 (P.LinuxTransferBufferSize + 4294967296 - s.txPointer) =
        P.LinuxTransferBufferSize - s.txPointer := by
      simp only [wrap32]; omega
    have hU := UnreadData_length b
    by_cases hcase : b.BytesLeft ≤ P.LinuxTransferBufferSize - s.txPointer
    · -- the whole buffer fits: it is copied and released
      have hmin : min (P.LinuxTransferBufferSize - s.txPointer) b.BytesLeft = b.BytesLeft :=
        Nat.min_eq_right hcase
      have htake : b.UnreadData.take b.BytesLeft = b.UnreadData := by
        rw [← hU, List.take_length]
      have hleft : (b.Taken b.BytesLeft).BytesLeft = 0 := by
        rw [Taken_BytesLeft]; omega
      have htx1 : wrap32 (s.txPointer + b.UnreadData.length) = s.txPointer + b.BytesLeft := by
        simp only [wrap32, hU]; exact Nat.mod_eq_of_lt (by omega)
      have hbw1 : wrap32 (bw + b.BytesLeft) = bw + b.BytesLeft := by
        simp only [wrap32]; exact Nat.mod_eq_of_lt (by omega)
      by_cases hgo : s.txPointer + b.BytesLeft < P.LinuxTransferBufferSize ∧ rest ≠ []
      · obtain ⟨c, n, hc, hn, hcb, hct, hcle, hcbuf, hcun, hcne⟩ :=
          ih f (WriteData s b.UnreadData) (bw + b.BytesLeft) hfuel hgo.2
            (by simp only [WriteData, htx1]; omega)
            (by simp only [WriteData]
                rw [memWrite_length _ _ _ (by rw [hU]; omega), hlen])
            (by simp only [WriteData, htx1]; omega)
        refine ⟨c, b.BytesLeft + n, ?_, ?_, ?_, ?_, hcle, ?_, ?_, ?_⟩
        · simp only [copyLoop, hspace, hmin, htake, hleft, if_true, hbw1, WriteData, htx1]
          rw [if_pos hgo]
          simpa only [WriteData, htx1] using hc
        · rw [chainUnread_cons, List.length_append, hU]; omega
        · rw [hcb]; omega
        · rw [hct]; simp only [WriteData, htx1]; omega
        · rw [hcbuf]
          simp only [WriteData, htx1]
          rw [← hU, memWrite_adjacent _ _ _ _ (by rw [hU]; omega), chainUnread_cons,
            List.take_append]
        · rw [hcun, chainUnread_cons, ← hU, List.drop_append]
        · intro hall
          exact hcne (fun x hx => hall x (List.mem_cons_of_mem _ hx))
      · refine ⟨⟨WriteData s b.UnreadData, rest, bw + b.BytesLeft⟩, b.BytesLeft, ?_, ?_, rfl, ?_,
          ?_, ?_, ?_, ?_⟩
        · simp only [copyLoop, hspace, hmin, htake, hleft, if_true, hbw1, WriteData, htx1]
          rw [if_neg hgo]
        · rw [chainUnread_cons, List.length_append, hU]; omega
        · simp only [WriteData, htx1]
        · simp only [WriteData, htx1]; omega
        · simp only [WriteData]
          rw [chainUnread_cons, ← hU, List.take_left]
        · simp only []
          rw [chainUnread_cons, ← hU, List.drop_left]
        · intro hall x hx
          exact hall x (List.mem_cons_of_mem _ hx)
    · -- only a part fits: the transfer buffer is full afterwards
      have hlt : P.LinuxTransferBufferSize - s.txPointer < b.BytesLeft := by omega
      have hmin : min (P.LinuxTransferBufferSize - s.txPointer) b.BytesLeft =
          P.LinuxTransferBufferSize - s.txPointer := Nat.min_eq_left (by omega)
      have hleft : (b.Taken (P.LinuxTransferBufferSize - s.txPointer)).BytesLeft ≠ 0 := by
        rw [Taken_BytesLeft]; omega
      have hl : (b.UnreadData.take (P.LinuxTransferBufferSize - s.txPointer)).length =
          P.LinuxTransferBufferSize - s.txPointer := by
        rw [List.length_take, hU]; omega
      have htx1 : wrap32 (s.txPointer +
          (b.UnreadData.take (P.LinuxTransferBufferSize - s.txPointer)).length) =
          P.LinuxTransferBufferSize := by
        simp only [wrap32, hl]
        rw [Nat.mod_eq_of_lt (by omega)]; omega
      have hbw1 : wrap32 (bw + (P.LinuxTransferBufferSize - s.txPointer)) =
          bw + (P.LinuxTransferBufferSize - s.txPointer) := by
        simp only [wrap32]; exact Nat.mod_eq_of_lt (by omega)
      refine ⟨⟨WriteData s (b.UnreadData.take (P.LinuxTransferBufferSize - s.txPointer)),
          b.Taken (P.LinuxTransferBufferSize - s.txPointer) :: rest,
          bw + (P.LinuxTransferBufferSize - s.txPointer)⟩,
        P.LinuxTransferBufferSize - s.txPointer, ?_, ?_, rfl, ?_, ?_, ?_, ?_, ?_⟩
      · simp only [copyLoop, hspace, hmin, hleft, if_false, hbw1, WriteData, htx1,
          Nat.lt_irrefl, false_and]
      · rw [chainUnread_cons, List.length_append, hU]; omega
      · simp only [WriteData, htx1]; omega
      · simp only [WriteData, htx1]; omega
      · simp only [WriteData]
        rw [chainUnread_cons, List.take_append_of_le_length (by rw [hU]; omega)]
      · simp only []
        rw [chainUnread_cons, chainUnread_cons, Taken_UnreadData,
          List.drop_append_of_le_length (by rw [hU]; omega)]
      · intro hall x hx
        rcases List.mem_cons.mp hx with rfl | hx
        · exact hleft
        · exact hall x (List.mem_cons_of_mem _ hx)

end DataTransfer

namespace DataTransfer

theorem lor_and_self (a b : Nat) : (a ||| b) &&& b = b := by
  apply Nat.eq_of_testBit_eq
  intro i
  rw [Nat.testBit_and, Nat.testBit_or]
  cases a.testBit i <;> cases b.testBit i <;> rfl

theorem lor_lt_32 (a b : Nat) (ha : a < 4294967296) (hb : b < 4294967296) :
    a ||| b < 4294967296 := by
  have := @Nat.or_lt_two_pow a b 32 (by simpa using ha) (by simpa using hb)
  simpa using this

/-- The fields and the data read back from the buffer that `WriteCodeReply` leaves. -/
theorem codeReplyStores_reads (P : Params) (B0 : List Nat) (h : Nat) (enc : List Nat)
    (type : Nat) (D : List Nat) (more : Bool) (n : Nat)
    (henc : enc.length = 8) (hfit : h + 16 + D.length ≤ B0.length)
    (htype : type < 4294967296) (hflag : P.PushFlag < 4294967296) (hn : n + 8 < 65536) :
    (codeReplyStores P B0 h enc type D more n).length = B0.length ∧
    memRead (codeReplyStores P B0 h enc type D more n) (h + 16) D.length = D ∧
    codeReplyLength (codeReplyStores P B0 h enc type D more n) (h + 8) = n ∧
    leValue (memRead (codeReplyStores P B0 h enc type D more n) (h + 4) 2) =
      sizeofCodeReplyHeader + n ∧
    codeReplyMessageType (codeReplyStores P B0 h enc type D more n) (h + 8) =
      (if more then type ||| P.PushFlag else type) := by
  have l32 : ∀ v, (le32 v).length = 4 := fun _ => rfl
  have l16 : ∀ v, (le16 v).length = 2 := fun _ => rfl
  have L1 : (memWrite B0 h enc).length = B0.length := memWrite_length _ _ _ (by omega)
  have L2a : (memWrite (memWrite B0 h enc) (h + 8) (le32 (wrap32 type))).length = B0.length := by
    rw [memWrite_length _ _ _ (by rw [L1, l32]; omega), L1]
  have L2 : (memWrite (memWrite (memWrite B0 h enc) (h + 8) (le32 (wrap32 type))) (h + 8 + 6)
      (le16 0)).length = B0.length := by
    rw [memWrite_length _ _ _ (by rw [L2a, l16]; omega), L2a]
  have L3 : (memWrite (memWrite (memWrite (memWrite B0 h enc) (h + 8) (le32 (wrap32 type)))
      (h + 8 + 6) (le16 0)) (h + 8 + 8) D).length = B0.length := by
    rw [memWrite_length _ _ _ (by rw [L2]; omega), L2]
  have M3 : leValue (memRead (memWrite (memWrite (memWrite (memWrite B0 h enc) (h + 8)
      (le32 (wrap32 type))) (h + 8 + 6) (le16 0)) (h + 8 + 8) D) (h + 8) 4) = type := by
    rw [memRead_memWrite_below _ _ _ _ _ (by rw [L2]; omega) (by omega),
      memRead_memWrite_below _ _ _ _ _ (by rw [L2a]; omega) (by omega)]
    have := memRead_memWrite_same (memWrite B0 h enc) (h + 8) (le32 (wrap32 type))
    rw [l32] at this
    rw [this, leValue_le32]
    simp only [wrap32, Nat.mod_mod]
    exact Nat.mod_eq_of_lt htype
  simp only [codeReplyStores]
  generalize hB3 : memWrite (memWrite (memWrite (memWrite B0 h enc) (h + 8)
      (le32 (wrap32 type))) (h + 8 + 6) (le16 0)) (h + 8 + 8) D = B3 at L3 M3 ⊢
  have D3 : memRead B3 (h + 16) D.length = D := by
    rw [← hB3]; exact memRead_memWrite_same _ _ _
  -- the optional `PushFlag` store
  obtain ⟨B4, hB4, L4, D4, M4⟩ : ∃ B4,
      (if more = true then
        memWrite B3 (h + 8) (le32 (wrap32 (leValue (memRead B3 (h + 8) 4) ||| P.PushFlag)))
       else B3) = B4 ∧ B4.length = B0.length ∧ memRead B4 (h + 16) D.length = D ∧
      leValue (memRead B4 (h + 8) 4) = (if more then type ||| P.PushFlag else type) := by
    cases more
    · exact ⟨B3, by simp, L3, D3, by simpa using M3⟩
    · refine ⟨memWrite B3 (h + 8)
          (le32 (wrap32 (leValue (memRead B3 (h + 8) 4) ||| P.PushFlag))), by simp, ?_, ?_, ?_⟩
      · rw [memWrite_length _ _ _ (by rw [L3, l32]; omega), L3]
      · rw [memRead_memWrite_above _ _ _ _ _ (by rw [L3, l32]; omega) (by rw [l32]; omega)]
        exact D3
      · have := memRead_memWrite_same B3 (h + 8)
          (le32 (wrap32 (leValue (memRead B3 (h + 8) 4) ||| P.PushFlag)))
        rw [l32] at this
        rw [this, leValue_le32, M3]
        simp only [wrap32, Nat.mod_mod, if_true]
        exact Nat.mod_eq_of_lt (lor_lt_32 _ _ htype hflag)
  rw [hB4]
  have L5 : (memWrite B4 (h + 8 + 4) (le16 (wrap16 n))).length = B0.length := by
    rw [memWrite_length _ _ _ (by rw [L4, l16]; omega), L4]
  have L6 : (memWrite (memWrite B4 (h + 8 + 4) (le16 (wrap16 n))) (h + 4)
      (le16 (wrap16 (sizeofCodeReplyHeader + n)))).length = B0.length := by
    rw [memWrite_length _ _ _ (by rw [L5, l16]; omega), L5]
  refine ⟨L6, ?_, ?_, ?_, ?_⟩
  · rw [memRead_memWrite_above _ _ _ _ _ (by rw [L5, l16]; omega) (by rw [l16]; omega),
      memRead_memWrite_above _ _ _ _ _ (by rw [L4, l16]; omega) (by rw [l16]; omega)]
    exact D4
  · unfold codeReplyLength
    rw [memRead_memWrite_above _ _ _ _ _ (by rw [L5, l16]; omega) (by rw [l16]; omega)]
    have := memRead_memWrite_same B4 (h + 8 + 4) (le16 (wrap16 n))
    rw [l16] at this
    rw [this, leValue_le16]
    simp only [wrap16, Nat.mod_mod]
    exact Nat.mod_eq_of_lt (by omega)
  · have := memRead_memWrite_same (memWrite B4 (h + 8 + 4) (le16 (wrap16 n))) (h + 4)
      (le16 (wrap16 (sizeofCodeReplyHeader + n)))
    rw [l16] at this
    rw [this, leValue_le16]
    simp only [wrap16, Nat.mod_mod, sizeofCodeReplyHeader]
    exact Nat.mod_eq_of_lt (by omega)
  · unfold codeReplyMessageType
    rw [memRead_memWrite_above _ _ _ _ _ (by rw [L5, l16]; omega) (by rw [l16]; omega),
      memRead_memWrite_below _ _ _ _ _ (by rw [L4]; omega) (by omega)]
    exact M4

end DataTransfer

namespace DataTransfer

/-- Result of `WriteCodeReply` when the initial `CanWritePacket` test succeeds: it returns true
(with fuel for one iteration per buffer), the transmit buffer is `codeReplyStores` for a prefix
of `n` reply bytes and the chain keeps the rest. -/
theorem WriteCodeReply_run (P : Params) (fuel : Nat) (s : State) (type : Nat)
    (response : List OutputBuffer)
    (hP : P.LinuxTransferBufferSize < 4294967296)
    (hlen : s.txBuffer.length = P.LinuxTransferBufferSize)
    (hne : response ≠ []) (hfuel : response.length ≤ fuel)
    (hcan : CanWritePacket P s (sizeofCodeReplyHeader + min 24 (chainLength response)) = true) :
    ∃ s1 response1 n, WriteCodeReply P fuel s type response = some (true, s1, response1) ∧
      n ≤ (chainUnread response).length ∧
      AddPadding s.txPointer + 16 + n ≤ P.LinuxTransferBufferSize ∧
      s1.txPointer = AddPadding s.txPointer + 16 + n ∧
      chainUnread response1 = (chainUnread response).drop n ∧
      ((∀ b ∈ response, b.BytesLeft ≠ 0) → ∀ b ∈ response1, b.BytesLeft ≠ 0) ∧
      s1.txBuffer = codeReplyStores P s.txBuffer (AddPadding s.txPointer)
        (encodePacketHeader
          { request := wrap16 (P.requestCode .CodeReply), id := wrap16 s.packetId,
            length := wrap16 0, resendPacketId := wrap16 0 })
        type ((chainUnread response).take n) (decide (response1 ≠ [])) n := by
  have hcan0 := hcan
  simp only [CanWritePacket, decide_eq_true_eq, sizeofPacketHeader,
    sizeofCodeReplyHeader] at hcan
  have e8 : wrap32 (AddPadding s.txPointer + 8) = AddPadding s.txPointer + 8 := by
    simp only [wrap32]; exact Nat.mod_eq_of_lt (by omega)
  have e16 : wrap32 (AddPadding s.txPointer + 8 + 8) = AddPadding s.txPointer + 8 + 8 := by
    simp only [wrap32]; exact Nat.mod_eq_of_lt (by omega)
  have l16 : ∀ v, (le16 v).length = 2 := fun _ => rfl
  have l32 : ∀ v, (le32 v).length = 4 := fun _ => rfl
  have lenc : ∀ x, (encodePacketHeader x).length = 8 := fun _ => rfl
  obtain ⟨c, n, hc, hn, hcb, hct, hcle, hcbuf, hcun, hcne⟩ := copyLoop_spec P hP response fuel
    (storeField (storeField
        (WriteDataHeader (WritePacketHeader P s .CodeReply 0 0).2 sizeofCodeReplyHeader).2
        (WriteDataHeader (WritePacketHeader P s .CodeReply 0 0).2 sizeofCodeReplyHeader).1
        (le32 (wrap32 type)))
      ((WriteDataHeader (WritePacketHeader P s .CodeReply 0 0).2 sizeofCodeReplyHeader).1 + 6)
      (le16 0)) 0 hfuel hne
    (by simp only [storeField, WriteDataHeader, WritePacketHeader, sizeofPacketHeader,
          sizeofCodeReplyHeader, e8, e16]; omega)
    (by simp only [storeField, WriteDataHeader, WritePacketHeader, sizeofPacketHeader,
          sizeofCodeReplyHeader, e8]
        rw [memWrite_length, memWrite_length, memWrite_length, hlen]
        · rw [lenc]; omega
        · rw [memWrite_length _ _ _ (by rw [lenc]; omega), l32]; omega
        · rw [memWrite_length, memWrite_length _ _ _ (by rw [lenc]; omega), l16]
          · omega
          · rw [memWrite_length _ _ _ (by rw [lenc]; omega), l32]; omega)
    (by omega)
  simp only [storeField, WriteDataHeader, WritePacketHeader, sizeofPacketHeader,
    sizeofCodeReplyHeader, e8, e16, Nat.zero_add] at hc hcb hct hcle hcbuf
  refine ⟨storeField (storeField
      (if c.response ≠ [] then
        storeField c.st (AddPadding s.txPointer + 8)
          (le32 (wrap32 (leValue (memRead c.st.txBuffer (AddPadding s.txPointer + 8) 4) |||
            P.PushFlag)))
       else c.st)
      (AddPadding s.txPointer + 8 + 4) (le16 (wrap16 c.bytesWritten)))
      (AddPadding s.txPointer + 4) (le16 (wrap16 (8 + c.bytesWritten))),
    c.response, n, ?_, hn, by omega, ?_, hcun, hcne, ?_⟩
  · unfold WriteCodeReply
    rw [if_neg (by simp [hcan0])]
    simp only [storeField, WriteDataHeader, WritePacketHeader, sizeofPacketHeader,
      sizeofCodeReplyHeader, e8, e16, hc]
  · simp only [storeField]
    split_ifs <;> simp only [hct]
  · simp only [storeField, codeReplyStores, hcb, sizeofCodeReplyHeader, decide_eq_true_eq]
    split_ifs <;> simp only [hcbuf]

/-- C8 (as amended): for a non-null reply chain for which the `CanWritePacket` test of
`WriteCodeReply` succeeds, the call returns true; the `n` bytes copied behind the reply header
are the first `n` unread bytes of the reply; the caller's chain afterwards holds exactly the
remaining bytes; `CodeReplyHeader.length` is `n` and `PacketHeader.length` is
`sizeof(CodeReplyHeader) + n`; the message type stored is the caller's type with `PushFlag`
or-ed in if the caller's chain is non-null afterwards and the caller's type otherwise.  So the
flag is set whenever unsent data remains, and for a type without the flag and a chain without
empty buffers it is set exactly then. -/
theorem WriteCodeReply_spec (P : Params) (fuel : Nat) (s : State) (type : Nat)
    (response : List OutputBuffer)
    (hP : P.LinuxTransferBufferSize < 65536)
    (hflag : P.PushFlag < 4294967296) (htype : type < 4294967296)
    (hlen : s.txBuffer.length = P.LinuxTransferBufferSize)
    (hne : response ≠ []) (hfuel : response.length ≤ fuel)
    (hcan : CanWritePacket P s (sizeofCodeReplyHeader + min 24 (chainLength response)) = true) :
    ∃ s1 response1 n, WriteCodeReply P fuel s type response = some (true, s1, response1) ∧
      memRead s1.txBuffer (AddPadding s.txPointer + sizeofPacketHeader + sizeofCodeReplyHeader) n
        = (chainUnread response).take n ∧
      chainUnread response1 = (chainUnread response).drop n ∧
      n + (chainUnread response1).length = (chainUnread response).length ∧
      codeReplyLength s1.txBuffer (AddPadding s.txPointer + sizeofPacketHeader) = n ∧
      (decodePacketHeader s1.txBuffer (AddPadding s.txPointer)).length =
        sizeofCodeReplyHeader + n ∧
      codeReplyMessageType s1.txBuffer (AddPadding s.txPointer + sizeofPacketHeader) =
        (if response1 ≠ [] then type ||| P.PushFlag else type) ∧
      (chainUnread response1 ≠ [] →
        codeReplyMessageType s1.txBuffer (AddPadding s.txPointer + sizeofPacketHeader) &&&
          P.PushFlag = P.PushFlag) ∧
      (type &&& P.PushFlag = 0 → P.PushFlag ≠ 0 → (∀ b ∈ response, b.BytesLeft ≠ 0) →
        (codeReplyMessageType s1.txBuffer (AddPadding s.txPointer + sizeofPacketHeader) &&&
          P.PushFlag ≠ 0 ↔ chainUnread response1 ≠ [])) := by
  obtain ⟨s1, response1, n, hrun, hn, hfit, _, hun, hnonempty, hbuf⟩ :=
    WriteCodeReply_run P fuel s type response (by omega) hlen hne hfuel hcan
  have hD : ((chainUnread response).take n).length = n := by
    rw [List.length_take]; omega
  obtain ⟨_, rD, rL, rP, rM⟩ := codeReplyStores_reads P s.txBuffer (AddPadding s.txPointer)
    (encodePacketHeader
      { request := wrap16 (P.requestCode .CodeReply), id := wrap16 s.packetId,
        length := wrap16 0, resendPacketId := wrap16 0 })
    type ((chainUnread response).take n) (decide (response1 ≠ [])) n rfl
    (by rw [hD, hlen]; omega) htype hflag (by omega)
  rw [← hbuf] at rD rL rP rM
  rw [hD] at rD
  simp only [decide_eq_true_eq] at rM
  have hnull : chainUnread response1 ≠ [] → response1 ≠ [] := by
    intro h1 h2; rw [h2] at h1; exact h1 rfl
  refine ⟨s1, response1, n, hrun, ?_, hun, ?_, ?_, ?_, ?_, ?_, ?_⟩
  · simpa only [sizeofPacketHeader, sizeofCodeReplyHeader, Nat.add_assoc] using rD
  · rw [hun, List.length_drop]; omega
  · simpa only [sizeofPacketHeader] using rL
  · simpa only [decodePacketHeader] using rP
  · simpa only [sizeofPacketHeader] using rM
  · intro h1
    simp only [sizeofPacketHeader]
    rw [rM, if_pos (hnull h1)]
    exact lor_and_self _ _
  · intro ht hpf hall
    simp only [sizeofPacketHeader]
    rw [rM]
    constructor
    · intro hm
      by_cases hr : response1 = []
      · rw [if_neg (by simpa using hr), ht] at hm
        exact absurd rfl hm
      · obtain ⟨b, rest, rfl⟩ := List.exists_cons_of_ne_nil hr
        have hb := hnonempty hall b (List.mem_cons_self _ _)
        intro hu
        rw [chainUnread_cons] at hu
        have := congrArg List.length hu
        rw [List.length_append, UnreadData_length] at this
        simp only [List.length_nil] at this
        omega
    · intro hu
      rw [if_pos (hnull hu), lor_and_self]
      exact hpf

theorem WriteCodeReply_spec_witness :
    ∃ s1 response1 n,
      WriteCodeReply sampleParams 1 (blankState sampleParams) 3 [⟨[104, 105], 0⟩] =
        some (true, s1, response1) ∧
      codeReplyLength s1.txBuffer 8 = n ∧ (decodePacketHeader s1.txBuffer 0).length = 8 + n := by
  obtain ⟨s1, response1, n, h1, _, _, _, h5, h6, _⟩ :=
    WriteCodeReply_spec sampleParams 1 (blankState sampleParams) 3 [⟨[104, 105], 0⟩]
      (by decide) (by decide) (by decide) (List.length_replicate _ _) (by simp) (by decide)
      (by decide)
  exact ⟨s1, response1, n, h1, h5, h6⟩

/-- C8 (counterexample to the claim as stated): a one-byte reply sent with a message type that
already carries `PushFlag` is copied completely (the caller's chain is null afterwards, no
unsent data remains), yet the `PushFlag` bit is set in the reply header. -/
theorem WriteCodeReply_flag_without_rest :
    ∃ s1, WriteCodeReply sampleParams 1 (blankState sampleParams) sampleParams.PushFlag
        [⟨[97], 0⟩] = some (true, s1, []) ∧
      chainUnread ([] : List OutputBuffer) = [] ∧
      codeReplyMessageType s1.txBuffer 8 &&& sampleParams.PushFlag ≠ 0 := by
  have hlen : (blankState sampleParams).txBuffer.length = sampleParams.LinuxTransferBufferSize :=
    List.length_replicate _ _
  obtain ⟨s1, response1, n, hrun, hn, hfit, _, _, _, hbuf⟩ :=
    WriteCodeReply_run sampleParams 1 (blankState sampleParams) sampleParams.PushFlag
      [⟨[97], 0⟩] (by decide) hlen (by simp) (by decide) (by decide)
  have hr : (WriteCodeReply sampleParams 1 (blankState sampleParams) sampleParams.PushFlag
      [⟨[97], 0⟩]).map (fun x => x.2.2) = some [] := by decide
  rw [hrun] at hr
  simp only [Option.map_some', Option.some.injEq] at hr
  subst hr
  have hp : AddPadding (blankState sampleParams).txPointer = 0 := by decide
  rw [hp] at hbuf hfit
  have hD : ((chainUnread [⟨[97], 0⟩]).take n).length = n := by
    rw [List.length_take]; omega
  have hs : sampleParams.LinuxTransferBufferSize = 2048 := rfl
  obtain ⟨_, _, _, _, rM⟩ := codeReplyStores_reads sampleParams
    (blankState sampleParams).txBuffer 0
    (encodePacketHeader
      { request := wrap16 (sampleParams.requestCode .CodeReply),
        id := wrap16 (blankState sampleParams).packetId,
        length := wrap16 0, resendPacketId := wrap16 0 })
    sampleParams.PushFlag ((chainUnread [⟨[97], 0⟩]).take n)
    (decide (([] : List OutputBuffer) ≠ [])) n rfl
    (by rw [hD, hlen, hs]; omega) (by decide) (by decide) (by rw [hs] at hfit; omega)
  rw [← hbuf] at rM
  refine ⟨s1, hrun, rfl, ?_⟩
  rw [show (0 : Nat) + 8 = 8 from rfl] at rM
  rw [rM]
  decide

end DataTransfer

namespace DataTransfer

/-! ### Operations between transfers -/

theorem wrap32_succ_ne (n : Nat) : wrap32 (n + 1) ≠ n := by
  unfold wrap32
  omega

theorem wrap32_lt (n : Nat) : wrap32 n < 4294967296 := by
  unfold wrap32
  omega

/-- What `IsReady` does to the fields that only the writer and `ExchangeHeader` maintain: the
call either returns true with `packetId = 1` and `numPackets = 0`, or returns false and leaves
both as they were. -/
theorem IsReady_writer_fields (P : Params) (now : Nat) (s : State) :
    ((IsReady P now s).1 = true ∧ (IsReady P now s).2.packetId = 1 ∧
      (IsReady P now s).2.txHeader.numPackets = 0) ∨
    ((IsReady P now s).1 = false ∧ (IsReady P now s).2.packetId = s.packetId ∧
      (IsReady P now s).2.txHeader.numPackets = s.txHeader.numPackets) := by
  unfold IsReady
  by_cases hd : s.dataReceived = true
  · simp only [hd, if_true]
    cases hs : s.state <;> simp only [hs] <;> (try split_ifs) <;>
      simp [ExchangeResponse, ExchangeHeader, ExchangeData, setup_spi, disable_spi]
  · have hd0 : s.dataReceived = false := by simpa using hd
    simp only [hd0, Bool.false_eq_true, if_false]
    split_ifs <;> simp [ExchangeHeader, setup_spi, disable_spi]

/-- Every operation either leaves `sequenceNumber` and `txHeader.sequenceNumber` alone or does
what `ExchangeHeader` does to them. -/
theorem Op.run_sequenceNumber (P : Params) (s : State) (op : Op) :
    ((op.run P s).sequenceNumber = s.sequenceNumber ∧
      (op.run P s).txHeader.sequenceNumber = s.txHeader.sequenceNumber) ∨
    ((op.run P s).txHeader.sequenceNumber = s.sequenceNumber ∧
      (op.run P s).sequenceNumber = wrap32 (s.sequenceNumber + 1)) := by
  cases op with
  | isReady now =>
    simp only [Op.run]
    unfold IsReady
    by_cases hd : s.dataReceived = true
    · simp only [hd, if_true]
      cases hs : s.state <;> simp only [hs] <;> (try split_ifs) <;>
        simp [ExchangeResponse, ExchangeHeader, ExchangeData, setup_spi, disable_spi]
    · have hd0 : s.dataReceived = false := by simpa using hd
      simp only [hd0, Bool.false_eq_true, if_false]
      split_ifs <;> simp [ExchangeHeader, setup_spi, disable_spi]
  | startNextTransfer => right; exact ⟨rfl, rfl⟩
  | transferDone _ _ _ => left; exact ⟨rfl, rfl⟩
  | writePacketHeader _ _ _ => left; exact ⟨rfl, rfl⟩
  | writeData _ => left; exact ⟨rfl, rfl⟩
  | writeDataHeader _ => left; exact ⟨rfl, rfl⟩
  | store _ _ => left; exact ⟨rfl, rfl⟩
  | readPacket =>
    left
    simp only [Op.run, ReadPacket]
    split_ifs <;> exact ⟨rfl, rfl⟩
  | readData _ => left; exact ⟨rfl, rfl⟩
  | readDataHeader _ => left; exact ⟨rfl, rfl⟩

/-- Every operation leaves `txHeader.numPackets` alone or sets it to 0. -/
theorem Op.run_numPackets (P : Params) (s : State) (op : Op) :
    (op.run P s).txHeader.numPackets = s.txHeader.numPackets ∨
      (op.run P s).txHeader.numPackets = 0 := by
  cases op with
  | isReady now =>
    rcases IsReady_writer_fields P now s with h | h
    · exact Or.inr h.2.2
    · exact Or.inl h.2.2
  | startNextTransfer => left; rfl
  | transferDone _ _ _ => left; rfl
  | writePacketHeader _ _ _ => left; rfl
  | writeData _ => left; rfl
  | writeDataHeader _ => left; rfl
  | store _ _ => left; rfl
  | readPacket =>
    left
    simp only [Op.run, ReadPacket]
    split_ifs <;> rfl
  | readData _ => left; rfl
  | readDataHeader _ => left; rfl

theorem runOps_numPackets (P : Params) (ops : List Op) :
    ∀ s : State, s.txHeader.numPackets = 0 → (runOps P s ops).txHeader.numPackets = 0 := by
  induction ops with
  | nil => intro s h; exact h
  | cons op ops ih =>
    intro s h
    have e : runOps P s (op :: ops) = runOps P (op.run P s) ops := rfl
    rw [e]
    apply ih
    rcases Op.run_numPackets P s op with h1 | h1
    · rw [h1, h]
    · exact h1

theorem sequenceNumbersSent_from (P : Params) (ops : List Op) :
    ∀ s : State, s.sequenceNumber < 4294967296 →
      sequenceNumbersSent P s ops =
        (List.range (sequenceNumbersSent P s ops).length).map
          (fun i => wrap32 (s.sequenceNumber + i)) := by
  induction ops with
  | nil => intro s _; rfl
  | cons op ops ih =>
    intro s hs
    rcases Op.run_sequenceNumber P s op with ⟨h1, _⟩ | ⟨h1, h2⟩
    · have e : sequenceNumbersSent P s (op :: ops) = sequenceNumbersSent P (op.run P s) ops := by
        simp [sequenceNumbersSent, h1]
      have ih1 := ih (op.run P s) (by rw [h1]; exact hs)
      rw [h1] at ih1
      rw [e]
      exact ih1
    · have hne : (op.run P s).sequenceNumber ≠ s.sequenceNumber := by
        rw [h2]; exact wrap32_succ_ne _
      have e : sequenceNumbersSent P s (op :: ops) =
          s.sequenceNumber :: sequenceNumbersSent P (op.run P s) ops := by
        simp [sequenceNumbersSent, hne, h1]
      have ih1 := ih (op.run P s) (by rw [h2]; exact wrap32_lt _)
      rw [e, List.length_cons, List.range_succ_eq_map, List.map_cons, List.map_map]
      have e0 : wrap32 (s.sequenceNumber + 0) = s.sequenceNumber := by
        unfold wrap32; omega
      rw [e0]
      congr 1
      rw [ih1]
      simp only [List.length_map, List.length_range]
      apply List.map_congr_left
      intro i _
      simp only [Function.comp, h2]
      unfold wrap32
      omega

/-- C11 (what the code does): no operation counts packets in `txHeader.numPackets`.  The field
is 0 after construction and after every sequence of operations, however many calls of
`WritePacketHeader` the sequence holds. -/
theorem numPackets_stays_zero (P : Params) (u : State) (ops : List Op) :
    (runOps P (construct P u) ops).txHeader.numPackets = 0 :=
  runOps_numPackets P ops (construct P u) rfl

/-- C14: `ExchangeHeader` stores the current `sequenceNumber` in `txHeader.sequenceNumber` and
then increments `sequenceNumber` modulo 2^32; every operation either leaves both alone or does
exactly this; so the sequence numbers of the transfer headers set up for transmission after
construction are 1, 2, 3, ... modulo 2^32, whatever the operations. -/
theorem ExchangeHeader_sequenceNumber (P : Params) (u : State) :
    (∀ s : State, (ExchangeHeader P s).txHeader.sequenceNumber = s.sequenceNumber ∧
      (ExchangeHeader P s).sequenceNumber = (s.sequenceNumber + 1) % 2 ^ 32) ∧
    (∀ (s : State) (op : Op),
      ((op.run P s).sequenceNumber = s.sequenceNumber ∧
        (op.run P s).txHeader.sequenceNumber = s.txHeader.sequenceNumber) ∨
      ((op.run P s).txHeader.sequenceNumber = s.sequenceNumber ∧
        (op.run P s).sequenceNumber = (s.sequenceNumber + 1) % 2 ^ 32)) ∧
    (∀ s : State, sequenceNumbersSent P s [.startNextTransfer] = [s.sequenceNumber]) ∧
    (∀ ops : List Op, sequenceNumbersSent P (construct P u) ops =
      (List.range (sequenceNumbersSent P (construct P u) ops).length).map
        (fun i => (1 + i) % 2 ^ 32)) := by
  refine ⟨fun s => ⟨rfl, rfl⟩, fun s op => Op.run_sequenceNumber P s op, ?_, ?_⟩
  · intro s
    have hne : wrap32 (s.sequenceNumber + 1) ≠ s.sequenceNumber := wrap32_succ_ne _
    simp [sequenceNumbersSent, Op.run, StartNextTransfer, ExchangeHeader, setup_spi, hne]
  · intro ops
    exact sequenceNumbersSent_from P ops (construct P u) (show (1 : Nat) < 4294967296 by norm_num)

/-- C15 (as the code behaves): `StartNextTransfer` sets up a header exchange and enters state
`ExchangingHeader`; it announces `txPointer` as the length of the data to send and leaves
`rxPointer` and `txPointer` as they were. -/
theorem StartNextTransfer_spec (P : Params) (s : State) :
    (StartNextTransfer P s).state = .ExchangingHeader ∧
    (StartNextTransfer P s).spi = some .header ∧
    (StartNextTransfer P s).txHeader.dataLength = s.txPointer ∧
    (StartNextTransfer P s).rxPointer = s.rxPointer ∧
    (StartNextTransfer P s).txPointer = s.txPointer :=
  ⟨rfl, rfl, rfl, rfl, rfl⟩

/-- C15 (counterexample): after construction and one packet header, `StartNextTransfer` leaves
`txPointer = 8`, not 0. -/
theorem StartNextTransfer_keeps_txPointer :
    (StartNextTransfer sampleParams
      (WritePacketHeader sampleParams (construct sampleParams (blankState sampleParams))
        .Locked 0 0).2).txPointer = 8 := by
  decide

/-- C16: with no completed exchange pending, (a) in state `Initializing` with
`millis() > SpiTransferTimeout` and (b) in every state other than `ExchangingHeader` with
`millis() - lastTransferTime > SpiTransferTimeout` (32-bit subtraction), `IsReady` calls
`ExchangeHeader`, so that a header exchange is set up, the state is `ExchangingHeader`, and the
result is false; (c) in state `ExchangingHeader` the result is false, the state stays
`ExchangingHeader`, and neither the SPI set-up nor the transmit header nor `sequenceNumber`
changes, whatever the time. -/
theorem IsReady_timeout (P : Params) (now : Nat) (s : State) (hd : s.dataReceived = false) :
    (s.state = .Initializing → now > P.SpiTransferTimeout →
      IsReady P now s = (false, ExchangeHeader P s) ∧
      (IsReady P now s).2.state = .ExchangingHeader ∧
      (IsReady P now s).2.spi = some .header) ∧
    (s.state ≠ .ExchangingHeader →
      (now + 2 ^ 32 - s.lastTransferTime) % 2 ^ 32 > P.SpiTransferTimeout →
      IsReady P now s = (false, ExchangeHeader P s) ∧
      (IsReady P now s).2.state = .ExchangingHeader ∧
      (IsReady P now s).2.spi = some .header) ∧
    (s.state = .ExchangingHeader →
      (IsReady P now s).1 = false ∧
      (IsReady P now s).2.state = .ExchangingHeader ∧
      (IsReady P now s).2.spi = s.spi ∧
      (IsReady P now s).2.transferReady = s.transferReady ∧
      (IsReady P now s).2.txHeader = s.txHeader ∧
      (IsReady P now s).2.sequenceNumber = s.sequenceNumber) := by
  refine ⟨?_, ?_, ?_⟩
  · intro hs hn
    have e : IsReady P now s = (false, ExchangeHeader P s) := by
      unfold IsReady
      simp only [hd, Bool.false_eq_true, if_false, hs, hn, and_self, if_true]
    rw [e]
    exact ⟨rfl, rfl, rfl⟩
  · intro hs hn
    have e : IsReady P now s = (false, ExchangeHeader P s) := by
      unfold IsReady
      simp only [hd, Bool.false_eq_true, if_false]
      have hn1 : wrap32 (now + 4294967296 - s.lastTransferTime) > P.SpiTransferTimeout := hn
      split_ifs with h1 h2
      · rfl
      · rfl
      · exact absurd ⟨hs, hn1⟩ h2
      · exact absurd ⟨hs, hn1⟩ h2
    rw [e]
    exact ⟨rfl, rfl, rfl⟩
  · intro hs
    unfold IsReady
    simp only [hd, Bool.false_eq_true, if_false, hs]
    split_ifs <;> simp_all

theorem IsReady_timeout_witness :
    (IsReady sampleParams 501 (construct sampleParams (blankState sampleParams))).2.state =
        .ExchangingHeader ∧
      (IsReady sampleParams 5000
        { blankState sampleParams with state := .ExchangingData, lastTransferTime := 4000 }).2.spi =
        some .header ∧
      (IsReady sampleParams 5000
        { blankState sampleParams with state := .ExchangingHeader, spi := some .header }).2.spi =
        some .header :=
  ⟨((IsReady_timeout sampleParams 501 (construct sampleParams (blankState sampleParams)) rfl).1
      rfl (by decide)).2.1,
    ((IsReady_timeout sampleParams 5000
      { blankState sampleParams with state := .ExchangingData, lastTransferTime := 4000 }
      rfl).2.1 (by decide) (by decide)).2.2,
    ((IsReady_timeout sampleParams 5000
      { blankState sampleParams with state := .ExchangingHeader, spi := some .header }
      rfl).2.2 rfl).2.2.1⟩

end DataTransfer

namespace DataTransfer

/-! ### Packet ids -/

theorem memRead_memWrite_inside (buf : List Nat) (p : Nat) (bs : List Nat) (a n : Nat)
    (h : a + n ≤ bs.length) :
    memRead (memWrite buf p bs) (p + a) n = (bs.drop a).take n := by
  unfold memRead memWrite
  have hl : ((buf ++ List.replicate (p - buf.length) 0).take p).length = p := by
    rw [List.length_take, List.length_append, List.length_replicate]; omega
  rw [List.append_assoc, ← List.drop_drop, List.drop_left' hl,
    List.drop_append_of_le_length (by omega), List.take_append_of_le_length]
  rw [List.length_drop]; omega

theorem WritePacketHeader_id (P : Params) (s : State) (request : FirmwareRequest)
    (dataLength resendPacketId : Nat) :
    (decodePacketHeader (WritePacketHeader P s request dataLength resendPacketId).2.txBuffer
      (WritePacketHeader P s request dataLength resendPacketId).1).id = wrap16 s.packetId := by
  simp only [WritePacketHeader, decodePacketHeader]
  rw [memRead_memWrite_inside _ _ _ 2 2 (by simp [encodePacketHeader, le16])]
  simp only [encodePacketHeader, le16, List.cons_append, List.nil_append, List.drop_succ_cons,
    List.drop_zero, List.take_succ_cons, List.take_zero, leValue, wrap16]
  omega

theorem idsWritten_inv (P : Params) (ops : List Op) :
    ∀ (s : State) (acc : List Nat), s.packetId = wrap16 (acc.length + 1) →
      (∀ j v, acc[j]? = some v → v = wrap16 (j + 1)) →
      ∀ j v, (idsWritten P s ops acc)[j]? = some v → v = wrap16 (j + 1) := by
  induction ops with
  | nil => intro s acc _ hacc; exact hacc
  | cons op ops ih =>
    intro s acc hp hacc
    cases op with
    | writePacketHeader request dataLength resendPacketId =>
      simp only [idsWritten]
      apply ih
      · simp only [WritePacketHeader, List.length_append, List.length_singleton, hp, wrap16]
        omega
      · intro j v hj
        rw [WritePacketHeader_id] at hj
        by_cases hlt : j < acc.length
        · rw [List.getElem?_append_left hlt] at hj
          exact hacc j v hj
        · rw [List.getElem?_append_right (by omega)] at hj
          have hj0 : j - acc.length = 0 := by
            by_contra hne
            obtain ⟨m, hm⟩ : ∃ m, j - acc.length = m + 1 := ⟨j - acc.length - 1, by omega⟩
            rw [hm] at hj
            simp at hj
          rw [hj0] at hj
          simp only [List.getElem?_cons_zero, Option.some.injEq] at hj
          rw [← hj, hp]
          have : j = acc.length := by omega
          rw [this]
          simp only [wrap16]
          omega
    | isReady now =>
      simp only [idsWritten]
      rcases IsReady_writer_fields P now s with ⟨h1, h2, _⟩ | ⟨h1, h2, _⟩
      · rw [h1]
        simp only [if_true]
        apply ih
        · rw [h2]; rfl
        · intro j v hj; simp at hj
      · rw [h1]
        simp only [Bool.false_eq_true, if_false]
        apply ih
        · rw [h2]; exact hp
        · exact hacc
    | startNextTransfer => simp only [idsWritten]; exact ih _ _ hp hacc
    | transferDone _ _ _ => simp only [idsWritten]; exact ih _ _ hp hacc
    | writeData _ => simp only [idsWritten]; exact ih _ _ hp hacc
    | writeDataHeader _ => simp only [idsWritten]; exact ih _ _ hp hacc
    | store _ _ => simp only [idsWritten]; exact ih _ _ hp hacc
    | readPacket =>
      simp only [idsWritten]
      apply ih _ _ _ hacc
      simp only [Op.run, ReadPacket]
      split_ifs <;> exact hp
    | readData _ => simp only [idsWritten]; exact ih _ _ hp hacc
    | readDataHeader _ => simp only [idsWritten]; exact ih _ _ hp hacc

theorem idsWritten_get (P : Params) (u : State) (ops : List Op) (k : Nat) (hk : 1 ≤ k)
    (hlen : k ≤ (idsWritten P (construct P u) ops []).length) (h16 : k < 65536) :
    (idsWritten P (construct P u) ops [])[k - 1]? = some k := by
  have hlt : k - 1 < (idsWritten P (construct P u) ops []).length := by omega
  rw [List.getElem?_eq_getElem hlt]
  have h := idsWritten_inv P ops (construct P u) [] rfl (by intro j v hj; simp at hj) (k - 1)
    _ (List.getElem?_eq_getElem hlt)
  rw [h]
  simp only [wrap16]
  congr 1
  omega

/-- C12: after construction, and again after every call of `IsReady` that returned true, the
k-th call of `WritePacketHeader` (for k below 2^16) stores id = k in its packet header, whatever
other operations are made in between; so the ids stored before it are smaller. -/
theorem packet_ids (P : Params) (u : State) (ops : List Op) (k : Nat) (hk : 1 ≤ k)
    (hlen : k ≤ (idsWritten P (construct P u) ops []).length) (h16 : k < 65536) :
    (idsWritten P (construct P u) ops [])[k - 1]? = some k ∧
    ∀ i, 1 ≤ i → i < k →
      ∃ a, (idsWritten P (construct P u) ops [])[i - 1]? = some a ∧ a < k :=
  ⟨idsWritten_get P u ops k hk hlen h16,
    fun i hi hik =>
      ⟨i, idsWritten_get P u ops i hi (by omega) (by omega), hik⟩⟩

theorem packet_ids_witness :
    (runOps sampleParams (construct sampleParams (blankState sampleParams))
        (sampleOps.take 12)).state = .ProcessingData ∧
      2 ≤ (idsWritten sampleParams (construct sampleParams (blankState sampleParams))
        sampleOps []).length ∧
      (idsWritten sampleParams (construct sampleParams (blankState sampleParams))
        sampleOps [])[2 - 1]? = some 2 :=
  ⟨by decide!, by decide!,
    (packet_ids sampleParams (blankState sampleParams) sampleOps 2 (by decide) (by decide!)
      (by decide)).1⟩

/-! ### The read pointer -/

theorem ReadCall.run_fields (s : State) (c : ReadCall) :
    (c.run s).rxPointer = wrap32 (s.rxPointer + c.advance) ∧ (c.run s).rxHeader = s.rxHeader ∧
      (c.run s).rxBuffer = s.rxBuffer := by
  cases c <;> exact ⟨rfl, rfl, rfl⟩

theorem readTrace_bound (calls : List ReadCall) :
    ∀ (s : State) (B : Nat), s.rxPointer + (calls.map ReadCall.advance).sum ≤ B →
      B < 4294967296 →
      (∀ p ∈ readTrace s calls, p ≤ B) ∧
      (runReads s calls).rxPointer = s.rxPointer + (calls.map ReadCall.advance).sum ∧
      (runReads s calls).rxHeader = s.rxHeader := by
  induction calls with
  | nil => intro s B _ _; exact ⟨by intro p hp; simp [readTrace] at hp, rfl, rfl⟩
  | cons c cs ih =>
    intro s B hB h32
    simp only [List.map_cons, List.sum_cons] at hB
    obtain ⟨e1, e2, _⟩ := ReadCall.run_fields s c
    have e1b : (c.run s).rxPointer = s.rxPointer + c.advance := by
      rw [e1]; unfold wrap32; omega
    obtain ⟨i1, i2, i3⟩ := ih (c.run s) B (by rw [e1b]; omega) h32
    refine ⟨?_, ?_, ?_⟩
    · intro p hp
      simp only [readTrace, List.mem_cons] at hp
      rcases hp with hp | hp
      · rw [hp, e1b]; omega
      · exact i1 p hp
    · have e : runReads s (c :: cs) = runReads (c.run s) cs := rfl
      rw [e, i2, e1b, List.map_cons, List.sum_cons]; omega
    · have e : runReads s (c :: cs) = runReads (c.run s) cs := rfl
      rw [e, i3, e2]

theorem sessionTrace_bound (session : List (List ReadCall)) :
    ∀ s : State, s.rxPointer ≤ s.rxHeader.dataLength → s.rxHeader.dataLength < 4294967296 →
      wholePackets s session = true →
      ∀ p ∈ sessionTrace s session, p ≤ s.rxHeader.dataLength := by
  induction session with
  | nil => intro s _ _ _ p hp; simp [sessionTrace] at hp
  | cons calls rest ih =>
    intro s h0 h32 hw p hp
    by_cases hge : s.rxPointer ≥ s.rxHeader.dataLength
    · have e : ReadPacket s = (none, s) := by simp [ReadPacket, hge]
      simp only [sessionTrace, e, List.mem_singleton] at hp
      rw [hp]; exact h0
    · have e : ReadPacket s = (some (decodePacketHeader s.rxBuffer s.rxPointer),
          { s with rxPointer := wrap32 (s.rxPointer + sizeofPacketHeader) }) := by
        simp [ReadPacket, hge]
      simp only [wholePackets, e, Bool.and_eq_true, decide_eq_true_eq] at hw
      obtain ⟨⟨hfit, hsum⟩, hrest⟩ := hw
      simp only [sizeofPacketHeader] at hfit
      have e8 : wrap32 (s.rxPointer + sizeofPacketHeader) = s.rxPointer + 8 := by
        simp only [sizeofPacketHeader, wrap32]; omega
      rw [e8] at hrest
      obtain ⟨i1, i2, i3⟩ := readTrace_bound calls { s with rxPointer := s.rxPointer + 8 }
        s.rxHeader.dataLength (by simp only [hsum]; omega) h32
      simp only [sessionTrace, e, e8, List.mem_cons, List.mem_append] at hp
      rcases hp with hp | hp | hp
      · rw [hp]; omega
      · exact i1 p hp
      · have := ih (runReads { s with rxPointer := s.rxPointer + 8 } calls)
          (by rw [i2, i3]; simp only [hsum]; omega) (by rw [i3]; exact h32) hrest p hp
        rw [i3] at this
        exact this

/-- C13 (amended): when the payload holds whole packets along the session (each packet header
and padded body ends at or before `rxHeader.dataLength`) and every `ReadPacket` is followed by
`ReadData` / `ReadDataHeader` calls that advance by the padded length declared in the packet,
then, starting from `rxPointer = 0`, `rxPointer ≤ rxHeader.dataLength` after every call. -/
theorem rxPointer_bound (s : State) (session : List (List ReadCall)) (h0 : s.rxPointer = 0)
    (h32 : s.rxHeader.dataLength < 2 ^ 32) (hw : wholePackets s session = true) :
    ∀ p ∈ sessionTrace s session, p ≤ s.rxHeader.dataLength :=
  sessionTrace_bound session s (by omega) h32 hw

theorem rxPointer_bound_witness :
    wholePackets twoPackets [[.dataHeader 4], [.data 5], []] = true ∧
      28 ∈ sessionTrace twoPackets [[.dataHeader 4], [.data 5], []] ∧
      28 ≤ twoPackets.rxHeader.dataLength :=
  ⟨by decide, by decide,
    rxPointer_bound twoPackets [[.dataHeader 4], [.data 5], []] rfl (by decide) (by decide)
      28 (by decide)⟩

/-- C13 (counterexample): the received transfer header declares 4 bytes of data; `ReadPacket`
returns a packet and leaves `rxPointer = 8`, beyond `rxHeader.dataLength = 4`. -/
theorem ReadPacket_beyond_dataLength :
    shortPayload.rxPointer = 0 ∧ (ReadPacket shortPayload).1.isSome = true ∧
      (ReadPacket shortPayload).2.rxPointer = 8 ∧
      (ReadPacket shortPayload).2.rxHeader.dataLength = 4 ∧
      sessionTrace shortPayload [[]] = [8] := by
  decide

end DataTransfer
namespace DataTransfer

/-! ### Safety of `WriteCodeReply` -/

theorem copyTrace_bounds (P : Params) (hP : P.LinuxTransferBufferSize < 4294967296)
    (fuel : Nat) : ∀ (s : State) (chain : List OutputBuffer),
    s.txPointer ≤ P.LinuxTransferBufferSize →
    ∀ c ∈ copyTrace P fuel s chain,
      c.1 ≤ P.LinuxTransferBufferSize ∧ c.1 + c.2 ≤ P.LinuxTransferBufferSize ∧
        c.2 ≤ P.LinuxTransferBufferSize - c.1 := by
  induction fuel with
  | zero => intro s chain _ c hc; simp [copyTrace] at hc
  | succ fuel ih =>
    intro s chain htx c hc
    cases chain with
    | nil => simp [copyTrace] at hc
    | cons b rest =>
      have hspace : wrap32 (P.LinuxTransferBufferSize + 4294967296 - s.txPointer) =
          P.LinuxTransferBufferSize - s.txPointer := by
        simp only [wrap32]; omega
      simp only [copyTrace, hspace, List.mem_cons] at hc
      have hmin : min (P.LinuxTransferBufferSize - s.txPointer) b.BytesLeft ≤
          P.LinuxTransferBufferSize - s.txPointer := Nat.min_le_left _ _
      have htx1 : (WriteData s (b.UnreadData.take
          (min (P.LinuxTransferBufferSize - s.txPointer) b.BytesLeft))).txPointer ≤
          P.LinuxTransferBufferSize := by
        simp only [WriteData, wrap32, List.length_take]
        have := Nat.min_le_left (min (P.LinuxTransferBufferSize - s.txPointer) b.BytesLeft)
          b.UnreadData.length
        omega
      rcases hc with hc | hc
      · rw [hc]
        simp only
        omega
      · split_ifs at hc <;> first
          | exact ih _ _ htx1 c hc
          | simp at hc

theorem codeReplyStores_length (P : Params) (B0 : List Nat) (h : Nat) (enc : List Nat)
    (type : Nat) (D : List Nat) (more : Bool) (n : Nat)
    (henc : enc.length = 8) (hfit : h + 16 + D.length ≤ B0.length) :
    (codeReplyStores P B0 h enc type D more n).length = B0.length := by
  have l32 : ∀ v, (le32 v).length = 4 := fun _ => rfl
  have l16 : ∀ v, (le16 v).length = 2 := fun _ => rfl
  have step : ∀ (B : List Nat) (p : Nat) (bs : List Nat), B.length = B0.length →
      p + bs.length ≤ B0.length → (memWrite B p bs).length = B0.length := by
    intro B p bs hB hp
    rw [memWrite_length _ _ _ (by rw [hB]; exact hp), hB]
  simp only [codeReplyStores]
  have L1 := step B0 h enc rfl (by omega)
  have L2a := step _ (h + 8) (le32 (wrap32 type)) L1 (by rw [l32]; omega)
  have L2 := step _ (h + 8 + 6) (le16 0) L2a (by rw [l16]; omega)
  have L3 := step _ (h + 8 + 8) D L2 (by omega)
  apply step _ _ _ _ (by rw [l16]; omega)
  apply step _ _ _ _ (by rw [l16]; omega)
  cases more with
  | false => exact L3
  | true => exact step _ _ _ L3 (by rw [l32]; omega)

/-- C33: for a non-null reply chain for which the `CanWritePacket` test of `WriteCodeReply`
succeeds (transfer buffer of `LinuxTransferBufferSize` bytes, below 2^32): the copy loop ends
after at most one turn for each buffer of the chain and the call returns true; every copy
starts at an offset `txPointer ≤ LinuxTransferBufferSize`, so that
`LinuxTransferBufferSize - txPointer` does not underflow, and ends at or below
`LinuxTransferBufferSize`; the transmit buffer keeps its size; and
`txPointer ≤ LinuxTransferBufferSize` on return. -/
theorem WriteCodeReply_safe (P : Params) (fuel : Nat) (s : State) (type : Nat)
    (response : List OutputBuffer)
    (hP : P.LinuxTransferBufferSize < 4294967296)
    (hlen : s.txBuffer.length = P.LinuxTransferBufferSize)
    (hne : response ≠ []) (hfuel : response.length ≤ fuel)
    (hcan : CanWritePacket P s (sizeofCodeReplyHeader + min 24 (chainLength response)) = true) :
    ∃ s1 response1, WriteCodeReply P fuel s type response = some (true, s1, response1) ∧
      s1.txPointer ≤ P.LinuxTransferBufferSize ∧
      s1.txBuffer.length = P.LinuxTransferBufferSize ∧
      ∀ c ∈ copyTrace P fuel (beforeCopy P s type) response,
        c.1 ≤ P.LinuxTransferBufferSize ∧ c.1 + c.2 ≤ P.LinuxTransferBufferSize ∧
          c.2 ≤ P.LinuxTransferBufferSize - c.1 := by
  obtain ⟨s1, response1, n, hrun, hn, hfit, htx, _, _, hbuf⟩ :=
    WriteCodeReply_run P fuel s type response hP hlen hne hfuel hcan
  have hcan0 := hcan
  simp only [CanWritePacket, decide_eq_true_eq, sizeofPacketHeader,
    sizeofCodeReplyHeader] at hcan0
  refine ⟨s1, response1, hrun, by rw [htx]; exact hfit, ?_, ?_⟩
  · rw [hbuf, codeReplyStores_length P s.txBuffer (AddPadding s.txPointer)
      (encodePacketHeader
        { request := wrap16 (P.requestCode .CodeReply), id := wrap16 s.packetId,
          length := wrap16 0, resendPacketId := wrap16 0 })
      type ((chainUnread response).take n) (decide (response1 ≠ [])) n rfl (by
      rw [List.length_take, hlen]
      have := Nat.min_le_left n (chainUnread response).length
      omega), hlen]
  · apply copyTrace_bounds P hP
    simp only [beforeCopy, storeField, WriteDataHeader, WritePacketHeader, wrap32,
      sizeofPacketHeader, sizeofCodeReplyHeader]
    omega

theorem WriteCodeReply_safe_witness :
    ∃ s1 response1,
      WriteCodeReply sampleParams 1 (blankState sampleParams) 3 [⟨[104, 105], 0⟩] =
        some (true, s1, response1) ∧
      s1.txPointer ≤ 2048 ∧ s1.txBuffer.length = 2048 := by
  obtain ⟨s1, response1, h1, h2, h3, _⟩ :=
    WriteCodeReply_safe sampleParams 1 (blankState sampleParams) 3 [⟨[104, 105], 0⟩]
      (by decide) (List.length_replicate _ _) (by simp) (by decide) (by decide)
  exact ⟨s1, response1, h1, h2, h3⟩

end DataTransfer
namespace DataTransfer

/-! ### The writers of packets with a fixed layout -/

theorem memWrite_length_ge (buf : List Nat) (p : Nat) (bs : List Nat) (h : p ≤ buf.length) :
    buf.length ≤ (memWrite buf p bs).length := by
  rw [memWrite_eq buf p bs h]
  simp only [List.length_append, List.length_take, List.length_drop]
  omega

theorem WritePacketHeader_length (P : Params) (s : State) (request : FirmwareRequest)
    (dataLength resendPacketId : Nat) :
    leValue (memRead (WritePacketHeader P s request dataLength resendPacketId).2.txBuffer
      (AddPadding s.txPointer + 4) 2) = wrap16 dataLength := by
  simp only [WritePacketHeader]
  rw [memRead_memWrite_inside _ _ _ 4 2 (by simp [encodePacketHeader, le16])]
  simp only [encodePacketHeader, le16, List.cons_append, List.nil_append, List.drop_succ_cons,
    List.drop_zero, List.take_succ_cons, List.take_zero, leValue, wrap16]
  omega

/-- A packet header followed by a typed header whose fields are stored as one image. -/
theorem typed_packet (P : Params) (s : State) (request : FirmwareRequest) (L size : Nat)
    (image : List Nat) (hP : P.LinuxTransferBufferSize < 65536)
    (hlen : s.txBuffer.length = P.LinuxTransferBufferSize)
    (hcan : CanWritePacket P s L = true) (hsz : size ≤ L) :
    leValue (memRead (storeField
        (WriteDataHeader (WritePacketHeader P s request L 0).2 size).2
        (WriteDataHeader (WritePacketHeader P s request L 0).2 size).1 image).txBuffer
      (AddPadding s.txPointer + 4) 2) = L ∧
    (storeField (WriteDataHeader (WritePacketHeader P s request L 0).2 size).2
        (WriteDataHeader (WritePacketHeader P s request L 0).2 size).1 image).txPointer =
      AddPadding s.txPointer + sizeofPacketHeader + size ∧
    AddPadding s.txPointer + sizeofPacketHeader + size ≤
      (storeField (WriteDataHeader (WritePacketHeader P s request L 0).2 size).2
        (WriteDataHeader (WritePacketHeader P s request L 0).2 size).1 image).txBuffer.length := by
  have hc := hcan
  simp only [CanWritePacket, decide_eq_true_eq, sizeofPacketHeader] at hc
  have hh := WritePacketHeader_length P s request L 0
  have e8 : wrap32 (AddPadding s.txPointer + 8) = AddPadding s.txPointer + 8 := by
    simp only [wrap32]; exact Nat.mod_eq_of_lt (by omega)
  have e9 : wrap32 (AddPadding s.txPointer + 8 + size) = AddPadding s.txPointer + 8 + size := by
    simp only [wrap32]; exact Nat.mod_eq_of_lt (by omega)
  have l1 : (WritePacketHeader P s request L 0).2.txBuffer.length =
      P.LinuxTransferBufferSize := by
    simp only [WritePacketHeader]
    rw [memWrite_length _ _ _ (by
      rw [hlen]
      have : (encodePacketHeader
        { request := wrap16 (P.requestCode request), id := wrap16 s.packetId,
          length := wrap16 L, resendPacketId := wrap16 0 }).length = 8 := rfl
      omega), hlen]
  have p1 : (WritePacketHeader P s request L 0).2.txPointer = AddPadding s.txPointer + 8 := by
    simp only [WritePacketHeader, sizeofPacketHeader, e8]
  refine ⟨?_, ?_, ?_⟩
  · simp only [storeField, WriteDataHeader, p1]
    rw [memRead_memWrite_below _ _ _ _ _ (by rw [l1]; omega) (by omega), hh]
    simp only [wrap16]
    exact Nat.mod_eq_of_lt (by omega)
  · simp only [storeField, WriteDataHeader, p1, sizeofPacketHeader, e9]
  · simp only [storeField, WriteDataHeader, p1, sizeofPacketHeader]
    have := memWrite_length_ge (WritePacketHeader P s request L 0).2.txBuffer
      (AddPadding s.txPointer + 8) image (by rw [l1]; omega)
    rw [l1] at this
    omega

theorem allOrNothing_typed (P : Params) (s : State) (request : FirmwareRequest) (size : Nat)
    (image : List Nat) (hP : P.LinuxTransferBufferSize < 65536)
    (hlen : s.txBuffer.length = P.LinuxTransferBufferSize) :
    allOrNothing P s size
      (if ¬ CanWritePacket P s size then (false, s)
       else
        (true, storeField (WriteDataHeader (WritePacketHeader P s request size 0).2 size).2
          (WriteDataHeader (WritePacketHeader P s request size 0).2 size).1 image)) := by
  by_cases hcan : CanWritePacket P s size = true
  · obtain ⟨t1, t2, _⟩ := typed_packet P s request size size image hP hlen hcan (le_refl _)
    rw [if_neg (by simp [hcan])]
    refine ⟨by simp [hcan], fun h => by rw [hcan] at h; exact absurd h (by decide), fun _ => ?_⟩
    exact ⟨rfl, t1, t2⟩
  · have hf : CanWritePacket P s size = false := by simpa using hcan
    rw [if_pos hcan]
    exact ⟨by simp [hf], fun _ => rfl, fun h => by rw [hf] at h; exact absurd h (by decide)⟩

theorem WriteMacroRequest_allOrNothing (P : Params) (F : Formats) (s : State) (channel : Nat)
    (filename : List Nat) (reportMissing : Bool) (hP : P.LinuxTransferBufferSize < 65536)
    (hlen : s.txBuffer.length = P.LinuxTransferBufferSize)
    (hname : F.sizeofExecuteMacroHeader + filename.length < 4294967296) :
    allOrNothing P s (F.sizeofExecuteMacroHeader + filename.length)
      (WriteMacroRequest P F s channel filename reportMissing) := by
  have hw : wrap32 (F.sizeofExecuteMacroHeader + filename.length) =
      F.sizeofExecuteMacroHeader + filename.length := by
    simp only [wrap32]; exact Nat.mod_eq_of_lt hname
  unfold WriteMacroRequest
  simp only [hw]
  by_cases hcan : CanWritePacket P s (F.sizeofExecuteMacroHeader + filename.length) = true
  · obtain ⟨t1, t2, t3⟩ := typed_packet P s .ExecuteMacro
      (F.sizeofExecuteMacroHeader + filename.length) F.sizeofExecuteMacroHeader
      (F.executeMacro channel reportMissing filename.length) hP hlen hcan (by omega)
    have hc := hcan
    simp only [CanWritePacket, decide_eq_true_eq, sizeofPacketHeader] at hc
    rw [if_neg (by simp [hcan])]
    refine ⟨by simp [hcan], fun h => by rw [hcan] at h; exact absurd h (by decide), fun _ => ?_⟩
    refine ⟨rfl, ?_, ?_⟩
    · simp only [decodePacketHeader, WriteData]
      rw [t2, memRead_memWrite_below _ _ _ _ _ t3 (by simp only [sizeofPacketHeader]; omega)]
      exact t1
    · simp only [WriteData]
      rw [t2]
      simp only [wrap32, sizeofPacketHeader]
      rw [Nat.mod_eq_of_lt (by omega)]
      omega
  · have hf : CanWritePacket P s (F.sizeofExecuteMacroHeader + filename.length) = false := by
      simpa using hcan
    rw [if_pos hcan]
    exact ⟨by simp [hf], fun _ => rfl, fun h => by rw [hf] at h; exact absurd h (by decide)⟩

theorem WriteLocked_allOrNothing (P : Params) (s : State) (channel : Nat)
    (hP : P.LinuxTransferBufferSize < 65536)
    (hlen : s.txBuffer.length = P.LinuxTransferBufferSize) :
    allOrNothing P s sizeofLockUnlockHeader (WriteLocked P s channel) := by
  unfold WriteLocked
  by_cases hcan : CanWritePacket P s sizeofLockUnlockHeader = true
  · obtain ⟨t1, t2, _⟩ := typed_packet P s .Locked sizeofLockUnlockHeader
      sizeofLockUnlockHeader [channel % 256] hP hlen hcan (le_refl _)
    have hc := hcan
    simp only [CanWritePacket, decide_eq_true_eq, sizeofPacketHeader,
      sizeofLockUnlockHeader] at hc
    have e8 : wrap32 (AddPadding s.txPointer + 8) = AddPadding s.txPointer + 8 := by
      simp only [wrap32]; exact Nat.mod_eq_of_lt (by omega)
    have l1 : (WritePacketHeader P s .Locked sizeofLockUnlockHeader 0).2.txBuffer.length =
        P.LinuxTransferBufferSize := by
      simp only [WritePacketHeader]
      rw [memWrite_length _ _ _ (by
        rw [hlen]
        have : (encodePacketHeader
          { request := wrap16 (P.requestCode .Locked), id := wrap16 s.packetId,
            length := wrap16 sizeofLockUnlockHeader, resendPacketId := wrap16 0 }).length = 8 :=
          rfl
        omega), hlen]
    have p1 : (WritePacketHeader P s .Locked sizeofLockUnlockHeader 0).2.txPointer =
        AddPadding s.txPointer + 8 := by
      simp only [WritePacketHeader, sizeofPacketHeader, e8]
    rw [if_neg (by simp [hcan])]
    refine ⟨by simp [hcan], fun h => by rw [hcan] at h; exact absurd h (by decide), fun _ => ?_⟩
    refine ⟨rfl, ?_, ?_⟩
    · simp only [storeField, WriteDataHeader, decodePacketHeader, p1] at t1 ⊢
      have la : (memWrite (WritePacketHeader P s .Locked sizeofLockUnlockHeader 0).2.txBuffer
          (AddPadding s.txPointer + 8) [channel % 256]).length = P.LinuxTransferBufferSize := by
        rw [memWrite_length _ _ _ (by rw [l1]; simp only [List.length_singleton]; omega), l1]
      have lb : (memWrite (memWrite
          (WritePacketHeader P s .Locked sizeofLockUnlockHeader 0).2.txBuffer
          (AddPadding s.txPointer + 8) [channel % 256]) (AddPadding s.txPointer + 8 + 1)
          [0]).length = P.LinuxTransferBufferSize := by
        rw [memWrite_length _ _ _ (by rw [la]; simp only [List.length_singleton]; omega), la]
      rw [memRead_memWrite_below _ _ _ _ _ (by rw [lb]; omega) (by omega),
        memRead_memWrite_below _ _ _ _ _ (by rw [la]; omega) (by omega)]
      exact t1
    · simp only [storeField, WriteDataHeader] at t2 ⊢
      exact t2
  · have hf : CanWritePacket P s sizeofLockUnlockHeader = false := by simpa using hcan
    rw [if_pos hcan]
    exact ⟨by simp [hf], fun _ => rfl, fun h => by rw [hf] at h; exact absurd h (by decide)⟩

/-- C37: with a transfer buffer below 64 KiB, each of `WriteState`, `WriteMacroRequest` (for a
file name below 2^32 bytes), `WriteAbortFileRequest`, `WriteStackEvent`, `WritePrintPaused` and
`WriteLocked` is all or nothing for the length `L` of its body: it returns false exactly when
`CanWritePacket(L)` is false and then leaves the whole state (so `txPointer`, `packetId`,
`txHeader` and the transmit buffer) as it was; otherwise it returns true, the packet header at
offset `AddPadding(txPointer)` holds the length `L`, and `txPointer` is that offset plus
`sizeof(PacketHeader) + L`. -/
theorem fixed_writers_all_or_nothing (P : Params) (F : Formats) (s : State)
    (hP : P.LinuxTransferBufferSize < 65536)
    (hlen : s.txBuffer.length = P.LinuxTransferBufferSize) :
    (∀ busyChannels,
      allOrNothing P s F.sizeofReportStateHeader (WriteState P F s busyChannels)) ∧
    (∀ channel filename reportMissing,
      F.sizeofExecuteMacroHeader + filename.length < 4294967296 →
      allOrNothing P s (F.sizeofExecuteMacroHeader + filename.length)
        (WriteMacroRequest P F s channel filename reportMissing)) ∧
    (∀ channel,
      allOrNothing P s F.sizeofAbortFileHeader (WriteAbortFileRequest P F s channel)) ∧
    (∀ channel state previous,
      allOrNothing P s F.sizeofStackEventHeader
        (WriteStackEvent P F s channel state previous)) ∧
    (∀ position reason,
      allOrNothing P s F.sizeofPrintPausedHeader (WritePrintPaused P F s position reason)) ∧
    (∀ channel, allOrNothing P s sizeofLockUnlockHeader (WriteLocked P s channel)) :=
  ⟨fun _ => allOrNothing_typed P s .ReportState _ _ hP hlen,
    fun channel filename reportMissing hname =>
      WriteMacroRequest_allOrNothing P F s channel filename reportMissing hP hlen hname,
    fun _ => allOrNothing_typed P s .AbortFile _ _ hP hlen,
    fun _ _ _ => allOrNothing_typed P s .StackEvent _ _ hP hlen,
    fun _ _ => allOrNothing_typed P s .PrintPaused _ _ hP hlen,
    fun channel => WriteLocked_allOrNothing P s channel hP hlen⟩

theorem fixed_writers_all_or_nothing_witness :
    (WriteMacroRequest sampleParams sampleFormats (blankState sampleParams) 2
        [48, 58, 47, 109] true).1 = true ∧
      (WriteMacroRequest sampleParams sampleFormats (blankState sampleParams) 2
        [48, 58, 47, 109] true).2.txPointer = 0 + sizeofPacketHeader + (4 + 4) :=
  ⟨((((fixed_writers_all_or_nothing sampleParams sampleFormats (blankState sampleParams)
      (by decide) (List.length_replicate _ _)).2.1 2 [48, 58, 47, 109] true (by decide)).2.2
      (by decide)).1),
    ((((fixed_writers_all_or_nothing sampleParams sampleFormats (blankState sampleParams)
      (by decide) (List.length_replicate _ _)).2.1 2 [48, 58, 47, 109] true (by decide)).2.2
      (by decide)).2.2)⟩

end DataTransfer
namespace DataTransfer

/-! ### `ReadPrintStartedInfo` and `WriteHeightMap` -/

/-- The advance of `rxPointer` in `ReadPrintStartedInfo`: the header, the padded tail, and
then the length of the tail once more. -/
theorem ReadPrintStartedInfo_rxPointer (F : Formats) (s : State) (packetLength : Nat) :
    (ReadPrintStartedInfo F s packetLength).2.rxPointer =
      wrap32 (wrap32 (wrap32 (s.rxPointer + F.sizeofPrintStartedHeader) +
          AddPadding (wrap32 (packetLength + 4294967296 - F.sizeofPrintStartedHeader))) +
        wrap32 (packetLength + 4294967296 - F.sizeofPrintStartedHeader)) := rfl

/-- C35 (evaluation at the failing input): in a payload with a print-started packet of
declared length 48 (header 40 bytes, tail 8 bytes) followed by a packet with the id 7, after
`ReadPacket` and `ReadPrintStartedInfo(48, ...)` the tail fields are decoded as claimed (file
name `a.g` at offset 48, `generatedBy` `xy` behind it), but `rxPointer` is 64 and not
8 + 40 + AddPadding(8) = 56, and the next `ReadPacket` does not return the header of the
following packet. -/
theorem ReadPrintStartedInfo_skips :
    (ReadPacket printStartedPayload).1 = some ⟨9, 1, 48, 0⟩ ∧
    (ReadPrintStartedInfo sampleFormats (ReadPacket printStartedPayload).2 48).1 =
      { numFilaments := 0, filamentsAt := 48, filamentNeeded := [], filenameAt := 48,
        filename := [97, 46, 103], generatedByAt := 51, generatedBy := [120, 121] } ∧
    (ReadPacket printStartedPayload).2.rxPointer + sampleFormats.sizeofPrintStartedHeader +
      AddPadding (48 - sampleFormats.sizeofPrintStartedHeader) = 56 ∧
    decodePacketHeader printStartedPayload.rxBuffer 56 = ⟨10, 7, 4, 0⟩ ∧
    (ReadPrintStartedInfo sampleFormats (ReadPacket printStartedPayload).2 48).2.rxPointer =
      64 ∧
    (ReadPacket
      (ReadPrintStartedInfo sampleFormats (ReadPacket printStartedPayload).2 48).2).1 =
      some ⟨1, 0, 0, 0⟩ := by
  refine ⟨by decide, by decide, by decide, by decide, by decide, by decide⟩

/-- C36 (evaluation at the failing input): `WriteHeightMap` with two height map points into an
empty transmit buffer returns true and announces a body of 32 + 8 = 40 bytes in the packet
header, but the Z points are stored from offset 72 on, 32 bytes behind the end of the
`HeightMapHeader` at 40, and `txPointer` is 40 on return, not 48. -/
theorem WriteHeightMap_misplaced :
    (WriteHeightMap sampleParams sampleFormats (blankState sampleParams) [] 2
        [1, 2, 3, 4, 5, 6, 7, 8]).1 = true ∧
    (decodePacketHeader
      (WriteHeightMap sampleParams sampleFormats (blankState sampleParams) [] 2
        [1, 2, 3, 4, 5, 6, 7, 8]).2.2.txBuffer 0).length = 40 ∧
    AddPadding (blankState sampleParams).txPointer + sizeofPacketHeader +
      sampleFormats.sizeofHeightMapHeader = 40 ∧
    (WriteHeightMap sampleParams sampleFormats (blankState sampleParams) [] 2
        [1, 2, 3, 4, 5, 6, 7, 8]).2.1 = some 72 ∧
    (WriteHeightMap sampleParams sampleFormats (blankState sampleParams) [] 2
        [1, 2, 3, 4, 5, 6, 7, 8]).2.2.txPointer = 40 ∧
    memRead (WriteHeightMap sampleParams sampleFormats (blankState sampleParams) [] 2
        [1, 2, 3, 4, 5, 6, 7, 8]).2.2.txBuffer 72 8 = [1, 2, 3, 4, 5, 6, 7, 8] := by
  refine ⟨by decide, by decide, by decide, by decide, by decide, by decide⟩

end DataTransfer

/-! ## Part 4. Theorems: HTTP request parser -/

namespace HttpResponder

/-! ### Bounds of the message buffer -/

theorem parseSwitch_pointer (L : Limits) (s : Parser) (c : Nat)
    (h : s.clientPointer < L.clientMessageSize) :
    (parseSwitch L s c).1.clientPointer ≤ L.clientMessageSize := by
  unfold parseSwitch headerValueChar
  cases hps : s.parseState <;> simp only [] <;> split_ifs <;>
    simp only [Parser.put, Parser.poke, Parser.setCommandWord, Parser.setQualKey,
      Parser.setQualValue, Parser.setHeaderKey, Parser.setHeaderValue] <;> omega

theorem CharFromClient_pointer (L : Limits) (s : Parser) (c : Nat)
    (h : s.clientPointer < L.clientMessageSize) :
    (CharFromClient L s c).1.clientPointer ≤ L.clientMessageSize ∧
    ((CharFromClient L s c).2 = none →
      (CharFromClient L s c).1.clientPointer < L.clientMessageSize) := by
  have hp := parseSwitch_pointer L s c h
  unfold CharFromClient
  rcases hsw : parseSwitch L s c with ⟨s1, _ | r⟩
  · rw [hsw] at hp
    simp only [] at hp ⊢
    split_ifs with hfull
    · simp [hp]
    · simp only [true_implies]
      omega
  · rw [hsw] at hp
    simp only [] at hp ⊢
    simp [hp]

theorem parseSwitch_stores (L : Limits) (s : Parser) (c : Nat)
    (h : s.clientPointer < L.clientMessageSize) (i : Nat)
    (hi : Store.clientMessage i ∈ (parseSwitch L s c).1.stores) :
    Store.clientMessage i ∈ s.stores ∨ i < L.clientMessageSize := by
  revert hi
  unfold parseSwitch headerValueChar
  cases hps : s.parseState <;> simp only [] <;> split_ifs <;>
    simp only [Parser.put, Parser.poke, Parser.setCommandWord, Parser.setQualKey,
      Parser.setQualValue, Parser.setHeaderKey, Parser.setHeaderValue, List.mem_cons,
      reduceCtorEq, false_or, Store.clientMessage.injEq] <;>
    intro hi <;>
    first
    | exact Or.inl hi
    | (rcases hi with hi | hi
       · right; omega
       · exact Or.inl hi)
    | (rcases hi with hi | hi | hi
       · right; omega
       · right; omega
       · exact Or.inl hi)

theorem parseSwitch_reply (L : Limits) (s : Parser) (c : Nat) (r : Reply)
    (hr : (parseSwitch L s c).2 = some r) :
    (parseSwitch L s c).1.clientPointer = s.clientPointer ∨
      r = .RejectMessage "too many command words" ∨
      r = .RejectMessage "too many keys in qualifier" := by
  revert hr
  unfold parseSwitch headerValueChar
  cases hps : s.parseState <;> simp only [] <;> split_ifs <;>
    simp only [Parser.put, Parser.poke, Parser.setCommandWord, Parser.setQualKey,
      Parser.setQualValue, Parser.setHeaderKey, Parser.setHeaderValue, reduceCtorEq,
      false_implies, Option.some.injEq, true_or] <;>
    intro hr <;> simp [← hr]

theorem CharFromClient_fst (L : Limits) (s : Parser) (c : Nat) :
    (CharFromClient L s c).1 = (parseSwitch L s c).1 := by
  unfold CharFromClient
  rcases parseSwitch L s c with ⟨s1, _ | r⟩
  · simp only []
    split_ifs <;> rfl
  · rfl

theorem CharFromClient_full (L : Limits) (s : Parser) (c : Nat)
    (h : s.clientPointer < L.clientMessageSize)
    (hfull : (CharFromClient L s c).1.clientPointer = L.clientMessageSize) :
    (CharFromClient L s c).2 = some (.RejectMessage overflowResponse) ∨
      (CharFromClient L s c).2 = some (.RejectMessage "too many command words") ∨
      (CharFromClient L s c).2 = some (.RejectMessage "too many keys in qualifier") := by
  have hr := parseSwitch_reply L s c
  rw [CharFromClient_fst] at hfull
  unfold CharFromClient
  rcases hsw : parseSwitch L s c with ⟨s1, _ | r⟩
  · rw [hsw] at hfull
    simp only [] at hfull ⊢
    rw [if_pos hfull]
    exact Or.inl rfl
  · rw [hsw] at hfull hr
    simp only [] at hfull hr ⊢
    rcases hr r rfl with h1 | h1 | h1
    · omega
    · exact Or.inr (Or.inl (by rw [h1]))
    · exact Or.inr (Or.inr (by rw [h1]))

/-- The bounds of `clientMessage` along a run of `feed` that starts with room for one byte. -/
theorem feed_bounds (L : Limits) (input : List Nat) : ∀ s : Parser,
    s.clientPointer < L.clientMessageSize →
    (∀ i, Store.clientMessage i ∈ s.stores → i < L.clientMessageSize) →
    (∀ i, Store.clientMessage i ∈ (feed L s input).1.stores → i < L.clientMessageSize) ∧
    ((feed L s input).2 = none → (feed L s input).1.clientPointer < L.clientMessageSize) ∧
    ((feed L s input).1.clientPointer = L.clientMessageSize →
      (feed L s input).2 = some (.RejectMessage overflowResponse) ∨
      (feed L s input).2 = some (.RejectMessage "too many command words") ∨
      (feed L s input).2 = some (.RejectMessage "too many keys in qualifier")) := by
  induction input with
  | nil =>
    intro s hp hs
    simp only [feed]
    exact ⟨hs, fun _ => hp, fun h => by omega⟩
  | cons c cs ih =>
    intro s hp hs
    have h1 := CharFromClient_pointer L s c hp
    have h2 : ∀ i, Store.clientMessage i ∈ (CharFromClient L s c).1.stores →
        i < L.clientMessageSize := by
      intro i hi
      rw [CharFromClient_fst] at hi
      rcases parseSwitch_stores L s c hp i hi with h | h
      · exact hs i h
      · exact h
    have h3 := CharFromClient_full L s c hp
    simp only [feed]
    rcases hcc : CharFromClient L s c with ⟨s1, _ | r⟩
    · rw [hcc] at h1 h2
      exact ih s1 (h1.2 rfl) h2
    · rw [hcc] at h2 h3
      simp only [] at h2 h3 ⊢
      exact ⟨h2, fun h => by simp at h, h3⟩

/-- C1 (as amended): for every byte sequence fed to `CharFromClient` from the state set by
`Accept`, every store into `clientMessage` is at an index below its size; while the calls
return false `clientPointer` stays below the size; and if a byte brings `clientPointer` to the
size, that call rejects the message, with "overflow" or (when the byte is a separator that
exceeds a limit) with "too many command words" or "too many keys in qualifier". -/
theorem clientMessage_bounds (L : Limits) (prior : Parser) (input : List Nat)
    (hN : 0 < L.clientMessageSize) :
    (∀ i, Store.clientMessage i ∈ (feed L (Accept prior) input).1.stores →
      i < L.clientMessageSize) ∧
    ((feed L (Accept prior) input).2 = none →
      (feed L (Accept prior) input).1.clientPointer < L.clientMessageSize) ∧
    ((feed L (Accept prior) input).1.clientPointer = L.clientMessageSize →
      (feed L (Accept prior) input).2 = some (.RejectMessage overflowResponse) ∨
      (feed L (Accept prior) input).2 = some (.RejectMessage "too many command words") ∨
      (feed L (Accept prior) input).2 = some (.RejectMessage "too many keys in qualifier")) :=
  feed_bounds L input (Accept prior) hN (by
    intro i hi
    simp [Accept] at hi)

theorem clientMessage_bounds_witness :
    0 < sampleLimits.clientMessageSize ∧
      (feed sampleLimits (Accept (blankParser sampleLimits))
        (bytes "GET / HTTP/1.1")).1.clientPointer < sampleLimits.clientMessageSize :=
  ⟨by decide,
    (clientMessage_bounds sampleLimits (blankParser sampleLimits) (bytes "GET / HTTP/1.1")
      (by decide)).2.1 (by decide!)⟩

/-- C1 (counterexample to the claim as stated): the 1463 bytes of `fillInput` fill the message
buffer exactly; the last byte is the separator after the fourth command word and the message is
rejected with "too many command words", not with "overflow". -/
theorem full_buffer_other_reject :
    (feed sampleLimits (Accept (blankParser sampleLimits)) fillInput).1.clientPointer =
        sampleLimits.clientMessageSize ∧
      (feed sampleLimits (Accept (blankParser sampleLimits)) fillInput).2 =
        some (.RejectMessage "too many command words") ∧
      (feed sampleLimits (Accept (blankParser sampleLimits)) fillInput).2 ≠
        some (.RejectMessage overflowResponse) := by
  decide!

end HttpResponder

namespace HttpResponder

/-! ### Parsing a well-formed request -/

open DataTransfer in
theorem set_eq_memWrite (buf : List Nat) (p v : Nat) (h : p < buf.length) :
    buf.set p v = memWrite buf p [v] := by
  rw [memWrite_eq buf p [v] (by omega), List.set_eq_take_append_cons_drop, if_pos h]
  simp

theorem feed_append (L : Limits) (a b : List Nat) : ∀ (s t : Parser),
    feed L s a = (t, none) → feed L s (a ++ b) = feed L t b := by
  induction a with
  | nil =>
    intro s t h
    simp only [feed, Prod.mk.injEq, and_true] at h
    rw [h]; rfl
  | cons c cs ih =>
    intro s t h
    simp only [feed, List.cons_append] at h ⊢
    rcases hcc : CharFromClient L s c with ⟨s1, _ | r⟩
    · rw [hcc] at h
      simp only [] at h ⊢
      exact ih s1 t h
    · rw [hcc] at h
      simp at h

theorem plain_step (L : Limits) (s : Parser) (c : Nat) (hst : s.parseState.storing = true)
    (hc : plain c) (hfit : s.clientPointer + 1 < L.clientMessageSize) :
    CharFromClient L s c = (s.put c, none) := by
  obtain ⟨h0, h9, h10, h13, h32, h37, h38, h43, h58, h61, h63⟩ := hc
  have hne : ¬ (s.clientPointer + 1 = L.clientMessageSize) := by omega
  unfold CharFromClient parseSwitch headerValueChar
  cases hps : s.parseState <;> rw [hps] at hst <;>
    first
    | exact absurd hst (by decide)
    | simp [h9, h10, h13, h32, h37, h38, h43, h58, h61, h63, Parser.put, hne]

open DataTransfer in
/-- Feeding a token in a storing state appends it to the message and changes nothing else. -/
theorem feed_token (L : Limits) (w : List Nat) : ∀ s : Parser,
    s.parseState.storing = true → token w →
    s.clientMessage.length = L.clientMessageSize →
    s.clientPointer + w.length < L.clientMessageSize →
    ∃ t, feed L s w = (t, none) ∧ t.parseState = s.parseState ∧
      t.numCommandWords = s.numCommandWords ∧ t.numQualKeys = s.numQualKeys ∧
      t.numHeaderKeys = s.numHeaderKeys ∧ t.commandWords = s.commandWords ∧
      t.qualifiers = s.qualifiers ∧ t.headers = s.headers ∧
      t.clientPointer = s.clientPointer + w.length ∧
      t.clientMessage = memWrite s.clientMessage s.clientPointer w := by
  induction w with
  | nil =>
    intro s _ _ hlen hfit
    refine ⟨s, rfl, rfl, rfl, rfl, rfl, rfl, rfl, rfl, rfl, ?_⟩
    rw [memWrite_eq _ _ _ (by omega)]
    simp
  | cons c cs ih =>
    intro s hst hw hlen hfit
    simp only [List.length_cons] at hfit
    have hstep := plain_step L s c hst (hw c (List.mem_cons_self _ _)) (by omega)
    obtain ⟨t, h1, h2, h3, h4, h5, h6, h7, h8, h9, h10⟩ := ih (s.put c)
      (by simpa [Parser.put] using hst) (fun x hx => hw x (List.mem_cons_of_mem _ hx))
      (by simp [Parser.put, hlen]) (by simp only [Parser.put]; omega)
    refine ⟨t, ?_, h2, h3, h4, h5, h6, h7, h8, ?_, ?_⟩
    · simp only [feed, hstep]; exact h1
    · rw [h9]; simp only [Parser.put, List.length_cons]; omega
    · rw [h10]
      simp only [Parser.put]
      rw [set_eq_memWrite _ _ _ (by omega)]
      have := memWrite_adjacent s.clientMessage s.clientPointer [c] cs
        (by simp only [List.length_singleton]; omega)
      simpa using this

end HttpResponder

namespace HttpResponder

/-! #### Single steps at the separators -/

theorem step_word_space (L : Limits) (s : Parser) (hps : s.parseState = .doingCommandWord)
    (hcw : s.numCommandWords = 0) (hmax : 1 < L.MaxCommandWords)
    (hfit : s.clientPointer + 1 < L.clientMessageSize) :
    CharFromClient L s 32 =
      ({ ({ s.put 0 with numCommandWords := 1 } : Parser).setCommandWord 1 with
          parseState := .doingFilename }, none) := by
  have hne : ¬ (s.clientPointer + 1 = L.clientMessageSize) := by omega
  simp [CharFromClient, parseSwitch, hps, hcw, hmax, Parser.put, Parser.setCommandWord, hne]

theorem step_filename_query (L : Limits) (s : Parser) (hps : s.parseState = .doingFilename)
    (hfit : s.clientPointer + 1 < L.clientMessageSize) :
    CharFromClient L s 63 =
      ({ ({ s.put 0 with
            numCommandWords := s.numCommandWords + 1, numQualKeys := 0 } : Parser).setQualKey 0
          with parseState := .doingQualifierKey }, none) := by
  have hne : ¬ (s.clientPointer + 1 = L.clientMessageSize) := by omega
  simp [CharFromClient, parseSwitch, hps, Parser.put, Parser.setQualKey, hne]

theorem step_key_equals (L : Limits) (s : Parser) (hps : s.parseState = .doingQualifierKey)
    (hfit : s.clientPointer + 1 < L.clientMessageSize) :
    CharFromClient L s 61 =
      ({ (s.put 0).setQualValue s.numQualKeys with
          numQualKeys := s.numQualKeys + 1, parseState := .doingQualifierValue }, none) := by
  have hne : ¬ (s.clientPointer + 1 = L.clientMessageSize) := by omega
  simp [CharFromClient, parseSwitch, hps, Parser.put, Parser.setQualValue, hne]

theorem step_value_amp (L : Limits) (s : Parser) (hps : s.parseState = .doingQualifierValue)
    (hmax : s.numQualKeys < L.MaxQualKeys)
    (hfit : s.clientPointer + 1 < L.clientMessageSize) :
    CharFromClient L s 38 =
      ({ (s.put 0).setQualKey s.numQualKeys with parseState := .doingQualifierKey }, none) := by
  have hne : ¬ (s.clientPointer + 1 = L.clientMessageSize) := by omega
  simp [CharFromClient, parseSwitch, hps, Parser.put, Parser.setQualKey, hne, hmax]

theorem step_value_space (L : Limits) (s : Parser) (hps : s.parseState = .doingQualifierValue)
    (hfit : s.clientPointer + 1 < L.clientMessageSize) :
    CharFromClient L s 32 =
      ({ ((s.put 0).setQualKey s.numQualKeys).setCommandWord s.numCommandWords with
          parseState := .doingCommandWord }, none) := by
  have hne : ¬ (s.clientPointer + 1 = L.clientMessageSize) := by omega
  simp [CharFromClient, parseSwitch, hps, Parser.put, Parser.setQualKey, Parser.setCommandWord,
    hne]

theorem step_key_space (L : Limits) (s : Parser) (hps : s.parseState = .doingQualifierKey)
    (hq : s.numQualKeys = 0) (hk : (s.qualifiers 0).key = s.clientPointer)
    (hfit : s.clientPointer < L.clientMessageSize) :
    CharFromClient L s 32 =
      ({ s.setCommandWord s.numCommandWords with parseState := .doingCommandWord }, none) := by
  have hne : ¬ (s.clientPointer = L.clientMessageSize) := by omega
  simp [CharFromClient, parseSwitch, hps, hq, hk, Parser.setCommandWord, hne]

theorem step_word_crlf (L : Limits) (s : Parser) (hps : s.parseState = .doingCommandWord)
    (hfit : s.clientPointer + 1 < L.clientMessageSize) :
    feed L s [13, 10] =
      ({ ({ s.put 0 with
            numCommandWords := s.numCommandWords + 1, numHeaderKeys := 0 } : Parser).setHeaderKey 0
          with parseState := .doingHeaderKey }, none) := by
  have hne : ¬ (s.clientPointer + 1 = L.clientMessageSize) := by omega
  have hne0 : ¬ (s.clientPointer = L.clientMessageSize) := by omega
  simp [feed, CharFromClient, parseSwitch, hps, Parser.put, Parser.setHeaderKey, hne, hne0]

theorem step_header_colon (L : Limits) (s : Parser) (hps : s.parseState = .doingHeaderKey)
    (hmax : s.numHeaderKeys ≠ L.MaxHeaders - 1)
    (hfit : s.clientPointer + 1 < L.clientMessageSize) :
    feed L s [58, 32] =
      ({ (s.put 0).setHeaderValue s.numHeaderKeys with
          numHeaderKeys := s.numHeaderKeys + 1, parseState := .expectingHeaderValue }, none) := by
  have hne : ¬ (s.clientPointer + 1 = L.clientMessageSize) := by omega
  simp [feed, CharFromClient, parseSwitch, hps, Parser.put, Parser.setHeaderValue, hne, hmax]

theorem step_value_plain (L : Limits) (s : Parser) (c : Nat)
    (hps : s.parseState = .expectingHeaderValue) (hc : plain c)
    (hfit : s.clientPointer + 1 < L.clientMessageSize) :
    CharFromClient L s c = (({ s with parseState := .doingHeaderValue } : Parser).put c, none) := by
  obtain ⟨h0, h9, h10, h13, h32, h37, h38, h43, h58, h61, h63⟩ := hc
  have hne : ¬ (s.clientPointer + 1 = L.clientMessageSize) := by omega
  simp [CharFromClient, parseSwitch, headerValueChar, hps, Parser.put, hne, h9, h10, h13, h32]

theorem step_value_empty (L : Limits) (s : Parser)
    (hps : s.parseState = .expectingHeaderValue)
    (hfit : s.clientPointer < L.clientMessageSize) :
    feed L s [13, 10] = ({ s with parseState := .doingHeaderContinuation }, none) := by
  have hne : ¬ (s.clientPointer = L.clientMessageSize) := by omega
  simp [feed, CharFromClient, parseSwitch, headerValueChar, hps, hne]

theorem step_value_crlf (L : Limits) (s : Parser)
    (hps : s.parseState = .doingHeaderValue)
    (hfit : s.clientPointer < L.clientMessageSize) :
    feed L s [13, 10] = ({ s with parseState := .doingHeaderContinuation }, none) := by
  have hne : ¬ (s.clientPointer = L.clientMessageSize) := by omega
  simp [feed, CharFromClient, parseSwitch, headerValueChar, hps, hne]

theorem step_next_key (L : Limits) (s : Parser) (c : Nat)
    (hps : s.parseState = .doingHeaderContinuation) (hc : plain c)
    (hfit : s.clientPointer + 3 ≤ L.clientMessageSize) :
    CharFromClient L s c =
      ({ ((s.put 0).setHeaderKey s.numHeaderKeys).put c with
          parseState := .doingHeaderKey }, none) := by
  obtain ⟨h0, h9, h10, h13, h32, h37, h38, h43, h58, h61, h63⟩ := hc
  have hne : ¬ (s.clientPointer + 1 + 1 = L.clientMessageSize) := by omega
  simp [CharFromClient, parseSwitch, hps, Parser.put, Parser.setHeaderKey, hne, h9, h10, h13,
    h32, hfit]

theorem step_end_continuation (L : Limits) (s : Parser)
    (hps : s.parseState = .doingHeaderContinuation)
    (hfit : s.clientPointer < L.clientMessageSize) :
    feed L s [13, 10] = (s.poke 0, some .ProcessMessage) := by
  have hne : ¬ (s.clientPointer = L.clientMessageSize) := by omega
  simp [feed, CharFromClient, parseSwitch, hps, hne]

theorem step_end_key (L : Limits) (s : Parser)
    (hps : s.parseState = .doingHeaderKey)
    (hk : s.clientPointer = (s.headers s.numHeaderKeys).key)
    (hfit : s.clientPointer < L.clientMessageSize) :
    feed L s [13, 10] = (s, some .ProcessMessage) := by
  have hne : ¬ (s.clientPointer = L.clientMessageSize) := by omega
  simp [feed, CharFromClient, parseSwitch, hps, hne, ← hk]

end HttpResponder

namespace HttpResponder

/-! #### Tokens in the message buffer -/

theorem take_eq_of_le (a b : List Nat) (q r : Nat) (h : a.take q = b.take q) (hr : r ≤ q) :
    a.take r = b.take r := by
  have e : ∀ l : List Nat, l.take r = (l.take q).take r := by
    intro l; rw [List.take_take]; congr 1; omega
  rw [e a, e b, h]

theorem tokenAt_of_take_eq (a b : List Nat) (p q : Nat) (w : List Nat)
    (h : tokenAt b p w) (he : a.take q = b.take q) (hq : p + w.length + 1 ≤ q) :
    tokenAt a p w := by
  unfold tokenAt at h ⊢
  have := DataTransfer.memRead_of_take_eq a b q p (w.length + 1) he (by omega)
  unfold DataTransfer.memRead at this
  rw [this, h]

theorem cstring_of_tokenAt (buf : List Nat) (p : Nat) (w : List Nat) (h : tokenAt buf p w)
    (hw : token w) : cstring buf p = w := by
  unfold tokenAt at h
  unfold cstring
  have hsplit := List.take_append_drop (w.length + 1) (buf.drop p)
  rw [h] at hsplit
  rw [← hsplit, List.append_assoc, List.takeWhile_append_of_pos]
  · simp
  · intro c hc
    have := (hw c hc).1
    simpa using this

theorem extends_refl (s : Parser) : extends_ s s := ⟨rfl, le_rfl, rfl⟩

theorem extends_trans (s t u : Parser) (h1 : extends_ s t) (h2 : extends_ t u) :
    extends_ s u := by
  obtain ⟨a1, a2, a3⟩ := h1
  obtain ⟨b1, b2, b3⟩ := h2
  exact ⟨by rw [b1, a1], by omega, by rw [take_eq_of_le _ _ _ _ b3 a2, a3]⟩

theorem tokenAt_extends (s t : Parser) (p : Nat) (w : List Nat) (h : tokenAt s.clientMessage p w)
    (he : extends_ s t) (hq : p + w.length + 1 ≤ s.clientPointer) :
    tokenAt t.clientMessage p w :=
  tokenAt_of_take_eq _ _ p s.clientPointer w h he.2.2 hq

open DataTransfer in
/-- The buffer after a token was appended at `p` and terminated by a zero byte. -/
theorem terminated (B : List Nat) (p : Nat) (w : List Nat) (h : p + w.length < B.length) :
    ((memWrite B p w).set (p + w.length) 0).length = B.length ∧
    ((memWrite B p w).set (p + w.length) 0).take p = B.take p ∧
    tokenAt ((memWrite B p w).set (p + w.length) 0) p w := by
  have hl : (memWrite B p w).length = B.length := memWrite_length _ _ _ (by omega)
  rw [set_eq_memWrite _ _ _ (by rw [hl]; omega), memWrite_adjacent _ _ _ _ (by omega)]
  refine ⟨?_, ?_, ?_⟩
  · rw [memWrite_length _ _ _ (by simp only [List.length_append, List.length_singleton]; omega)]
  · exact memWrite_take _ _ _ (by omega) _ le_rfl
  · have := memRead_memWrite_same B p (w ++ [0])
    simpa only [memRead, List.length_append, List.length_singleton] using this

open DataTransfer in
theorem memWrite_extends (B : List Nat) (p : Nat) (w : List Nat) (h : p + w.length ≤ B.length) :
    (memWrite B p w).length = B.length ∧ (memWrite B p w).take p = B.take p :=
  ⟨memWrite_length _ _ _ h, memWrite_take _ _ _ (by omega) _ le_rfl⟩

end HttpResponder

namespace HttpResponder

/-! #### The phases of a request -/

theorem feed_single (L : Limits) (s u : Parser) (c : Nat)
    (h : CharFromClient L s c = (u, none)) : feed L s [c] = (u, none) := by
  simp [feed, h]

theorem feed_chain (L : Limits) (s t : Parser) (a b : List Nat) (r : Parser × Option Reply)
    (h1 : feed L s a = (t, none)) (h2 : feed L t b = r) : feed L s (a ++ b) = r := by
  rw [feed_append L a b s t h1, h2]

open DataTransfer in
/-- A token fed in a storing state, followed by separator bytes whose net effect on the message
is the store of a zero byte: the token lies terminated at the old `clientPointer`. -/
theorem token_closed (s t u : Parser) (w : List Nat)
    (hbuf : t.clientMessage = memWrite s.clientMessage s.clientPointer w)
    (hptr : t.clientPointer = s.clientPointer + w.length)
    (hu : u.clientMessage = t.clientMessage.set t.clientPointer 0)
    (hup : u.clientPointer = t.clientPointer + 1)
    (hfit : s.clientPointer + w.length < s.clientMessage.length) :
    extends_ s u ∧ tokenAt u.clientMessage s.clientPointer w := by
  obtain ⟨a1, a2, a3⟩ := terminated s.clientMessage s.clientPointer w hfit
  unfold extends_
  rw [hu, hbuf, hptr, hup, hptr]
  exact ⟨⟨a1, by omega, a2⟩, a3⟩

/-- Request line up to the `?`: method, space, path, `?`. -/
theorem feed_to_query (L : Limits) (s : Parser) (method path : List Nat)
    (hps : s.parseState = .doingCommandWord) (hcw : s.numCommandWords = 0)
    (hmax : 1 < L.MaxCommandWords) (hm : token method) (hp : token path)
    (hlen : s.clientMessage.length = L.clientMessageSize)
    (hfit : s.clientPointer + method.length + path.length + 2 < L.clientMessageSize) :
    ∃ u, feed L s (method ++ [32] ++ path ++ [63]) = (u, none) ∧
      u.parseState = .doingQualifierKey ∧ u.numCommandWords = 2 ∧ u.numQualKeys = 0 ∧
      (u.qualifiers 0).key = u.clientPointer ∧
      u.commandWords 1 = s.clientPointer + method.length + 1 ∧
      (∀ j, j ≠ 1 → u.commandWords j = s.commandWords j) ∧
      u.clientPointer = s.clientPointer + method.length + path.length + 2 ∧
      extends_ s u ∧ tokenAt u.clientMessage s.clientPointer method ∧
      tokenAt u.clientMessage (s.clientPointer + method.length + 1) path := by
  obtain ⟨t1, f1, g1, g2, _, _, g5, _, _, g8, g9⟩ := feed_token L method s
    (by rw [hps]; rfl) hm hlen (by omega)
  have hl1 : t1.clientMessage.length = L.clientMessageSize := by
    rw [g9, (DataTransfer.memWrite_length _ _ _ (by omega)), hlen]
  have st1 := step_word_space L t1 (by rw [g1, hps]) (by rw [g2, hcw]) hmax (by omega)
  generalize hu1 : ({ ({ t1.put 0 with numCommandWords := 1 } : Parser).setCommandWord 1 with
      parseState := HttpParseState.doingFilename } : Parser) = u1 at st1
  have c1 := token_closed s t1 u1 method g9 g8 (by rw [← hu1]; rfl) (by rw [← hu1]; rfl)
    (by omega)
  have hu1p : u1.clientPointer = s.clientPointer + method.length + 1 := by
    rw [← hu1]; simp only [Parser.put, Parser.setCommandWord]; omega
  have hl2 : u1.clientMessage.length = L.clientMessageSize := by rw [c1.1.1, hlen]
  obtain ⟨t2, f2, k1, k2, _, _, k5, _, _, k8, k9⟩ := feed_token L path u1
    (by rw [← hu1]; rfl) hp hl2 (by omega)
  have st2 := step_filename_query L t2 (by rw [k1, ← hu1]) (by omega)
  generalize hu2 : ({ ({ t2.put 0 with
      numCommandWords := t2.numCommandWords + 1, numQualKeys := 0 } : Parser).setQualKey 0 with
      parseState := HttpParseState.doingQualifierKey } : Parser) = u2 at st2
  have c2 := token_closed u1 t2 u2 path k9 k8 (by rw [← hu2]; rfl) (by rw [← hu2]; rfl)
    (by omega)
  have hu2p : u2.clientPointer = u1.clientPointer + path.length + 1 := by
    rw [← hu2]; simp only [Parser.put, Parser.setQualKey]; omega
  refine ⟨u2, ?_, by rw [← hu2], ?_, by rw [← hu2]; rfl, ?_, ?_, ?_, by omega, ?_, ?_, ?_⟩
  · have e1 := feed_chain L s t1 method [32] _ f1 (feed_single L t1 u1 32 st1)
    have e2 := feed_chain L s u1 (method ++ [32]) path _ e1 f2
    exact feed_chain L s t2 (method ++ [32] ++ path) [63] _ e2 (feed_single L t2 u2 63 st2)
  · rw [← hu2]; simp only [Parser.put, Parser.setQualKey]; rw [k2, ← hu1]
    simp only [Parser.setCommandWord, Parser.put]
  · rw [← hu2]; simp only [Parser.put, Parser.setQualKey, if_true]
  · rw [← hu2]; simp only [Parser.put, Parser.setQualKey]; rw [k5, ← hu1]
    simp only [Parser.setCommandWord, Parser.put, if_true]; omega
  · intro j hj
    rw [← hu2]; simp only [Parser.put, Parser.setQualKey]; rw [k5, ← hu1]
    simp only [Parser.setCommandWord, Parser.put, if_neg hj, g5]
  · exact extends_trans s u1 u2 c1.1 c2.1
  · exact tokenAt_extends u1 u2 _ _ c1.2 c2.1 (by omega)
  · rw [← hu1p]; exact c2.2

end HttpResponder

namespace HttpResponder

/-- One `key=value` of the query, up to the end of the value (not yet terminated): `u` is the
state after the `=`, `t` the state after the value. -/
theorem feed_pair (L : Limits) (s : Parser) (k v : List Nat)
    (hps : s.parseState = .doingQualifierKey)
    (hkey : (s.qualifiers s.numQualKeys).key = s.clientPointer)
    (hk : token k) (hv : token v)
    (hlen : s.clientMessage.length = L.clientMessageSize)
    (hfit : s.clientPointer + k.length + v.length + 2 < L.clientMessageSize) :
    ∃ u t, feed L s (k ++ [61] ++ v) = (t, none) ∧
      extends_ s u ∧ tokenAt u.clientMessage s.clientPointer k ∧
      u.clientPointer = s.clientPointer + k.length + 1 ∧
      t.clientMessage = DataTransfer.memWrite u.clientMessage u.clientPointer v ∧
      t.clientPointer = u.clientPointer + v.length ∧
      t.parseState = .doingQualifierValue ∧ t.numQualKeys = s.numQualKeys + 1 ∧
      t.numCommandWords = s.numCommandWords ∧ t.commandWords = s.commandWords ∧
      t.qualifiers s.numQualKeys = ⟨s.clientPointer, s.clientPointer + k.length + 1⟩ ∧
      (∀ j, j ≠ s.numQualKeys → t.qualifiers j = s.qualifiers j) := by
  obtain ⟨t1, f1, g1, g2, g3, _, g5, g6, _, g8, g9⟩ := feed_token L k s
    (by rw [hps]; rfl) hk hlen (by omega)
  have st1 := step_key_equals L t1 (by rw [g1, hps]) (by omega)
  generalize hu1 : ({ (t1.put 0).setQualValue t1.numQualKeys with
      numQualKeys := t1.numQualKeys + 1,
      parseState := HttpParseState.doingQualifierValue } : Parser) = u1 at st1
  have c1 := token_closed s t1 u1 k g9 g8 (by rw [← hu1]; rfl) (by rw [← hu1]; rfl) (by omega)
  have hu1p : u1.clientPointer = s.clientPointer + k.length + 1 := by
    rw [← hu1]; simp only [Parser.put, Parser.setQualValue]; omega
  have hl2 : u1.clientMessage.length = L.clientMessageSize := by rw [c1.1.1, hlen]
  obtain ⟨t2, f2, k1, k2, k3, _, k5, k6, _, k8, k9⟩ := feed_token L v u1
    (by rw [← hu1]; rfl) hv hl2 (by omega)
  refine ⟨u1, t2, ?_, c1.1, c1.2, hu1p, k9, k8, by rw [k1, ← hu1], ?_, ?_, ?_, ?_, ?_⟩
  · have e1 := feed_chain L s t1 k [61] _ f1 (feed_single L t1 u1 61 st1)
    exact feed_chain L s u1 (k ++ [61]) v _ e1 f2
  · rw [k3, ← hu1]; simp only [Parser.put, Parser.setQualValue, g3]
  · rw [k2, ← hu1]; simp only [Parser.put, Parser.setQualValue, g2]
  · rw [k5, ← hu1]; simp only [Parser.put, Parser.setQualValue, g5]
  · rw [k6, ← hu1]; simp only [Parser.put, Parser.setQualValue, g3, if_true, g6, hkey, g8]
  · intro j hj
    rw [k6, ← hu1]; simp only [Parser.put, Parser.setQualValue, g3, if_neg hj, g6]

theorem renderQuery_cons_cons (q q' : List Nat × List Nat) (rest : List (List Nat × List Nat)) :
    renderQuery (q :: q' :: rest) = q.1 ++ [61] ++ q.2 ++ [38] ++ renderQuery (q' :: rest) := rfl

theorem renderQuery_single (q : List Nat × List Nat) :
    renderQuery [q] = q.1 ++ [61] ++ q.2 := rfl

/-- The query `k1=v1&...&kn=vn` (n at least 1) followed by the space that ends it. -/
theorem feed_query (L : Limits) (qs : List (List Nat × List Nat)) : ∀ s : Parser,
    qs ≠ [] → s.parseState = .doingQualifierKey →
    (s.qualifiers s.numQualKeys).key = s.clientPointer →
    s.numQualKeys + qs.length ≤ L.MaxQualKeys →
    (∀ q ∈ qs, token q.1 ∧ token q.2) →
    s.clientMessage.length = L.clientMessageSize →
    s.clientPointer + (renderQuery qs).length + 1 < L.clientMessageSize →
    ∃ u, feed L s (renderQuery qs ++ [32]) = (u, none) ∧
      u.parseState = .doingCommandWord ∧ u.numCommandWords = s.numCommandWords ∧
      u.numQualKeys = s.numQualKeys + qs.length ∧
      u.commandWords s.numCommandWords = u.clientPointer ∧
      (∀ j, j ≠ s.numCommandWords → u.commandWords j = s.commandWords j) ∧
      u.clientPointer = s.clientPointer + (renderQuery qs).length + 1 ∧
      extends_ s u ∧
      (∀ j, j < s.numQualKeys → u.qualifiers j = s.qualifiers j) ∧
      (∀ j q, qs[j]? = some q →
        tokenAt u.clientMessage (u.qualifiers (s.numQualKeys + j)).key q.1 ∧
        tokenAt u.clientMessage (u.qualifiers (s.numQualKeys + j)).value q.2 ∧
        (u.qualifiers (s.numQualKeys + j)).key + q.1.length + 1 ≤ u.clientPointer ∧
        (u.qualifiers (s.numQualKeys + j)).value + q.2.length + 1 ≤ u.clientPointer) := by
  induction qs with
  | nil => intro s h; exact absurd rfl h
  | cons q rest ih =>
    intro s _ hps hkey hmax htok hlen hfit
    have hq := htok q (List.mem_cons_self _ _)
    cases rest with
    | nil =>
      rw [renderQuery_single] at hfit ⊢
      simp only [List.length_append, List.length_singleton] at hfit
      obtain ⟨u, t, f, e1, tk, up, tb, tp, tps, tq, tcw, tcws, tqi, tqo⟩ :=
        feed_pair L s q.1 q.2 hps hkey hq.1 hq.2 hlen (by omega)
      have hul : u.clientMessage.length = L.clientMessageSize := by rw [e1.1, hlen]
      have st := step_value_space L t tps (by omega)
      generalize hu2 : ({ ((t.put 0).setQualKey t.numQualKeys).setCommandWord t.numCommandWords
          with parseState := HttpParseState.doingCommandWord } : Parser) = u2 at st
      have c2 := token_closed u t u2 q.2 tb tp (by rw [← hu2]; rfl) (by rw [← hu2]; rfl)
        (by omega)
      have hu2p : u2.clientPointer = t.clientPointer + 1 := by rw [← hu2]; rfl
      have hq2 : ∀ j, j ≠ s.numQualKeys + 1 → u2.qualifiers j = t.qualifiers j := by
        intro j hj
        rw [← hu2]; simp only [Parser.put, Parser.setQualKey, Parser.setCommandWord, tq,
          if_neg hj]
      have hqi : u2.qualifiers s.numQualKeys = ⟨s.clientPointer, s.clientPointer + q.1.length + 1⟩ := by
        rw [hq2 _ (by omega), tqi]
      refine ⟨u2, feed_chain L s t _ [32] _ f (feed_single L t u2 32 st), by rw [← hu2], ?_, ?_,
        ?_, ?_, ?_, extends_trans s u u2 e1 c2.1, ?_, ?_⟩
      · rw [← hu2]; simp only [Parser.put, Parser.setQualKey, Parser.setCommandWord, tcw]
      · rw [← hu2]; simp only [Parser.put, Parser.setQualKey, Parser.setCommandWord, tq,
          List.length_singleton]
      · rw [← hu2]; simp only [Parser.put, Parser.setQualKey, Parser.setCommandWord, tcw,
          if_true]
      · intro j hj
        rw [← hu2]; simp only [Parser.put, Parser.setQualKey, Parser.setCommandWord, tcw,
          if_neg hj, tcws]
      · simp only [List.length_append, List.length_singleton]; omega
      · intro j hj
        rw [hq2 j (by omega), tqo j (by omega)]
      · intro j q0 hj
        cases j with
        | zero =>
          simp only [List.getElem?_cons_zero, Option.some.injEq] at hj
          subst hj
          rw [Nat.add_zero, hqi]
          simp only []
          exact ⟨tokenAt_extends u u2 _ _ tk c2.1 (by omega), by rw [← up]; exact c2.2,
            by omega, by omega⟩
        | succ j => simp at hj
    | cons q' rest' =>
      rw [renderQuery_cons_cons] at hfit ⊢
      simp only [List.length_append, List.length_singleton, List.length_cons] at hfit hmax
      obtain ⟨u, t, f, e1, tk, up, tb, tp, tps, tq, tcw, tcws, tqi, tqo⟩ :=
        feed_pair L s q.1 q.2 hps hkey hq.1 hq.2 hlen (by omega)
      have st := step_value_amp L t tps (by omega) (by omega)
      generalize hu2 : ({ (t.put 0).setQualKey t.numQualKeys with
          parseState := HttpParseState.doingQualifierKey } : Parser) = u2 at st
      have c2 := token_closed u t u2 q.2 tb tp (by rw [← hu2]; rfl) (by rw [← hu2]; rfl)
        (by rw [e1.1, hlen]; omega)
      have hu2p : u2.clientPointer = t.clientPointer + 1 := by rw [← hu2]; rfl
      have hu2q : u2.numQualKeys = s.numQualKeys + 1 := by
        rw [← hu2]; simp only [Parser.put, Parser.setQualKey, tq]
      have hu2cw : u2.numCommandWords = s.numCommandWords := by
        rw [← hu2]; simp only [Parser.put, Parser.setQualKey, tcw]
      have hu2cws : u2.commandWords = s.commandWords := by
        rw [← hu2]; simp only [Parser.put, Parser.setQualKey, tcws]
      have hq2 : ∀ j, j ≠ s.numQualKeys + 1 → u2.qualifiers j = t.qualifiers j := by
        intro j hj
        rw [← hu2]; simp only [Parser.put, Parser.setQualKey, tq, if_neg hj]
      have hq2k : (u2.qualifiers u2.numQualKeys).key = u2.clientPointer := by
        rw [← hu2]; simp only [Parser.put, Parser.setQualKey, if_true]
      have hes : extends_ s u2 := extends_trans s u u2 e1 c2.1
      obtain ⟨w, fw, w1, w2, w3, w4, w5, w6, w7, w8, w9⟩ := ih u2 (by simp) (by rw [← hu2])
        hq2k (by rw [hu2q]; simp only [List.length_cons]; omega)
        (fun x hx => htok x (List.mem_cons_of_mem _ hx)) (by rw [hes.1, hlen])
        (by rw [hu2p, tp, up]; omega)
      have hqi : w.qualifiers s.numQualKeys =
          ⟨s.clientPointer, s.clientPointer + q.1.length + 1⟩ := by
        rw [w8 _ (by omega), hq2 _ (by omega), tqi]
      refine ⟨w, ?_, w1, by rw [w2, hu2cw], ?_, ?_, ?_, ?_, extends_trans s u2 w hes w7, ?_, ?_⟩
      · have e2 := feed_chain L s t _ [38] _ f (feed_single L t u2 38 st)
        have e3 := feed_chain L s u2 _ (renderQuery (q' :: rest') ++ [32]) _ e2 fw
        rw [← e3]
        simp only [List.append_assoc]
      · rw [w3, hu2q]; simp only [List.length_cons]; omega
      · rw [← hu2cw]; exact w4
      · intro j hj
        rw [w5 j (by rw [hu2cw]; exact hj), hu2cws]
      · rw [w6, hu2p, tp, up]
        simp only [List.length_append, List.length_singleton]; omega
      · intro j hj
        rw [w8 j (by omega), hq2 j (by omega), tqo j (by omega)]
      · intro j q0 hj
        cases j with
        | zero =>
          simp only [List.getElem?_cons_zero, Option.some.injEq] at hj
          subst hj
          rw [Nat.add_zero, hqi]
          simp only []
          have hw6 := w7.2.1
          exact ⟨tokenAt_extends u2 w _ _ (tokenAt_extends u u2 _ _ tk c2.1 (by omega)) w7
              (by omega),
            tokenAt_extends u2 w _ _ (by rw [← up]; exact c2.2) w7 (by omega),
            by omega, by omega⟩
        | succ j =>
          simp only [List.getElem?_cons_succ] at hj
          have := w9 j q0 hj
          rw [hu2q, show s.numQualKeys + 1 + j = s.numQualKeys + (j + 1) by omega] at this
          exact this

end HttpResponder

namespace HttpResponder

/-- The version word and the end of the request line. -/
theorem feed_version (L : Limits) (s : Parser) (version : List Nat)
    (hps : s.parseState = .doingCommandWord) (hv : token version)
    (hlen : s.clientMessage.length = L.clientMessageSize)
    (hfit : s.clientPointer + version.length + 1 < L.clientMessageSize) :
    ∃ u, feed L s (version ++ [13, 10]) = (u, none) ∧
      u.parseState = .doingHeaderKey ∧ u.numCommandWords = s.numCommandWords + 1 ∧
      u.numQualKeys = s.numQualKeys ∧ u.numHeaderKeys = 0 ∧
      (u.headers 0).key = u.clientPointer ∧ u.commandWords = s.commandWords ∧
      u.qualifiers = s.qualifiers ∧ u.clientPointer = s.clientPointer + version.length + 1 ∧
      extends_ s u ∧ tokenAt u.clientMessage s.clientPointer version := by
  obtain ⟨t1, f1, g1, g2, g3, _, g5, g6, _, g8, g9⟩ := feed_token L version s
    (by rw [hps]; rfl) hv hlen (by omega)
  have st1 := step_word_crlf L t1 (by rw [g1, hps]) (by omega)
  generalize hu1 : ({ ({ t1.put 0 with
      numCommandWords := t1.numCommandWords + 1, numHeaderKeys := 0 } : Parser).setHeaderKey 0
      with parseState := HttpParseState.doingHeaderKey } : Parser) = u1 at st1
  have c1 := token_closed s t1 u1 version g9 g8 (by rw [← hu1]; rfl) (by rw [← hu1]; rfl)
    (by omega)
  refine ⟨u1, feed_chain L s t1 _ _ _ f1 st1, by rw [← hu1], ?_, ?_, by rw [← hu1]; rfl, ?_, ?_,
    ?_, ?_, c1.1, c1.2⟩
  · rw [← hu1]; simp only [Parser.put, Parser.setHeaderKey, g2]
  · rw [← hu1]; simp only [Parser.put, Parser.setHeaderKey, g3]
  · rw [← hu1]; simp only [Parser.put, Parser.setHeaderKey, if_true]
  · rw [← hu1]; simp only [Parser.put, Parser.setHeaderKey, g5]
  · rw [← hu1]; simp only [Parser.put, Parser.setHeaderKey, g6]
  · rw [← hu1]; simp only [Parser.put, Parser.setHeaderKey, g8]

/-- A header value and the end of its line, from the state after the colon and the space. -/
theorem feed_header_value (L : Limits) (s : Parser) (v : List Nat)
    (hps : s.parseState = .expectingHeaderValue) (hv : token v)
    (hlen : s.clientMessage.length = L.clientMessageSize)
    (hfit : s.clientPointer + v.length < L.clientMessageSize) :
    ∃ t, feed L s (v ++ [13, 10]) = (t, none) ∧
      t.parseState = .doingHeaderContinuation ∧
      t.numCommandWords = s.numCommandWords ∧ t.numQualKeys = s.numQualKeys ∧
      t.numHeaderKeys = s.numHeaderKeys ∧ t.commandWords = s.commandWords ∧
      t.qualifiers = s.qualifiers ∧ t.headers = s.headers ∧
      t.clientPointer = s.clientPointer + v.length ∧
      t.clientMessage = DataTransfer.memWrite s.clientMessage s.clientPointer v := by
  cases v with
  | nil =>
    simp only [List.length_nil, Nat.add_zero] at hfit
    refine ⟨_, step_value_empty L s hps hfit, rfl, rfl, rfl, rfl, rfl, rfl, rfl,
      rfl, ?_⟩
    rw [DataTransfer.memWrite_eq _ _ _ (by omega)]
    simp
  | cons c cs =>
    simp only [List.length_cons] at hfit
    have st := step_value_plain L s c hps (hv c (List.mem_cons_self _ _)) (by omega)
    generalize hu : (({ s with parseState := HttpParseState.doingHeaderValue } : Parser).put c)
      = u at st
    have hup : u.clientPointer = s.clientPointer + 1 := by rw [← hu]; rfl
    have hub : u.clientMessage = s.clientMessage.set s.clientPointer c := by rw [← hu]; rfl
    obtain ⟨t1, f1, g1, g2, g3, g4, g5, g6, g7, g8, g9⟩ := feed_token L cs u
      (by rw [← hu]; rfl) (fun x hx => hv x (List.mem_cons_of_mem _ hx))
      (by rw [hub, List.length_set, hlen]) (by omega)
    have st2 := step_value_crlf L t1 (by rw [g1, ← hu]; rfl) (by omega)
    refine ⟨({ t1 with parseState := HttpParseState.doingHeaderContinuation } : Parser), ?_,
      rfl, ?_, ?_, ?_, ?_, ?_, ?_, ?_, ?_⟩
    · have e1 := feed_chain L s u [c] cs _ (feed_single L s u c st) f1
      have e2 := feed_chain L s t1 ([c] ++ cs) [13, 10] _ e1 st2
      simpa using e2
    · simp only [g2, ← hu]; rfl
    · simp only [g3, ← hu]; rfl
    · simp only [g4, ← hu]; rfl
    · simp only [g5, ← hu]; rfl
    · simp only [g6, ← hu]; rfl
    · simp only [g7, ← hu]; rfl
    · simp only [g8, hup, List.length_cons]; omega
    · simp only [g9, hub, hup]
      rw [set_eq_memWrite _ _ _ (by omega)]
      have := DataTransfer.memWrite_adjacent s.clientMessage s.clientPointer [c] cs
        (by simp only [List.length_singleton]; omega)
      simpa using this

end HttpResponder

namespace HttpResponder

theorem tokenAt_prefix (buf : List Nat) (p : Nat) (pre k : List Nat)
    (h1 : (buf.drop p).take pre.length = pre) (h2 : tokenAt buf (p + pre.length) k) :
    tokenAt buf p (pre ++ k) := by
  unfold tokenAt at h2 ⊢
  rw [List.length_append, Nat.add_assoc, List.take_add, h1, List.drop_drop, h2,
    List.append_assoc]

/-- A header line `key: value\r\n` from state `doingHeaderKey`; `pre` is the part of the key
that is already stored. -/
theorem feed_header_line (L : Limits) (s : Parser) (pre k v : List Nat)
    (hps : s.parseState = .doingHeaderKey) (hmax : s.numHeaderKeys ≠ L.MaxHeaders - 1)
    (hkey : (s.headers s.numHeaderKeys).key + pre.length = s.clientPointer)
    (hpre : (s.clientMessage.drop (s.headers s.numHeaderKeys).key).take pre.length = pre)
    (hk : token k) (hv : token v)
    (hlen : s.clientMessage.length = L.clientMessageSize)
    (hfit : s.clientPointer + k.length + v.length + 1 < L.clientMessageSize) :
    ∃ t, feed L s (k ++ [58, 32] ++ v ++ [13, 10]) = (t, none) ∧
      t.parseState = .doingHeaderContinuation ∧
      t.numCommandWords = s.numCommandWords ∧ t.numQualKeys = s.numQualKeys ∧
      t.numHeaderKeys = s.numHeaderKeys + 1 ∧ t.commandWords = s.commandWords ∧
      t.qualifiers = s.qualifiers ∧
      (∀ j, j ≠ s.numHeaderKeys → t.headers j = s.headers j) ∧
      t.headers s.numHeaderKeys =
        ⟨(s.headers s.numHeaderKeys).key, s.clientPointer + k.length + 1⟩ ∧
      t.clientPointer = s.clientPointer + k.length + 1 + v.length ∧
      extends_ s t ∧
      tokenAt t.clientMessage (s.headers s.numHeaderKeys).key (pre ++ k) ∧
      (t.clientMessage.drop (s.clientPointer + k.length + 1)).take v.length = v := by
  obtain ⟨t1, f1, g1, g2, g3, g4, g5, g6, g7, g8, g9⟩ := feed_token L k s
    (by rw [hps]; rfl) hk hlen (by omega)
  have st1 := step_header_colon L t1 (by rw [g1, hps]) (by rw [g4]; exact hmax) (by omega)
  generalize hu1 : ({ (t1.put 0).setHeaderValue t1.numHeaderKeys with
      numHeaderKeys := t1.numHeaderKeys + 1,
      parseState := HttpParseState.expectingHeaderValue } : Parser) = u1 at st1
  have c1 := token_closed s t1 u1 k g9 g8 (by rw [← hu1]; rfl) (by rw [← hu1]; rfl) (by omega)
  have hu1p : u1.clientPointer = s.clientPointer + k.length + 1 := by
    rw [← hu1]; simp only [Parser.put, Parser.setHeaderValue]; omega
  have hl1 : u1.clientMessage.length = L.clientMessageSize := by rw [c1.1.1, hlen]
  obtain ⟨t, f2, k1, k2, k3, k4, k5, k6, k7, k8, k9⟩ := feed_header_value L u1 v
    (by rw [← hu1]) hv hl1 (by omega)
  have hext : extends_ u1 t := by
    obtain ⟨m1, m2⟩ := memWrite_extends u1.clientMessage u1.clientPointer v (by omega)
    exact ⟨by rw [k9, m1], by omega, by rw [k9, m2]⟩
  have htk : tokenAt u1.clientMessage (s.headers s.numHeaderKeys).key (pre ++ k) := by
    apply tokenAt_prefix
    · have := DataTransfer.memRead_of_take_eq u1.clientMessage s.clientMessage s.clientPointer
        (s.headers s.numHeaderKeys).key pre.length c1.1.2.2 (by omega)
      unfold DataTransfer.memRead at this
      rw [this, hpre]
    · rw [hkey]; exact c1.2
  refine ⟨t, ?_, k1, ?_, ?_, ?_, ?_, ?_, ?_, ?_, by omega, extends_trans s u1 t c1.1 hext,
    tokenAt_extends u1 t _ _ htk hext (by rw [List.length_append]; omega), ?_⟩
  · have e1 := feed_chain L s t1 k [58, 32] _ f1 st1
    have e2 := feed_chain L s u1 (k ++ [58, 32]) (v ++ [13, 10]) _ e1 f2
    simpa only [List.append_assoc] using e2
  · rw [k2, ← hu1]; simp only [Parser.put, Parser.setHeaderValue, g2]
  · rw [k3, ← hu1]; simp only [Parser.put, Parser.setHeaderValue, g3]
  · rw [k4, ← hu1]; simp only [Parser.put, Parser.setHeaderValue, g4]
  · rw [k5, ← hu1]; simp only [Parser.put, Parser.setHeaderValue, g5]
  · rw [k6, ← hu1]; simp only [Parser.put, Parser.setHeaderValue, g6]
  · intro j hj
    rw [k7, ← hu1]; simp only [Parser.put, Parser.setHeaderValue, g4, if_neg hj, g7]
  · rw [k7, ← hu1]; simp only [Parser.put, Parser.setHeaderValue, g4, if_true, g7, g8]
  · rw [k9, ← hu1p]
    exact DataTransfer.memRead_memWrite_same _ _ _

theorem tokenAt_of_pending (a b : List Nat) (p q : Nat) (v : List Nat)
    (hv : (b.drop p).take v.length = v) (hq : p + v.length = q)
    (ha : a.take (q + 1) = b.take q ++ [0]) (hb : q ≤ b.length) : tokenAt a p v := by
  unfold tokenAt
  have e1 : (a.drop p).take (v.length + 1) = ((a.take (q + 1)).drop p) := by
    rw [List.drop_take]; congr 1; omega
  have e2 : (b.take q).drop p = v := by
    rw [List.drop_take, show q - p = v.length by omega]; exact hv
  have hl : (b.take q).length = q := by rw [List.length_take]; omega
  rw [e1, ha, List.drop_append_of_le_length (by rw [hl]; omega), e2]

end HttpResponder

namespace HttpResponder

theorem take_of_pending (a b : List Nat) (q r : Nat) (ha : a.take (q + 1) = b.take q ++ [0])
    (hr : r ≤ q) (hb : q ≤ b.length) : a.take r = b.take r := by
  have e : a.take r = (a.take (q + 1)).take r := by
    rw [List.take_take]; congr 1; omega
  rw [e, ha, List.take_append_of_le_length (by rw [List.length_take]; omega), List.take_take]
  congr 1; omega

open DataTransfer in
theorem poke_take (B : List Nat) (p : Nat) (h : p < B.length) :
    (B.set p 0).length = B.length ∧ (B.set p 0).take (p + 1) = B.take p ++ [0] := by
  refine ⟨List.length_set _ _ _, ?_⟩
  rw [set_eq_memWrite _ _ _ h]
  exact memWrite_take_end B p [0] (by omega)

/-- The header lines that follow a header line, and the blank line that ends the request. -/
theorem feed_headers_rest (L : Limits) (hs : List (List Nat × List Nat)) : ∀ s : Parser,
    s.parseState = .doingHeaderContinuation →
    s.numHeaderKeys + hs.length ≤ L.MaxHeaders - 1 →
    (∀ h ∈ hs, token h.1 ∧ token h.2 ∧ h.1 ≠ []) →
    s.clientMessage.length = L.clientMessageSize →
    s.clientPointer + (renderHeaders hs).length + 1 < L.clientMessageSize →
    ∃ u, feed L s (renderHeaders hs ++ [13, 10]) = (u, some .ProcessMessage) ∧
      u.clientMessage.length = L.clientMessageSize ∧
      u.clientMessage.take (s.clientPointer + 1) = s.clientMessage.take s.clientPointer ++ [0] ∧
      u.numHeaderKeys = s.numHeaderKeys + hs.length ∧
      u.numCommandWords = s.numCommandWords ∧ u.numQualKeys = s.numQualKeys ∧
      u.commandWords = s.commandWords ∧ u.qualifiers = s.qualifiers ∧
      (∀ j, j < s.numHeaderKeys → u.headers j = s.headers j) ∧
      (∀ j h, hs[j]? = some h →
        tokenAt u.clientMessage (u.headers (s.numHeaderKeys + j)).key h.1 ∧
        tokenAt u.clientMessage (u.headers (s.numHeaderKeys + j)).value h.2) := by
  induction hs with
  | nil =>
    intro s hps _ _ hlen hfit
    simp only [renderHeaders, List.length_nil, Nat.add_zero, List.nil_append] at hfit ⊢
    obtain ⟨p1, p2⟩ := poke_take s.clientMessage s.clientPointer (by omega)
    refine ⟨s.poke 0, step_end_continuation L s hps (by omega), by rw [← hlen]; exact p1, p2,
      rfl, rfl, rfl, rfl, rfl, fun _ _ => rfl, ?_⟩
    intro j h hj
    simp at hj
  | cons h rest ih =>
    intro s hps hmax htok hlen hfit
    obtain ⟨hk, hv, hne⟩ := htok h (List.mem_cons_self _ _)
    obtain ⟨c0, k, hck⟩ := List.exists_cons_of_ne_nil hne
    simp only [renderHeaders, List.length_append, List.length_cons, List.length_nil, hck]
      at hfit hmax
    have hc0 : plain c0 := hk c0 (by rw [hck]; exact List.mem_cons_self _ _)
    have hkt : token k := fun x hx => hk x (by rw [hck]; exact List.mem_cons_of_mem _ hx)
    have st := step_next_key L s c0 hps hc0 (by omega)
    generalize hs1 : ({ ((s.put 0).setHeaderKey s.numHeaderKeys).put c0 with
        parseState := HttpParseState.doingHeaderKey } : Parser) = s1 at st
    have s1p : s1.clientPointer = s.clientPointer + 2 := by rw [← hs1]; rfl
    have l0 : (DataTransfer.memWrite s.clientMessage s.clientPointer [0]).length =
        L.clientMessageSize := by
      rw [DataTransfer.memWrite_length _ _ _ (by simp only [List.length_singleton]; omega), hlen]
    have s1b : s1.clientMessage =
        DataTransfer.memWrite (DataTransfer.memWrite s.clientMessage s.clientPointer [0])
          (s.clientPointer + 1) [c0] := by
      rw [← hs1]
      simp only [Parser.put, Parser.setHeaderKey]
      rw [set_eq_memWrite s.clientMessage s.clientPointer 0 (by omega),
        set_eq_memWrite _ _ _ (by rw [l0]; omega)]
    have s1l : s1.clientMessage.length = L.clientMessageSize := by
      rw [s1b, DataTransfer.memWrite_length _ _ _ (by
        simp only [List.length_singleton]; omega), l0]
    have s1t : s1.clientMessage.take (s.clientPointer + 1) =
        s.clientMessage.take s.clientPointer ++ [0] := by
      rw [s1b, DataTransfer.memWrite_take _ _ _ (by omega) _ le_rfl]
      exact DataTransfer.memWrite_take_end s.clientMessage s.clientPointer [0] (by omega)
    have s1k : (s1.headers s1.numHeaderKeys).key = s.clientPointer + 1 := by
      rw [← hs1]; simp only [Parser.put, Parser.setHeaderKey, if_true]
    have s1n : s1.numHeaderKeys = s.numHeaderKeys := by rw [← hs1]; rfl
    have s1c : (s1.clientMessage.drop (s1.headers s1.numHeaderKeys).key).take [c0].length =
        [c0] := by
      rw [s1k, s1b]
      exact DataTransfer.memRead_memWrite_same _ _ _
    obtain ⟨t, ft, t1, t2, t3, t4, t5, t6, t7, t8, t9, t10, t11, t12⟩ :=
      feed_header_line L s1 [c0] k h.2 (by rw [← hs1]) (by rw [s1n]; omega)
        (by rw [s1k, s1p]; rfl) s1c hkt hv s1l (by rw [s1p]; omega)
    have tl : t.clientMessage.length = L.clientMessageSize := by rw [t10.1, s1l]
    obtain ⟨u, fu, u1, u2, u3, u4, u5, u6, u7, u8, u9⟩ := ih t t1 (by rw [t4, s1n]; omega)
      (fun x hx => htok x (List.mem_cons_of_mem _ hx)) tl (by rw [t9, s1p]; omega)
    have hut : ∀ r, r ≤ t.clientPointer → u.clientMessage.take r = t.clientMessage.take r :=
      fun r hr => take_of_pending _ _ _ r u2 hr (by omega)
    have huh : u.headers s.numHeaderKeys =
        ⟨s.clientPointer + 1, s1.clientPointer + k.length + 1⟩ := by
      rw [u8 _ (by rw [t4, s1n]; omega), ← s1n, t8, s1k]
    refine ⟨u, ?_, u1, ?_, ?_, ?_, ?_, ?_, ?_, ?_, ?_⟩
    · have e1 := feed_chain L s s1 [c0] _ _ (feed_single L s s1 c0 st) ft
      have e2 := feed_chain L s t _ (renderHeaders rest ++ [13, 10]) _ e1 fu
      rw [← e2]
      simp only [renderHeaders, hck, List.append_assoc, List.cons_append, List.nil_append]
    · rw [hut _ (by rw [t9, s1p]; omega),
        take_eq_of_le _ _ _ _ t10.2.2 (by rw [s1p]; omega), s1t]
    · rw [u3, t4, s1n, List.length_cons]; omega
    · rw [u4, t2, ← hs1]; rfl
    · rw [u5, t3, ← hs1]; rfl
    · rw [u6, t5, ← hs1]; rfl
    · rw [u7, t6, ← hs1]; rfl
    · intro j hj
      rw [u8 j (by rw [t4, s1n]; omega), t7 j (by rw [s1n]; omega), ← hs1]
      simp only [Parser.put, Parser.setHeaderKey, if_neg (show ¬ j = s.numHeaderKeys by omega)]
    · intro j h0 hj
      cases j with
      | zero =>
        simp only [List.getElem?_cons_zero, Option.some.injEq] at hj
        subst hj
        rw [Nat.add_zero, huh]
        simp only []
        constructor
        · rw [hck]
          have := tokenAt_of_take_eq u.clientMessage t.clientMessage _ t.clientPointer _
            t11 (hut _ le_rfl) (by
              rw [s1k, t9, s1p]; simp only [List.length_append, List.length_singleton]; omega)
          rw [s1k] at this
          exact this
        · exact tokenAt_of_pending u.clientMessage t.clientMessage _ t.clientPointer h.2 t12
            (by rw [t9]) u2 (by omega)
      | succ j =>
        simp only [List.getElem?_cons_succ] at hj
        have := u9 j h0 hj
        rw [t4, s1n, show s.numHeaderKeys + 1 + j = s.numHeaderKeys + (j + 1) by omega] at this
        exact this

end HttpResponder

namespace HttpResponder

/-- All header lines and the blank line, from the start of the first header line. -/
theorem feed_headers (L : Limits) (hs : List (List Nat × List Nat)) (s : Parser)
    (hps : s.parseState = .doingHeaderKey) (hn : s.numHeaderKeys = 0)
    (hkey : (s.headers 0).key = s.clientPointer)
    (hmax : hs.length ≤ L.MaxHeaders - 1)
    (htok : ∀ h ∈ hs, token h.1 ∧ token h.2 ∧ h.1 ≠ [])
    (hlen : s.clientMessage.length = L.clientMessageSize)
    (hfit : s.clientPointer + (renderHeaders hs).length + 1 < L.clientMessageSize) :
    ∃ u, feed L s (renderHeaders hs ++ [13, 10]) = (u, some .ProcessMessage) ∧
      u.clientMessage.take s.clientPointer = s.clientMessage.take s.clientPointer ∧
      u.numHeaderKeys = hs.length ∧
      u.numCommandWords = s.numCommandWords ∧ u.numQualKeys = s.numQualKeys ∧
      u.commandWords = s.commandWords ∧ u.qualifiers = s.qualifiers ∧
      (∀ j h, hs[j]? = some h →
        tokenAt u.clientMessage (u.headers j).key h.1 ∧
        tokenAt u.clientMessage (u.headers j).value h.2) := by
  cases hs with
  | nil =>
    refine ⟨s, ?_, rfl, by rw [hn]; rfl, rfl, rfl, rfl, rfl, ?_⟩
    · exact step_end_key L s hps (by rw [hn, hkey]) (by omega)
    · intro j h hj; simp at hj
  | cons h rest =>
    obtain ⟨hk, hv, _⟩ := htok h (List.mem_cons_self _ _)
    simp only [renderHeaders, List.length_append, List.length_cons, List.length_nil]
      at hfit hmax
    obtain ⟨t, ft, t1, t2, t3, t4, t5, t6, t7, t8, t9, t10, t11, t12⟩ :=
      feed_header_line L s [] h.1 h.2 hps (by rw [hn]; omega)
        (by rw [hn, hkey]; rfl) (by simp) hk hv hlen (by omega)
    rw [hn] at t4 t7 t8 t11
    rw [hkey] at t8 t11
    simp only [List.nil_append] at t11
    have tl : t.clientMessage.length = L.clientMessageSize := by rw [t10.1, hlen]
    obtain ⟨u, fu, u1, u2, u3, u4, u5, u6, u7, u8, u9⟩ := feed_headers_rest L rest t t1
      (by rw [t4]; omega) (fun x hx => htok x (List.mem_cons_of_mem _ hx)) tl
      (by rw [t9]; omega)
    have hut : ∀ r, r ≤ t.clientPointer → u.clientMessage.take r = t.clientMessage.take r :=
      fun r hr => take_of_pending _ _ _ r u2 hr (by omega)
    refine ⟨u, ?_, ?_, by rw [u3, t4, List.length_cons]; omega, by rw [u4, t2], by rw [u5, t3],
      by rw [u6, t5], by rw [u7, t6], ?_⟩
    · have e := feed_chain L s t _ (renderHeaders rest ++ [13, 10]) _ ft fu
      rw [← e]
      simp only [renderHeaders, List.append_assoc]
    · rw [hut _ t10.2.1, t10.2.2]
    · intro j h0 hj
      cases j with
      | zero =>
        simp only [List.getElem?_cons_zero, Option.some.injEq] at hj
        subst hj
        rw [u8 0 (by rw [t4]; omega), t8]
        simp only []
        exact ⟨tokenAt_of_take_eq _ _ _ t.clientPointer _ t11 (hut _ le_rfl)
            (by rw [t9]; omega),
          tokenAt_of_pending u.clientMessage t.clientMessage _ t.clientPointer h.2 t12
            (by rw [t9]) u2 (by omega)⟩
      | succ j =>
        simp only [List.getElem?_cons_succ] at hj
        have := u9 j h0 hj
        rw [t4, show 0 + 1 + j = j + 1 by omega] at this
        exact this

/-- The query (possibly empty, a bare `?`) and the space that ends it. -/
theorem feed_query_any (L : Limits) (qs : List (List Nat × List Nat)) (s : Parser)
    (hps : s.parseState = .doingQualifierKey) (hn : s.numQualKeys = 0)
    (hkey : (s.qualifiers 0).key = s.clientPointer)
    (hmax : qs.length ≤ L.MaxQualKeys)
    (htok : ∀ q ∈ qs, token q.1 ∧ token q.2)
    (hlen : s.clientMessage.length = L.clientMessageSize)
    (hfit : s.clientPointer + (renderQuery qs).length + 1 < L.clientMessageSize) :
    ∃ u, feed L s (renderQuery qs ++ [32]) = (u, none) ∧
      u.parseState = .doingCommandWord ∧ u.numCommandWords = s.numCommandWords ∧
      u.numQualKeys = qs.length ∧
      u.commandWords s.numCommandWords = u.clientPointer ∧
      (∀ j, j ≠ s.numCommandWords → u.commandWords j = s.commandWords j) ∧
      u.clientPointer ≤ s.clientPointer + (renderQuery qs).length + 1 ∧
      extends_ s u ∧
      (∀ j q, qs[j]? = some q →
        tokenAt u.clientMessage (u.qualifiers j).key q.1 ∧
        tokenAt u.clientMessage (u.qualifiers j).value q.2 ∧
        (u.qualifiers j).key + q.1.length + 1 ≤ u.clientPointer ∧
        (u.qualifiers j).value + q.2.length + 1 ≤ u.clientPointer) := by
  by_cases hq : qs = []
  · subst hq
    have st := step_key_space L s hps hn hkey (by omega)
    refine ⟨_, feed_single L s _ 32 st, rfl, rfl, by simp only [Parser.setCommandWord, hn, List.length_nil], ?_, ?_, ?_, ?_, ?_⟩
    · simp only [Parser.setCommandWord, if_true]
    · intro j hj
      simp only [Parser.setCommandWord, if_neg hj]
    · simp only [Parser.setCommandWord]; omega
    · exact ⟨rfl, le_rfl, rfl⟩
    · intro j q hj; simp at hj
  · obtain ⟨u, f, u1, u2, u3, u4, u5, u6, u7, _, u9⟩ := feed_query L qs s hq hps
      (by rw [hn]; exact hkey) (by rw [hn]; omega) htok hlen hfit
    rw [hn] at u3 u9
    refine ⟨u, f, u1, u2, by rw [u3]; omega, u4, u5, by omega, u7, ?_⟩
    intro j q hj
    have := u9 j q hj
    rw [Nat.zero_add] at this
    exact this

end HttpResponder

namespace HttpResponder

theorem map_range_eq {α : Type} (l : List α) (f : Nat → α)
    (h : ∀ j q, l[j]? = some q → f j = q) : (List.range l.length).map f = l := by
  apply List.ext_getElem?
  intro j
  by_cases hj : j < l.length
  · rw [List.getElem?_map, List.getElem?_range hj, List.getElem?_eq_getElem hj]
    simp only [Option.map_some', Option.some.injEq]
    exact h j _ (List.getElem?_eq_getElem hj)
  · rw [List.getElem?_eq_none (by simpa using hj), List.getElem?_eq_none (by simpa using hj)]

theorem renderRequest_length (method path version : List Nat)
    (qs hs : List (List Nat × List Nat)) :
    (renderRequest method path version qs hs).length =
      method.length + path.length + (renderQuery qs).length + version.length +
        (renderHeaders hs).length + 7 := by
  simp only [renderRequest, List.length_append, List.length_cons, List.length_nil]
  omega

/-- C2: a well-formed request `method path?k1=v1&...&kn=vn version\r\n h1: w1\r\n ... \r\n`
whose tokens consist of plain bytes, with at most `MaxQualKeys` query pairs, fewer than
`MaxHeaders - 1` headers and a length below the size of `clientMessage`, fed to `CharFromClient`
from the state set by `Accept`, ends in `ProcessMessage` with three command words (method,
path, version), the query pairs in `qualifiers` and the headers in `headers`, in order. -/
theorem well_formed_request (L : Limits) (prior : Parser) (method path version : List Nat)
    (qs hs : List (List Nat × List Nat))
    (hbuf : prior.clientMessage.length = L.clientMessageSize)
    (hcw : 3 ≤ L.MaxCommandWords)
    (hm : token method) (hp : token path) (hv : token version)
    (hq : ∀ q ∈ qs, token q.1 ∧ token q.2)
    (hh : ∀ h ∈ hs, token h.1 ∧ token h.2 ∧ h.1 ≠ [])
    (hn : qs.length ≤ L.MaxQualKeys) (hmx : hs.length < L.MaxHeaders - 1)
    (hlen : (renderRequest method path version qs hs).length < L.clientMessageSize) :
    ∃ t, feed L (Accept prior) (renderRequest method path version qs hs) =
        (t, some .ProcessMessage) ∧
      t.numCommandWords = 3 ∧
      cstring t.clientMessage (t.commandWords 0) = method ∧
      cstring t.clientMessage (t.commandWords 1) = path ∧
      cstring t.clientMessage (t.commandWords 2) = version ∧
      t.numQualKeys = qs.length ∧
      (List.range qs.length).map (fun j =>
        (cstring t.clientMessage (t.qualifiers j).key,
          cstring t.clientMessage (t.qualifiers j).value)) = qs ∧
      t.numHeaderKeys = hs.length ∧
      (List.range hs.length).map (fun j =>
        (cstring t.clientMessage (t.headers j).key,
          cstring t.clientMessage (t.headers j).value)) = hs := by
  rw [renderRequest_length] at hlen
  have a0 : (Accept prior).clientPointer = 0 := rfl
  have a1 : (Accept prior).commandWords 0 = 0 := rfl
  -- request line up to the `?`
  obtain ⟨u1, f1, p1, p2, p3, p4, p5, p6, p7, p8, p9, p10⟩ := feed_to_query L (Accept prior)
    method path rfl rfl (by omega) hm hp hbuf (by rw [a0]; omega)
  rw [a0] at p5 p7 p9 p10
  simp only [Nat.zero_add] at p5 p7 p10
  have l1 : u1.clientMessage.length = L.clientMessageSize := by rw [p8.1]; exact hbuf
  -- the query
  obtain ⟨u2, f2, q1, q2, q3, q4, q5, q6, q7, q8⟩ := feed_query_any L qs u1 p1 p3 p4 hn hq l1
    (by rw [p7]; omega)
  rw [p2] at q2 q4 q5
  have l2 : u2.clientMessage.length = L.clientMessageSize := by rw [q7.1, l1]
  -- the version and the end of the request line
  obtain ⟨u3, f3, r1, r2, r3, r4, r5, r6, r7, r8, r9, r10⟩ := feed_version L u2 version q1 hv l2
    (by omega)
  have l3 : u3.clientMessage.length = L.clientMessageSize := by rw [r9.1, l2]
  -- the headers and the blank line
  obtain ⟨t, f4, s1, s2, s3, s4, s5, s6, s7⟩ := feed_headers L hs u3 r1 r4 r5 (by omega) hh l3
    (by omega)
  have keep : ∀ p w, tokenAt u3.clientMessage p w → p + w.length + 1 ≤ u3.clientPointer →
      tokenAt t.clientMessage p w :=
    fun p w h hb => tokenAt_of_take_eq _ _ p u3.clientPointer w h s1 hb
  have e12 : extends_ u1 u3 := extends_trans u1 u2 u3 q7 r9
  refine ⟨t, ?_, by rw [s3, r2, q2], ?_, ?_, ?_, by rw [s4, r3, q3], ?_, s2, ?_⟩
  · have e1 := feed_chain L (Accept prior) u1 _ (renderQuery qs ++ [32]) _ f1 f2
    have e2 := feed_chain L (Accept prior) u2 _ (version ++ [13, 10]) _ e1 f3
    have e3 := feed_chain L (Accept prior) u3 _ (renderHeaders hs ++ [13, 10]) _ e2 f4
    rw [← e3]
    simp only [renderRequest, List.append_assoc]
  · rw [s5, r6, q5 0 (by omega), p6 0 (by omega), a1]
    exact cstring_of_tokenAt _ _ _
      (keep _ _ (tokenAt_extends u1 u3 _ _ p9 e12 (by omega)) (by have := e12.2.1; omega)) hm
  · rw [s5, r6, q5 1 (by omega), p5]
    exact cstring_of_tokenAt _ _ _
      (keep _ _ (tokenAt_extends u1 u3 _ _ p10 e12 (by omega)) (by have := e12.2.1; omega)) hp
  · rw [s5, r6, q4]
    exact cstring_of_tokenAt _ _ _ (keep _ _ r10 (by omega)) hv
  · apply map_range_eq
    intro j q hj
    obtain ⟨k1, k2, k3, k4⟩ := q8 j q hj
    have hqm : q ∈ qs := List.getElem?_mem hj
    rw [s6, r7]
    have t1 := cstring_of_tokenAt _ _ _
      (keep _ _ (tokenAt_extends u2 u3 _ _ k1 r9 k3) (by have := r9.2.1; omega)) (hq q hqm).1
    have t2 := cstring_of_tokenAt _ _ _
      (keep _ _ (tokenAt_extends u2 u3 _ _ k2 r9 k4) (by have := r9.2.1; omega)) (hq q hqm).2
    rw [t1, t2]
  · apply map_range_eq
    intro j h hj
    obtain ⟨k1, k2⟩ := s7 j h hj
    have hhm : h ∈ hs := List.getElem?_mem hj
    rw [cstring_of_tokenAt _ _ _ k1 (hh h hhm).1, cstring_of_tokenAt _ _ _ k2 (hh h hhm).2.1]

theorem well_formed_request_witness :
    ∃ t, feed sampleLimits (Accept (blankParser sampleLimits))
        (bytes "GET /rr_status?type=2 HTTP/1.1\r\nHost: x\r\n\r\n") =
          (t, some .ProcessMessage) ∧
      t.numCommandWords = 3 ∧
      cstring t.clientMessage (t.commandWords 0) = bytes "GET" ∧
      cstring t.clientMessage (t.commandWords 1) = bytes "/rr_status" ∧
      cstring t.clientMessage (t.commandWords 2) = bytes "HTTP/1.1" ∧
      t.numQualKeys = 1 ∧
      cstring t.clientMessage (t.qualifiers 0).key = bytes "type" ∧
      cstring t.clientMessage (t.qualifiers 0).value = bytes "2" ∧
      t.numHeaderKeys = 1 ∧
      cstring t.clientMessage (t.headers 0).key = bytes "Host" ∧
      cstring t.clientMessage (t.headers 0).value = bytes "x" := by
  obtain ⟨t, h1, h2, h3, h4, h5, h6, h7, h8, h9⟩ :=
    well_formed_request sampleLimits (blankParser sampleLimits) (bytes "GET")
      (bytes "/rr_status") (bytes "HTTP/1.1") [(bytes "type", bytes "2")]
      [(bytes "Host", bytes "x")] (List.length_replicate _ _) (by decide) (by decide)
      (by decide) (by decide) (by decide) (by decide) (by decide) (by decide) (by decide)
  have hreq : renderRequest (bytes "GET") (bytes "/rr_status") (bytes "HTTP/1.1")
      [(bytes "type", bytes "2")] [(bytes "Host", bytes "x")] =
      bytes "GET /rr_status?type=2 HTTP/1.1\r\nHost: x\r\n\r\n" := by decide
  rw [hreq] at h1
  simp only [List.length_singleton, List.range_succ, List.range_zero, List.nil_append,
    List.map_cons, List.map_nil, List.cons.injEq, Prod.mk.injEq, and_true] at h7 h9
  exact ⟨t, h1, h2, h3, h4, h5, h6, h7.1, h7.2, h8, h9.1, h9.2⟩

end HttpResponder

namespace HttpResponder

/-! ### Escapes -/

theorem hex_combine : ∀ a, a < 16 → ∀ b, b < 16 → ((a <<< 4) % 256 ||| b) % 256 = 16 * a + b := by
  decide

theorem hexValue_lt (c : Nat) (h : hexDigit c) : hexValue c < 16 := by
  unfold hexDigit at h
  unfold hexValue
  split_ifs <;> omega

theorem hexValue_digit (c : Nat) (h : 48 ≤ c ∧ c ≤ 57) : hexValue c = c - 48 := by
  unfold hexValue; rw [if_pos h.2]

theorem hexValue_letter (c : Nat) (h : 65 ≤ c ∧ c ≤ 70) : hexValue c = c - (65 - 10) := by
  unfold hexValue; rw [if_neg (by omega)]

theorem not_digit_of_letter (c : Nat) (h : 65 ≤ c ∧ c ≤ 70) : ¬ (48 ≤ c ∧ c ≤ 57) := by omega

/-- The call for the first digit of an escape. -/
theorem esc1_step (L : Limits) (s : Parser) (x : Nat)
    (hst : s.parseState = .doingQualifierValueEsc1 ∨ s.parseState = .doingFilenameEsc1)
    (hx : hexDigit x) (hfit : s.clientPointer ≠ L.clientMessageSize) :
    CharFromClient L s x =
      ({ s with
          decodeChar := ((hexValue x) <<< 4) % 256,
          parseState := HttpParseState.atIndex (s.parseState.index + 1) }, none) := by
  unfold hexDigit at hx
  rcases hst with hps | hps <;> rcases hx with hx | hx
  · rw [hexValue_digit x hx]
    simp [CharFromClient, parseSwitch, hps, hx, hfit]
  · rw [hexValue_letter x hx]
    simp [CharFromClient, parseSwitch, hps, hx, not_digit_of_letter x hx, hfit]
  · rw [hexValue_digit x hx]
    simp [CharFromClient, parseSwitch, hps, hx, hfit]
  · rw [hexValue_letter x hx]
    simp [CharFromClient, parseSwitch, hps, hx, not_digit_of_letter x hx, hfit]

/-- The call for the second digit of an escape. -/
theorem esc2_step (L : Limits) (s : Parser) (y : Nat)
    (hst : s.parseState = .doingQualifierValueEsc2 ∨ s.parseState = .doingFilenameEsc2)
    (hy : hexDigit y) (hfit : s.clientPointer + 1 ≠ L.clientMessageSize) :
    CharFromClient L s y =
      ({ s.put ((s.decodeChar ||| hexValue y) % 256) with
          parseState := HttpParseState.atIndex (s.parseState.index - 2) }, none) := by
  unfold hexDigit at hy
  rcases hst with hps | hps <;> rcases hy with hy | hy
  · rw [hexValue_digit y hy]
    simp [CharFromClient, parseSwitch, hps, hy, hfit, Parser.put]
  · rw [hexValue_letter y hy]
    simp [CharFromClient, parseSwitch, hps, hy, not_digit_of_letter y hy, hfit, Parser.put]
  · rw [hexValue_digit y hy]
    simp [CharFromClient, parseSwitch, hps, hy, hfit, Parser.put]
  · rw [hexValue_letter y hy]
    simp [CharFromClient, parseSwitch, hps, hy, not_digit_of_letter y hy, hfit, Parser.put]

/-- The call for `%` in a query value or in the file name. -/
theorem percent_step (L : Limits) (s : Parser)
    (hst : s.parseState = .doingQualifierValue ∨ s.parseState = .doingFilename)
    (hfit : s.clientPointer ≠ L.clientMessageSize) :
    CharFromClient L s 37 =
      ({ s with parseState := HttpParseState.atIndex (s.parseState.index + 1) }, none) := by
  rcases hst with hps | hps <;>
    simp [CharFromClient, parseSwitch, hps, hfit, HttpParseState.index, HttpParseState.atIndex]

/-- The three calls for an escape `%XY` in a query value or in the file name: the decoded byte
is stored and the parse state is again the one before the `%`. -/
theorem escape_step (L : Limits) (s : Parser) (x y : Nat)
    (hst : s.parseState = .doingQualifierValue ∨ s.parseState = .doingFilename)
    (hx : hexDigit x) (hy : hexDigit y)
    (hfit : s.clientPointer + 1 < L.clientMessageSize) :
    feed L s [37, x, y] =
      ({ s.put (16 * hexValue x + hexValue y) with
          decodeChar := ((hexValue x) <<< 4) % 256 }, none) := by
  have hc := hex_combine (hexValue x) (hexValue_lt x hx) (hexValue y) (hexValue_lt y hy)
  have h1 := percent_step L s hst (by omega)
  have h2 := esc1_step L { s with parseState := HttpParseState.atIndex (s.parseState.index + 1) }
    x (by rcases hst with h | h <;> simp [h, HttpParseState.index, HttpParseState.atIndex]) hx
    (by show s.clientPointer ≠ L.clientMessageSize; omega)
  have h3 := esc2_step L
    { s with
      decodeChar := ((hexValue x) <<< 4) % 256,
      parseState := HttpParseState.atIndex
        ((HttpParseState.atIndex (s.parseState.index + 1)).index + 1) }
    y (by rcases hst with h | h <;> simp [h, HttpParseState.index, HttpParseState.atIndex]) hy
    (by show s.clientPointer + 1 ≠ L.clientMessageSize; omega)
  simp only [feed, h1, h2, h3]
  rw [hc]
  rcases hst with h | h <;> simp [h, HttpParseState.index, HttpParseState.atIndex, Parser.put]

theorem value_item_step (L : Limits) (s : Parser) (i : RawItem)
    (hps : s.parseState = .doingQualifierValue) (hi : i.inValue)
    (hfit : s.clientPointer + 1 < L.clientMessageSize) :
    ∃ d, feed L s i.raw = ({ s.put i.decoded with decodeChar := d }, none) := by
  have hne : s.clientPointer + 1 ≠ L.clientMessageSize := by omega
  cases i with
  | char c =>
    obtain ⟨h1, h2, h3, h4, h5, h6, h7⟩ := hi
    exact ⟨s.decodeChar, by
      simp [RawItem.raw, RawItem.decoded, feed, CharFromClient, parseSwitch, hps, h1, h2, h3, h4,
        h5, h6, h7, hne, Parser.put]⟩
  | plus =>
    exact ⟨s.decodeChar, by
      simp [RawItem.raw, RawItem.decoded, feed, CharFromClient, parseSwitch, hps, hne,
        Parser.put]⟩
  | escape x y =>
    exact ⟨_, escape_step L s x y (Or.inl hps) hi.1 hi.2 hfit⟩

theorem path_item_step (L : Limits) (s : Parser) (i : RawItem)
    (hps : s.parseState = .doingFilename) (hi : i.inPath)
    (hfit : s.clientPointer + 1 < L.clientMessageSize) :
    ∃ d, feed L s i.raw = ({ s.put i.decodedInPath with decodeChar := d }, none) := by
  have hne : s.clientPointer + 1 ≠ L.clientMessageSize := by omega
  cases i with
  | char c =>
    obtain ⟨h1, h2, h3, h4, h5, h6, h7⟩ := hi
    exact ⟨s.decodeChar, by
      simp [RawItem.raw, RawItem.decodedInPath, feed, CharFromClient, parseSwitch, hps, h1, h2,
        h3, h4, h5, h6, h7, hne, Parser.put]⟩
  | plus =>
    exact ⟨s.decodeChar, by
      simp [RawItem.raw, RawItem.decodedInPath, feed, CharFromClient, parseSwitch, hps, hne,
        Parser.put]⟩
  | escape x y =>
    exact ⟨_, escape_step L s x y (Or.inr hps) hi.1 hi.2 hfit⟩

open DataTransfer in
/-- Feeding raw items, each of which stores one decoded byte and returns to the state `st`,
appends the decoded bytes to the message and changes nothing else but `decodeChar`. -/
theorem feed_items (L : Limits) (ok : RawItem → Prop) (dec : RawItem → Nat)
    (st : HttpParseState)
    (hstep : ∀ (s : Parser) (i : RawItem), s.parseState = st → ok i →
      s.clientPointer + 1 < L.clientMessageSize →
      ∃ d, feed L s i.raw = ({ s.put (dec i) with decodeChar := d }, none))
    (items : List RawItem) : ∀ s : Parser,
    s.parseState = st → (∀ i ∈ items, ok i) →
    s.clientMessage.length = L.clientMessageSize →
    s.clientPointer + items.length < L.clientMessageSize →
    ∃ t, feed L s (rawText items) = (t, none) ∧ t.parseState = st ∧
      t.numCommandWords = s.numCommandWords ∧ t.numQualKeys = s.numQualKeys ∧
      t.numHeaderKeys = s.numHeaderKeys ∧ t.commandWords = s.commandWords ∧
      t.qualifiers = s.qualifiers ∧ t.headers = s.headers ∧
      t.clientPointer = s.clientPointer + items.length ∧
      t.clientMessage = memWrite s.clientMessage s.clientPointer (items.map dec) := by
  induction items with
  | nil =>
    intro s hps _ hlen hfit
    refine ⟨s, rfl, hps, rfl, rfl, rfl, rfl, rfl, rfl, rfl, ?_⟩
    rw [memWrite_eq _ _ _ (by omega)]
    simp
  | cons i rest ih =>
    intro s hps hok hlen hfit
    simp only [List.length_cons] at hfit
    obtain ⟨d, hd⟩ := hstep s i hps (hok i (List.mem_cons_self _ _)) (by omega)
    obtain ⟨t, h1, h2, h3, h4, h5, h6, h7, h8, h9, h10⟩ :=
      ih { s.put (dec i) with decodeChar := d } hps
        (fun x hx => hok x (List.mem_cons_of_mem _ hx))
        (by simp [Parser.put, hlen]) (by simp only [Parser.put]; omega)
    refine ⟨t, ?_, h2, h3, h4, h5, h6, h7, h8, ?_, ?_⟩
    · exact feed_chain L s _ i.raw (rawText rest) _ hd h1
    · rw [h9]; simp only [Parser.put, List.length_cons]; omega
    · rw [h10]
      simp only [Parser.put, List.map_cons]
      rw [set_eq_memWrite _ _ _ (by omega)]
      have := memWrite_adjacent s.clientMessage s.clientPointer [dec i] (rest.map dec)
        (by simp only [List.length_singleton]; omega)
      simpa using this

end HttpResponder

namespace HttpResponder

open DataTransfer in
/-- C17: in a query value the parser stores the reference URL decoding of the raw text (`+`
becomes a space, `%XY` the byte `16*hex(X) + hex(Y)`, other characters themselves) and stays in
state `doingQualifierValue`; when the value is ended by a space the decoded text lies
zero-terminated where the value started, and no value pointer has moved.  In the file name
the same holds with `+` kept.  After an escape the parse state is the one before the `%`. -/
theorem unescape_spec (L : Limits) (s : Parser) (items : List RawItem)
    (hlen : s.clientMessage.length = L.clientMessageSize)
    (hfit : s.clientPointer + items.length + 1 < L.clientMessageSize) :
    (s.parseState = .doingQualifierValue → (∀ i ∈ items, i.inValue) →
      (∃ t, feed L s (rawText items) = (t, none) ∧ t.parseState = .doingQualifierValue ∧
        t.numQualKeys = s.numQualKeys ∧ t.qualifiers = s.qualifiers ∧
        t.clientPointer = s.clientPointer + (urlDecode items).length ∧
        t.clientMessage = memWrite s.clientMessage s.clientPointer (urlDecode items)) ∧
      (∃ u, feed L s (rawText items ++ [32]) = (u, none) ∧
        tokenAt u.clientMessage s.clientPointer (urlDecode items) ∧
        ∀ j, (u.qualifiers j).value = (s.qualifiers j).value)) ∧
    (s.parseState = .doingFilename → (∀ i ∈ items, i.inPath) →
      ∃ t, feed L s (rawText items) = (t, none) ∧ t.parseState = .doingFilename ∧
        t.numCommandWords = s.numCommandWords ∧ t.commandWords = s.commandWords ∧
        t.clientPointer = s.clientPointer + (pathDecode items).length ∧
        t.clientMessage = memWrite s.clientMessage s.clientPointer (pathDecode items)) ∧
    (s.parseState = .doingQualifierValue ∨ s.parseState = .doingFilename →
      ∀ x y, hexDigit x → hexDigit y →
        ∃ t, feed L s [37, x, y] = (t, none) ∧ t.parseState = s.parseState ∧
          t.clientPointer = s.clientPointer + 1 ∧
          t.clientMessage = s.clientMessage.set s.clientPointer (16 * hexValue x + hexValue y))
    := by
  refine ⟨?_, ?_, ?_⟩
  · intro hps hok
    obtain ⟨t, h1, h2, _, h4, _, _, h7, _, h9, h10⟩ :=
      feed_items L RawItem.inValue RawItem.decoded .doingQualifierValue
        (fun s i => value_item_step L s i) items s hps hok hlen (by omega)
    refine ⟨⟨t, h1, h2, h4, h7, ?_, h10⟩, ?_⟩
    · rw [h9]; simp [urlDecode]
    · have hsp := step_value_space L t h2 (by rw [h9]; omega)
      refine ⟨_, feed_chain L s t _ [32] _ h1 (feed_single L t _ 32 hsp), ?_, ?_⟩
      · exact (token_closed s t _ (urlDecode items) h10 (by rw [h9]; simp [urlDecode]) rfl rfl
          (by simp only [urlDecode, List.length_map]; omega)).2
      · intro j
        simp only [Parser.setCommandWord, Parser.setQualKey, Parser.put, h7]
        split_ifs <;> rfl
  · intro hps hok
    obtain ⟨t, h1, h2, h3, _, _, h6, _, _, h9, h10⟩ :=
      feed_items L RawItem.inPath RawItem.decodedInPath .doingFilename
        (fun s i => path_item_step L s i) items s hps hok hlen (by omega)
    refine ⟨t, h1, h2, h3, h6, ?_, h10⟩
    rw [h9]; simp [pathDecode]
  · intro hst x y hx hy
    exact ⟨_, escape_step L s x y hst hx hy (by omega), rfl, rfl, rfl⟩

open DataTransfer in
theorem unescape_spec_witness :
    (∃ t, feed sampleLimits atSampleValue (rawText sampleValue) = (t, none) ∧
        t.parseState = .doingQualifierValue ∧
        t.clientMessage = memWrite atSampleValue.clientMessage atSampleValue.clientPointer
          [102, 111, 111, 47, 98, 97, 114, 46, 103]) ∧
      (∃ t, feed sampleLimits atSamplePath (rawText sampleValue) = (t, none) ∧
        t.parseState = .doingFilename ∧
        t.clientMessage = memWrite atSamplePath.clientMessage atSamplePath.clientPointer
          [102, 111, 111, 47, 98, 97, 114, 46, 103]) ∧
      cstring
        (feed sampleLimits (Accept (blankParser sampleLimits))
          (bytes "GET /rr_delete?name=foo%2Fbar.g HTTP/1.1\r\n\r\n")).1.clientMessage
        ((feed sampleLimits (Accept (blankParser sampleLimits))
          (bytes "GET /rr_delete?name=foo%2Fbar.g HTTP/1.1\r\n\r\n")).1.qualifiers 0).value =
        bytes "foo/bar.g" := by
  refine ⟨?_, ?_, by decide!⟩
  · obtain ⟨⟨t, h1, h2, _, _, _, h6⟩, _⟩ :=
      (unescape_spec sampleLimits atSampleValue sampleValue (by decide!) (by decide!)).1
        (by decide!) (by decide)
    exact ⟨t, h1, h2, h6⟩
  · obtain ⟨t, h1, h2, _, _, _, h6⟩ :=
      (unescape_spec sampleLimits atSamplePath sampleValue (by decide!) (by decide!)).2.1
        (by decide!) (by decide)
    exact ⟨t, h1, h2, h6⟩

/-- C18: a character other than `0`-`9` and `A`-`F` in either of the two positions after a `%`
(states `...Esc1` and `...Esc2` of the file name and of a query value) makes `CharFromClient`
call `RejectMessage("bad escape")` and return true; seen from the `%`: the calls before the
offending character return false and the call for it rejects. -/
theorem bad_escape_rejected (L : Limits) (s : Parser) (c : Nat) (hc : ¬ hexDigit c) :
    (s.parseState = .doingFilenameEsc1 ∨ s.parseState = .doingFilenameEsc2 ∨
        s.parseState = .doingQualifierValueEsc1 ∨ s.parseState = .doingQualifierValueEsc2 →
      CharFromClient L s c = (s, some (.RejectMessage "bad escape"))) ∧
    (s.parseState = .doingFilename ∨ s.parseState = .doingQualifierValue →
      s.clientPointer < L.clientMessageSize →
      (CharFromClient L s 37).2 = none ∧
      (∃ t, feed L s [37, c] = (t, some (.RejectMessage "bad escape"))) ∧
      ∀ x, hexDigit x →
        (feed L s [37, x]).2 = none ∧
        ∃ t, feed L s [37, x, c] = (t, some (.RejectMessage "bad escape"))) := by
  have key : ∀ s : Parser,
      (s.parseState = .doingFilenameEsc1 ∨ s.parseState = .doingFilenameEsc2 ∨
        s.parseState = .doingQualifierValueEsc1 ∨ s.parseState = .doingQualifierValueEsc2) →
      CharFromClient L s c = (s, some (.RejectMessage "bad escape")) := by
    intro s hst
    unfold hexDigit at hc
    have h1 : ¬ (48 ≤ c ∧ c ≤ 57) := fun h => hc (Or.inl h)
    have h2 : ¬ (65 ≤ c ∧ c ≤ 70) := fun h => hc (Or.inr h)
    rcases hst with h | h | h | h <;>
      simp [CharFromClient, parseSwitch, h, h1, h2, badEscapeResponse]
  refine ⟨key s, ?_⟩
  intro hst hfit
  have hst1 : s.parseState = .doingQualifierValue ∨ s.parseState = .doingFilename := hst.symm
  have hp := percent_step L s hst1 (by omega)
  have hs1 : ({ s with parseState := HttpParseState.atIndex (s.parseState.index + 1) } :
      Parser).parseState = .doingQualifierValueEsc1 ∨
      ({ s with parseState := HttpParseState.atIndex (s.parseState.index + 1) } :
      Parser).parseState = .doingFilenameEsc1 := by
    rcases hst1 with h | h <;> simp [h, HttpParseState.index, HttpParseState.atIndex]
  refine ⟨by rw [hp], ?_, ?_⟩
  · refine ⟨{ s with parseState := HttpParseState.atIndex (s.parseState.index + 1) }, ?_⟩
    simp only [feed, hp]
    rw [key _ (by rcases hst1 with h | h <;> simp [h, HttpParseState.index,
      HttpParseState.atIndex])]
  · intro x hx
    have h1 := esc1_step L _ x hs1 hx (by show s.clientPointer ≠ L.clientMessageSize; omega)
    refine ⟨by simp only [feed, hp, h1],
      { s with
        decodeChar := ((hexValue x) <<< 4) % 256,
        parseState := HttpParseState.atIndex
          ((HttpParseState.atIndex (s.parseState.index + 1)).index + 1) }, ?_⟩
    simp only [feed, hp, h1]
    rw [key _ (by rcases hst1 with h | h <;> simp [h, HttpParseState.index,
      HttpParseState.atIndex])]

theorem bad_escape_rejected_witness :
    (∃ t, feed sampleLimits atSampleValue [37, 50, 97] =
        (t, some (.RejectMessage "bad escape"))) ∧
      (∃ t, feed sampleLimits atSamplePath [37, 103] =
        (t, some (.RejectMessage "bad escape"))) :=
  ⟨(((bad_escape_rejected sampleLimits atSampleValue 97 (by decide)).2 (by decide!)
      (by decide!)).2.2 50 (by decide)).2,
    ((bad_escape_rejected sampleLimits atSamplePath 103 (by decide)).2 (by decide!)
      (by decide!)).2.1⟩

end HttpResponder

namespace HttpResponder

/-! ### The number of query keys -/

theorem parseSwitch_numQualKeys (L : Limits) (s : Parser) (c : Nat) (hpos : 0 < L.MaxQualKeys)
    (h1 : s.numQualKeys ≤ L.MaxQualKeys)
    (h2 : s.parseState = .doingQualifierKey → s.numQualKeys < L.MaxQualKeys) :
    (parseSwitch L s c).1.numQualKeys ≤ L.MaxQualKeys ∧
    ((parseSwitch L s c).1.parseState = .doingQualifierKey →
      (parseSwitch L s c).1.numQualKeys < L.MaxQualKeys) := by
  revert h2
  unfold parseSwitch headerValueChar
  cases hps : s.parseState <;> simp only [] <;> intro h2 <;> split_ifs <;>
    simp only [Parser.put, Parser.poke, Parser.setCommandWord, Parser.setQualKey,
      Parser.setQualValue, Parser.setHeaderKey, Parser.setHeaderValue, HttpParseState.index,
      HttpParseState.atIndex, hps, reduceCtorEq, false_implies, true_implies, and_true,
      imp_self] at h2 ⊢ <;>
    (try simp only [hps, Parser.put, Parser.setQualKey] at *) <;>
    omega

theorem parseSwitch_qualifier_stores (L : Limits) (s : Parser) (c : Nat)
    (h1 : s.numQualKeys ≤ L.MaxQualKeys) (i : Nat)
    (hi : Store.qualifiers i ∈ (parseSwitch L s c).1.stores) :
    Store.qualifiers i ∈ s.stores ∨ i ≤ L.MaxQualKeys := by
  revert hi
  unfold parseSwitch headerValueChar
  cases hps : s.parseState <;> simp only [] <;> split_ifs <;>
    simp only [Parser.put, Parser.poke, Parser.setCommandWord, Parser.setQualKey,
      Parser.setQualValue, Parser.setHeaderKey, Parser.setHeaderValue, List.mem_cons,
      reduceCtorEq, false_or, Store.qualifiers.injEq] <;>
    intro hi <;>
    first
    | exact Or.inl hi
    | (rcases hi with hi | hi
       · right; omega
       · exact Or.inl hi)

/-- Along a run of `feed`: `numQualKeys ≤ MaxQualKeys`, with strict inequality in state
`doingQualifierKey`, and every store to `qualifiers` has an index of at most `MaxQualKeys`. -/
theorem feed_numQualKeys (L : Limits) (hpos : 0 < L.MaxQualKeys) (input : List Nat) :
    ∀ s : Parser, s.numQualKeys ≤ L.MaxQualKeys →
    (s.parseState = .doingQualifierKey → s.numQualKeys < L.MaxQualKeys) →
    (∀ i, Store.qualifiers i ∈ s.stores → i ≤ L.MaxQualKeys) →
    (feed L s input).1.numQualKeys ≤ L.MaxQualKeys ∧
    (∀ i, Store.qualifiers i ∈ (feed L s input).1.stores → i ≤ L.MaxQualKeys) := by
  induction input with
  | nil => intro s h1 _ h3; exact ⟨h1, h3⟩
  | cons c cs ih =>
    intro s h1 h2 h3
    have k1 := parseSwitch_numQualKeys L s c hpos h1 h2
    have k2 : ∀ i, Store.qualifiers i ∈ (parseSwitch L s c).1.stores → i ≤ L.MaxQualKeys := by
      intro i hi
      rcases parseSwitch_qualifier_stores L s c h1 i hi with h | h
      · exact h3 i h
      · exact h
    rw [← CharFromClient_fst] at k1 k2
    simp only [feed]
    rcases hcc : CharFromClient L s c with ⟨s1, _ | r⟩
    · rw [hcc] at k1 k2
      exact ih s1 k1.1 k1.2 k2
    · rw [hcc] at k1 k2
      exact ⟨k1.1, k2⟩

theorem step_value_amp_full (L : Limits) (s : Parser) (hps : s.parseState = .doingQualifierValue)
    (hmax : ¬ s.numQualKeys < L.MaxQualKeys) :
    CharFromClient L s 38 =
      ((s.put 0).setQualKey s.numQualKeys,
        some (.RejectMessage "too many keys in qualifier")) := by
  simp [CharFromClient, parseSwitch, hps, Parser.put, Parser.setQualKey, hmax]

theorem renderQuery_split (qa qb : List (List Nat × List Nat)) (ha : qa ≠ []) (hb : qb ≠ []) :
    renderQuery (qa ++ qb) = renderQuery qa ++ [38] ++ renderQuery qb := by
  induction qa with
  | nil => exact absurd rfl ha
  | cons q rest ih =>
    cases rest with
    | nil =>
      cases qb with
      | nil => exact absurd rfl hb
      | cons b bs => simp [renderQuery]
    | cons q' rest' =>
      have := ih (by simp)
      simp only [List.cons_append] at this ⊢
      rw [renderQuery_cons_cons, this, renderQuery_cons_cons]
      simp only [List.append_assoc]

/-- The query `k1=v1&...&kn=vn` (n at least 1) without the character that ends it: the parser
is in the last value and has counted n more keys. -/
theorem feed_pairs_open (L : Limits) (qs : List (List Nat × List Nat)) : ∀ s : Parser,
    qs ≠ [] → s.parseState = .doingQualifierKey →
    (s.qualifiers s.numQualKeys).key = s.clientPointer →
    s.numQualKeys + qs.length ≤ L.MaxQualKeys →
    (∀ q ∈ qs, token q.1 ∧ token q.2) →
    s.clientMessage.length = L.clientMessageSize →
    s.clientPointer + (renderQuery qs).length + 1 < L.clientMessageSize →
    ∃ t, feed L s (renderQuery qs) = (t, none) ∧
      t.parseState = .doingQualifierValue ∧ t.numQualKeys = s.numQualKeys + qs.length ∧
      t.clientPointer = s.clientPointer + (renderQuery qs).length := by
  induction qs with
  | nil => intro s h; exact absurd rfl h
  | cons q rest ih =>
    intro s _ hps hkey hmax htok hlen hfit
    have hq := htok q (List.mem_cons_self _ _)
    cases rest with
    | nil =>
      rw [renderQuery_single] at hfit ⊢
      simp only [List.length_append, List.length_singleton] at hfit
      obtain ⟨u, t, f, _, _, up, _, tp, tps, tq, _⟩ :=
        feed_pair L s q.1 q.2 hps hkey hq.1 hq.2 hlen (by omega)
      refine ⟨t, f, tps, by rw [tq]; rfl, ?_⟩
      rw [tp, up]
      simp only [List.length_append, List.length_singleton]
      omega
    | cons q' rest' =>
      rw [renderQuery_cons_cons] at hfit ⊢
      simp only [List.length_append, List.length_singleton, List.length_cons] at hfit hmax
      obtain ⟨u, t, f, e1, _, up, tb, tp, tps, tq, _⟩ :=
        feed_pair L s q.1 q.2 hps hkey hq.1 hq.2 hlen (by omega)
      have st := step_value_amp L t tps (by omega) (by omega)
      have tl : t.clientMessage.length = L.clientMessageSize := by
        rw [tb, DataTransfer.memWrite_length _ _ _ (by rw [e1.1, hlen]; omega), e1.1, hlen]
      obtain ⟨w, fw, w1, w2, w3⟩ := ih
        { (t.put 0).setQualKey t.numQualKeys with parseState := .doingQualifierKey } (by simp)
        rfl (by simp only [Parser.put, Parser.setQualKey, if_true])
        (by simp only [Parser.put, Parser.setQualKey, tq, List.length_cons]; omega)
        (fun x hx => htok x (List.mem_cons_of_mem _ hx))
        (by simp only [Parser.put, Parser.setQualKey, List.length_set, tl])
        (by simp only [Parser.put, Parser.setQualKey, tp, up]; omega)
      refine ⟨w, ?_, w1, ?_, ?_⟩
      · have e2 := feed_chain L s t _ [38] _ f (feed_single L t _ 38 st)
        have e3 := feed_chain L s _ _ (renderQuery (q' :: rest')) _ e2 fw
        rw [← e3]
      · rw [w2]
        simp only [Parser.put, Parser.setQualKey, tq, List.length_cons]
        omega
      · rw [w3]
        simp only [Parser.put, Parser.setQualKey, tp, up, List.length_append,
          List.length_singleton]
        omega

end HttpResponder

namespace HttpResponder

/-- A well-formed request ends in `ProcessMessage` with the three command words method, path
and version, and with as many query keys and header keys as it has pairs. -/
theorem request_processed (L : Limits) (prior : Parser) (method path version : List Nat)
    (qs hs : List (List Nat × List Nat))
    (hbuf : prior.clientMessage.length = L.clientMessageSize)
    (hcw : 3 ≤ L.MaxCommandWords)
    (hm : token method) (hp : token path) (hv : token version)
    (hq : ∀ q ∈ qs, token q.1 ∧ token q.2)
    (hh : ∀ h ∈ hs, token h.1 ∧ token h.2 ∧ h.1 ≠ [])
    (hn : qs.length ≤ L.MaxQualKeys) (hmx : hs.length < L.MaxHeaders - 1)
    (hlen : (renderRequest method path version qs hs).length < L.clientMessageSize) :
    ∃ t, feed L (Accept prior) (renderRequest method path version qs hs) =
        (t, some .ProcessMessage) ∧
      t.numCommandWords = 3 ∧
      cstring t.clientMessage (t.commandWords 0) = method ∧
      cstring t.clientMessage (t.commandWords 1) = path ∧
      cstring t.clientMessage (t.commandWords 2) = version ∧
      t.numQualKeys = qs.length ∧ t.numHeaderKeys = hs.length := by
  rw [renderRequest_length] at hlen
  have a0 : (Accept prior).clientPointer = 0 := rfl
  have a1 : (Accept prior).commandWords 0 = 0 := rfl
  obtain ⟨u1, f1, p1, p2, p3, p4, p5, p6, p7, p8, p9, p10⟩ := feed_to_query L (Accept prior)
    method path rfl rfl (by omega) hm hp hbuf (by rw [a0]; omega)
  rw [a0] at p5 p7 p9 p10
  simp only [Nat.zero_add] at p5 p7 p10
  have l1 : u1.clientMessage.length = L.clientMessageSize := by rw [p8.1]; exact hbuf
  obtain ⟨u2, f2, q1, q2, q3, q4, q5, q6, q7, _⟩ := feed_query_any L qs u1 p1 p3 p4 hn hq l1
    (by rw [p7]; omega)
  rw [p2] at q2 q4 q5
  have l2 : u2.clientMessage.length = L.clientMessageSize := by rw [q7.1, l1]
  obtain ⟨u3, f3, r1, r2, r3, r4, r5, r6, r7, r8, r9, r10⟩ := feed_version L u2 version q1 hv l2
    (by omega)
  have l3 : u3.clientMessage.length = L.clientMessageSize := by rw [r9.1, l2]
  obtain ⟨t, f4, s1, s2, s3, s4, s5, _, _⟩ := feed_headers L hs u3 r1 r4 r5 (by omega) hh l3
    (by omega)
  have keep : ∀ p w, tokenAt u3.clientMessage p w → p + w.length + 1 ≤ u3.clientPointer →
      tokenAt t.clientMessage p w :=
    fun p w h hb => tokenAt_of_take_eq _ _ p u3.clientPointer w h s1 hb
  have e12 : extends_ u1 u3 := extends_trans u1 u2 u3 q7 r9
  refine ⟨t, ?_, by rw [s3, r2, q2], ?_, ?_, ?_, by rw [s4, r3, q3], s2⟩
  · have e1 := feed_chain L (Accept prior) u1 _ (renderQuery qs ++ [32]) _ f1 f2
    have e2 := feed_chain L (Accept prior) u2 _ (version ++ [13, 10]) _ e1 f3
    have e3 := feed_chain L (Accept prior) u3 _ (renderHeaders hs ++ [13, 10]) _ e2 f4
    rw [← e3]
    simp only [renderRequest, List.append_assoc]
  · rw [s5, r6, q5 0 (by omega), p6 0 (by omega), a1]
    exact cstring_of_tokenAt _ _ _
      (keep _ _ (tokenAt_extends u1 u3 _ _ p9 e12 (by omega)) (by have := e12.2.1; omega)) hm
  · rw [s5, r6, q5 1 (by omega), p5]
    exact cstring_of_tokenAt _ _ _
      (keep _ _ (tokenAt_extends u1 u3 _ _ p10 e12 (by omega)) (by have := e12.2.1; omega)) hp
  · rw [s5, r6, q4]
    exact cstring_of_tokenAt _ _ _ (keep _ _ r10 (by omega)) hv

/-- A request with more than `MaxQualKeys` query pairs is rejected at the `&` that follows pair
number `MaxQualKeys`. -/
theorem request_too_many_keys (L : Limits) (hpos : 0 < L.MaxQualKeys) (prior : Parser)
    (method path : List Nat) (qs : List (List Nat × List Nat)) (rest : List Nat)
    (hbuf : prior.clientMessage.length = L.clientMessageSize)
    (hcw : 1 < L.MaxCommandWords) (hm : token method) (hp : token path)
    (hq : ∀ q ∈ qs.take L.MaxQualKeys, token q.1 ∧ token q.2)
    (hn : L.MaxQualKeys < qs.length)
    (hlen : method.length + path.length + (renderQuery (qs.take L.MaxQualKeys)).length + 3 <
      L.clientMessageSize) :
    ∃ t, feed L (Accept prior) (method ++ [32] ++ path ++ [63] ++ renderQuery qs ++ rest) =
      (t, some (.RejectMessage "too many keys in qualifier")) := by
  have a0 : (Accept prior).clientPointer = 0 := rfl
  have hqa : qs.take L.MaxQualKeys ≠ [] := by
    intro h
    have := congrArg List.length h
    simp only [List.length_take, List.length_nil] at this
    omega
  have hqb : qs.drop L.MaxQualKeys ≠ [] := by
    intro h
    have := congrArg List.length h
    simp only [List.length_drop, List.length_nil] at this
    omega
  have hsplit : renderQuery qs =
      renderQuery (qs.take L.MaxQualKeys) ++ [38] ++ renderQuery (qs.drop L.MaxQualKeys) := by
    rw [← renderQuery_split _ _ hqa hqb, List.take_append_drop]
  obtain ⟨u1, f1, p1, _, p3, p4, _, _, p7, p8, _⟩ := feed_to_query L (Accept prior)
    method path rfl rfl hcw hm hp hbuf (by rw [a0]; omega)
  rw [a0] at p7
  have l1 : u1.clientMessage.length = L.clientMessageSize := by rw [p8.1]; exact hbuf
  obtain ⟨t, f2, t1, t2, _⟩ := feed_pairs_open L (qs.take L.MaxQualKeys) u1 hqa p1
    (by rw [p3]; exact p4)
    (by rw [p3, List.length_take]; omega) hq l1 (by rw [p7]; omega)
  have hfull : ¬ t.numQualKeys < L.MaxQualKeys := by
    rw [t2, p3, List.length_take]; omega
  have f3 : feed L t ([38] ++ (renderQuery (qs.drop L.MaxQualKeys) ++ rest)) =
      ((t.put 0).setQualKey t.numQualKeys,
        some (.RejectMessage "too many keys in qualifier")) := by
    simp only [List.singleton_append, feed, step_value_amp_full L t t1 hfull]
  refine ⟨(t.put 0).setQualKey t.numQualKeys, ?_⟩
  have e1 := feed_chain L (Accept prior) u1 _ (renderQuery (qs.take L.MaxQualKeys)) _ f1 f2
  have e2 := feed_chain L (Accept prior) t _ _ _ e1 f3
  rw [← e2, hsplit]
  simp only [List.append_assoc]

/-- C19 (as the code behaves): a request `method path? version\r\n headers \r\n`, whose target
ends in a bare `?`, is not rejected: it ends in `ProcessMessage` with no query key and with the
three command words method, path and version. -/
theorem bare_query_request (L : Limits) (prior : Parser) (method path version : List Nat)
    (hs : List (List Nat × List Nat))
    (hbuf : prior.clientMessage.length = L.clientMessageSize)
    (hcw : 3 ≤ L.MaxCommandWords)
    (hm : token method) (hp : token path) (hv : token version)
    (hh : ∀ h ∈ hs, token h.1 ∧ token h.2 ∧ h.1 ≠ [])
    (hmx : hs.length < L.MaxHeaders - 1)
    (hlen : (renderRequest method path version [] hs).length < L.clientMessageSize) :
    ∃ t, feed L (Accept prior) (method ++ [32] ++ path ++ [63, 32] ++ version ++ [13, 10] ++
          renderHeaders hs ++ [13, 10]) = (t, some .ProcessMessage) ∧
      t.numQualKeys = 0 ∧ t.numCommandWords = 3 ∧
      cstring t.clientMessage (t.commandWords 0) = method ∧
      cstring t.clientMessage (t.commandWords 1) = path ∧
      cstring t.clientMessage (t.commandWords 2) = version := by
  obtain ⟨t, h1, h2, h3, h4, h5, h6, _⟩ := request_processed L prior method path version [] hs
    hbuf hcw hm hp hv (by intro q hq; simp at hq) hh (Nat.zero_le _) hmx hlen
  refine ⟨t, ?_, h6, h2, h3, h4, h5⟩
  rw [← h1]
  simp [renderRequest, renderQuery]

theorem bare_query_request_witness :
    ∃ t, feed sampleLimits (Accept (blankParser sampleLimits))
        (bytes "GET /fonts/x.eot? HTTP/1.1\r\n\r\n") = (t, some .ProcessMessage) ∧
      t.numQualKeys = 0 ∧ t.numCommandWords = 3 ∧
      cstring t.clientMessage (t.commandWords 2) = bytes "HTTP/1.1" := by
  obtain ⟨t, h1, h2, h3, _, _, h6⟩ :=
    bare_query_request sampleLimits (blankParser sampleLimits) (bytes "GET")
      (bytes "/fonts/x.eot") (bytes "HTTP/1.1") [] (List.length_replicate _ _) (by decide)
      (by decide) (by decide) (by decide) (by decide) (by decide) (by decide)
  have hreq : bytes "GET" ++ [32] ++ bytes "/fonts/x.eot" ++ [63, 32] ++ bytes "HTTP/1.1" ++
      [13, 10] ++ renderHeaders [] ++ [13, 10] = bytes "GET /fonts/x.eot? HTTP/1.1\r\n\r\n" := by
    decide
  rw [hreq] at h1
  exact ⟨t, h1, h2, h3, h6⟩

/-- C19 (counterexample): for the input `GET /fonts/x.eot? HTTP/1.1\r\n\r\n` the parser ends in
`ProcessMessage` with `numQualKeys = 0` and `numCommandWords = 3`, not 2. -/
theorem bare_query_three_words :
    (feed sampleLimits (Accept (blankParser sampleLimits))
        (bytes "GET /fonts/x.eot? HTTP/1.1\r\n\r\n")).2 = some .ProcessMessage ∧
      (feed sampleLimits (Accept (blankParser sampleLimits))
        (bytes "GET /fonts/x.eot? HTTP/1.1\r\n\r\n")).1.numQualKeys = 0 ∧
      (feed sampleLimits (Accept (blankParser sampleLimits))
        (bytes "GET /fonts/x.eot? HTTP/1.1\r\n\r\n")).1.numCommandWords = 3 := by
  decide!

end HttpResponder

namespace HttpResponder

/-- C20: with `MaxQualKeys` at least 1, after every input fed from the state set by `Accept`,
`numQualKeys ≤ MaxQualKeys` and every index that was used to store into `qualifiers` is at most
`MaxQualKeys`; a well-formed request with exactly `MaxQualKeys` query pairs ends in
`ProcessMessage` with `numQualKeys = MaxQualKeys`; a request with more pairs is rejected with
"too many keys in qualifier". -/
theorem numQualKeys_bound (L : Limits) (hpos : 0 < L.MaxQualKeys) :
    (∀ (prior : Parser) (input : List Nat),
      (feed L (Accept prior) input).1.numQualKeys ≤ L.MaxQualKeys ∧
      ∀ i, Store.qualifiers i ∈ (feed L (Accept prior) input).1.stores → i ≤ L.MaxQualKeys) ∧
    (∀ (prior : Parser) (method path version : List Nat) (qs hs : List (List Nat × List Nat)),
      prior.clientMessage.length = L.clientMessageSize → 3 ≤ L.MaxCommandWords →
      token method → token path → token version →
      (∀ q ∈ qs, token q.1 ∧ token q.2) → (∀ h ∈ hs, token h.1 ∧ token h.2 ∧ h.1 ≠ []) →
      hs.length < L.MaxHeaders - 1 →
      (renderRequest method path version qs hs).length < L.clientMessageSize →
      qs.length = L.MaxQualKeys →
      ∃ t, feed L (Accept prior) (renderRequest method path version qs hs) =
          (t, some .ProcessMessage) ∧ t.numQualKeys = L.MaxQualKeys) ∧
    (∀ (prior : Parser) (method path : List Nat) (qs : List (List Nat × List Nat))
        (rest : List Nat),
      prior.clientMessage.length = L.clientMessageSize → 1 < L.MaxCommandWords →
      token method → token path →
      (∀ q ∈ qs.take L.MaxQualKeys, token q.1 ∧ token q.2) →
      method.length + path.length + (renderQuery (qs.take L.MaxQualKeys)).length + 3 <
        L.clientMessageSize →
      L.MaxQualKeys < qs.length →
      ∃ t, feed L (Accept prior) (method ++ [32] ++ path ++ [63] ++ renderQuery qs ++ rest) =
        (t, some (.RejectMessage "too many keys in qualifier"))) := by
  refine ⟨?_, ?_, ?_⟩
  · intro prior input
    exact feed_numQualKeys L hpos input (Accept prior) (Nat.zero_le _)
      (by intro h; exact absurd h (by simp [Accept]))
      (by intro i hi; simp [Accept] at hi)
  · intro prior method path version qs hs hbuf hcw hm hp hv hq hh hmx hlen hn
    obtain ⟨t, h1, _, _, _, _, h6, _⟩ := request_processed L prior method path version qs hs
      hbuf hcw hm hp hv hq hh (by omega) hmx hlen
    exact ⟨t, h1, by rw [h6, hn]⟩
  · intro prior method path qs rest hbuf hcw hm hp hq hlen hn
    exact request_too_many_keys L hpos prior method path qs rest hbuf hcw hm hp hq hn hlen

theorem numQualKeys_bound_witness :
    (feed sampleLimits (Accept (blankParser sampleLimits))
        (bytes "GET /rr?a=1&b=2&c=3&d=4&e=5&f=6 HTTP/1.1\r\n\r\n")).1.numQualKeys ≤ 5 ∧
      (∃ t, feed sampleLimits (Accept (blankParser sampleLimits))
          (bytes "GET /rr?a=1&b=2&c=3&d=4&e=5 HTTP/1.1\r\n\r\n") = (t, some .ProcessMessage) ∧
        t.numQualKeys = 5) ∧
      (∃ t, feed sampleLimits (Accept (blankParser sampleLimits))
          (bytes "GET /rr?a=1&b=2&c=3&d=4&e=5&f=6 HTTP/1.1\r\n\r\n") =
        (t, some (.RejectMessage "too many keys in qualifier"))) := by
  have h := numQualKeys_bound sampleLimits (by decide)
  refine ⟨(h.1 _ _).1, ?_, ?_⟩
  · have h2 := h.2.1 (blankParser sampleLimits) (bytes "GET") (bytes "/rr") (bytes "HTTP/1.1")
      (samplePairs.take 5) [] (List.length_replicate _ _) (by decide) (by decide) (by decide)
      (by decide) (by decide) (by decide) (by decide) (by decide) (by decide)
    have hreq : renderRequest (bytes "GET") (bytes "/rr") (bytes "HTTP/1.1")
        (samplePairs.take 5) [] = bytes "GET /rr?a=1&b=2&c=3&d=4&e=5 HTTP/1.1\r\n\r\n" := by
      decide
    rw [hreq] at h2
    exact h2
  · have h3 := h.2.2 (blankParser sampleLimits) (bytes "GET") (bytes "/rr") samplePairs
      (bytes " HTTP/1.1\r\n\r\n") (List.length_replicate _ _) (by decide) (by decide)
      (by decide) (by decide) (by decide) (by decide)
    have hreq : bytes "GET" ++ [32] ++ bytes "/rr" ++ [63] ++ renderQuery samplePairs ++
        bytes " HTTP/1.1\r\n\r\n" = bytes "GET /rr?a=1&b=2&c=3&d=4&e=5&f=6 HTTP/1.1\r\n\r\n" := by
      decide
    rw [hreq] at h3
    exact h3

end HttpResponder

namespace HttpResponder

/-! ### Recorded tokens are zero-terminated -/

theorem closedAt_put (buf : List Nat) (ptr v p : Nat) (h : closedAt buf ptr p) :
    closedAt (buf.set ptr v) (ptr + 1) p := by
  obtain ⟨q, h1, h2, h3⟩ := h
  refine ⟨q, h1, by omega, ?_⟩
  rw [List.getElem?_set_ne (by omega)]
  exact h3

theorem closedAt_poke (buf : List Nat) (ptr v p : Nat) (h : closedAt buf ptr p) :
    closedAt (buf.set ptr v) ptr p := by
  obtain ⟨q, h1, h2, h3⟩ := h
  refine ⟨q, h1, h2, ?_⟩
  rw [List.getElem?_set_ne (by omega)]
  exact h3

theorem closedAt_close (buf : List Nat) (ptr p : Nat) (hb : ptr < buf.length) (h : p ≤ ptr) :
    closedAt (buf.set ptr 0) (ptr + 1) p := by
  refine ⟨ptr, h, by omega, ?_⟩
  rw [List.getElem?_set_self hb]

theorem wordsInv_step (L : Limits) (s : Parser) (c : Nat)
    (hb : s.clientPointer < s.clientMessage.length) (h : wordsInv s)
    (hn : (parseSwitch L s c).2 = none) : wordsInv (parseSwitch L s c).1 := by
  obtain ⟨h1, h2⟩ := h
  revert hn
  unfold parseSwitch headerValueChar wordsInv
  cases hps : s.parseState <;> simp only [hps, HttpParseState.inWord, true_implies] at h2 <;>
    simp only [] <;> split_ifs <;>
    simp only [Parser.put, Parser.poke, Parser.setCommandWord, Parser.setQualKey,
      Parser.setQualValue, Parser.setHeaderKey, Parser.setHeaderValue, reduceCtorEq,
      false_implies, true_implies, HttpParseState.inWord, HttpParseState.index,
      HttpParseState.atIndex, hps, if_true, le_refl, and_true, Bool.false_eq_true] <;>
    (try refine ⟨?_, by omega⟩) <;>
    intro i hi <;>
    (try split_ifs) <;>
    first
    | omega
    | exact h1 i hi
    | exact closedAt_put _ _ _ _ (h1 i hi)
    | exact closedAt_put _ _ _ _ (closedAt_put _ _ _ _ (h1 i hi))
    | exact closedAt_poke _ _ _ _ (h1 i hi)
    | (rcases Nat.lt_or_ge i s.numCommandWords with hlt | hge
       · exact closedAt_put _ _ _ _ (h1 i hlt)
       · have e : i = s.numCommandWords := by omega
         rw [e]
         exact closedAt_close _ _ _ hb h2)

theorem qualsInv_keys (L : Limits) (s : Parser) (c : Nat)
    (hb : s.clientPointer < s.clientMessage.length) (h : qualsInv s)
    (hn : (parseSwitch L s c).2 = none) :
    ∀ i, i < (parseSwitch L s c).1.numQualKeys →
      closedAt (parseSwitch L s c).1.clientMessage (parseSwitch L s c).1.clientPointer
        ((parseSwitch L s c).1.qualifiers i).key := by
  obtain ⟨h1, h2, h3, h4, h5⟩ := h
  revert hn
  unfold parseSwitch headerValueChar
  cases hps : s.parseState <;>
    simp only [hps, HttpParseState.inValue, true_implies, reduceCtorEq, false_implies,
      Bool.false_eq_true] at h3 h4 h5 <;>
    simp only [] <;> split_ifs <;>
    simp only [Parser.put, Parser.poke, Parser.setCommandWord, Parser.setQualKey,
      Parser.setQualValue, Parser.setHeaderKey, Parser.setHeaderValue, reduceCtorEq,
      false_implies, true_implies, HttpParseState.index,
      HttpParseState.atIndex, hps, if_true, le_refl, and_true, Bool.false_eq_true] <;>
    intro i hi <;>
    (try split_ifs) <;>
    first
    | omega
    | exact h1 i hi
    | exact closedAt_put _ _ _ _ (h1 i hi)
    | exact closedAt_put _ _ _ _ (closedAt_put _ _ _ _ (h1 i hi))
    | exact closedAt_poke _ _ _ _ (h1 i hi)
    | (rcases Nat.lt_or_ge i s.numQualKeys with hlt | hge
       · exact closedAt_put _ _ _ _ (h1 i hlt)
       · have e : i = s.numQualKeys := by omega
         rw [e]
         exact closedAt_close _ _ _ hb h5)

theorem qualsInv_values (L : Limits) (s t : Parser) (c : Nat)
    (hb : s.clientPointer < s.clientMessage.length) (h : qualsInv s)
    (hn : parseSwitch L s c = (t, none)) :
    (∀ i, i + 1 < t.numQualKeys → closedAt t.clientMessage t.clientPointer (t.qualifiers i).value) ∧
    (t.parseState.inValue = false →
      ∀ i, i < t.numQualKeys → closedAt t.clientMessage t.clientPointer (t.qualifiers i).value) := by
  obtain ⟨h1, h2, h3, h4, h5⟩ := h
  unfold parseSwitch headerValueChar at hn
  cases hps : s.parseState <;>
    simp only [hps, HttpParseState.inValue, true_implies, reduceCtorEq, false_implies,
      Bool.false_eq_true] at h3 h4 h5 <;>
    simp only [hps] at hn <;> split_ifs at hn <;>
    simp only [Prod.mk.injEq, reduceCtorEq, and_false, and_true] at hn <;>
    subst hn <;>
    simp only [Parser.put, Parser.poke, Parser.setCommandWord, Parser.setQualKey,
      Parser.setQualValue, Parser.setHeaderKey, Parser.setHeaderValue, reduceCtorEq,
      false_implies, true_implies, HttpParseState.index, HttpParseState.inValue,
      HttpParseState.atIndex, hps, if_true, le_refl, and_true, Bool.false_eq_true] <;>
    (try refine ⟨?_, ?_⟩) <;>
    intro i hi <;>
    (try split_ifs) <;>
    first
    | omega
    | exact h2 i hi
    | exact h3 i hi
    | exact h3 i (by omega)
    | exact closedAt_put _ _ _ _ (h2 i hi)
    | exact closedAt_put _ _ _ _ (h3 i hi)
    | exact closedAt_put _ _ _ _ (h3 i (by omega))
    | exact closedAt_put _ _ _ _ (closedAt_put _ _ _ _ (h3 i hi))
    | exact closedAt_put _ _ _ _ (closedAt_put _ _ _ _ (h3 i (by omega)))
    | exact closedAt_put _ _ _ _ (closedAt_put _ _ _ _ (h2 i hi))
    | exact closedAt_poke _ _ _ _ (h3 i hi)
    | (rcases Nat.lt_or_ge (i + 1) s.numQualKeys with hlt | hge
       · exact closedAt_put _ _ _ _ (h2 i hlt)
       · have e : i = s.numQualKeys - 1 := by omega
         rw [e]
         exact closedAt_close _ _ _ hb h4.2)

theorem qualsInv_pending (L : Limits) (s t : Parser) (c : Nat) (h : qualsInv s)
    (hn : parseSwitch L s c = (t, none)) :
    (t.parseState.inValue = true →
      1 ≤ t.numQualKeys ∧ (t.qualifiers (t.numQualKeys - 1)).value ≤ t.clientPointer) ∧
    (t.parseState = .doingQualifierKey → (t.qualifiers t.numQualKeys).key ≤ t.clientPointer) := by
  obtain ⟨h1, h2, h3, h4, h5⟩ := h
  unfold parseSwitch headerValueChar at hn
  cases hps : s.parseState <;>
    simp only [hps, HttpParseState.inValue, true_implies, reduceCtorEq, false_implies,
      Bool.false_eq_true] at h3 h4 h5 <;>
    simp only [hps] at hn <;> split_ifs at hn <;>
    simp only [Prod.mk.injEq, reduceCtorEq, and_false, and_true] at hn <;>
    subst hn <;>
    simp only [Parser.put, Parser.poke, Parser.setCommandWord, Parser.setQualKey,
      Parser.setQualValue, Parser.setHeaderKey, Parser.setHeaderValue, reduceCtorEq,
      false_implies, true_implies, HttpParseState.index, HttpParseState.inValue,
      HttpParseState.atIndex, hps, if_true, le_refl, and_true, and_self, true_and,
      Bool.false_eq_true, Nat.add_sub_cancel] <;>
    (try omega)

theorem headersInv_keys (L : Limits) (s t : Parser) (c : Nat)
    (hb : s.clientPointer < s.clientMessage.length) (h : headersInv s)
    (hn : parseSwitch L s c = (t, none)) :
    ∀ i, i < t.numHeaderKeys → closedAt t.clientMessage t.clientPointer (t.headers i).key := by
  obtain ⟨h1, h2, h3, h4, h5⟩ := h
  unfold parseSwitch headerValueChar at hn
  cases hps : s.parseState <;>
    simp only [hps, HttpParseState.inHeaderValue, true_implies, reduceCtorEq, false_implies,
      Bool.false_eq_true] at h3 h4 h5 <;>
    simp only [hps] at hn <;> split_ifs at hn <;>
    simp only [Prod.mk.injEq, reduceCtorEq, and_false, and_true] at hn <;>
    subst hn <;>
    (try simp only [Parser.put, Parser.poke, Parser.setCommandWord, Parser.setQualKey,
      Parser.setQualValue, Parser.setHeaderKey, Parser.setHeaderValue, reduceCtorEq,
      false_implies, true_implies, HttpParseState.index,
      HttpParseState.atIndex, hps, if_true, le_refl, and_true, Bool.false_eq_true]) <;>
    intro i hi <;>
    (try split_ifs) <;>
    first
    | omega
    | exact h1 i hi
    | exact closedAt_put _ _ _ _ (h1 i hi)
    | exact closedAt_put _ _ _ _ (closedAt_put _ _ _ _ (h1 i hi))
    | exact closedAt_poke _ _ _ _ (h1 i hi)
    | (rcases Nat.lt_or_ge i s.numHeaderKeys with hlt | hge
       · exact closedAt_put _ _ _ _ (h1 i hlt)
       · have e : i = s.numHeaderKeys := by omega
         rw [e]
         exact closedAt_close _ _ _ hb h5)

theorem headersInv_values (L : Limits) (s t : Parser) (c : Nat)
    (hb : s.clientPointer < s.clientMessage.length) (h : headersInv s)
    (hn : parseSwitch L s c = (t, none)) :
    (∀ i, i + 1 < t.numHeaderKeys →
      closedAt t.clientMessage t.clientPointer (t.headers i).value) ∧
    (t.parseState.inHeaderValue = false →
      ∀ i, i < t.numHeaderKeys → closedAt t.clientMessage t.clientPointer (t.headers i).value) := by
  obtain ⟨h1, h2, h3, h4, h5⟩ := h
  unfold parseSwitch headerValueChar at hn
  cases hps : s.parseState <;>
    simp only [hps, HttpParseState.inHeaderValue, true_implies, reduceCtorEq, false_implies,
      Bool.false_eq_true] at h3 h4 h5 <;>
    simp only [hps] at hn <;> split_ifs at hn <;>
    simp only [Prod.mk.injEq, reduceCtorEq, and_false, and_true] at hn <;>
    subst hn <;>
    simp only [Parser.put, Parser.poke, Parser.setCommandWord, Parser.setQualKey,
      Parser.setQualValue, Parser.setHeaderKey, Parser.setHeaderValue, reduceCtorEq,
      false_implies, true_implies, HttpParseState.index, HttpParseState.inHeaderValue,
      HttpParseState.atIndex, hps, if_true, le_refl, and_true, Bool.false_eq_true] <;>
    (try refine ⟨?_, ?_⟩) <;>
    intro i hi <;>
    (try split_ifs) <;>
    first
    | omega
    | exact h2 i hi
    | exact h3 i hi
    | exact h3 i (by omega)
    | exact closedAt_put _ _ _ _ (h2 i hi)
    | exact closedAt_put _ _ _ _ (h3 i hi)
    | exact closedAt_put _ _ _ _ (h3 i (by omega))
    | exact closedAt_put _ _ _ _ (closedAt_put _ _ _ _ (h3 i hi))
    | exact closedAt_put _ _ _ _ (closedAt_put _ _ _ _ (h2 i hi))
    | exact closedAt_poke _ _ _ _ (h3 i hi)
    | (rcases Nat.lt_or_ge (i + 1) s.numHeaderKeys with hlt | hge
       · exact closedAt_put _ _ _ _ (closedAt_put _ _ _ _ (h2 i hlt))
       · have e : i = s.numHeaderKeys - 1 := by omega
         rw [e]
         exact closedAt_put _ _ _ _ (closedAt_close _ _ _ hb h4.2))

theorem headersInv_pending (L : Limits) (s t : Parser) (c : Nat) (h : headersInv s)
    (hn : parseSwitch L s c = (t, none)) :
    (t.parseState.inHeaderValue = true →
      1 ≤ t.numHeaderKeys ∧ (t.headers (t.numHeaderKeys - 1)).value ≤ t.clientPointer) ∧
    (t.parseState = .doingHeaderKey → (t.headers t.numHeaderKeys).key ≤ t.clientPointer) := by
  obtain ⟨h1, h2, h3, h4, h5⟩ := h
  unfold parseSwitch headerValueChar at hn
  cases hps : s.parseState <;>
    simp only [hps, HttpParseState.inHeaderValue, true_implies, reduceCtorEq, false_implies,
      Bool.false_eq_true] at h3 h4 h5 <;>
    simp only [hps] at hn <;> split_ifs at hn <;>
    simp only [Prod.mk.injEq, reduceCtorEq, and_false, and_true] at hn <;>
    subst hn <;>
    simp only [Parser.put, Parser.poke, Parser.setCommandWord, Parser.setQualKey,
      Parser.setQualValue, Parser.setHeaderKey, Parser.setHeaderValue, reduceCtorEq,
      false_implies, true_implies, HttpParseState.index, HttpParseState.inHeaderValue,
      HttpParseState.atIndex, hps, if_true, le_refl, and_true, and_self, true_and,
      Bool.false_eq_true, Nat.add_sub_cancel] <;>
    (try omega)

theorem tokenInside_of_closedAt (L : Limits) (t : Parser) (p : Nat)
    (h : closedAt t.clientMessage t.clientPointer p)
    (hp : t.clientPointer ≤ L.clientMessageSize) : tokenInside L t p := by
  obtain ⟨q, h1, h2, h3⟩ := h
  exact ⟨by omega, q, h1, by omega, h3⟩

theorem parseSwitch_length (L : Limits) (s : Parser) (c : Nat) :
    (parseSwitch L s c).1.clientMessage.length = s.clientMessage.length := by
  unfold parseSwitch headerValueChar
  cases hps : s.parseState <;> simp only [] <;> split_ifs <;>
    simp only [Parser.put, Parser.poke, Parser.setCommandWord, Parser.setQualKey,
      Parser.setQualValue, Parser.setHeaderKey, Parser.setHeaderValue, List.length_set]

theorem CharFromClient_none (L : Limits) (s t : Parser) (c : Nat)
    (h : CharFromClient L s c = (t, none)) : parseSwitch L s c = (t, none) := by
  unfold CharFromClient at h
  rcases hsw : parseSwitch L s c with ⟨s1, _ | r⟩
  · rw [hsw] at h
    simp only [] at h
    split_ifs at h
    · simp at h
    · exact h
  · rw [hsw] at h
    simp at h

theorem CharFromClient_process (L : Limits) (s t : Parser) (c : Nat)
    (h : CharFromClient L s c = (t, some .ProcessMessage)) :
    parseSwitch L s c = (t, some .ProcessMessage) := by
  unfold CharFromClient at h
  rcases hsw : parseSwitch L s c with ⟨s1, _ | r⟩
  · rw [hsw] at h
    simp only [] at h
    split_ifs at h
    · simp at h
    · simp at h
  · rw [hsw] at h
    exact h

theorem tokensInv_step (L : Limits) (s t : Parser) (c : Nat) (h : tokensInv L s)
    (hn : CharFromClient L s c = (t, none)) : tokensInv L t := by
  obtain ⟨hl, hp, hw, hq, hh⟩ := h
  have hb : s.clientPointer < s.clientMessage.length := by omega
  have hsw := CharFromClient_none L s t c hn
  have e1 : (parseSwitch L s c).1 = t := by rw [hsw]
  have e2 : (parseSwitch L s c).2 = none := by rw [hsw]
  refine ⟨?_, ?_, ?_, ?_, ?_⟩
  · rw [← e1, parseSwitch_length, hl]
  · have := (CharFromClient_pointer L s c hp).2 (by rw [hn])
    rw [hn] at this
    exact this
  · rw [← e1]; exact wordsInv_step L s c hb hw e2
  · have k1 := qualsInv_keys L s c hb hq e2
    rw [e1] at k1
    have k2 := qualsInv_values L s t c hb hq hsw
    have k3 := qualsInv_pending L s t c hq hsw
    exact ⟨k1, k2.1, k2.2, k3.1, k3.2⟩
  · have k1 := headersInv_keys L s t c hb hh hsw
    have k2 := headersInv_values L s t c hb hh hsw
    have k3 := headersInv_pending L s t c hh hsw
    exact ⟨k1, k2.1, k2.2, k3.1, k3.2⟩

/-- The two places where `CharFromClient` calls `ProcessMessage`. -/
theorem parseSwitch_process (L : Limits) (s t : Parser) (c : Nat)
    (h : parseSwitch L s c = (t, some .ProcessMessage)) :
    (s.parseState = .doingHeaderKey ∧ t = s) ∨
      (s.parseState = .doingHeaderContinuation ∧ t = s.poke 0) := by
  unfold parseSwitch headerValueChar at h
  cases hps : s.parseState <;> simp only [hps] at h <;> split_ifs at h <;>
    simp only [Prod.mk.injEq, reduceCtorEq, and_false, and_true, Option.some.injEq] at h <;>
    first
    | exact Or.inl ⟨rfl, h.symm⟩
    | exact Or.inr ⟨rfl, h.symm⟩

theorem tokensInv_process (L : Limits) (s t : Parser) (c : Nat) (h : tokensInv L s)
    (hn : CharFromClient L s c = (t, some .ProcessMessage)) :
    (∀ i, i < t.numCommandWords → tokenInside L t (t.commandWords i)) ∧
    (∀ i, i < t.numQualKeys →
      tokenInside L t (t.qualifiers i).key ∧ tokenInside L t (t.qualifiers i).value) ∧
    (∀ i, i < t.numHeaderKeys →
      tokenInside L t (t.headers i).key ∧ tokenInside L t (t.headers i).value) := by
  obtain ⟨hl, hp, ⟨w1, _⟩, ⟨q1, _, q3, _, _⟩, ⟨g1, g2, g3, g4, _⟩⟩ := h
  rcases parseSwitch_process L s t c (CharFromClient_process L s t c hn) with ⟨hps, e⟩ | ⟨hps, e⟩
  · subst e
    have hle : t.clientPointer ≤ L.clientMessageSize := by omega
    simp only [hps, HttpParseState.inValue, HttpParseState.inHeaderValue, true_implies] at q3 g3
    exact ⟨fun i hi => tokenInside_of_closedAt L t _ (w1 i hi) hle,
      fun i hi => ⟨tokenInside_of_closedAt L t _ (q1 i hi) hle,
        tokenInside_of_closedAt L t _ (q3 i hi) hle⟩,
      fun i hi => ⟨tokenInside_of_closedAt L t _ (g1 i hi) hle,
        tokenInside_of_closedAt L t _ (g3 i hi) hle⟩⟩
  · subst e
    have hle : (s.poke 0).clientPointer ≤ L.clientMessageSize := by
      simp only [Parser.poke]; omega
    simp only [hps, HttpParseState.inValue, HttpParseState.inHeaderValue, true_implies] at q3 g4
    have keep : ∀ p, closedAt s.clientMessage s.clientPointer p → tokenInside L (s.poke 0) p :=
      fun p hc => tokenInside_of_closedAt L (s.poke 0) p (closedAt_poke _ _ _ _ hc) hle
    refine ⟨fun i hi => keep _ (w1 i hi), fun i hi => ⟨keep _ (q1 i hi), keep _ (q3 i hi)⟩,
      fun i hi => ⟨keep _ (g1 i hi), ?_⟩⟩
    rcases Nat.lt_or_ge (i + 1) s.numHeaderKeys with hlt | hge
    · exact keep _ (g2 i hlt)
    · have hi' : i < s.numHeaderKeys := hi
      have e : i = s.numHeaderKeys - 1 := by omega
      show tokenInside L (s.poke 0) (s.headers i).value
      rw [e]
      refine ⟨by omega, s.clientPointer, g4.2, hp, ?_⟩
      simp only [Parser.poke]
      rw [List.getElem?_set_self (by omega)]

theorem tokensInv_feed (L : Limits) (input : List Nat) : ∀ (s t : Parser), tokensInv L s →
    feed L s input = (t, some .ProcessMessage) →
    (∀ i, i < t.numCommandWords → tokenInside L t (t.commandWords i)) ∧
    (∀ i, i < t.numQualKeys →
      tokenInside L t (t.qualifiers i).key ∧ tokenInside L t (t.qualifiers i).value) ∧
    (∀ i, i < t.numHeaderKeys →
      tokenInside L t (t.headers i).key ∧ tokenInside L t (t.headers i).value) := by
  induction input with
  | nil => intro s t _ h; simp [feed] at h
  | cons c cs ih =>
    intro s t hs h
    simp only [feed] at h
    rcases hcc : CharFromClient L s c with ⟨s1, _ | r⟩
    · rw [hcc] at h
      exact ih s1 t (tokensInv_step L s s1 c hs hcc) h
    · rw [hcc] at h
      simp only [Prod.mk.injEq, Option.some.injEq] at h
      obtain ⟨e1, e2⟩ := h
      subst e1 e2
      exact tokensInv_process L s s1 c hs hcc

theorem tokensInv_Accept (L : Limits) (prior : Parser)
    (hbuf : prior.clientMessage.length = L.clientMessageSize) (hpos : 0 < L.clientMessageSize) :
    tokensInv L (Accept prior) := by
  refine ⟨hbuf, hpos, ⟨?_, ?_⟩, ⟨?_, ?_, ?_, ?_, ?_⟩, ⟨?_, ?_, ?_, ?_, ?_⟩⟩ <;>
    simp [Accept, HttpParseState.inWord, HttpParseState.inValue, HttpParseState.inHeaderValue]

/-- C21: whenever a run of `CharFromClient` that started in the state set by `Accept` ends
with the call of `ProcessMessage`, every recorded token (the command words below
`numCommandWords`, the keys and values of the qualifiers below `numQualKeys` and of the headers
below `numHeaderKeys`) starts at an offset inside `clientMessage` and is followed by a 0 byte at
an offset below the capacity of the buffer. -/
theorem tokens_terminated (L : Limits) (prior : Parser) (input : List Nat) (t : Parser)
    (hbuf : prior.clientMessage.length = L.clientMessageSize) (hpos : 0 < L.clientMessageSize)
    (h : feed L (Accept prior) input = (t, some .ProcessMessage)) :
    (∀ i, i < t.numCommandWords → tokenInside L t (t.commandWords i)) ∧
    (∀ i, i < t.numQualKeys →
      tokenInside L t (t.qualifiers i).key ∧ tokenInside L t (t.qualifiers i).value) ∧
    (∀ i, i < t.numHeaderKeys →
      tokenInside L t (t.headers i).key ∧ tokenInside L t (t.headers i).value) :=
  tokensInv_feed L input (Accept prior) t (tokensInv_Accept L prior hbuf hpos) h

theorem tokens_terminated_witness :
    (feed sampleLimits (Accept (blankParser sampleLimits))
        (bytes "GET /rr_status?type=2 HTTP/1.1\r\nHost: x\r\n\r\n")).2 =
        some .ProcessMessage ∧
      afterSampleRequest.numHeaderKeys = 1 ∧
      tokenInside sampleLimits afterSampleRequest (afterSampleRequest.headers 0).value :=
  ⟨by decide!, by decide!,
    ((tokens_terminated sampleLimits (blankParser sampleLimits)
      (bytes "GET /rr_status?type=2 HTTP/1.1\r\nHost: x\r\n\r\n") afterSampleRequest
      (List.length_replicate _ _) (by decide) (Prod.ext rfl (by decide!))).2.2 0
        (by decide!)).2⟩

end HttpResponder
namespace HttpResponder

/-! ### The session table stays within its array -/

theorem checkAuthenticatedFrom_bounded (P : WebParams) (ip now : Nat) (d : Nat) :
    ∀ (i : Nat) (w : Statics), i + d ≤ P.MaxHttpSessions →
      (∀ j ∈ w.accessed, j < P.MaxHttpSessions) →
      (checkAuthenticatedFrom ip now d i w).2.numSessions = w.numSessions ∧
      ∀ j ∈ (checkAuthenticatedFrom ip now d i w).2.accessed, j < P.MaxHttpSessions := by
  induction d with
  | zero => intro i w _ h; exact ⟨rfl, h⟩
  | succ d ih =>
    intro i w hi h
    simp only [checkAuthenticatedFrom]
    split_ifs
    · refine ⟨rfl, ?_⟩
      intro j hj
      simp only [Statics.setSession, Statics.touch, List.mem_cons] at hj
      rcases hj with hj | hj | hj
      · omega
      · omega
      · exact h j hj
    · have := ih (i + 1) (w.touch i) (by omega) (by
        intro j hj
        simp only [Statics.touch, List.mem_cons] at hj
        rcases hj with hj | hj
        · omega
        · exact h j hj)
      exact this

theorem CheckAuthenticated_bounded (P : WebParams) (ip now : Nat) (w : Statics)
    (h : sessionsBounded P w) : sessionsBounded P (CheckAuthenticated ip now w).2 := by
  obtain ⟨k1, k2⟩ := checkAuthenticatedFrom_bounded P ip now w.numSessions 0 w
    (by have := h.1; omega) h.2
  exact ⟨by unfold CheckAuthenticated; rw [k1]; exact h.1, k2⟩

theorem Authenticate_bounded (P : WebParams) (ip now : Nat) (w : Statics)
    (h : sessionsBounded P w) : sessionsBounded P (Authenticate P ip now w).2 := by
  have hc := CheckAuthenticated_bounded P ip now w h
  unfold Authenticate
  rcases hca : CheckAuthenticated ip now w with ⟨b, w1⟩
  rw [hca] at hc
  cases b
  · simp only []
    split_ifs with hlt
    · refine ⟨by simp only [Statics.setSession]; omega, ?_⟩
      intro j hj
      simp only [Statics.setSession, List.mem_cons] at hj
      rcases hj with hj | hj
      · omega
      · exact hc.2 j hj
    · exact hc
  · exact hc

theorem shiftDown_bounded (P : WebParams) (d : Nat) :
    ∀ (k : Nat) (w : Statics), k + d < P.MaxHttpSessions →
      (∀ j ∈ w.accessed, j < P.MaxHttpSessions) →
      (shiftDown d k w).numSessions = w.numSessions ∧
      ∀ j ∈ (shiftDown d k w).accessed, j < P.MaxHttpSessions := by
  induction d with
  | zero => intro k w _ h; exact ⟨rfl, h⟩
  | succ d ih =>
    intro k w hk h
    simp only [shiftDown]
    exact ih (k + 1) _ (by omega) (by
      intro j hj
      simp only [Statics.setSession, Statics.touch, List.mem_cons] at hj
      rcases hj with hj | hj | hj
      · omega
      · omega
      · exact h j hj)

theorem RemoveSession_bounded (P : WebParams) (w : Statics) (k : Nat)
    (h : sessionsBounded P w) :
    sessionsBounded P (RemoveSession w k) ∧ (RemoveSession w k).numSessions ≤ w.numSessions ∧
      (k < w.numSessions → (RemoveSession w k).numSessions = w.numSessions - 1) := by
  unfold RemoveSession
  split_ifs with hlt
  · obtain ⟨k1, k2⟩ := shiftDown_bounded P (w.numSessions - 1 - k) k
      { w with numSessions := w.numSessions - 1 } (by have := h.1; omega) h.2
    simp only [] at k1
    refine ⟨⟨by rw [k1]; have := h.1; omega, k2⟩, by rw [k1]; omega, fun _ => k1⟩
  · exact ⟨h, le_refl _, fun hk => absurd hk hlt⟩

theorem touch_bounded (P : WebParams) (w : Statics) (i : Nat) (h : sessionsBounded P w)
    (hi : i < P.MaxHttpSessions) : sessionsBounded P (w.touch i) := by
  refine ⟨h.1, ?_⟩
  intro j hj
  simp only [Statics.touch, List.mem_cons] at hj
  rcases hj with hj | hj
  · omega
  · exact h.2 j hj

theorem removeAuthenticationFrom_bounded (P : WebParams) (ip : Nat) (i : Nat) :
    ∀ w : Statics, i ≤ w.numSessions → sessionsBounded P w →
      sessionsBounded P (removeAuthenticationFrom ip i w).2 := by
  induction i with
  | zero => intro w _ h; exact h
  | succ i ih =>
    intro w hi h
    have ht := touch_bounded P w i h (by have := h.1; omega)
    simp only [removeAuthenticationFrom]
    split_ifs
    · exact ht
    · exact (RemoveSession_bounded P _ i ht).1
    · exact ih (w.touch i) (by simp only [Statics.touch]; omega) ht

theorem checkSessionsFrom_bounded (P : WebParams) (now : Nat) (i : Nat) :
    ∀ (w : Statics) (n : Nat), i ≤ w.numSessions → sessionsBounded P w →
      sessionsBounded P (checkSessionsFrom P now i w n).1 := by
  induction i with
  | zero => intro w n _ h; exact h
  | succ i ih =>
    intro w n hi h
    have ht := touch_bounded P w i h (by have := h.1; omega)
    simp only [checkSessionsFrom]
    split_ifs
    · obtain ⟨r1, _, r3⟩ := RemoveSession_bounded P (w.touch i) i ht
      exact ih _ (n + 1) (by rw [r3 (by simp only [Statics.touch]; omega)]
                             simp only [Statics.touch]; omega) r1
    · exact ih (w.touch i) n (by simp only [Statics.touch]; omega) ht

theorem CheckSessions_bounded (P : WebParams) (applyTimeout : OutputStack → OutputStack)
    (now : Nat) (w : Statics) (h : sessionsBounded P w) :
    sessionsBounded P (CheckSessions P applyTimeout now w) := by
  have hc := checkSessionsFrom_bounded P now w.numSessions w 0 (le_refl _) h
  unfold CheckSessions
  simp only []
  split_ifs <;> exact hc

theorem SessionOp.run_bounded (P : WebParams) (applyTimeout : OutputStack → OutputStack)
    (w : Statics) (op : SessionOp) (h : sessionsBounded P w) :
    sessionsBounded P (op.run P applyTimeout w) := by
  cases op with
  | authenticate ip now => exact Authenticate_bounded P ip now w h
  | checkAuthenticated ip now => exact CheckAuthenticated_bounded P ip now w h
  | removeAuthentication ip => exact removeAuthenticationFrom_bounded P ip _ w (le_refl _) h
  | removeSession k => exact (RemoveSession_bounded P w k h).1
  | checkSessions now => exact CheckSessions_bounded P applyTimeout now w h
  | disable => exact ⟨Nat.zero_le _, h.2⟩

theorem runSessionOps_bounded (P : WebParams) (applyTimeout : OutputStack → OutputStack)
    (ops : List SessionOp) : ∀ w : Statics, sessionsBounded P w →
      sessionsBounded P (runSessionOps P applyTimeout w ops) := by
  induction ops with
  | nil => intro w h; exact h
  | cons op ops ih =>
    intro w h
    exact ih _ (SessionOp.run_bounded P applyTimeout w op h)

/-- C26: starting from the empty session table, after every sequence of calls of
`Authenticate`, `CheckAuthenticated`, `RemoveAuthentication`, `RemoveSession`, `CheckSessions`
and `Disable`, `numSessions ≤ MaxHttpSessions` and every index that was used to access the array
`sessions` is below `MaxHttpSessions`. -/
theorem numSessions_bounded (P : WebParams) (applyTimeout : OutputStack → OutputStack)
    (slots : List HttpSession) (ops : List SessionOp) :
    (runSessionOps P applyTimeout (Statics.initial slots) ops).numSessions ≤
        P.MaxHttpSessions ∧
      ∀ j ∈ (runSessionOps P applyTimeout (Statics.initial slots) ops).accessed,
        j < P.MaxHttpSessions :=
  runSessionOps_bounded P applyTimeout ops (Statics.initial slots)
    ⟨Nat.zero_le _, by intro j hj; simp [Statics.initial] at hj⟩

end HttpResponder
namespace HttpResponder

/-! ### The session table as a list -/

theorem shiftDown_fields (d : Nat) : ∀ (k : Nat) (w : Statics),
    (shiftDown d k w).numSessions = w.numSessions ∧
    (shiftDown d k w).clientsServed = w.clientsServed ∧
    (shiftDown d k w).seq = w.seq ∧ (shiftDown d k w).gcodeReply = w.gcodeReply := by
  induction d with
  | zero => intro k w; exact ⟨rfl, rfl, rfl, rfl⟩
  | succ d ih => intro k w; simp only [shiftDown]; exact ih _ _

theorem session_eq (w : Statics) (i : Nat) (h : i < w.sessions.length) :
    w.sessions[i]? = some (w.session i) := by
  unfold Statics.session
  rw [List.getD_eq_getElem?_getD, List.getElem?_eq_getElem h]
  rfl

theorem shiftDown_sessions (d : Nat) : ∀ (k : Nat) (w : Statics), k + d < w.sessions.length →
    (shiftDown d k w).sessions.length = w.sessions.length ∧
    ∀ j, (shiftDown d k w).sessions[j]? =
      if k ≤ j ∧ j < k + d then w.sessions[j + 1]? else w.sessions[j]? := by
  induction d with
  | zero =>
    intro k w _
    refine ⟨rfl, fun j => ?_⟩
    rw [if_neg (by omega)]
    rfl
  | succ d ih =>
    intro k w hk
    simp only [shiftDown]
    have hl : ((w.touch (k + 1)).setSession k (w.session (k + 1))).sessions.length =
        w.sessions.length := by
      simp only [Statics.setSession, Statics.touch, List.length_set]
    obtain ⟨i1, i2⟩ := ih (k + 1) ((w.touch (k + 1)).setSession k (w.session (k + 1)))
      (by rw [hl]; omega)
    refine ⟨by rw [i1, hl], fun j => ?_⟩
    rw [i2 j]
    simp only [Statics.setSession, Statics.touch, List.getElem?_set]
    by_cases h1 : k + 1 ≤ j ∧ j < k + 1 + d
    · have c1 : ¬ k = j + 1 := by omega
      have c2 : k ≤ j ∧ j < k + (d + 1) := by omega
      rw [if_pos h1, if_neg c1, if_pos c2]
    · rw [if_neg h1]
      by_cases h2 : k = j
      · have c1 : k < w.sessions.length := by omega
        have c2 : k ≤ j ∧ j < k + (d + 1) := by omega
        rw [if_pos h2, if_pos c1, if_pos c2, ← h2, session_eq w (k + 1) (by omega)]
      · have c2 : ¬ (k ≤ j ∧ j < k + (d + 1)) := by omega
        rw [if_neg h2, if_neg c2]

theorem RemoveSession_live (w : Statics) (k : Nat) (hk : k < w.numSessions)
    (hn : w.numSessions ≤ w.sessions.length) :
    (RemoveSession w k).live = w.live.eraseIdx k ∧
    (RemoveSession w k).numSessions = w.numSessions - 1 ∧
    (RemoveSession w k).sessions.length = w.sessions.length ∧
    (RemoveSession w k).clientsServed = w.clientsServed ∧
    (RemoveSession w k).gcodeReply = w.gcodeReply := by
  unfold RemoveSession
  rw [if_pos hk]
  obtain ⟨f1, f2, _, f4⟩ := shiftDown_fields (w.numSessions - 1 - k) k
    { w with numSessions := w.numSessions - 1 }
  obtain ⟨s1, s2⟩ := shiftDown_sessions (w.numSessions - 1 - k) k
    { w with numSessions := w.numSessions - 1 } (by simp only []; omega)
  refine ⟨?_, f1, s1, f2, f4⟩
  apply List.ext_getElem?
  intro j
  unfold Statics.live
  rw [f1, List.getElem?_take, s2 j, List.getElem?_eraseIdx, List.getElem?_take,
    List.getElem?_take]
  simp only []
  by_cases h1 : j < w.numSessions - 1
  · rw [if_pos h1]
    by_cases h2 : j < k
    · rw [if_neg (by omega), if_pos h2, if_pos (by omega)]
    · rw [if_pos (by omega), if_neg h2, if_pos (by omega)]
  · rw [if_neg h1]
    by_cases h2 : j < k
    · omega
    · rw [if_neg h2, if_neg (by omega)]

theorem live_length (w : Statics) (hn : w.numSessions ≤ w.sessions.length) :
    w.live.length = w.numSessions := by
  unfold Statics.live
  rw [List.length_take]
  omega

theorem live_get (w : Statics) (i : Nat) (hi : i < w.numSessions)
    (hn : w.numSessions ≤ w.sessions.length) : w.live[i]? = some (w.session i) := by
  unfold Statics.live
  rw [List.getElem?_take, if_pos hi, session_eq w i (by omega)]

theorem take_succ_of_get {α : Type} (l : List α) (i : Nat) (x : α) (h : l[i]? = some x) :
    l.take (i + 1) = l.take i ++ [x] := by
  rw [List.take_succ, h]
  rfl

theorem drop_of_get {α : Type} (l : List α) (i : Nat) (x : α) (h : l[i]? = some x) :
    l.drop i = x :: l.drop (i + 1) := by
  have hlt : i < l.length := by
    by_contra hge
    rw [List.getElem?_eq_none (by omega)] at h
    exact absurd h (by simp)
  rw [List.drop_eq_getElem_cons hlt]
  rw [List.getElem?_eq_getElem hlt] at h
  simp only [Option.some.injEq] at h
  rw [h]

/-- The first loop of `CheckSessions` on the list of sessions in use: of the entries below `i`
the timed-out ones are removed, the others and the entries from `i` on stay in order. -/
theorem checkSessionsFrom_live (P : WebParams) (now : Nat) (i : Nat) :
    ∀ (w : Statics) (n : Nat), i ≤ w.numSessions → w.numSessions ≤ w.sessions.length →
      (checkSessionsFrom P now i w n).1.live =
        (w.live.take i).filter (fun h => !timedOut P now h) ++ w.live.drop i ∧
      (checkSessionsFrom P now i w n).1.numSessions ≤
        (checkSessionsFrom P now i w n).1.sessions.length ∧
      (checkSessionsFrom P now i w n).1.clientsServed = w.clientsServed ∧
      (checkSessionsFrom P now i w n).1.gcodeReply = w.gcodeReply ∧
      (checkSessionsFrom P now i w n).1.numSessions + (checkSessionsFrom P now i w n).2 =
        w.numSessions + n := by
  induction i with
  | zero =>
    intro w n _ hn
    simp only [checkSessionsFrom, List.take_zero, List.filter_nil, List.nil_append,
      List.drop_zero]
    exact ⟨trivial, hn, trivial, trivial, trivial⟩
  | succ i ih =>
    intro w n hi hn
    have hg := live_get w i (by omega) hn
    have ht : (w.touch i).live = w.live := rfl
    simp only [checkSessionsFrom]
    by_cases hto : timedOut P now (w.session i) = true
    · rw [if_pos hto]
      obtain ⟨r1, r2, r3, r4, r5⟩ := RemoveSession_live (w.touch i) i
        (by simp only [Statics.touch]; omega) hn
      have t2 : (w.touch i).numSessions = w.numSessions := rfl
      have t3 : (w.touch i).sessions = w.sessions := rfl
      have t4 : (w.touch i).clientsServed = w.clientsServed := rfl
      have t5 : (w.touch i).gcodeReply = w.gcodeReply := rfl
      rw [t2] at r2
      rw [t3] at r3
      rw [t4] at r4
      rw [t5] at r5
      obtain ⟨k1, k2, k3, k4, k5⟩ := ih (RemoveSession (w.touch i) i) (n + 1)
        (by rw [r2]; omega) (by rw [r2, r3]; omega)
      refine ⟨?_, k2, by rw [k3, r4], by rw [k4, r5], by rw [k5, r2]; omega⟩
      rw [k1, r1, ht, List.eraseIdx_eq_take_drop_succ, take_succ_of_get _ _ _ hg,
        List.filter_append]
      have e1 : (w.live.take i ++ w.live.drop (i + 1)).take i = w.live.take i := by
        rw [List.take_append_of_le_length (by rw [List.length_take, live_length w hn]; omega),
          List.take_take]
        simp
      have e2 : (w.live.take i ++ w.live.drop (i + 1)).drop i = w.live.drop (i + 1) := by
        rw [List.drop_append_of_le_length (by rw [List.length_take, live_length w hn]; omega)]
        have : (w.live.take i).drop i = [] := by
          apply List.drop_eq_nil_of_le
          rw [List.length_take]; omega
        rw [this, List.nil_append]
      rw [e1, e2]
      simp [hto]
    · rw [if_neg hto]
      obtain ⟨k1, k2, k3, k4, k5⟩ := ih (w.touch i) n (by simp only [Statics.touch]; omega) hn
      refine ⟨?_, k2, k3, k4, k5⟩
      rw [k1, ht, take_succ_of_get _ _ _ hg, List.filter_append, drop_of_get _ _ _ hg]
      simp [hto]

theorem popAll_eq (k : OutputStack) : popAll k = [] := by
  induction k with
  | nil => rfl
  | cons b rest ih => simpa [popAll] using ih

theorem CheckSessions_table (P : WebParams) (applyTimeout : OutputStack → OutputStack)
    (now : Nat) (w : Statics) :
    (CheckSessions P applyTimeout now w).sessions =
        (checkSessionsFrom P now w.numSessions w 0).1.sessions ∧
      (CheckSessions P applyTimeout now w).numSessions =
        (checkSessionsFrom P now w.numSessions w 0).1.numSessions := by
  unfold CheckSessions
  simp only []
  split_ifs <;> exact ⟨rfl, rfl⟩

/-- C27: after `CheckSessions` the table holds exactly the sessions whose idle time
`now - lastQueryTime` (32-bit subtraction) is at most `HttpSessionTimeout`, in their original
order, and `numSessions` is their number. -/
theorem CheckSessions_keeps_active (P : WebParams) (applyTimeout : OutputStack → OutputStack)
    (now : Nat) (w : Statics) (hn : w.numSessions ≤ w.sessions.length) :
    (CheckSessions P applyTimeout now w).live =
        w.live.filter (fun h =>
          decide ((now + 2 ^ 32 - h.lastQueryTime) % 2 ^ 32 ≤ P.HttpSessionTimeout)) ∧
      (CheckSessions P applyTimeout now w).numSessions =
        (w.live.filter (fun h =>
          decide ((now + 2 ^ 32 - h.lastQueryTime) % 2 ^ 32 ≤ P.HttpSessionTimeout))).length := by
  obtain ⟨t1, t2⟩ := CheckSessions_table P applyTimeout now w
  obtain ⟨k1, k2, _, _, _⟩ := checkSessionsFrom_live P now w.numSessions w 0 (le_refl _) hn
  have hl : (CheckSessions P applyTimeout now w).live =
      (checkSessionsFrom P now w.numSessions w 0).1.live := by
    unfold Statics.live
    rw [t1, t2]
  have hf : (w.live.take w.numSessions).filter (fun h => !timedOut P now h) ++
      w.live.drop w.numSessions = w.live.filter (fun h =>
        decide ((now + 2 ^ 32 - h.lastQueryTime) % 2 ^ 32 ≤ P.HttpSessionTimeout)) := by
    have e1 : w.live.take w.numSessions = w.live := by
      apply List.take_of_length_le
      rw [live_length w hn]
    have e2 : w.live.drop w.numSessions = [] := by
      apply List.drop_eq_nil_of_le
      rw [live_length w hn]
    rw [e1, e2, List.append_nil]
    apply List.filter_congr
    intro x _
    simp only [timedOut, DataTransfer.wrap32, gt_iff_lt, Nat.reducePow]
    by_cases hx : P.HttpSessionTimeout < (now + 4294967296 - x.lastQueryTime) % 4294967296
    · simp [hx]
    · simp [hx, Nat.not_lt.mp hx]
  have hlive : (CheckSessions P applyTimeout now w).live = w.live.filter (fun h =>
      decide ((now + 2 ^ 32 - h.lastQueryTime) % 2 ^ 32 ≤ P.HttpSessionTimeout)) := by
    rw [hl, k1, hf]
  refine ⟨hlive, ?_⟩
  rw [← hlive]
  unfold Statics.live
  rw [List.length_take, t1, t2]
  omega

theorem CheckSessions_keeps_active_witness :
    sampleStatics.numSessions ≤ sampleStatics.sessions.length ∧
      (CheckSessions sampleWeb id 10000 sampleStatics).live =
        [⟨11, 5000, false, 0⟩, ⟨12, 2000, true, 80⟩] ∧
      (CheckSessions sampleWeb id 10000 sampleStatics).numSessions = 2 :=
  ⟨by decide,
    (CheckSessions_keeps_active sampleWeb id 10000 sampleStatics (by decide)).1.trans
      (by decide),
    (CheckSessions_keeps_active sampleWeb id 10000 sampleStatics (by decide)).2.trans
      (by decide)⟩

theorem checkSessionsFrom_count (P : WebParams) (now : Nat) (i : Nat) :
    ∀ (w : Statics) (n : Nat), i ≤ w.numSessions →
      (checkSessionsFrom P now i w n).1.numSessions + (checkSessionsFrom P now i w n).2 =
        w.numSessions + n := by
  induction i with
  | zero => intro w n _; rfl
  | succ i ih =>
    intro w n hi
    simp only [checkSessionsFrom]
    split_ifs
    · have e : (RemoveSession (w.touch i) i).numSessions = w.numSessions - 1 := by
        unfold RemoveSession
        rw [if_pos (by simp only [Statics.touch]; omega)]
        exact (shiftDown_fields _ _ _).1
      rw [ih _ (n + 1) (by rw [e]; omega), e]
      omega
    · exact ih (w.touch i) n (by simp only [Statics.touch]; omega)

/-- C28: if a call of `CheckSessions` leaves no session (`numSessions = 0` afterwards) and
there was at least one before, so that at least one session was timed out, then afterwards the
shared G-code reply stack is empty and `clientsServed = 0`. -/
theorem CheckSessions_drains_reply (P : WebParams) (applyTimeout : OutputStack → OutputStack)
    (now : Nat) (w : Statics) (h0 : 0 < w.numSessions)
    (hz : (CheckSessions P applyTimeout now w).numSessions = 0) :
    (CheckSessions P applyTimeout now w).gcodeReply = [] ∧
      (CheckSessions P applyTimeout now w).clientsServed = 0 := by
  have hc := checkSessionsFrom_count P now w.numSessions w 0 (le_refl _)
  rw [(CheckSessions_table P applyTimeout now w).2] at hz
  have hne : (checkSessionsFrom P now w.numSessions w 0).2 ≠ 0 := by omega
  unfold CheckSessions
  simp only [hne, ne_eq, not_false_eq_true, if_true, hz, true_or, popAll_eq, and_self]

theorem CheckSessions_drains_reply_witness :
    0 < sampleStatics.numSessions ∧
      (CheckSessions sampleWeb id 20000 sampleStatics).numSessions = 0 ∧
      (CheckSessions sampleWeb id 20000 sampleStatics).gcodeReply = [] ∧
      (CheckSessions sampleWeb id 20000 sampleStatics).clientsServed = 0 :=
  ⟨by decide, by decide,
    CheckSessions_drains_reply sampleWeb id 20000 sampleStatics (by decide) (by decide)⟩

end HttpResponder
namespace HttpResponder

/-! ### Removing the session of an address -/

theorem removeAuthenticationFrom_none (ip : Nat) (i : Nat) : ∀ w : Statics,
    (∀ j, j < i → (w.session j).ip ≠ ip) →
    (removeAuthenticationFrom ip i w).1 = false ∧
    (removeAuthenticationFrom ip i w).2.sessions = w.sessions ∧
    (removeAuthenticationFrom ip i w).2.numSessions = w.numSessions := by
  induction i with
  | zero => intro w _; exact ⟨rfl, rfl, rfl⟩
  | succ i ih =>
    intro w h
    simp only [removeAuthenticationFrom]
    rw [if_neg (h i (by omega))]
    exact ih (w.touch i) (fun j hj => h j (by omega))

theorem removeAuthenticationFrom_found (ip : Nat) (i : Nat) : ∀ (w : Statics) (j : Nat),
    j < i → i ≤ w.numSessions → w.numSessions ≤ w.sessions.length →
    (w.session j).ip = ip → (∀ k, j < k → k < i → (w.session k).ip ≠ ip) →
    ((w.session j).isPostUploading = true →
      (removeAuthenticationFrom ip i w).1 = false ∧
      (removeAuthenticationFrom ip i w).2.sessions = w.sessions ∧
      (removeAuthenticationFrom ip i w).2.numSessions = w.numSessions) ∧
    ((w.session j).isPostUploading = false →
      (removeAuthenticationFrom ip i w).1 = true ∧
      (removeAuthenticationFrom ip i w).2.live = w.live.eraseIdx j ∧
      (removeAuthenticationFrom ip i w).2.numSessions = w.numSessions - 1 ∧
      (removeAuthenticationFrom ip i w).2.sessions.length = w.sessions.length) := by
  induction i with
  | zero => intro w j hj; omega
  | succ i ih =>
    intro w j hj hi hn hip hrest
    simp only [removeAuthenticationFrom]
    by_cases hji : j = i
    · subst hji
      rw [if_pos hip]
      refine ⟨fun hu => ?_, fun hu => ?_⟩
      · rw [if_pos hu]
        exact ⟨rfl, rfl, rfl⟩
      · rw [if_neg (by rw [hu]; simp)]
        obtain ⟨r1, r2, r3, _⟩ := RemoveSession_live (w.touch j) j
          (by simp only [Statics.touch]; omega) hn
        exact ⟨rfl, r1, r2, r3⟩
    · rw [if_neg (hrest i (by omega) (by omega))]
      exact ih (w.touch i) j (by omega) (by simp only [Statics.touch]; omega) hn hip
        (fun k hk1 hk2 => hrest k hk1 (by omega))

theorem eraseIdx_eq_filter (ip : Nat) (l : List HttpSession) : ∀ (j : Nat) (h : HttpSession),
    (l.map (fun x => x.ip)).Nodup → l[j]? = some h → h.ip = ip →
    l.eraseIdx j = l.filter (fun x => decide (x.ip ≠ ip)) := by
  induction l with
  | nil => intro j h _ hj; simp at hj
  | cons x xs ih =>
    intro j h hd hj hip
    simp only [List.map_cons, List.nodup_cons, List.mem_map, not_exists, not_and] at hd
    obtain ⟨hx, hxs⟩ := hd
    cases j with
    | zero =>
      simp only [List.getElem?_cons_zero, Option.some.injEq] at hj
      subst hj
      rw [List.eraseIdx_cons_zero, List.filter_cons_of_neg (by simp [hip])]
      symm
      rw [List.filter_eq_self]
      intro a ha
      have := hx a ha
      simp only [ne_eq, decide_not, Bool.not_eq_true', decide_eq_false_iff_not]
      rw [← hip]
      exact this
    | succ j =>
      simp only [List.getElem?_cons_succ] at hj
      have hne : x.ip ≠ ip := by
        intro e
        exact hx h (List.getElem?_mem hj) (by rw [hip, e])
      rw [List.eraseIdx_cons_succ, List.filter_cons_of_pos (by simp [hne]),
        ih j h hxs hj hip]

theorem nodup_ip_unique (l : List HttpSession) (i j : Nat) (a b : HttpSession)
    (hd : (l.map (fun x => x.ip)).Nodup) (hi : l[i]? = some a) (hj : l[j]? = some b)
    (he : a.ip = b.ip) : i = j := by
  rw [List.nodup_iff_getElem?_ne_getElem?] at hd
  have hil : i < l.length := by
    by_contra hge
    rw [List.getElem?_eq_none (by omega)] at hi
    exact absurd hi (by simp)
  have hjl : j < l.length := by
    by_contra hge
    rw [List.getElem?_eq_none (by omega)] at hj
    exact absurd hj (by simp)
  have e1 : (l.map (fun x => x.ip))[i]? = some a.ip := by rw [List.getElem?_map, hi]; rfl
  have e2 : (l.map (fun x => x.ip))[j]? = some b.ip := by rw [List.getElem?_map, hj]; rfl
  rcases Nat.lt_trichotomy i j with h | h | h
  · exact absurd (by rw [e1, e2, he]) (hd i j h (by rw [List.length_map]; exact hjl))
  · exact h
  · exact absurd (by rw [e1, e2, he]) (hd j i h (by rw [List.length_map]; exact hil))

/-- C25: `RemoveAuthentication` for the remote address `ip`, on a table whose sessions have
pairwise distinct addresses: it returns false and leaves the table as it is when no session has
the address or when the session with the address has `isPostUploading` set; otherwise it
returns true, `numSessions` decreases by one, and the table holds the sessions with other
addresses in their original order. -/
theorem RemoveAuthentication_spec (ip : Nat) (w : Statics)
    (hn : w.numSessions ≤ w.sessions.length)
    (hd : (w.live.map (fun x => x.ip)).Nodup) :
    ((∀ h ∈ w.live, h.ip ≠ ip) →
      (RemoveAuthentication ip w).1 = false ∧ (RemoveAuthentication ip w).2.live = w.live ∧
      (RemoveAuthentication ip w).2.numSessions = w.numSessions) ∧
    (∀ h ∈ w.live, h.ip = ip → h.isPostUploading = true →
      (RemoveAuthentication ip w).1 = false ∧ (RemoveAuthentication ip w).2.live = w.live ∧
      (RemoveAuthentication ip w).2.numSessions = w.numSessions) ∧
    (∀ h ∈ w.live, h.ip = ip → h.isPostUploading = false →
      (RemoveAuthentication ip w).1 = true ∧
      (RemoveAuthentication ip w).2.numSessions + 1 = w.numSessions ∧
      (RemoveAuthentication ip w).2.live = w.live.filter (fun x => decide (x.ip ≠ ip)) ∧
      ∀ x ∈ (RemoveAuthentication ip w).2.live, x.ip ≠ ip) := by
  have found : ∀ h ∈ w.live, h.ip = ip → ∃ j, j < w.numSessions ∧ w.session j = h ∧
      w.live[j]? = some h ∧ ∀ k, j < k → k < w.numSessions → (w.session k).ip ≠ ip := by
    intro h hh hip
    obtain ⟨j, hj⟩ := List.mem_iff_getElem?.mp hh
    have hjl : j < w.numSessions := by
      by_contra hge
      rw [List.getElem?_eq_none (by rw [live_length w hn]; omega)] at hj
      exact absurd hj (by simp)
    have hs : w.session j = h := by
      have := live_get w j hjl hn
      rw [hj] at this
      exact (Option.some.inj this).symm
    refine ⟨j, hjl, hs, hj, ?_⟩
    intro k hk1 hk2 e
    have := nodup_ip_unique w.live j k h (w.session k) hd hj (live_get w k hk2 hn)
      (by rw [hip, e])
    omega
  refine ⟨?_, ?_, ?_⟩
  · intro hno
    obtain ⟨r1, r2, r3⟩ := removeAuthenticationFrom_none ip w.numSessions w (by
      intro j hj
      exact hno _ (List.getElem?_mem (live_get w j hj hn)))
    refine ⟨r1, ?_, r3⟩
    unfold Statics.live
    unfold RemoveAuthentication
    rw [r2, r3]
  · intro h hh hip hu
    obtain ⟨j, hjl, hs, _, hrest⟩ := found h hh hip
    obtain ⟨r1, r2, r3⟩ := (removeAuthenticationFrom_found ip w.numSessions w j hjl (le_refl _)
      hn (by rw [hs, hip]) hrest).1 (by rw [hs, hu])
    refine ⟨r1, ?_, r3⟩
    unfold Statics.live
    unfold RemoveAuthentication
    rw [r2, r3]
  · intro h hh hip hu
    obtain ⟨j, hjl, hs, hj, hrest⟩ := found h hh hip
    obtain ⟨r1, r2, r3, _⟩ := (removeAuthenticationFrom_found ip w.numSessions w j hjl
      (le_refl _) hn (by rw [hs, hip]) hrest).2 (by rw [hs, hu])
    have e : (RemoveAuthentication ip w).2.live = w.live.filter (fun x => decide (x.ip ≠ ip)) := by
      unfold RemoveAuthentication
      rw [r2, eraseIdx_eq_filter ip w.live j h hd hj hip]
    refine ⟨r1, ?_, e, ?_⟩
    · unfold RemoveAuthentication
      rw [r3]
      omega
    · intro x hx
      rw [e, List.mem_filter] at hx
      simpa using hx.2

theorem RemoveAuthentication_spec_witness :
    (RemoveAuthentication 11 sampleStatics).1 = true ∧
      (RemoveAuthentication 11 sampleStatics).2.live =
        [⟨10, 1000, false, 0⟩, ⟨12, 2000, true, 80⟩] ∧
      (RemoveAuthentication 12 sampleStatics).1 = false ∧
      (RemoveAuthentication 12 sampleStatics).2.live = sampleStatics.live ∧
      (RemoveAuthentication 13 sampleStatics).1 = false :=
  ⟨((RemoveAuthentication_spec 11 sampleStatics (by decide) (by decide)).2.2
      ⟨11, 5000, false, 0⟩ (by decide) rfl rfl).1,
    ((RemoveAuthentication_spec 11 sampleStatics (by decide) (by decide)).2.2
      ⟨11, 5000, false, 0⟩ (by decide) rfl rfl).2.2.1.trans (by decide),
    ((RemoveAuthentication_spec 12 sampleStatics (by decide) (by decide)).2.1
      ⟨12, 2000, true, 80⟩ (by decide) rfl rfl).1,
    ((RemoveAuthentication_spec 12 sampleStatics (by decide) (by decide)).2.1
      ⟨12, 2000, true, 80⟩ (by decide) rfl rfl).2.1,
    ((RemoveAuthentication_spec 13 sampleStatics (by decide) (by decide)).1
      (by decide)).1⟩

end HttpResponder
namespace HttpResponder

/-! ### Broadcast of the G-code reply -/

theorem IncreaseReferences_ne_nil (k : OutputStack) (n : Nat) (h : k ≠ []) :
    k.IncreaseReferences n ≠ [] := by
  cases k with
  | nil => exact absurd rfl h
  | cons b rest => simp [OutputStack.IncreaseReferences]

theorem IncreaseReferences_add (k : OutputStack) (m n : Nat) :
    (k.IncreaseReferences m).IncreaseReferences n = k.IncreaseReferences (m + n) := by
  simp only [OutputStack.IncreaseReferences, List.map_map]
  apply List.map_congr_left
  intro b _
  simp only [Function.comp, Nat.add_assoc]

theorem IncreaseReferences_zero (k : OutputStack) : k.IncreaseReferences 0 = k := by
  simp [OutputStack.IncreaseReferences]

/-- One call of `SendGCodeReply` with a reply on the stack. -/
theorem SendGCodeReply_step (E : Env) (w : Statics) (h : w.gcodeReply ≠ []) :
    (SendGCodeReply E w).2.clientsServed = (w.clientsServed + 1) % 2 ^ 32 ∧
    (SendGCodeReply E w).2.numSessions = w.numSessions ∧
    ((w.clientsServed + 1) % 2 ^ 32 < w.numSessions →
      (SendGCodeReply E w).2.gcodeReply = w.gcodeReply.IncreaseReferences 1) ∧
    (¬ (w.clientsServed + 1) % 2 ^ 32 < w.numSessions →
      (SendGCodeReply E w).2.gcodeReply = []) := by
  have he : w.gcodeReply.IsEmpty = false := by
    cases hk : w.gcodeReply with
    | nil => exact absurd hk h
    | cons b rest => rfl
  unfold SendGCodeReply
  simp only [he, Bool.false_eq_true, not_false_eq_true, if_true, DataTransfer.wrap32]
  refine ⟨?_, ?_, ?_, ?_⟩
  · split_ifs <;> rfl
  · split_ifs <;> rfl
  · intro hlt
    simp only [Nat.reducePow] at hlt
    simp [hlt]
  · intro hge
    simp only [Nat.reducePow] at hge
    simp [hge]

theorem sendReplies_succ (E : Env) (n : Nat) : ∀ w : Statics,
    sendReplies E (n + 1) w = (SendGCodeReply E (sendReplies E n w)).2 := by
  induction n with
  | zero => intro w; rfl
  | succ n ih =>
    intro w
    show sendReplies E (n + 1) (SendGCodeReply E w).2 = _
    rw [ih]
    rfl

theorem sendReplies_spec (E : Env) (k : Nat) : ∀ w : Statics, w.gcodeReply ≠ [] →
    w.numSessions < 2 ^ 32 → w.clientsServed + k < w.numSessions →
    (sendReplies E k w).gcodeReply = w.gcodeReply.IncreaseReferences k ∧
    (sendReplies E k w).clientsServed = w.clientsServed + k ∧
    (sendReplies E k w).numSessions = w.numSessions := by
  induction k with
  | zero => intro w _ _ _; exact ⟨(IncreaseReferences_zero _).symm, rfl, rfl⟩
  | succ k ih =>
    intro w h h32 hk
    obtain ⟨s1, s2, s3, _⟩ := SendGCodeReply_step E w h
    have e : (w.clientsServed + 1) % 2 ^ 32 = w.clientsServed + 1 := by omega
    rw [e] at s1 s3
    have s3' := s3 (by omega)
    obtain ⟨i1, i2, i3⟩ := ih (SendGCodeReply E w).2
      (by rw [s3']; exact IncreaseReferences_ne_nil _ _ h) (by rw [s2]; exact h32)
      (by rw [s1, s2]; omega)
    simp only [sendReplies]
    refine ⟨?_, ?_, ?_⟩
    · rw [i1, s3', IncreaseReferences_add, Nat.add_comm]
    · rw [i2, s1]; omega
    · rw [i3, s2]

/-- C29: a call of `SendGCodeReply` with a non-empty shared reply increments `clientsServed`
(a 32-bit counter); if the new value is below `numSessions` every item of the reply stack gets
one more reference and the stack stays non-empty, otherwise the stack is empty afterwards.  So
with `n ≥ 1` sessions, a reply on the stack and `clientsServed = 0` (as `HandleGCodeReply` leaves
it), the reply is still there after each of the first `n - 1` sends and gone after the `n`-th. -/
theorem SendGCodeReply_broadcast (E : Env) (w : Statics) (h : w.gcodeReply ≠ [])
    (h32 : w.numSessions < 2 ^ 32) :
    (SendGCodeReply E w).2.clientsServed = (w.clientsServed + 1) % 2 ^ 32 ∧
    ((w.clientsServed + 1) % 2 ^ 32 < w.numSessions →
      (SendGCodeReply E w).2.gcodeReply = w.gcodeReply.IncreaseReferences 1 ∧
      (SendGCodeReply E w).2.gcodeReply ≠ []) ∧
    (¬ (w.clientsServed + 1) % 2 ^ 32 < w.numSessions →
      (SendGCodeReply E w).2.gcodeReply = []) ∧
    (w.clientsServed = 0 → 1 ≤ w.numSessions →
      (∀ k, k < w.numSessions →
        (sendReplies E k w).gcodeReply = w.gcodeReply.IncreaseReferences k ∧
        (sendReplies E k w).gcodeReply ≠ []) ∧
      (sendReplies E w.numSessions w).gcodeReply = []) := by
  obtain ⟨s1, _, s3, s4⟩ := SendGCodeReply_step E w h
  refine ⟨s1, ?_, s4, ?_⟩
  · intro hlt
    have := s3 hlt
    exact ⟨this, by rw [this]; exact IncreaseReferences_ne_nil _ _ h⟩
  · intro h0 h1
    have part : ∀ k, k < w.numSessions →
        (sendReplies E k w).gcodeReply = w.gcodeReply.IncreaseReferences k ∧
        (sendReplies E k w).clientsServed = k ∧
        (sendReplies E k w).numSessions = w.numSessions := by
      intro k hk
      obtain ⟨i1, i2, i3⟩ := sendReplies_spec E k w h h32 (by omega)
      exact ⟨i1, by rw [i2, h0]; omega, i3⟩
    refine ⟨fun k hk => ⟨(part k hk).1, by
      rw [(part k hk).1]; exact IncreaseReferences_ne_nil _ _ h⟩, ?_⟩
    obtain ⟨n, hn⟩ : ∃ n, w.numSessions = n + 1 := ⟨w.numSessions - 1, by omega⟩
    obtain ⟨p1, p2, p3⟩ := part n (by omega)
    have hlast := sendReplies_succ E n w
    rw [hn, hlast]
    exact (SendGCodeReply_step E (sendReplies E n w)
      (by rw [p1]; exact IncreaseReferences_ne_nil _ _ h)).2.2.2
      (by rw [p2, p3, hn]; omega)

theorem SendGCodeReply_broadcast_witness :
    (sendReplies (sampleEnv 10) 2 sampleStatics).gcodeReply = [⟨bytes "ok", 2, 900⟩] ∧
      (sendReplies (sampleEnv 10) 3 sampleStatics).gcodeReply = [] :=
  ⟨(((SendGCodeReply_broadcast (sampleEnv 10) sampleStatics (by decide) (by decide)).2.2.2
      rfl (by decide)).1 2 (by decide)).1.trans (by decide),
    ((SendGCodeReply_broadcast (sampleEnv 10) sampleStatics (by decide) (by decide)).2.2.2
      rfl (by decide)).2⟩

end HttpResponder
namespace HttpResponder

/-! ### Authentication in the JSON API -/

theorem sameTable_refl (w : Statics) : sameTable w w := ⟨rfl, rfl, rfl, rfl, rfl⟩

theorem sameTable_trans {a b c : Statics} (h1 : sameTable a b) (h2 : sameTable b c) :
    sameTable a c :=
  ⟨h2.1.trans h1.1, h2.2.1.trans h1.2.1, h2.2.2.1.trans h1.2.2.1, h2.2.2.2.1.trans h1.2.2.2.1,
    h2.2.2.2.2.trans h1.2.2.2.2⟩

theorem noSession_sameTable {ip : Nat} {w v : Statics} (h : sameTable w v) (hno : noSession ip w) :
    noSession ip v := by
  intro j hj
  have := hno j (by rw [← h.2.1]; exact hj)
  simpa [Statics.session, h.1] using this

theorem checkAuthenticatedFrom_none (ip now : Nat) (d : Nat) : ∀ (i : Nat) (w : Statics),
    (∀ j, i ≤ j → j < i + d → (w.session j).ip ≠ ip) →
    (checkAuthenticatedFrom ip now d i w).1 = false ∧
      sameTable w (checkAuthenticatedFrom ip now d i w).2 := by
  induction d with
  | zero => intro i w _; exact ⟨rfl, sameTable_refl w⟩
  | succ d ih =>
    intro i w h
    have hi := h i (Nat.le_refl i) (by omega)
    simp only [checkAuthenticatedFrom, if_neg hi]
    obtain ⟨r1, r2⟩ := ih (i + 1) (w.touch i) (fun j h1 h2 => h j (by omega) (by omega))
    exact ⟨r1, r2⟩

theorem CheckAuthenticated_none (ip now : Nat) (w : Statics) (hno : noSession ip w) :
    (CheckAuthenticated ip now w).1 = false ∧ sameTable w (CheckAuthenticated ip now w).2 :=
  checkAuthenticatedFrom_none ip now w.numSessions 0 w (fun j _ h2 => hno j (by omega))

theorem Authenticate_full (P : WebParams) (ip now : Nat) (w : Statics) (hno : noSession ip w)
    (hfull : P.MaxHttpSessions ≤ w.numSessions) :
    (Authenticate P ip now w).1 = false ∧ sameTable w (Authenticate P ip now w).2 := by
  obtain ⟨c1, c2⟩ := CheckAuthenticated_none ip now w hno
  unfold Authenticate
  rcases hc : CheckAuthenticated ip now w with ⟨a, w1⟩
  rw [hc] at c1 c2
  simp only at c1 c2
  subst c1
  simp only
  rw [if_neg (by rw [c2.2.1]; omega)]
  exact ⟨rfl, c2⟩

theorem Authenticate_new (P : WebParams) (ip now : Nat) (w : Statics) (hno : noSession ip w)
    (hroom : w.numSessions < P.MaxHttpSessions) :
    (Authenticate P ip now w).1 = true ∧
      (Authenticate P ip now w).2.numSessions = w.numSessions + 1 ∧
      (Authenticate P ip now w).2.sessions =
        w.sessions.set w.numSessions
          { w.session w.numSessions with ip := ip, lastQueryTime := now, isPostUploading := false } ∧
      (Authenticate P ip now w).2.clientsServed = w.clientsServed ∧
      (Authenticate P ip now w).2.gcodeReply = w.gcodeReply := by
  obtain ⟨c1, c2⟩ := CheckAuthenticated_none ip now w hno
  unfold Authenticate
  rcases hc : CheckAuthenticated ip now w with ⟨a, w1⟩
  rw [hc] at c1 c2
  simp only at c1 c2
  subst c1
  simp only
  rw [if_pos (by rw [c2.2.1]; exact hroom)]
  refine ⟨rfl, ?_, ?_, ?_, ?_⟩
  · simp [c2.2.1]
  · simp [Statics.setSession, Statics.session, c2.1, c2.2.1]
  · simp [Statics.setSession, c2.2.2.1]
  · simp [Statics.setSession, c2.2.2.2.2]

/-- The part of `SendJsonResponse` before the JSON buffer is allocated, for an address without
a session that is not given one. -/
theorem SendJsonResponse_unauthenticated (P : WebParams) (E : Env) (s : Parser)
    (command : List Nat) (w : Statics) (hno : noSession E.remoteIP w)
    (hauto : E.noPasswordSet = false ∨ P.MaxHttpSessions ≤ w.numSessions) :
    ∃ w2, sameTable w w2 ∧
      SendJsonResponse P E s command w =
        if E.allocateJson then
          match GetJsonResponse P E s command w2 with
          | (.rejected o, w3) => (o, w3)
          | (.fileInfo name, w3) => (.gettingFileInfo name, w3)
          | (.response b, w3) =>
            if E.jsonLost then (serviceUnavailable, w3)
            else if E.outOverflow then (serviceUnavailable, w3)
            else
              (.sent ([.status 200 "OK", .noCache, .contentType "application/json",
                  .contentLength E.jsonLength] ++ AddCorsHeader E ++ [.connectionClose])
                (.json b), w3)
        else (serviceUnavailable, w2) := by
  obtain ⟨a1, a2⟩ := CheckAuthenticated_none E.remoteIP E.now w hno
  have hno0 := noSession_sameTable a2 hno
  have hw1 : ∃ w1, sameTable w w1 ∧
      (if ¬ (CheckAuthenticated E.remoteIP E.now w).1 ∧ E.noPasswordSet then
        (Authenticate P E.remoteIP E.now (CheckAuthenticated E.remoteIP E.now w).2).2
      else (CheckAuthenticated E.remoteIP E.now w).2) = w1 := by
    by_cases hp : E.noPasswordSet = true
    · have hfull : P.MaxHttpSessions ≤ w.numSessions := by
        rcases hauto with h | h
        · rw [hp] at h; exact absurd h (by decide)
        · exact h
      obtain ⟨_, b2⟩ := Authenticate_full P E.remoteIP E.now _ hno0 (by rw [a2.2.1]; exact hfull)
      exact ⟨_, sameTable_trans a2 b2, if_pos ⟨by rw [a1]; decide, hp⟩⟩
    · refine ⟨_, a2, ?_⟩
      rw [if_neg (fun h => hp h.2)]
  obtain ⟨w1, t1, e1⟩ := hw1
  obtain ⟨c1, c2⟩ := CheckAuthenticated_none E.remoteIP E.now w1 (noSession_sameTable t1 hno)
  refine ⟨(CheckAuthenticated E.remoteIP E.now w1).2, sameTable_trans t1 c2, ?_⟩
  unfold SendJsonResponse
  simp only [e1, c1, Bool.false_eq_true, false_and, if_false]

/-- C23: a JSON API request from an address that has no session and is not given one
automatically (a password is set, or the table is full), other than `connect` with a password
qualifier, leaves the session table as it was and runs no command handler: the reply is the
rejection 401 "Not authorized" if a buffer for the JSON response can be allocated, and the
reply 503 otherwise. -/
theorem unauthenticated_rejected (P : WebParams) (E : Env) (s : Parser) (command : List Nat)
    (w : Statics) (hno : noSession E.remoteIP w)
    (hauto : E.noPasswordSet = false ∨ P.MaxHttpSessions ≤ w.numSessions)
    (hcmd : ¬ (StringEqualsIgnoreCase command (bytes "connect") = true ∧
      (GetKeyValue s "password").isSome = true)) :
    sameTable w (SendJsonResponse P E s command w).2 ∧
    (SendJsonResponse P E s command w).1 =
      if E.allocateJson then RejectMessage E true "Not authorized" 401
      else serviceUnavailable := by
  obtain ⟨w2, t2, e⟩ := SendJsonResponse_unauthenticated P E s command w hno hauto
  rw [e]
  obtain ⟨c1, c2⟩ := CheckAuthenticated_none E.remoteIP E.now w2 (noSession_sameTable t2 hno)
  have hsel : (if StringEqualsIgnoreCase command (bytes "connect") then GetKeyValue s "password"
      else none) = none := by
    by_cases hc : StringEqualsIgnoreCase command (bytes "connect") = true
    · rw [if_pos hc]
      cases hk : GetKeyValue s "password" with
      | none => rfl
      | some v => exact absurd ⟨hc, by rw [hk]; rfl⟩ hcmd
    · rw [if_neg hc]
  have hg : GetJsonResponse P E s command w2 =
      (.rejected (RejectMessage E true "Not authorized" 401),
        (CheckAuthenticated E.remoteIP E.now w2).2) := by
    unfold GetJsonResponse
    rw [hsel]
    rcases hc : CheckAuthenticated E.remoteIP E.now w2 with ⟨a, w3⟩
    rw [hc] at c1
    simp only at c1
    subst c1
    rfl
  by_cases ha : E.allocateJson = true
  · simp only [ha, if_true, hg]
    exact ⟨sameTable_trans t2 c2, trivial⟩
  · simp only [ha, Bool.false_eq_true, if_false]
    exact ⟨t2, trivial⟩

theorem unauthenticated_rejected_witness :
    sameTable sampleStatics
        (SendJsonResponse sampleWeb (sampleEnv 99) afterSampleRequest (bytes "status")
          sampleStatics).2 ∧
      (SendJsonResponse sampleWeb (sampleEnv 99) afterSampleRequest (bytes "status")
          sampleStatics).1 =
        .sent [.status 401 "Not authorized", .connectionClose] (.errorPage "Not authorized") :=
  unauthenticated_rejected sampleWeb (sampleEnv 99) afterSampleRequest (bytes "status")
    sampleStatics (by intro j hj; have : j < 3 := hj; interval_cases j <;> decide)
    (Or.inl rfl) (by decide)

/-- C23, as written, fails when no buffer is free for the JSON response: the address 99 has no
session, a password is set, the command is `status`, and the reply is 503, not 401. -/
theorem unauthenticated_without_buffer :
    (∀ j, j < sampleStatics.numSessions → (sampleStatics.session j).ip ≠ 99) ∧
      (sampleEnv 99).noPasswordSet = false ∧
      (SendJsonResponse sampleWeb { sampleEnv 99 with allocateJson := false } afterSampleRequest
          (bytes "status") sampleStatics).1 = .sent [.status 503 "Service Unavailable"] .empty := by
  refine ⟨?_, rfl, ?_⟩
  · intro j hj
    have : j < 3 := hj
    interval_cases j <;> decide
  · decide

end HttpResponder
namespace HttpResponder

/-! ### The result codes of `rr_connect` -/

theorem take_set_self {α : Type} (l : List α) (a : α) : ∀ n : Nat,
    (l.set n a).take n = l.take n := by
  induction l with
  | nil => intro n; simp
  | cons x rest ih =>
    intro n
    cases n with
    | zero => rfl
    | succ n => simp [ih n]

theorem GetJsonResponse_connect (P : WebParams) (E : Env) (s : Parser) (request : List Nat)
    (w : Statics) (pw : List Nat)
    (hreq : StringEqualsIgnoreCase request (bytes "connect") = true)
    (hpw : GetKeyValue s "password" = some pw) (hno : noSession E.remoteIP w) :
    GetJsonResponse P E s request w =
      if ¬ E.checkPassword pw then
        (.response (.err 1), (CheckAuthenticated E.remoteIP E.now w).2)
      else
        match Authenticate P E.remoteIP E.now (CheckAuthenticated E.remoteIP E.now w).2 with
        | (false, w2) => (.response (.err 2), w2)
        | (true, w2) => (.response .login, w2) := by
  obtain ⟨c1, _⟩ := CheckAuthenticated_none E.remoteIP E.now w hno
  unfold GetJsonResponse
  rw [if_pos hreq, hpw]
  rcases hc : CheckAuthenticated E.remoteIP E.now w with ⟨a, w1⟩
  rw [hc] at c1
  simp only at c1
  subst c1
  rfl

/-- The result codes of `GetJsonResponse` for `connect` with a password qualifier, when the
address has no session at the call: `{"err":1}` and the table unchanged if the password check
fails; otherwise `{"err":2}` and the table unchanged if `numSessions` equals `MaxHttpSessions`;
otherwise the login reply, and a session of this address appended. -/
theorem GetJsonResponse_connect_codes (P : WebParams) (E : Env) (s : Parser) (request : List Nat)
    (w : Statics) (pw : List Nat)
    (hreq : StringEqualsIgnoreCase request (bytes "connect") = true)
    (hpw : GetKeyValue s "password" = some pw) (hno : noSession E.remoteIP w)
    (hn : w.numSessions ≤ P.MaxHttpSessions) (hlen : P.MaxHttpSessions ≤ w.sessions.length) :
    (E.checkPassword pw = false →
      (GetJsonResponse P E s request w).1 = .response (.err 1) ∧
        sameTable w (GetJsonResponse P E s request w).2) ∧
    (E.checkPassword pw = true → w.numSessions = P.MaxHttpSessions →
      (GetJsonResponse P E s request w).1 = .response (.err 2) ∧
        sameTable w (GetJsonResponse P E s request w).2) ∧
    (E.checkPassword pw = true → w.numSessions ≠ P.MaxHttpSessions →
      (∃ b, (GetJsonResponse P E s request w).1 = .response b ∧ b.code = some 0) ∧
        (GetJsonResponse P E s request w).2.numSessions = w.numSessions + 1 ∧
        (GetJsonResponse P E s request w).2.live =
          w.live ++ [⟨E.remoteIP, E.now, false, (w.session w.numSessions).postPort⟩]) := by
  rw [GetJsonResponse_connect P E s request w pw hreq hpw hno]
  obtain ⟨_, c2⟩ := CheckAuthenticated_none E.remoteIP E.now w hno
  have hno1 := noSession_sameTable c2 hno
  refine ⟨?_, ?_, ?_⟩
  · intro hc
    simp only [hc, Bool.false_eq_true, not_false_eq_true, if_true]
    exact ⟨trivial, c2⟩
  · intro hc hfull
    obtain ⟨b1, b2⟩ := Authenticate_full P E.remoteIP E.now _ hno1 (by rw [c2.2.1]; omega)
    simp only [hc, not_true_eq_false, if_false]
    rcases ha : Authenticate P E.remoteIP E.now (CheckAuthenticated E.remoteIP E.now w).2
      with ⟨a, w2⟩
    rw [ha] at b1 b2
    simp only at b1 b2
    subst b1
    exact ⟨rfl, sameTable_trans c2 b2⟩
  · intro hc hroom
    obtain ⟨b1, b2, b3, _, _⟩ :=
      Authenticate_new P E.remoteIP E.now _ hno1 (by rw [c2.2.1]; omega)
    simp only [hc, not_true_eq_false, if_false]
    rcases ha : Authenticate P E.remoteIP E.now (CheckAuthenticated E.remoteIP E.now w).2
      with ⟨a, w2⟩
    rw [ha] at b1 b2 b3
    simp only at b1 b2 b3
    subst b1
    refine ⟨⟨.login, rfl, rfl⟩, by rw [b2, c2.2.1], ?_⟩
    show w2.sessions.take w2.numSessions = w.sessions.take w.numSessions ++ _
    have hlt : w.numSessions < w.sessions.length := by omega
    rw [b2, b3, c2.2.1, c2.1]
    have hs : (CheckAuthenticated E.remoteIP E.now w).2.session w.numSessions =
        w.session w.numSessions := by
      simp [Statics.session, c2.1]
    rw [hs, take_succ_of_get _ _ _ (List.getElem?_set_self (by simpa using hlt)),
      take_set_self]

/-- C24, amended: a `connect` request with a password qualifier, from an address that has no
session and is not given one automatically (a password is set, or the table is full), when the
buffers for the JSON response are available: `SendJsonResponse` replies `{"err":1}` and leaves
the session table unchanged if the password check fails; otherwise it replies `{"err":2}` and
leaves the table unchanged if `numSessions` equals `MaxHttpSessions`; otherwise the reply has
`err` 0, `numSessions` is one more, and the table is the old one followed by a session of this
address with `isPostUploading` false. -/
theorem connect_result (P : WebParams) (E : Env) (s : Parser) (command : List Nat)
    (w : Statics) (pw : List Nat)
    (hreq : StringEqualsIgnoreCase command (bytes "connect") = true)
    (hpw : GetKeyValue s "password" = some pw) (hno : noSession E.remoteIP w)
    (hauto : E.noPasswordSet = false ∨ P.MaxHttpSessions ≤ w.numSessions)
    (hn : w.numSessions ≤ P.MaxHttpSessions) (hlen : P.MaxHttpSessions ≤ w.sessions.length)
    (hbuf : E.allocateJson = true ∧ E.jsonLost = false ∧ E.outOverflow = false) :
    (E.checkPassword pw = false →
      (SendJsonResponse P E s command w).1 =
          .sent ([.status 200 "OK", .noCache, .contentType "application/json",
            .contentLength E.jsonLength] ++ AddCorsHeader E ++ [.connectionClose])
            (.json (.err 1)) ∧
        sameTable w (SendJsonResponse P E s command w).2) ∧
    (E.checkPassword pw = true → w.numSessions = P.MaxHttpSessions →
      (SendJsonResponse P E s command w).1 =
          .sent ([.status 200 "OK", .noCache, .contentType "application/json",
            .contentLength E.jsonLength] ++ AddCorsHeader E ++ [.connectionClose])
            (.json (.err 2)) ∧
        sameTable w (SendJsonResponse P E s command w).2) ∧
    (E.checkPassword pw = true → w.numSessions ≠ P.MaxHttpSessions →
      (∃ b, (SendJsonResponse P E s command w).1 =
          .sent ([.status 200 "OK", .noCache, .contentType "application/json",
            .contentLength E.jsonLength] ++ AddCorsHeader E ++ [.connectionClose]) (.json b) ∧
          b.code = some 0) ∧
        (SendJsonResponse P E s command w).2.numSessions = w.numSessions + 1 ∧
        (SendJsonResponse P E s command w).2.live =
          w.live ++ [⟨E.remoteIP, E.now, false, (w.session w.numSessions).postPort⟩]) := by
  obtain ⟨w2, t2, e⟩ := SendJsonResponse_unauthenticated P E s command w hno hauto
  obtain ⟨g1, g2, g3⟩ := GetJsonResponse_connect_codes P E s command w2 pw hreq hpw
    (noSession_sameTable t2 hno) (by rw [t2.2.1]; exact hn) (by rw [t2.1]; exact hlen)
  have hlive : w2.live = w.live := by
    show w2.sessions.take w2.numSessions = w.sessions.take w.numSessions
    rw [t2.1, t2.2.1]
  have hsess : w2.session w2.numSessions = w.session w.numSessions := by
    simp [Statics.session, t2.1, t2.2.1]
  rw [e]
  simp only [hbuf.1, hbuf.2.1, hbuf.2.2, if_true, Bool.false_eq_true, if_false]
  refine ⟨?_, ?_, ?_⟩
  · intro hc
    obtain ⟨a, b⟩ := g1 hc
    rcases hg : GetJsonResponse P E s command w2 with ⟨r, w3⟩
    rw [hg] at a b
    simp only at a b
    subst a
    exact ⟨rfl, sameTable_trans t2 b⟩
  · intro hc hfull
    obtain ⟨a, b⟩ := g2 hc (by rw [t2.2.1]; exact hfull)
    rcases hg : GetJsonResponse P E s command w2 with ⟨r, w3⟩
    rw [hg] at a b
    simp only at a b
    subst a
    exact ⟨rfl, sameTable_trans t2 b⟩
  · intro hc hroom
    obtain ⟨⟨b, a1, a2⟩, a3, a4⟩ := g3 hc (by rw [t2.2.1]; exact hroom)
    rcases hg : GetJsonResponse P E s command w2 with ⟨r, w3⟩
    rw [hg] at a1 a3 a4
    simp only at a1 a3 a4
    subst a1
    refine ⟨⟨b, rfl, a2⟩, by rw [a3, t2.2.1], ?_⟩
    show w3.live = _
    rw [a4, hlive, hsess]

theorem connect_result_witness :
    (SendJsonResponse sampleWeb (sampleEnv 5) afterConnectRequest (bytes "connect")
        fullStatics).1 =
        .sent ([.status 200 "OK", .noCache, .contentType "application/json",
          .contentLength (sampleEnv 5).jsonLength] ++ AddCorsHeader (sampleEnv 5) ++
          [.connectionClose]) (.json (.err 2)) ∧
      sameTable fullStatics
        (SendJsonResponse sampleWeb (sampleEnv 5) afterConnectRequest (bytes "connect")
          fullStatics).2 :=
  (connect_result sampleWeb (sampleEnv 5) afterConnectRequest (bytes "connect") fullStatics
    (bytes "secret") (by decide) (by decide!)
    (by intro j hj; have : j < 4 := hj; interval_cases j <;> decide)
    (Or.inl rfl) (by decide) (by decide) (by decide)).2.1 (by decide) (by decide)

/-- C24, as written, fails when no password is set: the address 99 has no session and the
password `guess` fails the check, but `SendJsonResponse` gives the address a session before it
looks at the request, so the reply is the one of a successful login (`err` 0) and `numSessions`
goes from 3 to 4; the same holds for the whole request through `ProcessRequest`. -/
theorem connect_without_password_set :
    (∀ j, j < sampleStatics.numSessions → (sampleStatics.session j).ip ≠ 99) ∧
      GetKeyValue afterWrongPassword "password" = some (bytes "guess") ∧
      (sampleEnv 99).checkPassword (bytes "guess") = false ∧
      sampleStatics.numSessions = 3 ∧
      (SendJsonResponse sampleWeb { sampleEnv 99 with noPasswordSet := true } afterWrongPassword
          (bytes "connect") sampleStatics).1 =
        .sent [.status 200 "OK", .noCache, .contentType "application/json", .contentLength 20,
          .connectionClose] (.json .login) ∧
      (SendJsonResponse sampleWeb { sampleEnv 99 with noPasswordSet := true } afterWrongPassword
          (bytes "connect") sampleStatics).2.numSessions = 4 ∧
      (ProcessRequest sampleWeb { sampleEnv 99 with noPasswordSet := true } 0 afterWrongPassword
          sampleStatics).map (fun r => (r.1, r.2.numSessions)) =
        some (.sent [.status 200 "OK", .noCache, .contentType "application/json",
          .contentLength 20, .connectionClose] (.json .login), 4) := by
  refine ⟨?_, by decide!, by decide, rfl, by decide!, by decide!, by decide!⟩
  intro j hj
  have : j < 3 := hj
  interval_cases j <;> decide

end HttpResponder
namespace HttpResponder

/-! ### Dispatch of GET requests and the file service -/

theorem startsWith_split (t start : List Nat) (h : StringStartsWith t start = true) :
    start ++ t.drop start.length = t := by
  have h1 : t.take start.length = start := by simpa [StringStartsWith] using h
  calc start ++ t.drop start.length = t.take start.length ++ t.drop start.length := by rw [h1]
    _ = t := List.take_append_drop _ _

theorem startsWith_slash (t : List Nat) :
    StringStartsWith t (bytes "/rr_") = true ↔
      t.head? = some 47 ∧ StringStartsWith (t.drop 1) KO_START = true := by
  have hk : KO_START = [114, 114, 95] := by decide
  have hb : bytes "/rr_" = [47, 114, 114, 95] := by decide
  rw [hk, hb]
  unfold StringStartsWith
  rcases t with _ | ⟨a, _ | ⟨b, _ | ⟨c, _ | ⟨d, rest⟩⟩⟩⟩ <;> simp

theorem startsWith_not_both (t : List Nat) (h : StringStartsWith t (bytes "/rr_") = true) :
    StringStartsWith t KO_START = false := by
  have hk : KO_START = [114, 114, 95] := by decide
  have hb : bytes "/rr_" = [47, 114, 114, 95] := by decide
  rw [hk]
  rw [hb] at h
  unfold StringStartsWith at *
  rcases t with _ | ⟨a, _ | ⟨b, _ | ⟨c, _ | ⟨d, rest⟩⟩⟩⟩ <;> simp at h ⊢
  omega

/-- C22: `ProcessRequest` rejects with "too few command words" when `numCommandWords < 2`.
Otherwise, with an output buffer and the method GET (ignoring case): a target that is `rr_` or
`/rr_` followed by a text `command` goes to `SendJsonResponse` with exactly that command, and
every other target goes to `SendFile` as a web file. -/
theorem ProcessRequest_get (P : WebParams) (E : Env) (fuel : Nat) (s : Parser) (w : Statics) :
    (s.numCommandWords < 2 →
      ProcessRequest P E fuel s w =
        some (RejectMessage E E.haveOutBuf "too few command words" P.defaultRejectCode, w)) ∧
    (2 ≤ s.numCommandWords → E.haveOutBuf = true →
      StringEqualsIgnoreCase (s.word 0) (bytes "GET") = true →
      (∀ command, (s.word 1 = bytes "rr_" ++ command ∨ s.word 1 = bytes "/rr_" ++ command) →
        ProcessRequest P E fuel s w = some (SendJsonResponse P E s command w)) ∧
      (StringStartsWith (s.word 1) (bytes "rr_") = false →
        StringStartsWith (s.word 1) (bytes "/rr_") = false →
        ProcessRequest P E fuel s w =
          (SendFile P E fuel (s.word 1) true).map fun o => (o, w))) := by
  have hk : KO_START = bytes "rr_" := rfl
  refine ⟨fun h => by unfold ProcessRequest; rw [if_pos h], ?_⟩
  intro h2 hbuf hget
  have hnot : ¬ s.numCommandWords < 2 := by omega
  refine ⟨?_, ?_⟩
  · intro command hc
    unfold ProcessRequest
    rw [if_neg hnot, if_pos hbuf, if_pos hget]
    rcases hc with hc | hc
    · have hs : StringStartsWith (s.word 1) KO_START = true := by
        rw [hc, hk]
        simp [StringStartsWith]
      rw [if_pos hs, hc]
      have : (bytes "rr_" ++ command).drop KoFirst = command := by
        have hl : KoFirst = (bytes "rr_").length := by decide
        rw [hl, List.drop_left]
      rw [this]
    · have hs : StringStartsWith (s.word 1) (bytes "/rr_") = true := by
        rw [hc]
        simp [StringStartsWith]
      have hn := startsWith_not_both _ hs
      rw [if_neg (by rw [hn]; decide), if_pos ((startsWith_slash _).mp hs), hc]
      have : (bytes "/rr_" ++ command).drop (1 + KoFirst) = command := by
        have hl : 1 + KoFirst = (bytes "/rr_").length := by decide
        rw [hl, List.drop_left]
      rw [this]
  · intro h1 h3
    unfold ProcessRequest
    rw [if_neg hnot, if_pos hbuf, if_pos hget, if_neg (by rw [hk, h1]; decide),
      if_neg (fun h => by rw [(startsWith_slash _).mpr h] at h3; exact absurd h3 (by decide))]

theorem ProcessRequest_get_witness :
    ProcessRequest sampleWeb (sampleEnv 5) 3 afterConnectRequest sampleStatics =
      some (SendJsonResponse sampleWeb (sampleEnv 5) afterConnectRequest
        (bytes "connect") sampleStatics) :=
  ((ProcessRequest_get sampleWeb (sampleEnv 5) 3 afterConnectRequest sampleStatics).2
    (by decide!) rfl (by decide!)).1 (bytes "connect") (Or.inr (by decide!))

end HttpResponder
namespace HttpResponder

/-! ### Precedence of the compressed file -/

theorem findWebFile_gz (P : WebParams) (E : Env) (fuel : Nat) (name : List Nat)
    (hgz : StringEndsWithIgnoreCase name (bytes ".gz") = false)
    (hfile : E.webFile (name ++ bytes ".gz") = true) :
    findWebFile P E (fuel + 1) name = some (name, some (name ++ bytes ".gz"), true) := by
  simp [findWebFile, hgz, hfile]

theorem findWebFile_plain (P : WebParams) (E : Env) (fuel : Nat) (name : List Nat)
    (hnone : E.webFile (name ++ bytes ".gz") = false) (hfile : E.webFile name = true) :
    findWebFile P E (fuel + 1) name = some (name, some name, false) := by
  simp [findWebFile, hnone, hfile]

/-- C30: let `name` be the name that `SendFile` looks for in the web directory (the target
without one leading `/`, or the index page if that is empty).  If `name` does not end in `.gz`
(ignoring case) and is not longer than `MaxExpectedWebDirFilenameLength`, then: if `name.gz`
exists it is the file sent, with `Content-Encoding: gzip`, whether or not `name` exists; if only
`name` exists it is the file sent, without that header. -/
theorem SendFile_gzip_first (P : WebParams) (E : Env) (fuel : Nat) (target : List Nat)
    (hfuel : 0 < fuel)
    (hgz : StringEndsWithIgnoreCase (webName P target) (bytes ".gz") = false)
    (hlen : (webName P target).length ≤ P.MaxExpectedWebDirFilenameLength) :
    (E.webFile (webName P target ++ bytes ".gz") = true →
      SendFile P E fuel target true =
        some (.sent [.status 200 "OK", .contentType (contentTypeOf (webName P target)),
          .contentEncodingGzip, .contentLength (E.fileLength (webName P target ++ bytes ".gz")),
          .connectionClose] (.file (webName P target ++ bytes ".gz")))) ∧
    (E.webFile (webName P target ++ bytes ".gz") = false → E.webFile (webName P target) = true →
      SendFile P E fuel target true =
        some (.sent [.status 200 "OK", .contentType (contentTypeOf (webName P target)),
          .contentLength (E.fileLength (webName P target)), .connectionClose]
          (.file (webName P target)))) := by
  obtain ⟨k, rfl⟩ : ∃ k, fuel = k + 1 := ⟨fuel - 1, by omega⟩
  refine ⟨?_, ?_⟩
  · intro hfile
    simp only [SendFile, SendWebFile, if_true, if_pos hlen,
      findWebFile_gz P E k _ hgz hfile]
    simp [fileReply]
  · intro hnone hfile
    simp only [SendFile, SendWebFile, if_true, if_pos hlen,
      findWebFile_plain P E k _ hnone hfile]
    simp [fileReply]

theorem SendFile_gzip_first_witness :
    SendFile sampleWeb (sampleEnv 5) 1 (bytes "/index.html") true =
        some (.sent [.status 200 "OK", .contentType "text/html", .contentEncodingGzip,
          .contentLength 1234, .connectionClose] (.file (bytes "index.html.gz"))) ∧
      SendFile sampleWeb { sampleEnv 5 with webFile := fun n => decide (n = bytes "index.html") }
          1 (bytes "/index.html") true =
        some (.sent [.status 200 "OK", .contentType "text/html", .contentLength 1234,
          .connectionClose] (.file (bytes "index.html"))) :=
  ⟨(SendFile_gzip_first sampleWeb (sampleEnv 5) 1 (bytes "/index.html") (by decide) (by decide)
      (by decide)).1 (by decide),
    (SendFile_gzip_first sampleWeb
      { sampleEnv 5 with webFile := fun n => decide (n = bytes "index.html") } 1
      (bytes "/index.html") (by decide) (by decide) (by decide)).2 (by decide) (by decide)⟩

/-- C30, as written, fails for the target `/`: the name left after the leading `/` is empty,
so it does not end in `.gz` and is short enough, and a file `.gz` exists in the web directory;
but `SendFile` looks for the index page instead and here ends with the reply 404. -/
theorem SendFile_root_ignores_gz :
    (bytes "/").drop 1 = [] ∧
      StringEndsWithIgnoreCase ((bytes "/").drop 1) (bytes ".gz") = false ∧
      onlyDotGz.webFile ((bytes "/").drop 1 ++ bytes ".gz") = true ∧
      SendFile sampleWeb onlyDotGz 5 (bytes "/") true =
        some (.sent [.status 404
          "page not found<br>Check that the SD card is mounted and has the correct files in its /www folder",
          .connectionClose]
          (.errorPage
            "page not found<br>Check that the SD card is mounted and has the correct files in its /www folder")) := by
  refine ⟨rfl, by decide, by decide, by decide⟩

end HttpResponder
namespace HttpResponder

/-! ### The addresses in the session table are distinct -/

theorem map_ip_set (l : List HttpSession) (i : Nat) (v : HttpSession)
    (hv : ∀ x, l[i]? = some x → v.ip = x.ip) :
    (l.set i v).map (fun x => x.ip) = l.map (fun x => x.ip) := by
  apply List.ext_getElem?
  intro j
  rw [List.getElem?_map, List.getElem?_map, List.getElem?_set]
  by_cases hij : i = j
  · subst hij
    by_cases hl : i < l.length
    · rw [if_pos rfl, if_pos hl, List.getElem?_eq_getElem hl]
      simp only [Option.map_some', Option.some.injEq]
      exact hv _ (List.getElem?_eq_getElem hl)
    · rw [if_pos rfl, if_neg hl, List.getElem?_eq_none (by omega)]
  · rw [if_neg hij]

theorem live_ips (w : Statics) :
    w.live.map (fun x => x.ip) = (w.sessions.map (fun x => x.ip)).take w.numSessions := by
  unfold Statics.live
  rw [List.map_take]

theorem session_of_get (w : Statics) (i : Nat) (x : HttpSession) (h : w.sessions[i]? = some x) :
    w.session i = x := by
  unfold Statics.session
  rw [List.getD_eq_getElem?_getD, h]
  rfl

/-- What `CheckAuthenticated` may change: the time of a session, never an address or the
number of sessions. -/
theorem checkAuthenticatedFrom_ips (ip now : Nat) (d : Nat) : ∀ (i : Nat) (w : Statics),
    (checkAuthenticatedFrom ip now d i w).2.sessions.map (fun x => x.ip) =
        w.sessions.map (fun x => x.ip) ∧
      (checkAuthenticatedFrom ip now d i w).2.numSessions = w.numSessions ∧
      (checkAuthenticatedFrom ip now d i w).2.sessions.length = w.sessions.length ∧
      ((checkAuthenticatedFrom ip now d i w).1 = false →
        ∀ j, i ≤ j → j < i + d → (w.session j).ip ≠ ip) := by
  induction d with
  | zero =>
    intro i w
    exact ⟨rfl, rfl, rfl, fun _ j h1 h2 => by omega⟩
  | succ d ih =>
    intro i w
    by_cases hi : (w.session i).ip = ip
    · simp only [checkAuthenticatedFrom, if_pos hi]
      refine ⟨?_, rfl, ?_, fun h => by simp at h⟩
      · exact map_ip_set _ _ _ (fun x hx => by
          have : w.session i = x := session_of_get w i x hx
          rw [← this])
      · simp [Statics.setSession, Statics.touch]
    · simp only [checkAuthenticatedFrom, if_neg hi]
      obtain ⟨r1, r2, r3, r4⟩ := ih (i + 1) (w.touch i)
      refine ⟨r1, r2, r3, ?_⟩
      intro hf j h1 h2
      by_cases hj : j = i
      · rw [hj]; exact hi
      · exact r4 hf j (by omega) (by omega)

theorem checkAuthenticatedFrom_found (ip now : Nat) (d : Nat) : ∀ (i : Nat) (w : Statics),
    (∃ j, i ≤ j ∧ j < i + d ∧ (w.session j).ip = ip) →
    (checkAuthenticatedFrom ip now d i w).1 = true := by
  induction d with
  | zero => intro i w ⟨j, h1, h2, _⟩; omega
  | succ d ih =>
    intro i w ⟨j, h1, h2, h3⟩
    by_cases hi : (w.session i).ip = ip
    · simp only [checkAuthenticatedFrom, if_pos hi]
    · simp only [checkAuthenticatedFrom, if_neg hi]
      have hne : j ≠ i := fun h => hi (h ▸ h3)
      exact ih (i + 1) (w.touch i) ⟨j, by omega, by omega, h3⟩

theorem distinct_initial (P : WebParams) (slots : List HttpSession)
    (h : P.MaxHttpSessions ≤ slots.length) : distinctTable P (Statics.initial slots) := by
  refine ⟨Nat.zero_le _, h, ?_⟩
  simp [Statics.initial, Statics.live]

theorem CheckAuthenticated_distinct (P : WebParams) (ip now : Nat) (w : Statics)
    (h : distinctTable P w) : distinctTable P (CheckAuthenticated ip now w).2 := by
  obtain ⟨r1, r2, r3, _⟩ := checkAuthenticatedFrom_ips ip now w.numSessions 0 w
  unfold CheckAuthenticated
  refine ⟨by rw [r2]; exact h.1, by rw [r3]; exact h.2.1, ?_⟩
  rw [live_ips, r1, r2, ← live_ips]
  exact h.2.2

theorem Authenticate_distinct (P : WebParams) (ip now : Nat) (w : Statics)
    (h : distinctTable P w) : distinctTable P (Authenticate P ip now w).2 := by
  have hc0 := CheckAuthenticated_distinct P ip now w h
  obtain ⟨r1, r2, r3, r4⟩ := checkAuthenticatedFrom_ips ip now w.numSessions 0 w
  unfold Authenticate
  rcases hr : CheckAuthenticated ip now w with ⟨a, w1⟩
  have hc : distinctTable P w1 := by
    rw [hr] at hc0
    exact hc0
  have hr1 : (checkAuthenticatedFrom ip now w.numSessions 0 w).1 = a := by
    have := congrArg Prod.fst hr
    exact this
  have hr2 : (checkAuthenticatedFrom ip now w.numSessions 0 w).2 = w1 := by
    have := congrArg Prod.snd hr
    exact this
  rw [hr2] at r1 r2 r3
  cases a with
  | true => exact hc
  | false =>
    simp only
    by_cases hroom : w1.numSessions < P.MaxHttpSessions
    · rw [if_pos hroom]
      have hlt : w1.numSessions < w1.sessions.length := by have := hc.2.1; omega
      have hno : ∀ j, j < w1.numSessions → (w1.session j).ip ≠ ip := by
        intro j hj
        have h0 := r4 hr1 j (Nat.zero_le _) (by rw [r2] at hj; omega)
        have e : (w1.session j).ip = (w.session j).ip := by
          have hjl : j < w1.sessions.length := by omega
          have g1 := congrArg (fun l => l[j]?) r1
          simp only [List.getElem?_map] at g1
          rw [session_eq w1 j hjl, session_eq w j (by rw [← r3]; exact hjl)] at g1
          simpa using g1
        rw [e]
        exact h0
      refine ⟨by simp only; omega, by simp [Statics.setSession]; exact hc.2.1, ?_⟩
      have hl : ({ w1.setSession w1.numSessions
            { w1.session w1.numSessions with
              ip := ip, lastQueryTime := now, isPostUploading := false } with
          numSessions := w1.numSessions + 1 } : Statics).live =
          w1.live ++ [{ w1.session w1.numSessions with
              ip := ip, lastQueryTime := now, isPostUploading := false }] := by
        show (w1.sessions.set _ _).take (w1.numSessions + 1) = w1.sessions.take _ ++ _
        rw [take_succ_of_get _ _ _ (List.getElem?_set_self (by simpa using hlt)), take_set_self]
      rw [hl, List.map_append, List.nodup_append]
      refine ⟨hc.2.2, by simp, ?_⟩
      intro a ha hb
      simp only [List.map_cons, List.map_nil, List.mem_singleton] at hb
      obtain ⟨x, hx, hxa⟩ := List.mem_map.mp ha
      obtain ⟨j, hj⟩ := List.mem_iff_getElem?.mp hx
      have hjn : j < w1.numSessions := by
        by_contra hge
        rw [List.getElem?_eq_none (by rw [live_length w1 (by omega)]; omega)] at hj
        exact absurd hj (by simp)
      rw [live_get w1 j hjn (by omega)] at hj
      simp only [Option.some.injEq] at hj
      exact hno j hjn (by rw [hj, hxa, hb])
    · rw [if_neg hroom]
      exact hc

theorem RemoveSession_distinct (P : WebParams) (w : Statics) (k : Nat)
    (h : distinctTable P w) :
    distinctTable P (RemoveSession w k) ∧ (RemoveSession w k).numSessions ≤ w.numSessions := by
  by_cases hk : k < w.numSessions
  · obtain ⟨r1, r2, r3, _⟩ := RemoveSession_live w k hk (by have := h.1; have := h.2.1; omega)
    refine ⟨⟨by rw [r2]; have := h.1; omega, by rw [r3]; exact h.2.1, ?_⟩, by rw [r2]; omega⟩
    rw [r1]
    exact h.2.2.sublist ((List.eraseIdx_sublist _ _).map _)
  · unfold RemoveSession
    rw [if_neg hk]
    exact ⟨h, le_refl _⟩

theorem touch_distinct (P : WebParams) (w : Statics) (i : Nat) (h : distinctTable P w) :
    distinctTable P (w.touch i) := h

theorem removeAuthenticationFrom_distinct (P : WebParams) (ip : Nat) (i : Nat) :
    ∀ w : Statics, distinctTable P w → distinctTable P (removeAuthenticationFrom ip i w).2 := by
  induction i with
  | zero => intro w h; exact h
  | succ i ih =>
    intro w h
    simp only [removeAuthenticationFrom]
    split_ifs
    · exact h
    · exact (RemoveSession_distinct P (w.touch i) i h).1
    · exact ih (w.touch i) h

theorem checkSessionsFrom_distinct (P : WebParams) (now : Nat) (i : Nat) :
    ∀ (w : Statics) (n : Nat), distinctTable P w →
      distinctTable P (checkSessionsFrom P now i w n).1 := by
  induction i with
  | zero => intro w n h; exact h
  | succ i ih =>
    intro w n h
    simp only [checkSessionsFrom]
    split_ifs
    · exact ih _ _ (RemoveSession_distinct P (w.touch i) i h).1
    · exact ih _ _ h

theorem CheckSessions_distinct (P : WebParams) (applyTimeout : OutputStack → OutputStack)
    (now : Nat) (w : Statics) (h : distinctTable P w) :
    distinctTable P (CheckSessions P applyTimeout now w) := by
  have hc := checkSessionsFrom_distinct P now w.numSessions w 0 h
  obtain ⟨t1, t2⟩ := CheckSessions_table P applyTimeout now w
  refine ⟨by rw [t2]; exact hc.1, by rw [t1]; exact hc.2.1, ?_⟩
  have : (CheckSessions P applyTimeout now w).live =
      (checkSessionsFrom P now w.numSessions w 0).1.live := by
    unfold Statics.live
    rw [t1, t2]
  rw [this]
  exact hc.2.2

theorem SessionOp.run_distinct (P : WebParams) (applyTimeout : OutputStack → OutputStack)
    (w : Statics) (op : SessionOp) (h : distinctTable P w) :
    distinctTable P (op.run P applyTimeout w) := by
  cases op with
  | authenticate ip now => exact Authenticate_distinct P ip now w h
  | checkAuthenticated ip now => exact CheckAuthenticated_distinct P ip now w h
  | removeAuthentication ip => exact removeAuthenticationFrom_distinct P ip _ w h
  | removeSession k => exact (RemoveSession_distinct P w k h).1
  | checkSessions now => exact CheckSessions_distinct P applyTimeout now w h
  | disable =>
    refine ⟨Nat.zero_le _, h.2.1, ?_⟩
    simp [SessionOp.run, Disable, Statics.live]

theorem runSessionOps_distinct (P : WebParams) (applyTimeout : OutputStack → OutputStack)
    (ops : List SessionOp) : ∀ w : Statics, distinctTable P w →
      distinctTable P (runSessionOps P applyTimeout w ops) := by
  induction ops with
  | nil => intro w h; exact h
  | cons op rest ih =>
    intro w h
    exact ih _ (SessionOp.run_distinct P applyTimeout w op h)

theorem distinct_sessions (P : WebParams) (w : Statics) (h : distinctTable P w) (i j : Nat)
    (hi : i < w.numSessions) (hj : j < w.numSessions) (hij : i ≠ j) :
    (w.session i).ip ≠ (w.session j).ip := by
  have hn : w.numSessions ≤ w.sessions.length := by have := h.1; have := h.2.1; omega
  intro he
  exact hij (nodup_ip_unique w.live i j _ _ h.2.2 (live_get w i hi hn) (live_get w j hj hn) he)

/-- C39: starting from the empty table, in an array with room for `MaxHttpSessions` sessions,
after every sequence of calls of `Authenticate`, `CheckAuthenticated`, `RemoveAuthentication`,
`RemoveSession`, `CheckSessions` and `Disable` from arbitrary addresses, no two entries
`sessions[i]`, `sessions[j]` with `i ≠ j` below `numSessions` have the same `ip`. -/
theorem session_ips_distinct (P : WebParams) (applyTimeout : OutputStack → OutputStack)
    (slots : List HttpSession) (ops : List SessionOp)
    (hslots : P.MaxHttpSessions ≤ slots.length) (i j : Nat)
    (hi : i < (runSessionOps P applyTimeout (Statics.initial slots) ops).numSessions)
    (hj : j < (runSessionOps P applyTimeout (Statics.initial slots) ops).numSessions)
    (hij : i ≠ j) :
    ((runSessionOps P applyTimeout (Statics.initial slots) ops).session i).ip ≠
      ((runSessionOps P applyTimeout (Statics.initial slots) ops).session j).ip :=
  distinct_sessions P _
    (runSessionOps_distinct P applyTimeout ops _ (distinct_initial P slots hslots)) i j hi hj hij

theorem session_ips_distinct_witness :
    fullStatics.numSessions = 4 ∧ (fullStatics.session 1).ip ≠ (fullStatics.session 3).ip :=
  ⟨by decide,
    session_ips_distinct sampleWeb id (List.replicate 4 ⟨0, 0, false, 0⟩)
      [.authenticate 1 100, .authenticate 2 200, .authenticate 3 300, .authenticate 4 400]
      (by decide) 1 3 (by decide) (by decide) (by decide)⟩

end HttpResponder
namespace HttpResponder

/-! ### `rr_connect` from an address that has a session -/

end HttpResponder
namespace HttpResponder

/-! ### Names that are too long for the web directory -/

/-- C31: if the name that `SendFile` looks for in the web directory (the target without one
leading `/`, or the index page if that is empty) is longer than
`MaxExpectedWebDirFilenameLength`, then for every content of the web directory no file of that
name, compressed or not, is opened: the reply is the rejection 404 "page not found", unless the
name ends in `.html` or `.htm` (ignoring case) and the page `FOUR04_PAGE_FILE` exists, in which
case that page is sent. -/
theorem SendFile_long_name (P : WebParams) (E : Env) (fuel : Nat) (target : List Nat)
    (hlong : P.MaxExpectedWebDirFilenameLength < (webName P target).length) :
    SendFile P E fuel target true =
      some (if (StringEndsWithIgnoreCase (webName P target) (bytes ".html") = true ∨
            StringEndsWithIgnoreCase (webName P target) (bytes ".htm") = true) ∧
          E.webFile P.FOUR04_PAGE_FILE = true then
        .sent [.status 200 "OK", .contentType (contentTypeOf P.FOUR04_PAGE_FILE),
          .contentLength (E.fileLength P.FOUR04_PAGE_FILE), .connectionClose]
          (.file P.FOUR04_PAGE_FILE)
      else
        RejectMessage E true
          "page not found<br>Check that the SD card is mounted and has the correct files in its /www folder"
          404) := by
  have hn : ¬ (webName P target).length ≤ P.MaxExpectedWebDirFilenameLength := by omega
  simp only [SendFile, SendWebFile, if_true, if_neg hn, Option.map_some']
  by_cases hh : StringEndsWithIgnoreCase (webName P target) (bytes ".html") = true ∨
      StringEndsWithIgnoreCase (webName P target) (bytes ".htm") = true
  · by_cases hf : E.webFile P.FOUR04_PAGE_FILE = true
    · simp [hh, hf, fileReply]
    · simp [hh, hf]
  · simp [hh]

theorem SendFile_long_name_witness :
    sampleWeb.MaxExpectedWebDirFilenameLength < (longTarget.drop 1).length ∧
      SendFile sampleWeb (sampleEnv 5) 3 longTarget true =
        some (.sent [.status 404
          "page not found<br>Check that the SD card is mounted and has the correct files in its /www folder",
          .connectionClose]
          (.errorPage
            "page not found<br>Check that the SD card is mounted and has the correct files in its /www folder")) :=
  ⟨by decide,
    (SendFile_long_name sampleWeb (sampleEnv 5) 3 longTarget (by decide)).trans (by decide)⟩

/-- C31, as written, fails for a long name that ends in `.html` when the page `html404.htm`
exists: the name left after the leading `/` has 106 characters, more than the 100 allowed, and
the reply is that page, sent as a file with the status line 200. -/
theorem SendFile_long_html_name :
    sampleWeb.MaxExpectedWebDirFilenameLength < (longTarget.drop 1).length ∧
      SendFile sampleWeb with404Page 3 longTarget true =
        some (.sent [.status 200 "OK", .contentType "text/html", .contentLength 1234,
          .connectionClose] (.file (bytes "html404.htm"))) := by
  refine ⟨by decide, by decide⟩

end HttpResponder
namespace HttpResponder

/-! ### White space at the start of a query key -/

/-- C34: in state `doingQualifierKey`, when a space, tab, carriage return or newline arrives
while the current key is empty (`clientPointer` is where the key starts) and the buffer is not
full: if no key-value pair has been parsed yet (`numQualKeys = 0`, the trailing `?`), the
character ends the query and the message is not rejected: the next command word starts here and
the state is `doingCommandWord`; if one or more pairs have been parsed, the message is rejected
with "bad qualifier key". -/
theorem empty_key_whitespace (L : Limits) (s : Parser) (c : Nat)
    (hps : s.parseState = .doingQualifierKey)
    (hc : c = 32 ∨ c = 9 ∨ c = 13 ∨ c = 10)
    (hkey : (s.qualifiers s.numQualKeys).key = s.clientPointer)
    (hroom : s.clientPointer ≠ L.clientMessageSize) :
    (s.numQualKeys = 0 →
      CharFromClient L s c =
        ({ s.setCommandWord s.numCommandWords with parseState := .doingCommandWord }, none)) ∧
    (s.numQualKeys ≠ 0 →
      CharFromClient L s c = (s, some (.RejectMessage "bad qualifier key"))) := by
  have hne : c ≠ 61 := by omega
  have hw : c = 10 ∨ c = 32 ∨ c = 9 ∨ c = 13 := by omega
  refine ⟨?_, ?_⟩
  · intro h0
    have hk : (s.qualifiers 0).key = s.clientPointer := by rw [← h0]; exact hkey
    have hp : parseSwitch L s c =
        ({ s.setCommandWord s.numCommandWords with parseState := .doingCommandWord }, none) := by
      unfold parseSwitch
      simp only [hps, if_neg hne, if_pos hw, if_pos (And.intro h0 hk)]
    unfold CharFromClient
    rw [hp]
    simp only [Parser.setCommandWord, if_neg hroom]
  · intro h0
    have hp : parseSwitch L s c = (s, some (.RejectMessage "bad qualifier key")) := by
      unfold parseSwitch
      simp only [hps, if_neg hne, if_pos hw, if_neg (fun h : s.numQualKeys = 0 ∧ _ => h0 h.1)]
    unfold CharFromClient
    rw [hp]

theorem empty_key_whitespace_witness :
    afterQuestionMark.parseState = .doingQualifierKey ∧ afterQuestionMark.numQualKeys = 0 ∧
      (CharFromClient sampleLimits afterQuestionMark 32).2 = none ∧
      (CharFromClient sampleLimits afterQuestionMark 32).1.parseState = .doingCommandWord :=
  ⟨by decide!, by decide!,
    congrArg Prod.snd ((empty_key_whitespace sampleLimits afterQuestionMark 32 (by decide!)
      (by decide) (by decide!) (by decide!)).1 (by decide!)),
    congrArg (fun r => r.1.parseState) ((empty_key_whitespace sampleLimits afterQuestionMark 32
      (by decide!) (by decide) (by decide!) (by decide!)).1 (by decide!))⟩

/-- C34, as written, fails after a key-value pair: after `GET /x?a=b&` the parser is in state
`doingQualifierKey` with an empty current key and has not rejected, and the space that follows
is answered with "bad qualifier key". -/
theorem empty_key_after_pair_rejected :
    (feed sampleLimits (Accept (blankParser sampleLimits)) (bytes "GET /x?a=b&")).2 = none ∧
      afterAmpersand.parseState = .doingQualifierKey ∧
      afterAmpersand.numQualKeys = 1 ∧
      (afterAmpersand.qualifiers afterAmpersand.numQualKeys).key = afterAmpersand.clientPointer ∧
      (feed sampleLimits (Accept (blankParser sampleLimits))
        (bytes "GET /x?a=b& HTTP/1.1\r\n\r\n")).2 = some (.RejectMessage "bad qualifier key") := by
  refine ⟨by decide!, by decide!, by decide!, by decide!, by decide!⟩

end HttpResponder
namespace HttpResponder

/-! ### The number of header lines -/

theorem parseSwitch_numHeaderKeys (L : Limits) (s : Parser) (c : Nat)
    (h1 : s.numHeaderKeys ≤ L.MaxHeaders - 1) :
    (parseSwitch L s c).1.numHeaderKeys ≤ L.MaxHeaders - 1 := by
  unfold parseSwitch headerValueChar
  cases hps : s.parseState <;> simp only [] <;> split_ifs <;>
    simp only [Parser.put, Parser.poke, Parser.setCommandWord, Parser.setQualKey,
      Parser.setQualValue, Parser.setHeaderKey, Parser.setHeaderValue] <;>
    omega

theorem parseSwitch_header_stores (L : Limits) (s : Parser) (c : Nat) (hpos : 0 < L.MaxHeaders)
    (h1 : s.numHeaderKeys ≤ L.MaxHeaders - 1) (i : Nat)
    (hi : Store.headers i ∈ (parseSwitch L s c).1.stores) :
    Store.headers i ∈ s.stores ∨ i < L.MaxHeaders := by
  revert hi
  unfold parseSwitch headerValueChar
  cases hps : s.parseState <;> simp only [] <;> split_ifs <;>
    simp only [Parser.put, Parser.poke, Parser.setCommandWord, Parser.setQualKey,
      Parser.setQualValue, Parser.setHeaderKey, Parser.setHeaderValue, List.mem_cons,
      reduceCtorEq, false_or, Store.headers.injEq] <;>
    intro hi <;>
    first
    | exact Or.inl hi
    | (rcases hi with hi | hi
       · right; omega
       · exact Or.inl hi)

/-- Along a run of `feed`: `numHeaderKeys ≤ MaxHeaders - 1` and every store to `headers` has an
index below `MaxHeaders`. -/
theorem feed_numHeaderKeys (L : Limits) (hpos : 0 < L.MaxHeaders) (input : List Nat) :
    ∀ s : Parser, s.numHeaderKeys ≤ L.MaxHeaders - 1 →
    (∀ i, Store.headers i ∈ s.stores → i < L.MaxHeaders) →
    (feed L s input).1.numHeaderKeys ≤ L.MaxHeaders - 1 ∧
    (∀ i, Store.headers i ∈ (feed L s input).1.stores → i < L.MaxHeaders) := by
  induction input with
  | nil => intro s h1 h3; exact ⟨h1, h3⟩
  | cons c cs ih =>
    intro s h1 h3
    have k1 := parseSwitch_numHeaderKeys L s c h1
    have k2 : ∀ i, Store.headers i ∈ (parseSwitch L s c).1.stores → i < L.MaxHeaders := by
      intro i hi
      rcases parseSwitch_header_stores L s c hpos h1 i hi with h | h
      · exact h3 i h
      · exact h
    rw [← CharFromClient_fst] at k1 k2
    simp only [feed]
    rcases hcc : CharFromClient L s c with ⟨s1, _ | r⟩
    · rw [hcc] at k1 k2
      exact ih s1 k1 k2
    · rw [hcc] at k1 k2
      exact ⟨k1, k2⟩

end HttpResponder
namespace HttpResponder

/-- Header lines fed after a complete header line: the parser is back in
`doingHeaderContinuation` and has counted them. -/
theorem feed_header_lines (L : Limits) (hs : List (List Nat × List Nat)) : ∀ s : Parser,
    s.parseState = .doingHeaderContinuation →
    s.numHeaderKeys + hs.length ≤ L.MaxHeaders - 1 →
    (∀ h ∈ hs, token h.1 ∧ token h.2 ∧ h.1 ≠ []) →
    s.clientMessage.length = L.clientMessageSize →
    s.clientPointer + (renderHeaders hs).length + 1 < L.clientMessageSize →
    ∃ u, feed L s (renderHeaders hs) = (u, none) ∧
      u.parseState = .doingHeaderContinuation ∧
      u.numHeaderKeys = s.numHeaderKeys + hs.length ∧
      u.clientMessage.length = L.clientMessageSize ∧
      u.clientPointer ≤ s.clientPointer + (renderHeaders hs).length := by
  induction hs with
  | nil =>
    intro s hps _ _ hlen _
    exact ⟨s, rfl, hps, rfl, hlen, by simp [renderHeaders]⟩
  | cons h rest ih =>
    intro s hps hmax htok hlen hfit
    obtain ⟨hk, hv, hne⟩ := htok h (List.mem_cons_self _ _)
    obtain ⟨c0, k, hck⟩ := List.exists_cons_of_ne_nil hne
    simp only [renderHeaders, List.length_append, List.length_cons, List.length_nil, hck]
      at hfit hmax
    have hc0 : plain c0 := hk c0 (by rw [hck]; exact List.mem_cons_self _ _)
    have hkt : token k := fun x hx => hk x (by rw [hck]; exact List.mem_cons_of_mem _ hx)
    have st := step_next_key L s c0 hps hc0 (by omega)
    generalize hs1 : ({ ((s.put 0).setHeaderKey s.numHeaderKeys).put c0 with
        parseState := HttpParseState.doingHeaderKey } : Parser) = s1 at st
    have s1p : s1.clientPointer = s.clientPointer + 2 := by rw [← hs1]; rfl
    have l0 : (DataTransfer.memWrite s.clientMessage s.clientPointer [0]).length =
        L.clientMessageSize := by
      rw [DataTransfer.memWrite_length _ _ _ (by simp only [List.length_singleton]; omega), hlen]
    have s1b : s1.clientMessage =
        DataTransfer.memWrite (DataTransfer.memWrite s.clientMessage s.clientPointer [0])
          (s.clientPointer + 1) [c0] := by
      rw [← hs1]
      simp only [Parser.put, Parser.setHeaderKey]
      rw [set_eq_memWrite s.clientMessage s.clientPointer 0 (by omega),
        set_eq_memWrite _ _ _ (by rw [l0]; omega)]
    have s1l : s1.clientMessage.length = L.clientMessageSize := by
      rw [s1b, DataTransfer.memWrite_length _ _ _ (by
        simp only [List.length_singleton]; omega), l0]
    have s1k : (s1.headers s1.numHeaderKeys).key = s.clientPointer + 1 := by
      rw [← hs1]; simp only [Parser.put, Parser.setHeaderKey, if_true]
    have s1n : s1.numHeaderKeys = s.numHeaderKeys := by rw [← hs1]; rfl
    have s1c : (s1.clientMessage.drop (s1.headers s1.numHeaderKeys).key).take [c0].length =
        [c0] := by
      rw [s1k, s1b]
      exact DataTransfer.memRead_memWrite_same _ _ _
    obtain ⟨t, ft, t1, _, _, t4, _, _, _, _, t9, t10, _, _⟩ :=
      feed_header_line L s1 [c0] k h.2 (by rw [← hs1]) (by rw [s1n]; omega)
        (by rw [s1k, s1p]; rfl) s1c hkt hv s1l (by rw [s1p]; omega)
    have tl : t.clientMessage.length = L.clientMessageSize := by rw [t10.1, s1l]
    obtain ⟨u, fu, u1, u2, u3, u4⟩ := ih t t1 (by rw [t4, s1n]; omega)
      (fun x hx => htok x (List.mem_cons_of_mem _ hx)) tl (by rw [t9, s1p]; omega)
    refine ⟨u, ?_, u1, by rw [u2, t4, s1n, List.length_cons]; omega, u3, ?_⟩
    · have e1 := feed_chain L s s1 [c0] _ _ (feed_single L s s1 c0 st) ft
      have e2 := feed_chain L s t _ (renderHeaders rest) _ e1 fu
      rw [← e2]
      simp only [renderHeaders, hck, List.append_assoc, List.cons_append, List.nil_append]
    · rw [t9, s1p] at u4
      simp only [renderHeaders, List.length_append, List.length_cons, List.length_nil, hck]
      omega

/-- Header lines fed at the start of the header block: the parser has counted them and is in
`doingHeaderKey` at the start of a key if there was none, in `doingHeaderContinuation`
otherwise. -/
theorem feed_header_block (L : Limits) (hs : List (List Nat × List Nat)) (s : Parser)
    (hps : s.parseState = .doingHeaderKey) (hn : s.numHeaderKeys = 0)
    (hkey : (s.headers 0).key = s.clientPointer)
    (hmax : hs.length ≤ L.MaxHeaders - 1)
    (htok : ∀ h ∈ hs, token h.1 ∧ token h.2 ∧ h.1 ≠ [])
    (hlen : s.clientMessage.length = L.clientMessageSize)
    (hfit : s.clientPointer + (renderHeaders hs).length + 1 < L.clientMessageSize) :
    ∃ u, feed L s (renderHeaders hs) = (u, none) ∧
      (u.parseState = .doingHeaderContinuation ∨
        (u.parseState = .doingHeaderKey ∧ (u.headers u.numHeaderKeys).key = u.clientPointer)) ∧
      u.numHeaderKeys = hs.length ∧
      u.clientMessage.length = L.clientMessageSize ∧
      u.clientPointer ≤ s.clientPointer + (renderHeaders hs).length := by
  cases hs with
  | nil =>
    exact ⟨s, rfl, Or.inr ⟨hps, by rw [hn]; exact hkey⟩, hn, hlen, by simp [renderHeaders]⟩
  | cons h rest =>
    obtain ⟨hk, hv, _⟩ := htok h (List.mem_cons_self _ _)
    simp only [renderHeaders, List.length_append, List.length_cons, List.length_nil]
      at hfit hmax
    obtain ⟨t, ft, t1, _, _, t4, _, _, _, _, t9, t10, _, _⟩ :=
      feed_header_line L s [] h.1 h.2 hps (by rw [hn]; omega)
        (by rw [hn, hkey]; rfl) (by simp) hk hv hlen (by omega)
    rw [hn] at t4
    have tl : t.clientMessage.length = L.clientMessageSize := by rw [t10.1, hlen]
    obtain ⟨u, fu, u1, u2, u3, u4⟩ := feed_header_lines L rest t t1
      (by rw [t4]; omega) (fun x hx => htok x (List.mem_cons_of_mem _ hx)) tl
      (by rw [t9]; omega)
    refine ⟨u, ?_, Or.inl u1, by rw [u2, t4, List.length_cons]; omega, u3, ?_⟩
    · have e := feed_chain L s t _ (renderHeaders rest) _ ft fu
      rw [← e]
      simp only [renderHeaders, List.append_assoc]
    · rw [t9] at u4
      simp only [renderHeaders, List.length_append, List.length_cons, List.length_nil]
      omega

theorem step_colon_full (L : Limits) (s : Parser) (hps : s.parseState = .doingHeaderKey)
    (hmax : s.numHeaderKeys = L.MaxHeaders - 1) :
    CharFromClient L s 58 = (s, some (.RejectMessage "too many header key-value pairs")) := by
  simp [CharFromClient, parseSwitch, hps, hmax]

/-- The key of one more header line when `numHeaderKeys = MaxHeaders - 1`: the key is taken,
and the `:` after it is answered with "too many header key-value pairs". -/
theorem feed_extra_header (L : Limits) (s : Parser) (k rest : List Nat)
    (hps : s.parseState = .doingHeaderContinuation ∨ s.parseState = .doingHeaderKey)
    (hmax : s.numHeaderKeys = L.MaxHeaders - 1) (hk : token k) (hne : k ≠ [])
    (hlen : s.clientMessage.length = L.clientMessageSize)
    (hfit : s.clientPointer + k.length + 2 < L.clientMessageSize) :
    (∃ u, feed L s k = (u, none)) ∧
      ∃ t, feed L s (k ++ [58] ++ rest) =
        (t, some (.RejectMessage "too many header key-value pairs")) := by
  have key : ∀ (s1 : Parser) (w : List Nat), s1.parseState = .doingHeaderKey →
      s1.numHeaderKeys = L.MaxHeaders - 1 → token w →
      s1.clientMessage.length = L.clientMessageSize →
      s1.clientPointer + w.length < L.clientMessageSize →
      (∃ u, feed L s1 w = (u, none)) ∧
        ∃ t, feed L s1 (w ++ [58] ++ rest) =
          (t, some (.RejectMessage "too many header key-value pairs")) := by
    intro s1 w h1 h2 h3 h4 h5
    obtain ⟨t, ft, t1, _, _, t4, _, _, _, _, _⟩ := feed_token L w s1 (by rw [h1]; rfl) h3 h4 h5
    refine ⟨⟨t, ft⟩, t, ?_⟩
    rw [List.append_assoc, feed_append L w _ s1 t ft]
    simp only [List.singleton_append, feed,
      step_colon_full L t (by rw [t1, h1]) (by rw [t4, h2])]
  rcases hps with hps | hps
  · obtain ⟨c0, k1, hck⟩ := List.exists_cons_of_ne_nil hne
    have hc0 : plain c0 := hk c0 (by rw [hck]; exact List.mem_cons_self _ _)
    have hkt : token k1 := fun x hx => hk x (by rw [hck]; exact List.mem_cons_of_mem _ hx)
    rw [hck] at hfit
    simp only [List.length_cons] at hfit
    have st := step_next_key L s c0 hps hc0 (by omega)
    generalize hs1 : ({ ((s.put 0).setHeaderKey s.numHeaderKeys).put c0 with
        parseState := HttpParseState.doingHeaderKey } : Parser) = s1 at st
    have s1p : s1.clientPointer = s.clientPointer + 2 := by rw [← hs1]; rfl
    have s1l : s1.clientMessage.length = L.clientMessageSize := by
      rw [← hs1]
      simp only [Parser.put, Parser.setHeaderKey, List.length_set]
      exact hlen
    obtain ⟨⟨u, fu⟩, t, ft⟩ := key s1 k1 (by rw [← hs1]) (by rw [← hs1]; exact hmax) hkt s1l
      (by rw [s1p]; omega)
    refine ⟨⟨u, ?_⟩, t, ?_⟩
    · rw [hck]
      exact feed_chain L s s1 [c0] k1 _ (feed_single L s s1 c0 st) fu
    · rw [hck]
      exact feed_chain L s s1 [c0] (k1 ++ [58] ++ rest) _ (feed_single L s s1 c0 st) ft
  · exact key s k hps hmax hk hlen (by omega)

end HttpResponder
namespace HttpResponder

/-- The request line `method path?query version\r\n`: the parser is at the start of the first
header key. -/
theorem feed_request_line (L : Limits) (prior : Parser) (method path version : List Nat)
    (qs : List (List Nat × List Nat))
    (hbuf : prior.clientMessage.length = L.clientMessageSize)
    (hcw : 3 ≤ L.MaxCommandWords)
    (hm : token method) (hp : token path) (hv : token version)
    (hq : ∀ q ∈ qs, token q.1 ∧ token q.2) (hn : qs.length ≤ L.MaxQualKeys)
    (hlen : method.length + path.length + (renderQuery qs).length + version.length + 5 <
      L.clientMessageSize) :
    ∃ u, feed L (Accept prior)
        (method ++ [32] ++ path ++ [63] ++ renderQuery qs ++ [32] ++ version ++ [13, 10]) =
          (u, none) ∧
      u.parseState = .doingHeaderKey ∧ u.numHeaderKeys = 0 ∧
      (u.headers 0).key = u.clientPointer ∧
      u.clientMessage.length = L.clientMessageSize ∧
      u.clientPointer ≤
        method.length + path.length + (renderQuery qs).length + version.length + 4 := by
  have a0 : (Accept prior).clientPointer = 0 := rfl
  obtain ⟨u1, f1, p1, p2, p3, p4, _, _, p7, p8, _, _⟩ := feed_to_query L (Accept prior)
    method path rfl rfl (by omega) hm hp hbuf (by rw [a0]; omega)
  rw [a0] at p7
  simp only [Nat.zero_add] at p7
  have l1 : u1.clientMessage.length = L.clientMessageSize := by rw [p8.1]; exact hbuf
  obtain ⟨u2, f2, q1, _, _, _, _, q6, q7, _⟩ := feed_query_any L qs u1 p1 p3 p4 hn hq l1
    (by rw [p7]; omega)
  have l2 : u2.clientMessage.length = L.clientMessageSize := by rw [q7.1, l1]
  obtain ⟨u3, f3, r1, _, _, r4, r5, _, _, r8, r9, _⟩ := feed_version L u2 version q1 hv l2
    (by omega)
  have l3 : u3.clientMessage.length = L.clientMessageSize := by rw [r9.1, l2]
  refine ⟨u3, ?_, r1, r4, r5, l3, by omega⟩
  have e1 := feed_chain L (Accept prior) u1 _ (renderQuery qs ++ [32]) _ f1 f2
  have e2 := feed_chain L (Accept prior) u2 _ (version ++ [13, 10]) _ e1 f3
  rw [← e2]
  simp only [List.append_assoc]

/-- A request with `MaxHeaders - 1` header lines followed by the key of one more: the key is
taken and its `:` is answered with "too many header key-value pairs". -/
theorem request_too_many_headers (L : Limits) (prior : Parser)
    (method path version : List Nat) (qs hs : List (List Nat × List Nat)) (k rest : List Nat)
    (hbuf : prior.clientMessage.length = L.clientMessageSize)
    (hcw : 3 ≤ L.MaxCommandWords)
    (hm : token method) (hp : token path) (hv : token version)
    (hq : ∀ q ∈ qs, token q.1 ∧ token q.2) (hn : qs.length ≤ L.MaxQualKeys)
    (hh : ∀ h ∈ hs, token h.1 ∧ token h.2 ∧ h.1 ≠ [])
    (hmx : hs.length = L.MaxHeaders - 1) (hk : token k) (hne : k ≠ [])
    (hlen : method.length + path.length + (renderQuery qs).length + version.length +
      (renderHeaders hs).length + k.length + 7 < L.clientMessageSize) :
    (feed L (Accept prior)
        (method ++ [32] ++ path ++ [63] ++ renderQuery qs ++ [32] ++ version ++ [13, 10] ++
          renderHeaders hs ++ k)).2 = none ∧
      ∃ t, feed L (Accept prior)
        (method ++ [32] ++ path ++ [63] ++ renderQuery qs ++ [32] ++ version ++ [13, 10] ++
          renderHeaders hs ++ k ++ [58] ++ rest) =
        (t, some (.RejectMessage "too many header key-value pairs")) := by
  obtain ⟨u, fu, u1, u2, u3, u4, u5⟩ := feed_request_line L prior method path version qs hbuf
    hcw hm hp hv hq hn (by omega)
  obtain ⟨v, fv, v1, v2, v3, v4⟩ := feed_header_block L hs u u1 u2 u3 (by omega) hh u4
    (by omega)
  have hps : v.parseState = .doingHeaderContinuation ∨ v.parseState = .doingHeaderKey := by
    rcases v1 with h | h
    · exact Or.inl h
    · exact Or.inr h.1
  obtain ⟨⟨x, fx⟩, t, ft⟩ := feed_extra_header L v k rest hps (by rw [v2, hmx]) hk hne v3
    (by omega)
  have e1 := feed_chain L (Accept prior) u _ (renderHeaders hs) _ fu fv
  refine ⟨?_, t, ?_⟩
  · rw [feed_chain L (Accept prior) v _ k _ e1 fx]
  · have e2 := feed_chain L (Accept prior) v _ (k ++ [58] ++ rest) _ e1 ft
    rw [← e2]
    simp only [List.append_assoc]

/-- C38: with `MaxHeaders ≥ 1`, for every input fed from the state set by `Accept`,
`numHeaderKeys ≤ MaxHeaders - 1` and every index used to write the array `headers` is below
`MaxHeaders`; and a request with `MaxHeaders - 1` well-formed header lines followed by one
more is taken without rejection up to the key of that line and rejected with "too many header
key-value pairs" at its `:`, whatever follows, so a request with `MaxHeaders` header lines is
never passed to `ProcessMessage`. -/
theorem numHeaderKeys_bound (L : Limits) (hpos : 0 < L.MaxHeaders) :
    (∀ (prior : Parser) (input : List Nat),
      (feed L (Accept prior) input).1.numHeaderKeys ≤ L.MaxHeaders - 1 ∧
      ∀ i, Store.headers i ∈ (feed L (Accept prior) input).1.stores → i < L.MaxHeaders) ∧
    (∀ (prior : Parser) (method path version : List Nat) (qs hs : List (List Nat × List Nat))
        (k rest : List Nat),
      prior.clientMessage.length = L.clientMessageSize → 3 ≤ L.MaxCommandWords →
      token method → token path → token version →
      (∀ q ∈ qs, token q.1 ∧ token q.2) → qs.length ≤ L.MaxQualKeys →
      (∀ h ∈ hs, token h.1 ∧ token h.2 ∧ h.1 ≠ []) →
      hs.length = L.MaxHeaders - 1 → token k → k ≠ [] →
      method.length + path.length + (renderQuery qs).length + version.length +
        (renderHeaders hs).length + k.length + 7 < L.clientMessageSize →
      (feed L (Accept prior)
          (method ++ [32] ++ path ++ [63] ++ renderQuery qs ++ [32] ++ version ++ [13, 10] ++
            renderHeaders hs ++ k)).2 = none ∧
        ∃ t, feed L (Accept prior)
          (method ++ [32] ++ path ++ [63] ++ renderQuery qs ++ [32] ++ version ++ [13, 10] ++
            renderHeaders hs ++ k ++ [58] ++ rest) =
          (t, some (.RejectMessage "too many header key-value pairs"))) := by
  refine ⟨?_, ?_⟩
  · intro prior input
    exact feed_numHeaderKeys L hpos input (Accept prior) (Nat.zero_le _)
      (by intro i hi; simp [Accept] at hi)
  · intro prior method path version qs hs k rest hbuf hcw hm hp hv hq hn hh hmx hk hne hlen
    exact request_too_many_headers L prior method path version qs hs k rest hbuf hcw hm hp hv
      hq hn hh hmx hk hne hlen

theorem numHeaderKeys_bound_witness :
    (feed smallLimits (Accept (blankParser smallLimits))
        (bytes "GET /x?a=1 HTTP/1.1\r\nHost: y\r\nAccept: z\r\n\r\n")).1.numHeaderKeys ≤ 1 ∧
      (feed smallLimits (Accept (blankParser smallLimits))
        (bytes "GET /x?a=1 HTTP/1.1\r\nHost: y\r\nAccept")).2 = none ∧
      (∃ t, feed smallLimits (Accept (blankParser smallLimits))
          (bytes "GET /x?a=1 HTTP/1.1\r\nHost: y\r\nAccept: z\r\n\r\n") =
        (t, some (.RejectMessage "too many header key-value pairs"))) := by
  have h := numHeaderKeys_bound smallLimits (by decide)
  have h2 := h.2 (blankParser smallLimits) (bytes "GET") (bytes "/x") (bytes "HTTP/1.1")
    [(bytes "a", bytes "1")] [(bytes "Host", bytes "y")] (bytes "Accept") (bytes " z\r\n\r\n")
    (List.length_replicate _ _) (by decide) (by decide) (by decide) (by decide) (by decide)
    (by decide) (by decide) (by decide) (by decide) (by decide) (by decide)
  have e1 : bytes "GET" ++ [32] ++ bytes "/x" ++ [63] ++ renderQuery [(bytes "a", bytes "1")] ++
      [32] ++ bytes "HTTP/1.1" ++ [13, 10] ++ renderHeaders [(bytes "Host", bytes "y")] ++
      bytes "Accept" = bytes "GET /x?a=1 HTTP/1.1\r\nHost: y\r\nAccept" := by decide
  have e2 : bytes "GET /x?a=1 HTTP/1.1\r\nHost: y\r\nAccept" ++ [58] ++ bytes " z\r\n\r\n" =
      bytes "GET /x?a=1 HTTP/1.1\r\nHost: y\r\nAccept: z\r\n\r\n" := by decide
  rw [e1, e2] at h2
  exact ⟨(h.1 _ _).1, h2.1, h2.2⟩

end HttpResponder
namespace HttpResponder

/-! ### Completion of an upload -/

theorem DoUpload_read (P : WebParams) (E : Env) (s : Parser) (k : SocketRead) (u : Upload)
    (w : Statics) (c : List Nat) (hc : k.chunk = some c) (hok : k.writeOk = true) :
    DoUpload P E s k u w =
      finishIfComplete P E s k
        { u with
          timer := E.now, uploadedBytes := DataTransfer.wrap32 (u.uploadedBytes + c.length) }
        (CheckAuthenticated E.remoteIP E.now w).2 := by
  unfold DoUpload
  rw [hc]
  simp [hok]

theorem DoUpload_uploadedBytes (P : WebParams) (E : Env) (s : Parser) (k : SocketRead)
    (u : Upload) (w : Statics) (c : List Nat) (hc : k.chunk = some c) :
    (DoUpload P E s k u w).2.1.uploadedBytes = (u.uploadedBytes + c.length) % 2 ^ 32 := by
  unfold DoUpload finishIfComplete
  rw [hc]
  simp only [DataTransfer.wrap32]
  split_ifs <;> rfl

theorem session_setSession (w : Statics) (i j : Nat) (v : HttpSession)
    (hi : i < w.sessions.length) :
    (w.setSession i v).session j = if j = i then v else w.session j := by
  unfold Statics.session Statics.setSession
  simp only [List.getD_eq_getElem?_getD, List.getElem?_set]
  by_cases hji : j = i
  · subst hji
    simp [hi]
  · rw [if_neg (fun h => hji h.symm), if_neg hji]

/-- A read that delivers bytes and is written, with fewer than `postFileLength` bytes
afterwards: the call only reads. -/
theorem DoUpload_continues (P : WebParams) (E : Env) (s : Parser) (k : SocketRead) (u : Upload)
    (w : Statics) (c : List Nat) (hc : k.chunk = some c) (hok : k.writeOk = true)
    (hlt : DataTransfer.wrap32 (u.uploadedBytes + c.length) < u.postFileLength) :
    DoUpload P E s k u w =
      (.continuing,
        { u with
          timer := E.now, uploadedBytes := DataTransfer.wrap32 (u.uploadedBytes + c.length) },
        (CheckAuthenticated E.remoteIP E.now w).2) := by
  rw [DoUpload_read P E s k u w c hc hok]
  unfold finishIfComplete
  rw [if_neg (by simp only [ge_iff_le]; omega)]

/-- A read that delivers bytes and is written, with at least `postFileLength` bytes
afterwards: the call finishes the upload. -/
theorem DoUpload_finishes (P : WebParams) (E : Env) (s : Parser) (k : SocketRead) (u : Upload)
    (w : Statics) (c : List Nat) (hc : k.chunk = some c) (hok : k.writeOk = true)
    (hge : u.postFileLength ≤ DataTransfer.wrap32 (u.uploadedBytes + c.length)) :
    DoUpload P E s k u w =
      (.finished u.postFileLength u.fileLastModified u.postFileGotCrc u.postFileExpectedCrc
          (SendJsonResponse P { E with uploadError := k.finishError } s (bytes "upload")
            (clearUploadingFrom E (CheckAuthenticated E.remoteIP E.now w).2.numSessions 0
              (CheckAuthenticated E.remoteIP E.now w).2)).1,
        { u with
          timer := E.now, uploadedBytes := DataTransfer.wrap32 (u.uploadedBytes + c.length),
          uploadError := k.finishError },
        (SendJsonResponse P { E with uploadError := k.finishError } s (bytes "upload")
            (clearUploadingFrom E (CheckAuthenticated E.remoteIP E.now w).2.numSessions 0
              (CheckAuthenticated E.remoteIP E.now w).2)).2) := by
  rw [DoUpload_read P E s k u w c hc hok]
  unfold finishIfComplete
  rw [if_pos (by simp only [ge_iff_le]; exact hge)]

theorem runUpload_continuing (P : WebParams) (E : Env) (s : Parser) (k : SocketRead)
    (ks : List SocketRead) (u u1 : Upload) (w w1 : Statics)
    (h : DoUpload P E s k u w = (.continuing, u1, w1)) :
    runUpload P E s u w (k :: ks) = (.continuing, u1, w1) :: runUpload P E s u1 w1 ks := by
  rw [runUpload, h]

theorem runUpload_finished (P : WebParams) (E : Env) (s : Parser) (k : SocketRead)
    (ks : List SocketRead) (u u1 : Upload) (w w1 : Statics) (a b : Nat) (g : Bool) (x : Nat)
    (o : Outcome) (h : DoUpload P E s k u w = (.finished a b g x o, u1, w1)) :
    runUpload P E s u w (k :: ks) = [DoUpload P E s k u w] := by
  rw [runUpload, h]

theorem bytesRead_append (a b : List SocketRead) :
    bytesRead (a ++ b) = bytesRead a + bytesRead b := by
  simp [bytesRead]

theorem bytesRead_single (k : SocketRead) (c : List Nat) (hc : k.chunk = some c) :
    bytesRead [k] = c.length := by
  simp [bytesRead, hc]

/-- What `CheckAuthenticated` does to a table with distinct addresses: the session of the
address gets the time, nothing else changes. -/
theorem checkAuthenticatedFrom_table (ip now : Nat) (d : Nat) : ∀ (i : Nat) (w : Statics),
    i + d = w.numSessions → w.numSessions ≤ w.sessions.length →
    (∀ a b, a < w.numSessions → b < w.numSessions → a ≠ b →
      (w.session a).ip ≠ (w.session b).ip) →
    (∀ j, j < i → (w.session j).ip ≠ ip) →
    tableAfter ip now false w (checkAuthenticatedFrom ip now d i w).2 := by
  induction d with
  | zero =>
    intro i w hi _ _ hbefore
    refine ⟨rfl, rfl, rfl, rfl, rfl, fun j => ?_⟩
    simp only [checkAuthenticatedFrom]
    rw [if_neg]
    rintro ⟨h1, h2⟩
    exact hbefore j (by omega) h2
  | succ d ih =>
    intro i w hi hn hdist hbefore
    by_cases hm : (w.session i).ip = ip
    · simp only [checkAuthenticatedFrom, if_pos hm]
      refine ⟨rfl, by simp [Statics.setSession, Statics.touch], rfl, rfl, rfl, fun j => ?_⟩
      have hil : i < (w.touch i).sessions.length := by
        show i < w.sessions.length
        omega
      rw [session_setSession _ _ _ _ hil]
      by_cases hji : j = i
      · subst hji
        rw [if_pos rfl, if_pos ⟨by omega, hm⟩]
        rfl
      · rw [if_neg hji, if_neg]
        · rfl
        · rintro ⟨h1, h2⟩
          exact hdist j i h1 (by omega) hji (h2.trans hm.symm)
    · simp only [checkAuthenticatedFrom, if_neg hm]
      refine ih (i + 1) (w.touch i) (by show i + 1 + d = w.numSessions; omega) hn hdist ?_
      intro j hj
      by_cases hji : j = i
      · rw [hji]; exact hm
      · exact hbefore j (by omega)

theorem CheckAuthenticated_table (P : WebParams) (ip now : Nat) (w : Statics)
    (hd : distinctTable P w) : tableAfter ip now false w (CheckAuthenticated ip now w).2 :=
  checkAuthenticatedFrom_table ip now w.numSessions 0 w (by omega)
    (by have := hd.1; have := hd.2.1; omega)
    (fun a b ha hb hab => distinct_sessions P w hd a b ha hb hab) (fun j hj => by omega)

/-- What the loop that resets the upload state does to a table with distinct addresses in
which the session of the client already has the time. -/
theorem clearUploadingFrom_table (E : Env) (d : Nat) : ∀ (i : Nat) (w : Statics),
    i + d = w.numSessions → w.numSessions ≤ w.sessions.length →
    (∀ a b, a < w.numSessions → b < w.numSessions → a ≠ b →
      (w.session a).ip ≠ (w.session b).ip) →
    (∀ j, j < w.numSessions → (w.session j).ip = E.remoteIP →
      (w.session j).lastQueryTime = E.now) →
    (∀ j, j < i → ¬ ((w.session j).ip = E.remoteIP ∧ (w.session j).isPostUploading = true)) →
    tableAfter E.remoteIP E.now true w (clearUploadingFrom E d i w) := by
  induction d with
  | zero =>
    intro i w hi _ _ htime hbefore
    refine ⟨rfl, rfl, rfl, rfl, rfl, fun j => ?_⟩
    simp only [clearUploadingFrom, if_true]
    by_cases hc : j < w.numSessions ∧ (w.session j).ip = E.remoteIP
    · rw [if_pos hc]
      have h1 := htime j hc.1 hc.2
      have h2 : (w.session j).isPostUploading = false := by
        cases hu : (w.session j).isPostUploading with
        | false => rfl
        | true => exact absurd ⟨hc.2, hu⟩ (hbefore j (by omega))
      rcases hs : w.session j with ⟨a, b, c, e⟩
      rw [hs] at h1 h2
      simp only at h1 h2
      rw [h1, h2]
    · rw [if_neg hc]
  | succ d ih =>
    intro i w hi hn hdist htime hbefore
    by_cases hm : (w.session i).ip = E.remoteIP ∧ (w.session i).isPostUploading = true
    · simp only [clearUploadingFrom, if_pos hm]
      refine ⟨rfl, by simp [Statics.setSession, Statics.touch], rfl, rfl, rfl, fun j => ?_⟩
      have hil : i < (w.touch i).sessions.length := by
        show i < w.sessions.length
        omega
      rw [session_setSession _ _ _ _ hil]
      by_cases hji : j = i
      · subst hji
        rw [if_pos rfl, if_pos ⟨by omega, hm.1⟩]
        rfl
      · rw [if_neg hji, if_neg]
        · rfl
        · rintro ⟨h1, h2⟩
          exact hdist j i h1 (by omega) hji (h2.trans hm.1.symm)
    · simp only [clearUploadingFrom, if_neg hm]
      refine ih (i + 1) (w.touch i) (by show i + 1 + d = w.numSessions; omega) hn hdist htime ?_
      intro j hj
      by_cases hji : j = i
      · rw [hji]; exact hm
      · exact hbefore j (by omega)

theorem tableAfter_trans {ip now : Nat} {a b : Bool} {w v x : Statics}
    (h1 : tableAfter ip now a w v) (h2 : tableAfter ip now b v x) :
    tableAfter ip now (a || b) w x := by
  obtain ⟨a1, a2, a3, a4, a5, a6⟩ := h1
  obtain ⟨b1, b2, b3, b4, b5, b6⟩ := h2
  refine ⟨b1.trans a1, b2.trans a2, b3.trans a3, b4.trans a4, b5.trans a5, fun j => ?_⟩
  rw [b6 j, a1]
  by_cases hc : j < w.numSessions ∧ (w.session j).ip = ip
  · have hv := a6 j
    rw [if_pos hc] at hv
    rw [hv, if_pos hc, if_pos hc]
    cases a <;> cases b <;> rfl
  · have hv := a6 j
    rw [if_neg hc] at hv
    rw [hv, if_neg hc, if_neg hc]

theorem tableAfter_ip {ip now : Nat} {a : Bool} {w v : Statics} (h : tableAfter ip now a w v)
    (j : Nat) : (v.session j).ip = (w.session j).ip := by
  rw [h.2.2.2.2.2 j]
  split_ifs <;> rfl

theorem tableAfter_sessions_get {ip now : Nat} {a : Bool} {w v : Statics} (h : tableAfter ip now a w v) :
    v.sessions.map (fun x => x.ip) = w.sessions.map (fun x => x.ip) := by
  apply List.ext_getElem?
  intro j
  rw [List.getElem?_map, List.getElem?_map]
  by_cases hj : j < w.sessions.length
  · rw [session_eq v j (by rw [h.2.1]; exact hj), session_eq w j hj]
    simp only [Option.map_some', Option.some.injEq]
    exact tableAfter_ip h j
  · rw [List.getElem?_eq_none (by rw [h.2.1]; omega), List.getElem?_eq_none (by omega)]

theorem tableAfter_distinct {P : WebParams} {ip now : Nat} {a : Bool} {w v : Statics}
    (h : tableAfter ip now a w v) (hd : distinctTable P w) : distinctTable P v := by
  refine ⟨by rw [h.1]; exact hd.1, by rw [h.2.1]; exact hd.2.1, ?_⟩
  rw [live_ips, tableAfter_sessions_get h, h.1, ← live_ips]
  exact hd.2.2

theorem tableAfter_session {ip now : Nat} {a : Bool} {w v : Statics} (h : tableAfter ip now a w v)
    (hs : ∃ j, j < w.numSessions ∧ (w.session j).ip = ip) :
    ∃ j, j < v.numSessions ∧ (v.session j).ip = ip := by
  obtain ⟨j, h1, h2⟩ := hs
  exact ⟨j, by rw [h.1]; exact h1, by rw [tableAfter_ip h j]; exact h2⟩

theorem tableAfter_time {ip now : Nat} {a : Bool} {w v : Statics} (h : tableAfter ip now a w v)
    (j : Nat) (hj : j < v.numSessions) (hip : (v.session j).ip = ip) :
    (v.session j).lastQueryTime = now := by
  have h1 : j < w.numSessions := by rw [← h.1]; exact hj
  have h2 : (w.session j).ip = ip := by rw [← tableAfter_ip h j]; exact hip
  rw [h.2.2.2.2.2 j, if_pos ⟨h1, h2⟩]

theorem tableAfter_cleared {ip now : Nat} {w v : Statics} (h : tableAfter ip now true w v)
    (j : Nat) (hj : j < v.numSessions) (hip : (v.session j).ip = ip) :
    (v.session j).isPostUploading = false := by
  have h1 : j < w.numSessions := by rw [← h.1]; exact hj
  have h2 : (w.session j).ip = ip := by rw [← tableAfter_ip h j]; exact hip
  rw [h.2.2.2.2.2 j, if_pos ⟨h1, h2⟩]
  rfl

theorem tableAfter_finished {ip now : Nat} {w v : Statics} (h : tableAfter ip now true w v) :
    v.sessions = finishedSessions ip now w := by
  apply List.ext_getElem?
  intro j
  unfold finishedSessions
  rw [List.getElem?_map]
  by_cases hj : j < w.sessions.length
  · rw [session_eq v j (by rw [h.2.1]; exact hj), List.getElem?_range hj, h.2.2.2.2.2 j]
    rfl
  · rw [List.getElem?_eq_none (by rw [h.2.1]; omega),
      List.getElem?_eq_none (by rw [List.length_range]; omega)]
    rfl

/-- The loop that resets the upload state, after `CheckAuthenticated`. -/
theorem clearUploading_after (P : WebParams) (E : Env) (w v : Statics) (c : Bool)
    (hd : distinctTable P w) (h : tableAfter E.remoteIP E.now c w v) :
    tableAfter E.remoteIP E.now true w (clearUploadingFrom E v.numSessions 0 v) := by
  have hdv := tableAfter_distinct h hd
  have h2 := clearUploadingFrom_table E v.numSessions 0 v (by omega)
    (by have := hdv.1; have := hdv.2.1; omega)
    (fun a b ha hb hab => distinct_sessions P v hdv a b ha hb hab)
    (fun j hj hip => tableAfter_time h j hj hip) (fun j hj => by omega)
  have := tableAfter_trans h h2
  rw [Bool.or_true] at this
  exact this

theorem CheckAuthenticated_session (ip now : Nat) (w : Statics)
    (hs : ∃ j, j < w.numSessions ∧ (w.session j).ip = ip) :
    (CheckAuthenticated ip now w).1 = true := by
  obtain ⟨j, h1, h2⟩ := hs
  exact checkAuthenticatedFrom_found ip now w.numSessions 0 w ⟨j, Nat.zero_le _, by omega, h2⟩

/-- `GetJsonResponse("upload")` for a client that has a session. -/
theorem GetJsonResponse_upload (P : WebParams) (E : Env) (s : Parser) (w : Statics)
    (hs : ∃ j, j < w.numSessions ∧ (w.session j).ip = E.remoteIP) :
    GetJsonResponse P E s (bytes "upload") w =
      (.response (.err (if E.uploadError then 1 else 0)),
        (CheckAuthenticated E.remoteIP E.now w).2) := by
  have hf := CheckAuthenticated_session E.remoteIP E.now w hs
  unfold GetJsonResponse
  rw [if_neg (by decide)]
  rcases hc : CheckAuthenticated E.remoteIP E.now w with ⟨a, w1⟩
  rw [hc] at hf
  simp only at hf
  subst hf
  simp only
  rw [if_neg (by decide), if_neg (by decide), if_neg (by decide), if_pos (by decide)]

/-- `SendJsonResponse("upload")` for a client that has a session, in a table with distinct
addresses: the reply is the JSON text with `err` 1 or 0 after `uploadError`, or 503 if the
buffers for it are not available; the table changes in the time of the session only. -/
theorem SendJsonResponse_upload (P : WebParams) (E : Env) (s : Parser) (w : Statics)
    (hd : distinctTable P w) (hs : ∃ j, j < w.numSessions ∧ (w.session j).ip = E.remoteIP) :
    (SendJsonResponse P E s (bytes "upload") w).1 =
        (if E.allocateJson = true ∧ E.jsonLost = false ∧ E.outOverflow = false then
          .sent ([.status 200 "OK", .noCache, .contentType "application/json",
            .contentLength E.jsonLength] ++ AddCorsHeader E ++ [.connectionClose])
            (.json (.err (if E.uploadError then 1 else 0)))
        else serviceUnavailable) ∧
      tableAfter E.remoteIP E.now false w (SendJsonResponse P E s (bytes "upload") w).2 := by
  have f0 := CheckAuthenticated_session E.remoteIP E.now w hs
  have t0 := CheckAuthenticated_table P E.remoteIP E.now w hd
  have hs1 := tableAfter_session t0 hs
  have hd1 := tableAfter_distinct t0 hd
  have f1 := CheckAuthenticated_session E.remoteIP E.now _ hs1
  have t1 := CheckAuthenticated_table P E.remoteIP E.now _ hd1
  have hs2 := tableAfter_session t1 hs1
  have hd2 := tableAfter_distinct t1 hd1
  have t2 := CheckAuthenticated_table P E.remoteIP E.now _ hd2
  have t01 : tableAfter E.remoteIP E.now false w _ := tableAfter_trans t0 t1
  have t02 : tableAfter E.remoteIP E.now false w _ := tableAfter_trans t01 t2
  have hg := GetJsonResponse_upload P E s _ hs2
  have hr : StringEqualsIgnoreCase (bytes "upload") (bytes "reply") = false := by decide
  have hdl : StringEqualsIgnoreCase (bytes "upload") (bytes "download") = false := by decide
  have e : SendJsonResponse P E s (bytes "upload") w =
      if E.allocateJson = true then
        if E.jsonLost = true then
          (serviceUnavailable,
            (CheckAuthenticated E.remoteIP E.now (CheckAuthenticated E.remoteIP E.now
              (CheckAuthenticated E.remoteIP E.now w).2).2).2)
        else if E.outOverflow = true then
          (serviceUnavailable,
            (CheckAuthenticated E.remoteIP E.now (CheckAuthenticated E.remoteIP E.now
              (CheckAuthenticated E.remoteIP E.now w).2).2).2)
        else
          (.sent ([.status 200 "OK", .noCache, .contentType "application/json",
              .contentLength E.jsonLength] ++ AddCorsHeader E ++ [.connectionClose])
              (.json (.err (if E.uploadError then 1 else 0))),
            (CheckAuthenticated E.remoteIP E.now (CheckAuthenticated E.remoteIP E.now
              (CheckAuthenticated E.remoteIP E.now w).2).2).2)
      else
        (serviceUnavailable,
          (CheckAuthenticated E.remoteIP E.now (CheckAuthenticated E.remoteIP E.now w).2).2) := by
    unfold SendJsonResponse
    simp only [f0, f1, hr, hdl, hg, not_true_eq_false, false_and, and_false,
      Bool.false_eq_true, if_false]
  rw [e]
  cases ha : E.allocateJson
  · exact ⟨rfl, t01⟩
  · cases hl : E.jsonLost
    · cases ho : E.outOverflow
      · exact ⟨rfl, t02⟩
      · exact ⟨rfl, t02⟩
    · exact ⟨rfl, t02⟩

/-- The calls before the one that completes the body only read: each adds the length of its
chunk to `uploadedBytes` and gives the session of the client the time. -/
theorem runUpload_reads (P : WebParams) (E : Env) (s : Parser) (post : List SocketRead)
    (k : SocketRead) (pre : List SocketRead) : ∀ (u : Upload) (w : Statics),
    (∀ x ∈ pre, ∃ c, x.chunk = some c ∧ x.writeOk = true) →
    u.uploadedBytes + bytesRead pre < u.postFileLength →
    u.uploadedBytes + bytesRead pre < 4294967296 →
    distinctTable P w →
    ∃ front u1 w1, runUpload P E s u w (pre ++ k :: post) = front ++ runUpload P E s u1 w1 (k :: post) ∧
      front.length = pre.length ∧ (∀ r ∈ front, r.1 = .continuing) ∧
      (∀ i r, front[i]? = some r →
        r.2.1.uploadedBytes = u.uploadedBytes + bytesRead (pre.take (i + 1))) ∧
      u1.uploadedBytes = u.uploadedBytes + bytesRead pre ∧
      u1.postFileLength = u.postFileLength ∧ u1.fileLastModified = u.fileLastModified ∧
      u1.postFileGotCrc = u.postFileGotCrc ∧ u1.postFileExpectedCrc = u.postFileExpectedCrc ∧
      distinctTable P w1 ∧ (w1 = w ∨ tableAfter E.remoteIP E.now false w w1) := by
  induction pre with
  | nil =>
    intro u w _ _ _ hd
    exact ⟨[], u, w, rfl, rfl, by simp, by simp, by simp [bytesRead], rfl, rfl, rfl, rfl, hd,
      Or.inl rfl⟩
  | cons x rest ih =>
    intro u w hgood hlt h32 hd
    obtain ⟨c, hc, hok⟩ := hgood x (List.mem_cons_self _ _)
    have hx : bytesRead (x :: rest) = c.length + bytesRead rest := by
      simp [bytesRead, hc]
    rw [hx] at hlt h32
    have hw : DataTransfer.wrap32 (u.uploadedBytes + c.length) = u.uploadedBytes + c.length := by
      simp only [DataTransfer.wrap32]
      exact Nat.mod_eq_of_lt (by omega)
    have hstep := DoUpload_continues P E s x u w c hc hok (by rw [hw]; omega)
    rw [hw] at hstep
    have t0 := CheckAuthenticated_table P E.remoteIP E.now w hd
    obtain ⟨front, u1, w1, e, h1, h2, h3, h4, h5, h6, h7, h8, h9, h10⟩ :=
      ih { u with timer := E.now, uploadedBytes := u.uploadedBytes + c.length }
        (CheckAuthenticated E.remoteIP E.now w).2
        (fun y hy => hgood y (List.mem_cons_of_mem _ hy))
        (by simp only; omega) (by simp only; omega)
        (CheckAuthenticated_distinct P E.remoteIP E.now w hd)
    refine ⟨(.continuing, { u with timer := E.now, uploadedBytes := u.uploadedBytes + c.length },
      (CheckAuthenticated E.remoteIP E.now w).2) :: front, u1, w1, ?_, by simp [h1], ?_, ?_,
      ?_, h5, h6, h7, h8, h9, ?_⟩
    · rw [List.cons_append, runUpload_continuing P E s x _ u _ w _ hstep, e]
      rfl
    · intro r hr
      rcases List.mem_cons.mp hr with h | h
      · rw [h]
      · exact h2 r h
    · intro i r hi
      cases i with
      | zero =>
        simp only [List.getElem?_cons_zero, Option.some.injEq] at hi
        rw [← hi]
        simp [bytesRead, hc]
      | succ i =>
        simp only [List.getElem?_cons_succ] at hi
        have := h3 i r hi
        rw [this]
        simp only [List.take_succ_cons]
        have hx2 : bytesRead (x :: rest.take (i + 1)) = c.length + bytesRead (rest.take (i + 1)) := by
          simp [bytesRead, hc]
        rw [hx2]
        omega
    · rw [h4, hx]
      simp only
      omega
    · right
      rcases h10 with h | h
      · rw [h]; exact t0
      · exact tableAfter_trans t0 h

/-- C32, amended: (1) a call of `DoUpload` that reads a chunk of `len` bytes adds exactly `len`
to `uploadedBytes` (a 32-bit counter).  (2) For an upload started with `postFileLength = N`
and `uploadedBytes = 0` by a client that has a session, in a table of sessions with distinct
addresses, and a body delivered in any sequence of chunks, each written without error: the
calls up to the chunk with which `uploadedBytes` reaches `N` only read, and the call for that
chunk finishes the upload and no later chunk is read: `FinishUpload` is called with `N`, the
time and the expected CRC; the reply is the JSON text `{"err":0}`, or `{"err":1}` if
`FinishUpload` left `uploadError` set, when the buffers for it are available, and 503
otherwise; the session of the client has `isPostUploading = false` and the time of the call,
and nothing else in the static data has changed; `uploadedBytes` is the number of bytes
delivered, which is `N` for a body of exactly `N` bytes. -/
theorem upload_completion (P : WebParams) (E : Env) (s : Parser) :
    (∀ (k : SocketRead) (u : Upload) (w : Statics) (c : List Nat), k.chunk = some c →
      (DoUpload P E s k u w).2.1.uploadedBytes = (u.uploadedBytes + c.length) % 2 ^ 32) ∧
    (∀ (u : Upload) (w : Statics) (pre : List SocketRead) (k : SocketRead)
        (post : List SocketRead),
      u.uploadedBytes = 0 →
      (∀ x ∈ pre ++ [k], ∃ c, x.chunk = some c ∧ x.writeOk = true) →
      bytesRead pre < u.postFileLength → u.postFileLength ≤ bytesRead (pre ++ [k]) →
      bytesRead (pre ++ [k]) < 4294967296 → distinctTable P w →
      (∃ j, j < w.numSessions ∧ (w.session j).ip = E.remoteIP) →
      ∃ front last,
        runUpload P E s u w (pre ++ k :: post) = front ++ [last] ∧
        front.length = pre.length ∧ (∀ r ∈ front, r.1 = .continuing) ∧
        (∀ i r, front[i]? = some r → r.2.1.uploadedBytes = bytesRead (pre.take (i + 1))) ∧
        last.1 = .finished u.postFileLength u.fileLastModified u.postFileGotCrc
          u.postFileExpectedCrc
          (if E.allocateJson = true ∧ E.jsonLost = false ∧ E.outOverflow = false then
            .sent ([.status 200 "OK", .noCache, .contentType "application/json",
              .contentLength E.jsonLength] ++ AddCorsHeader E ++ [.connectionClose])
              (.json (.err (if k.finishError then 1 else 0)))
          else serviceUnavailable) ∧
        last.2.2.sessions = finishedSessions E.remoteIP E.now w ∧
        last.2.2.numSessions = w.numSessions ∧ last.2.2.clientsServed = w.clientsServed ∧
        last.2.2.seq = w.seq ∧ last.2.2.gcodeReply = w.gcodeReply ∧
        (∀ j, j < last.2.2.numSessions → (last.2.2.session j).ip = E.remoteIP →
          (last.2.2.session j).isPostUploading = false) ∧
        last.2.1.uploadedBytes = bytesRead (pre ++ [k]) ∧
        (bytesRead (pre ++ [k]) = u.postFileLength →
          last.2.1.uploadedBytes = u.postFileLength)) := by
  refine ⟨fun k u w c hc => DoUpload_uploadedBytes P E s k u w c hc, ?_⟩
  intro u w pre k post h0 hgood hlt hge h32 hd hs
  obtain ⟨c, hc, hok⟩ := hgood k (by simp)
  rw [bytesRead_append, bytesRead_single k c hc] at hge h32
  obtain ⟨front, u1, w1, e, h1, h2, h3, h4, h5, h6, h7, h8, h9, h10⟩ :=
    runUpload_reads P E s post k pre u w (fun x hx => hgood x (by simp [hx]))
      (by rw [h0]; omega) (by rw [h0]; omega) hd
  rw [h0, Nat.zero_add] at h4
  have hw : DataTransfer.wrap32 (u1.uploadedBytes + c.length) = bytesRead pre + c.length := by
    rw [h4]
    simp only [DataTransfer.wrap32]
    exact Nat.mod_eq_of_lt (by omega)
  have hfin := DoUpload_finishes P E s k u1 w1 c hc hok (by rw [hw, h5]; exact hge)
  have tA : tableAfter E.remoteIP E.now false w (CheckAuthenticated E.remoteIP E.now w1).2 := by
    have t := CheckAuthenticated_table P E.remoteIP E.now w1 h9
    rcases h10 with h | h
    · rw [h] at t ⊢; exact t
    · exact tableAfter_trans h t
  have tB := clearUploading_after P E w _ false hd tA
  have hdB := tableAfter_distinct tB hd
  have hsB := tableAfter_session tB hs
  obtain ⟨r1, r2⟩ := SendJsonResponse_upload P { E with uploadError := k.finishError } s _ hdB hsB
  have tC : tableAfter E.remoteIP E.now true w (DoUpload P E s k u1 w1).2.2 := by
    rw [hfin]
    exact tableAfter_trans tB r2
  refine ⟨front, DoUpload P E s k u1 w1, ?_, h1, h2, ?_, ?_, tableAfter_finished tC, tC.1,
    tC.2.2.1, tC.2.2.2.1, tC.2.2.2.2.1, fun j hj hip => tableAfter_cleared tC j hj hip, ?_, ?_⟩
  · rw [e, runUpload_finished P E s k post u1 _ w1 _ _ _ _ _ _ hfin]
  · intro i r hi
    rw [h3 i r hi, h0, Nat.zero_add]
  · rw [hfin, h5, h6, h7, h8]
    simp only
    rw [r1]
    rfl
  · rw [hfin]
    simp only
    rw [hw, bytesRead_append, bytesRead_single k c hc]
  · intro heq
    rw [hfin]
    simp only
    rw [hw, ← heq, bytesRead_append, bytesRead_single k c hc]

theorem upload_completion_witness :
    ∃ front last,
      runUpload sampleWeb (sampleEnv 12) afterSampleRequest
          (blankUpload.started 4 true 3735928559 0) sampleStatics
          ([goodRead [65, 66]] ++ goodRead [67, 68] :: []) = front ++ [last] ∧
        front.length = 1 ∧
        last.1 = .finished 4 0 true 3735928559
          (.sent [.status 200 "OK", .noCache, .contentType "application/json",
            .contentLength 20, .connectionClose] (.json (.err 0))) ∧
        last.2.2.sessions =
          [⟨10, 1000, false, 0⟩, ⟨11, 5000, false, 0⟩, ⟨12, 9000, false, 80⟩, ⟨0, 0, false, 0⟩] ∧
        last.2.2.numSessions = 3 ∧
        last.2.1.uploadedBytes = 4 := by
  obtain ⟨front, last, h1, h2, _, _, h5, h6, h7, _, _, _, _, _, h9⟩ :=
    (upload_completion sampleWeb (sampleEnv 12) afterSampleRequest).2
      (blankUpload.started 4 true 3735928559 0) sampleStatics [goodRead [65, 66]]
      (goodRead [67, 68]) [] rfl
      (by intro x hx
          simp only [List.singleton_append, List.mem_cons, List.mem_singleton,
            List.not_mem_nil, or_false] at hx
          rcases hx with h | h <;> rw [h] <;> exact ⟨_, rfl, rfl⟩)
      (by decide) (by decide) (by decide)
      ⟨by decide, by decide, by decide⟩ ⟨2, by decide, by decide⟩
  exact ⟨front, last, h1, h2, h5, h6, h7, h9 (by decide)⟩

/-- C32, as written, fails when no buffer is free for the JSON response: the client 12 has a
session, the body `ABCD` of an upload with Content-Length 4 arrives as `AB`, `CD`, the second
call finishes the upload with `uploadedBytes = 4`, and the reply is 503, not the JSON text. -/
theorem upload_reply_without_buffer :
    (sampleStatics.session 2).ip = 12 ∧
      (runUpload sampleWeb { sampleEnv 12 with allocateJson := false } afterSampleRequest
          (blankUpload.started 4 true 3735928559 0) sampleStatics
          [goodRead [65, 66], goodRead [67, 68]]).map (fun r => (r.1, r.2.1.uploadedBytes)) =
        [(.continuing, 2),
          (.finished 4 0 true 3735928559 (.sent [.status 503 "Service Unavailable"] .empty),
            4)] := by
  decide

end HttpResponder
